import Mathlib

/-! # Catalog reconciliation of the schema indexer (`pkg/indexer`)

A shallow embedding of the reconciliation code of `pkg/indexer`
(`load_base_schema.go`, `load_patrial.go`, `schema.go`, `models.go`) together
with theorems about it.

Conventions of the embedding.

* The catalog store is reached in the source through GraphQL round trips
  (`s.h.Query`).  Here the store is the record `Catalog` of its tables, each a
  list of rows, and every round trip is a function on `Catalog`:
  a `*_by_pk` query is a lookup by key, `insert_*` appends a row and fails when
  the key is already present, `update_*(filter, data)` rewrites the listed
  columns of the rows selected by the filter, `delete_*(filter)` removes the
  rows selected by the filter.  Transport failures are not modelled.
* A Go function `func (...) error` that writes to the store becomes a function
  `Catalog → Catalog × Option Err`: the store after the call (writes made before
  a failure stay) and the returned error (`none` is `nil`).
* The embedding vector of a row is represented by the text it is computed from
  (`Vec : Option String`).
* `metainfo.SchemaInfo` comes from another module; it is represented by the
  values its accessors return.
-/

namespace Indexer

/-! ## Introspected schema (`schema.go`) -/

/-- A type reference of the introspection result: `Name`, `Kind` and the
optional `OfType` link. `leaf` is a node whose `OfType` is nil. -/
inductive TypeRefIntro where
  | leaf (Name Kind : String)
  | wrap (Name Kind : String) (OfType : TypeRefIntro)
deriving Repr, DecidableEq

/-- `TypeRefIntro.TypeName` for a non-nil receiver. -/
def TypeRefIntro.TypeName : TypeRefIntro → String
  | .leaf n _ => if n = "" then "Unknown" else n
  | .wrap n _ o => if n = "" then o.TypeName else n

/-- `TypeRefIntro.IsList` for a non-nil receiver. -/
def TypeRefIntro.IsList : TypeRefIntro → Bool
  | .leaf _ k => decide (k = "LIST")
  | .wrap n k o => if k = "LIST" then true else if n = "" then o.IsList else false

/-- Field `Kind` of a reference. -/
def TypeRefIntro.kindOf : TypeRefIntro → String
  | .leaf _ k => k
  | .wrap _ k _ => k

/-- `TypeRefIntro.IsNotNull` for a non-nil receiver. -/
def TypeRefIntro.IsNotNull (t : TypeRefIntro) : Bool := decide (t.kindOf = "NON_NULL")

structure ArgIntro where
  Name : String
  Description : String := ""
  DefaultValue : String := ""
  Typ : TypeRefIntro
deriving Repr, DecidableEq

structure FieldIntro where
  Name : String
  Description : String := ""
  HugrType : String := ""
  Catalog : String := ""
  Exclude : Bool := false
  Args : List ArgIntro := []
  Typ : TypeRefIntro
deriving Repr, DecidableEq

structure TypeIntro where
  Name : String
  Description : String := ""
  Kind : String := "OBJECT"
  HugrType : String := ""
  Module : String := ""
  Catalog : String := ""
  InputFields : List FieldIntro := []
  Fields : List FieldIntro := []
deriving Repr, DecidableEq

structure SchemaIntro where
  Types : List TypeIntro
deriving Repr, DecidableEq

/-- `SchemaIntro.TypeByName`: the first type with that name. -/
def SchemaIntro.TypeByName (s : SchemaIntro) (name : String) : Option TypeIntro :=
  s.Types.find? (fun t => decide (t.Name = name))

/-! ## Catalog rows (`models.go`) -/

/-- Row of the types table (`Type` in the source). -/
structure TypeRow where
  Name : String
  Description : String := ""
  Long : String := ""
  Kind : String := ""
  HugrType : String := ""
  Catalog : String := ""
  Module : String := ""
  IsSummarized : Bool := false
  Vec : Option String := none
deriving Repr, DecidableEq

/-- Row of the fields table (`Field` in the source). -/
structure FieldRow where
  Name : String
  TypeName : String
  Description : String := ""
  Typ : String := ""
  HugrType : String := ""
  Catalog : String := ""
  IsIndexed : Bool := false
  IsList : Bool := false
  IsNotNull : Bool := false
  IsPrimaryKey : Bool := false
  Exclude : Bool := false
  IsSummarized : Bool := false
  Vec : Option String := none
deriving Repr, DecidableEq

/-- Row of the arguments table (`Argument` in the source). -/
structure ArgumentRow where
  Name : String
  FieldName : String
  TypeName : String
  Description : String := ""
  DefaultValue : String := ""
  Typ : String := ""
  IsList : Bool := false
  IsNotNull : Bool := false
deriving Repr, DecidableEq

/-- Row of the modules table (`Module` in the source). -/
structure ModuleRow where
  Name : String
  Description : String := ""
  LongDescription : String := ""
  QueryRoot : String := ""
  MutationRoot : String := ""
  FunctionRoot : String := ""
  MutFunctionRoot : String := ""
  IsSummarized : Bool := false
  Disabled : Bool := false
  Vec : Option String := none
deriving Repr, DecidableEq

/-- Row of the data sources table (`DataSource` in the source). -/
structure DataSourceRow where
  Name : String
  Description : String := ""
  LongDescription : String := ""
  Typ : String := ""
  Prefix : String := ""
  AsModule : Bool := false
  ReadOnly : Bool := false
  Disabled : Bool := false
  IsSummarized : Bool := false
  Vec : Option String := none
deriving Repr, DecidableEq

structure DataObjectQuery where
  Name : String
  ObjectName : String := ""
  QueryRoot : String := ""
  QueryType : String := ""
deriving Repr, DecidableEq

/-- Row of the data objects table (`DataObject` in the source); `Queries` is
the nested insert of its query list. -/
structure DataObjectRow where
  Name : String
  FilterTypeName : String := ""
  ArgsTypeName : String := ""
  Queries : List DataObjectQuery := []
deriving Repr, DecidableEq

/-- The catalog store: its seven tables. -/
structure Catalog where
  types : List TypeRow := []
  fields : List FieldRow := []
  arguments : List ArgumentRow := []
  modules : List ModuleRow := []
  dataSources : List DataSourceRow := []
  dataObjects : List DataObjectRow := []
  dataObjectQueries : List DataObjectQuery := []
deriving Repr, DecidableEq

/-- Errors returned by the reconciliation and by the summarization.  `noData`
is `types.ErrNoData`, `text` an error made by `errors.New` or by `fmt.Errorf`
without a cause, `wrap msg cause` the result of `fmt.Errorf("msg: %w", cause)`.
`panic` is not a returned error: it stands for the run-time panic of a nil
dereference, which no caller in the source recovers. -/
inductive Err where
  | conflict (table key : String)
  | duplicateArgument (key : String)
  | moduleNotFound (module object : String)
  | notFound (what name : String)
  | fuel
  | noData
  | text (msg : String)
  | wrap (msg : String) (cause : Err)
  | panic (msg : String)
deriving Repr, DecidableEq

/-- Service configuration read by the reconciliation (`s.c`). -/
structure Config where
  EmbeddingsEnabled : Bool := false
deriving Repr, DecidableEq

/-- A `for` loop over a list whose body may return an error: the loop stops at
the first error and keeps the state reached there. -/
def forEachE {α σ : Type} (body : α → σ → σ × Option Err) : List α → σ → σ × Option Err
  | [], s => (s, none)
  | x :: xs, s =>
    match body x s with
    | (s', none) => forEachE body xs s'
    | (s', some e) => (s', some e)

/-- Sequencing `r, err := ...; if err != nil { return err }; k`: the
continuation runs on the state left by a step that returned no error. -/
def andThen {σ : Type} (r : σ × Option Err) (k : σ → σ × Option Err) : σ × Option Err :=
  match r with
  | (s, none) => k s
  | (s, some e) => (s, some e)

/-- As `andThen`, for the flattening loop whose accumulators are dropped
afterwards: on error only the store is kept. -/
def andThenFlat {σ τ : Type} (keep : σ → τ) (r : σ × Option Err) (k : σ → τ × Option Err) :
    τ × Option Err :=
  match r with
  | (s, none) => k s
  | (s, some e) => (keep s, some e)

/-! ## Types table (`load_base_schema.go`, `load_patrial.go`) -/

/-- `checkTypeExists`: the `types_by_pk` lookup. -/
def checkTypeExists (c : Catalog) (name : String) : Bool :=
  c.types.any (fun r => decide (r.Name = name))

/-- `AddType`: `insert_types`, with the embedding of the summary text
(long description, else description) when embeddings are on and the text is
not empty. -/
def AddType (cfg : Config) (t : TypeRow) (c : Catalog) : Catalog × Option Err :=
  let desc := if t.Long = "" then t.Description else t.Long
  if checkTypeExists c t.Name then (c, some (.conflict "types" t.Name))
  else
    let row := { t with Vec := if cfg.EmbeddingsEnabled && decide (desc ≠ "") then some desc else t.Vec }
    ({ c with types := c.types ++ [row] }, none)

/-- `updateType`: `update_types(filter: {name: {eq: $name}}, data: $input)`. -/
def updateType (cfg : Config) (t : TypeRow) (c : Catalog) : Catalog × Option Err :=
  let summary := if t.Long = "" then t.Description else t.Long
  let withEmbedding := cfg.EmbeddingsEnabled && decide (t.Long ≠ "")
  ({ c with types := c.types.map (fun r =>
      if r.Name = t.Name then
        { r with
          Kind := t.Kind, Module := t.Module, Catalog := t.Catalog,
          Description := t.Description, Long := t.Long, HugrType := t.HugrType,
          IsSummarized := t.IsSummarized,
          Vec := if withEmbedding then some summary else r.Vec }
      else r) }, none)

/-- `mergeType`. -/
def mergeType (cfg : Config) (t : TypeRow) (update : Bool) (c : Catalog) : Catalog × Option Err :=
  let found := checkTypeExists c t.Name
  if found && !update then (c, none)
  else if !found then AddType cfg t c
  else updateType cfg t c

/-! ## Fields, arguments, modules, data sources, data objects -/

/-- `checkFieldExists`: the `fields_by_pk` lookup. -/
def checkFieldExists (c : Catalog) (typeName fieldName : String) : Bool :=
  c.fields.any (fun r => decide (r.TypeName = typeName) && decide (r.Name = fieldName))

/-- The row stored by `insert_fields`: with embeddings on and a non-empty
description, the description is embedded. -/
def embedField (cfg : Config) (f : FieldRow) : FieldRow :=
  { f with Vec :=
      if cfg.EmbeddingsEnabled && decide (f.Description ≠ "") then some f.Description else f.Vec }

/-- `AddField`: `insert_fields`. -/
def AddField (cfg : Config) (f : FieldRow) (c : Catalog) : Catalog × Option Err :=
  if checkFieldExists c f.TypeName f.Name then
    (c, some (.conflict "fields" (f.TypeName ++ "." ++ f.Name)))
  else ({ c with fields := c.fields ++ [embedField cfg f] }, none)

/-- `updateTypeField`: `update_fields` filtered by name and type name. -/
def updateTypeField (cfg : Config) (f : FieldRow) (c : Catalog) : Catalog × Option Err :=
  let summary := if f.Description = "" then f.Name else f.Description
  let withEmbedding := cfg.EmbeddingsEnabled && decide (f.Description ≠ "")
  ({ c with fields := c.fields.map (fun r =>
      if r.Name = f.Name ∧ r.TypeName = f.TypeName then
        { r with
          Description := f.Description, Typ := f.Typ, HugrType := f.HugrType,
          Catalog := f.Catalog, IsList := f.IsList, IsNotNull := f.IsNotNull,
          Exclude := f.Exclude, IsIndexed := f.IsIndexed, IsSummarized := f.IsSummarized,
          Vec := if withEmbedding then some summary else r.Vec }
      else r) }, none)

/-- `mergeField`. -/
def mergeField (cfg : Config) (f : FieldRow) (update : Bool) (c : Catalog) : Catalog × Option Err :=
  let found := checkFieldExists c f.TypeName f.Name
  if found && !update then (c, none)
  else if !found then AddField cfg f c
  else updateTypeField cfg f c

/-- `checkArgumentExists`: the `arguments_by_pk` lookup. -/
def checkArgumentExists (c : Catalog) (typeName fieldName argName : String) : Bool :=
  c.arguments.any (fun r =>
    decide (r.TypeName = typeName) && decide (r.FieldName = fieldName) && decide (r.Name = argName))

/-- `AddArgument`: `insert_arguments`. -/
def AddArgument (a : ArgumentRow) (c : Catalog) : Catalog × Option Err :=
  if checkArgumentExists c a.TypeName a.FieldName a.Name then
    (c, some (.conflict "arguments" (a.TypeName ++ "." ++ a.FieldName ++ "." ++ a.Name)))
  else ({ c with arguments := c.arguments ++ [a] }, none)

/-- `updateArgument`: `update_arguments` filtered by the three key columns. -/
def updateArgument (a : ArgumentRow) (c : Catalog) : Catalog × Option Err :=
  ({ c with arguments := c.arguments.map (fun r =>
      if r.TypeName = a.TypeName ∧ r.FieldName = a.FieldName ∧ r.Name = a.Name then
        { r with Description := a.Description, Typ := a.Typ, IsList := a.IsList,
                 IsNotNull := a.IsNotNull }
      else r) }, none)

/-- `mergeArgument`. -/
def mergeArgument (a : ArgumentRow) (update : Bool) (c : Catalog) : Catalog × Option Err :=
  let found := checkArgumentExists c a.TypeName a.FieldName a.Name
  if found && !update then (c, none)
  else if !found then AddArgument a c
  else updateArgument a c

/-- `checkModuleExists`: the `modules_by_pk` lookup. -/
def checkModuleExists (c : Catalog) (name : String) : Bool :=
  c.modules.any (fun r => decide (r.Name = name))

/-- `AddModule`: `insert_modules`. -/
def AddModule (cfg : Config) (m : ModuleRow) (c : Catalog) : Catalog × Option Err :=
  if checkModuleExists c m.Name then (c, some (.conflict "modules" m.Name))
  else
    let row := { m with Vec :=
      if cfg.EmbeddingsEnabled && decide (m.Description ≠ "") then some m.Description else m.Vec }
    ({ c with modules := c.modules ++ [row] }, none)

/-- `updateModule`: `update_modules` filtered by name. -/
def updateModule (cfg : Config) (m : ModuleRow) (c : Catalog) : Catalog × Option Err :=
  let summary := if m.LongDescription = "" then m.Description else m.LongDescription
  let withEmbedding := cfg.EmbeddingsEnabled && decide (m.Description ≠ "")
  ({ c with modules := c.modules.map (fun r =>
      if r.Name = m.Name then
        { r with
          Description := m.Description, LongDescription := m.LongDescription,
          QueryRoot := m.QueryRoot, MutationRoot := m.MutationRoot,
          FunctionRoot := m.FunctionRoot, MutFunctionRoot := m.MutFunctionRoot,
          IsSummarized := m.IsSummarized,
          Vec := if withEmbedding then some summary else r.Vec }
      else r) }, none)

/-- `mergeModule`. -/
def mergeModule (cfg : Config) (m : ModuleRow) (update : Bool) (c : Catalog) : Catalog × Option Err :=
  let found := checkModuleExists c m.Name
  if found && !update then (c, none)
  else if !found then AddModule cfg m c
  else updateModule cfg m c

/-- `checkDataSourceExists`: the `data_sources_by_pk` lookup. -/
def checkDataSourceExists (c : Catalog) (name : String) : Bool :=
  c.dataSources.any (fun r => decide (r.Name = name))

/-- `AddDataSource`: `insert_data_sources`; with embeddings on, the summary text
(long description, else description) is always embedded. -/
def AddDataSource (cfg : Config) (ds : DataSourceRow) (c : Catalog) : Catalog × Option Err :=
  let desc := if ds.LongDescription = "" then ds.Description else ds.LongDescription
  if checkDataSourceExists c ds.Name then (c, some (.conflict "data_sources" ds.Name))
  else
    let row := { ds with Vec := if cfg.EmbeddingsEnabled then some desc else ds.Vec }
    ({ c with dataSources := c.dataSources ++ [row] }, none)

/-- `updateDataSource`: `update_data_sources` filtered by name. -/
def updateDataSource (cfg : Config) (ds : DataSourceRow) (c : Catalog) : Catalog × Option Err :=
  let summary := if ds.LongDescription = "" then ds.Description else ds.LongDescription
  let withEmbedding := cfg.EmbeddingsEnabled && decide (ds.Description ≠ "")
  ({ c with dataSources := c.dataSources.map (fun r =>
      if r.Name = ds.Name then
        { r with
          Description := ds.Description, LongDescription := ds.LongDescription,
          Typ := ds.Typ, Prefix := ds.Prefix, AsModule := ds.AsModule,
          ReadOnly := ds.ReadOnly, IsSummarized := ds.IsSummarized,
          Vec := if withEmbedding then some summary else r.Vec }
      else r) }, none)

/-- `mergeDataSource`. -/
def mergeDataSource (cfg : Config) (ds : DataSourceRow) (update : Bool) (c : Catalog) :
    Catalog × Option Err :=
  let found := checkDataSourceExists c ds.Name
  if found && !update then (c, none)
  else if !found then AddDataSource cfg ds c
  else updateDataSource cfg ds c

/-- `addDataObject`: one mutation that deletes the query list and the row of
that name and inserts the object with its nested query list. -/
def addDataObject (obj : DataObjectRow) (c : Catalog) : Catalog × Option Err :=
  ({ c with
      dataObjectQueries :=
        c.dataObjectQueries.filter (fun q => decide (q.ObjectName ≠ obj.Name)) ++
          obj.Queries.map (fun q => { q with ObjectName := obj.Name }),
      dataObjects :=
        c.dataObjects.filter (fun r => decide (r.Name ≠ obj.Name)) ++ [{ obj with Queries := [] }] },
    none)

/-- `Clear`: one mutation deleting every row of the seven tables. -/
def Clear (_c : Catalog) : Catalog × Option Err := ({}, none)

/-! ## Meta summary (`metainfo.SchemaInfo`, external)

The summary is represented by what its accessors return: `Modules()` is the
list `modules`, `DataObjects()` the list `dataObjects`, `Module(name)` and
`DataSource(name)` look a name up in `modules` and `DataSources`, and
`ModuleInfo.DataObject(name)`, `Function(name)`, `MutationFunction(name)` look
a name up in the lists carried by the module. -/

structure ExtraFieldInfo where
  Name : String
deriving Repr, DecidableEq

structure ColumnInfo where
  Name : String
  ExtraFields : List ExtraFieldInfo := []
  Description : String := ""
deriving Repr, DecidableEq

structure ArgumentInfo where
  Name : String := ""
  Typ : String
deriving Repr, DecidableEq

structure ArgumentsInfo where
  Typ : String
  NestedFields : List String := []
deriving Repr, DecidableEq

/-- Descriptor of a reference or subquery of a data object (`SubqueryInfo`):
its name, the names of its data, aggregation and bucket-aggregation query
fields, its reference type, and the module and name of the data object it
leads to. -/
structure SubqueryInfo where
  Name : String
  FieldDataQuery : String := ""
  FieldAggQuery : String := ""
  FieldBucketAggQuery : String := ""
  Typ : String := ""
  Module : String := ""
  DataObject : String := ""
deriving Repr, DecidableEq

/-- Descriptor of a function call field of a data object. -/
structure FunctionCallInfo where
  Name : String
  FieldName : String := ""
  Module : String := ""
  DataSource : String := ""
  Description : String := ""
deriving Repr, DecidableEq

structure QueryInfo where
  Name : String
  Typ : String := "select"
  ReturnedTypeName : String := ""
  Arguments : List ArgumentInfo := []
deriving Repr, DecidableEq

structure MutationInfo where
  InsertMutation : String := ""
  UpdateMutation : String := ""
  DeleteMutation : String := ""
  InsertDataType : String := ""
  UpdateDataType : String := ""
deriving Repr, DecidableEq

structure DataObjectInfo where
  Name : String
  Module : String := ""
  DataSource : String := ""
  HasGeometry : Bool := false
  FilterType : String := ""
  Arguments : Option ArgumentsInfo := none
  AggregationType : String := ""
  SubAggregationType : String := ""
  BucketAggregationType : String := ""
  Mutations : Option MutationInfo := none
  Queries : List QueryInfo := []
  Columns : List ColumnInfo := []
  References : List SubqueryInfo := []
  Subqueries : List SubqueryInfo := []
  FunctionCalls : List FunctionCallInfo := []
  Typ : String := ""
  Description : String := ""
deriving Repr, DecidableEq

structure FunctionInfo where
  Name : String
  Module : String := ""
  DataSource : String := ""
  ReturnType : String := ""
  Arguments : List ArgumentInfo := []
  AggregationType : String := ""
  SubAggregationType : String := ""
  BucketAggregationType : String := ""
  ReturnTypeFields : List String := []
deriving Repr, DecidableEq

structure ModuleInfo where
  Name : String
  Description : String := ""
  QueryType : String := ""
  MutationType : String := ""
  FunctionType : String := ""
  MutationFunctionType : String := ""
  dataObjects : List DataObjectInfo := []
  functions : List FunctionInfo := []
  mutationFunctions : List FunctionInfo := []
deriving Repr, DecidableEq

structure DataSourceInfo where
  Name : String
  Description : String := ""
  Typ : String := ""
  Prefix : String := ""
  AsModule : Bool := false
  ReadOnly : Bool := false
deriving Repr, DecidableEq

structure SchemaInfo where
  DataSources : List DataSourceInfo := []
  RootModule : ModuleInfo := { Name := "" }
  modules : List ModuleInfo := []
  dataObjects : List DataObjectInfo := []
deriving Repr, DecidableEq

/-- Accessor `SchemaInfo.Module(name)`. -/
def SchemaInfo.Module (m : SchemaInfo) (name : String) : Option ModuleInfo :=
  m.modules.find? (fun x => decide (x.Name = name))

/-- Accessor `SchemaInfo.DataSource(name)`. -/
def SchemaInfo.DataSource (m : SchemaInfo) (name : String) : Option DataSourceInfo :=
  m.DataSources.find? (fun x => decide (x.Name = name))

/-- Accessor `ModuleInfo.DataObject(name)`. -/
def ModuleInfo.DataObject (m : ModuleInfo) (name : String) : Option DataObjectInfo :=
  m.dataObjects.find? (fun x => decide (x.Name = name))

/-- Accessor `ModuleInfo.Function(name)`. -/
def ModuleInfo.Function (m : ModuleInfo) (name : String) : Option FunctionInfo :=
  m.functions.find? (fun x => decide (x.Name = name))

/-- Accessor `ModuleInfo.MutationFunction(name)`. -/
def ModuleInfo.MutationFunction (m : ModuleInfo) (name : String) : Option FunctionInfo :=
  m.mutationFunctions.find? (fun x => decide (x.Name = name))

/-! ## Flattening and reconciliation (`fillBaseSchema`, `loadSchemaPatrial`) -/

/-- Go `map[string]map[string]struct{}`: an association list read through
`fmGet`, in which the first binding of a key is the current one. -/
abbrev FieldsMap := List (String × List String)

/-- Lookup `m[k]` with the `ok` flag of Go. -/
def fmGet : FieldsMap → String → Option (List String)
  | [], _ => none
  | (k', v) :: m, k => if k' = k then some v else fmGet m k

/-- Accumulators of the flattening loop: the store, `ff`, `aa` and the key set `am`. -/
structure Flat where
  c : Catalog
  ff : List FieldRow := []
  aa : List ArgumentRow := []
  am : List String := []
deriving Repr, DecidableEq

/-- The sentinel type written first by both reconciliation paths. -/
def unknownType : TypeRow :=
  { Name := "Unknown", Description := "Unknown type", Kind := "SCALAR" }

/-- The `Type` literal built from an introspected type. -/
def typeRowOf (st : TypeIntro) : TypeRow :=
  { Name := st.Name, Description := st.Description, Kind := st.Kind,
    HugrType := st.HugrType, Module := st.Module, Catalog := st.Catalog }

/-- The `Field` literal built from an introspected field of `st`. -/
def fieldRowOf (st : TypeIntro) (f : FieldIntro) : FieldRow :=
  { Name := f.Name, Description := f.Description, TypeName := st.Name,
    HugrType := f.HugrType, Catalog := f.Catalog, Exclude := f.Exclude,
    Typ := f.Typ.TypeName, IsList := f.Typ.IsList, IsNotNull := f.Typ.IsNotNull }

/-- The `Argument` literal built from an introspected argument. -/
def argumentRowOf (st : TypeIntro) (f : FieldIntro) (a : ArgIntro) : ArgumentRow :=
  { Name := a.Name, FieldName := f.Name, TypeName := st.Name,
    Description := a.Description, Typ := a.Typ.TypeName,
    IsList := a.Typ.IsList, IsNotNull := a.Typ.IsNotNull }

/-- The key `fmt.Sprintf("%s.%s.%s", st.Name, f.Name, a.Name)`. -/
def argKey (st : TypeIntro) (f : FieldIntro) (a : ArgIntro) : String :=
  st.Name ++ "." ++ f.Name ++ "." ++ a.Name

/-- `fields := st.Fields; if st.Kind == INPUT_OBJECT { fields = st.InputFields }`. -/
def activeFields (st : TypeIntro) : List FieldIntro :=
  if st.Kind = "INPUT_OBJECT" then st.InputFields else st.Fields

/-- Body of `for _, a := range f.Args` (identical in both flattening loops). -/
def flattenArg (st : TypeIntro) (f : FieldIntro) (a : ArgIntro) (s : Flat) : Flat × Option Err :=
  let key := argKey st f a
  if key ∈ s.am then (s, some (.duplicateArgument key))
  else ({ s with am := key :: s.am, aa := s.aa ++ [argumentRowOf st f a] }, none)

/-- Body of `for _, f := range fields` in `fillBaseSchema`. -/
def baseField (st : TypeIntro) (f : FieldIntro) (s : Flat) : Flat × Option Err :=
  forEachE (flattenArg st f) f.Args { s with ff := s.ff ++ [fieldRowOf st f] }

/-- Body of `for _, st := range schema.Types` in `fillBaseSchema`. -/
def baseType (cfg : Config) (st : TypeIntro) (s : Flat) : Flat × Option Err :=
  match AddType cfg (typeRowOf st) s.c with
  | (c', some e) => ({ s with c := c' }, some e)
  | (c', none) => forEachE (baseField st) (activeFields st) { s with c := c' }

/-- The `DataObject` literal built from a data object descriptor and its
module's query root. -/
def dataObjectRowOf (d : DataObjectInfo) (m : ModuleInfo) : DataObjectRow :=
  { Name := d.Name, FilterTypeName := d.FilterType,
    ArgsTypeName := match d.Arguments with | some a => a.Typ | none => "",
    Queries := d.Queries.map (fun q =>
      { Name := q.Name, QueryType := q.Typ, QueryRoot := m.QueryType }) }

/-- The `Module` literal built from a module descriptor. -/
def moduleRowOf (m : ModuleInfo) : ModuleRow :=
  { Name := m.Name, Description := m.Description, QueryRoot := m.QueryType,
    MutationRoot := m.MutationType, FunctionRoot := m.FunctionType,
    MutFunctionRoot := m.MutationFunctionType }

/-- The `DataSource` literal built from a data source descriptor. -/
def dataSourceRowOf (ds : DataSourceInfo) : DataSourceRow :=
  { Name := ds.Name, Description := ds.Description, Typ := ds.Typ, Prefix := ds.Prefix,
    AsModule := ds.AsModule, ReadOnly := ds.ReadOnly }

/-- Body of `for _, do := range meta.DataObjects()` after the scope test. -/
def loadDataObject (info : SchemaInfo) (d : DataObjectInfo) (c : Catalog) : Catalog × Option Err :=
  match info.Module d.Module with
  | none => (c, some (.moduleNotFound d.Module d.Name))
  | some m =>
    if m.QueryType = "" then (c, some (.moduleNotFound d.Module d.Name))
    else addDataObject (dataObjectRowOf d m) c

/-- `fillBaseSchema` (the schema and the summary it fetches are arguments). -/
def fillBaseSchema (cfg : Config) (schema : SchemaIntro) (info : SchemaInfo) (c : Catalog) :
    Catalog × Option Err :=
  andThen (Clear c) fun c =>
  andThen (AddType cfg unknownType c) fun c =>
  andThenFlat Flat.c (forEachE (baseType cfg) schema.Types { c := c }) fun s =>
  andThen (forEachE (fun f => AddField cfg f) s.ff s.c) fun c =>
  andThen (forEachE (fun a => AddArgument a) s.aa c) fun c =>
  andThen (forEachE (fun m => AddModule cfg (moduleRowOf m)) info.modules c) fun c =>
  andThen (forEachE (fun ds => AddDataSource cfg (dataSourceRowOf ds)) info.DataSources c) fun c =>
  forEachE (loadDataObject info) info.dataObjects c

/-- Scope test on a name set (`typesMap`, `modulesMap`, `dataSourcesMap`): the set is
not empty and the name is absent. -/
def nameSkipped (typesMap : List String) (name : String) : Bool :=
  !typesMap.isEmpty && !decide (name ∈ typesMap)

/-- Scope test on a field: `len(fieldsMap) != 0` and the owner type or the
field name is absent. -/
def fieldSkipped (fieldsMap : FieldsMap) (typeName fieldName : String) : Bool :=
  !fieldsMap.isEmpty &&
    (match fmGet fieldsMap typeName with
     | none => true
     | some fs => !decide (fieldName ∈ fs))

/-- Body of `for _, f := range fields` in `loadSchemaPatrial`. -/
def patrialField (fieldsMap : FieldsMap) (st : TypeIntro) (f : FieldIntro) (s : Flat) :
    Flat × Option Err :=
  if fieldSkipped fieldsMap st.Name f.Name then (s, none)
  else forEachE (flattenArg st f) f.Args { s with ff := s.ff ++ [fieldRowOf st f] }

/-- Body of `for _, st := range schema.Types` in `loadSchemaPatrial`. -/
def patrialType (cfg : Config) (update : Bool) (typesMap : List String) (fieldsMap : FieldsMap)
    (st : TypeIntro) (s : Flat) : Flat × Option Err :=
  if nameSkipped typesMap st.Name then (s, none)
  else
    match mergeType cfg (typeRowOf st) update s.c with
    | (c', some e) => ({ s with c := c' }, some e)
    | (c', none) => forEachE (patrialField fieldsMap st) (activeFields st) { s with c := c' }

/-- Body of `for _, m := range meta.Modules()` in `loadSchemaPatrial`; the
merge is called with `update = false`. -/
def patrialModule (cfg : Config) (modulesMap : List String) (m : ModuleInfo) (c : Catalog) :
    Catalog × Option Err :=
  if nameSkipped modulesMap m.Name then (c, none)
  else mergeModule cfg (moduleRowOf m) false c

/-- Body of `for _, ds := range meta.DataSources` in `loadSchemaPatrial`. -/
def patrialDataSource (cfg : Config) (update : Bool) (dataSourcesMap : List String)
    (ds : DataSourceInfo) (c : Catalog) : Catalog × Option Err :=
  if nameSkipped dataSourcesMap ds.Name then (c, none)
  else mergeDataSource cfg (dataSourceRowOf ds) update c

/-- Body of `for _, do := range meta.DataObjects()` in `loadSchemaPatrial`. -/
def patrialDataObject (info : SchemaInfo) (typesMap : List String) (d : DataObjectInfo)
    (c : Catalog) : Catalog × Option Err :=
  if nameSkipped typesMap d.Name then (c, none)
  else loadDataObject info d c

/-- `loadSchemaPatrial`. -/
def loadSchemaPatrial (cfg : Config) (schema : SchemaIntro) (info : SchemaInfo) (update : Bool)
    (typesMap : List String) (fieldsMap : FieldsMap) (modulesMap dataSourcesMap : List String)
    (c : Catalog) : Catalog × Option Err :=
  andThen (mergeType cfg unknownType false c) fun c =>
  andThenFlat Flat.c
    (forEachE (patrialType cfg update typesMap fieldsMap) schema.Types { c := c }) fun s =>
  andThen (forEachE (fun f => mergeField cfg f update) s.ff s.c) fun c =>
  andThen (forEachE (fun a => mergeArgument a update) s.aa c) fun c =>
  andThen (forEachE (patrialModule cfg modulesMap) info.modules c) fun c =>
  andThen (forEachE (patrialDataSource cfg update dataSourcesMap) info.DataSources c) fun c =>
  forEachE (patrialDataObject info typesMap) info.dataObjects c

/-! ## Closure building (`load_patrial.go`)

The four Go maps filled by the closure builders are the record `Maps`.  A
string set `map[string]struct{}` is a list read through membership. -/

/-- Names that the source takes from the `compiler`, `base` and `metainfo`
packages of the query engine; the closure code is parametric in them. -/
structure Consts where
  FilterInputSuffix : String
  ListFilterInputSuffix : String
  AggregationSuffix : String
  QueryTimeJoinsTypeName : String
  QueryTimeSpatialTypeName : String
  QueryTimeSpatialFieldName : String
  H3DataQueryTypeName : String
  QueryTypeSelectOne : String
deriving Repr, DecidableEq

/-- Modelled from the spec: the values of the external names, as far as the
specification gives them (`_join`, `_join_aggregation`, `_spatial`,
`_spatial_aggregation`, `_h3_data`, the filter and list-filter suffixes and the
"select-one" query kind). -/
def specConsts : Consts :=
  { FilterInputSuffix := "_filter"
    ListFilterInputSuffix := "_list_filter"
    AggregationSuffix := "_aggregation"
    QueryTimeJoinsTypeName := "_join"
    QueryTimeSpatialTypeName := "_spatial"
    QueryTimeSpatialFieldName := "_spatial"
    H3DataQueryTypeName := "_h3_data"
    QueryTypeSelectOne := "select_one" }

/-- Go `strings.TrimSuffix`. -/
def trimSuffix (s suffix : String) : String :=
  if suffix.data.isSuffixOf s.data then
    String.mk (s.data.take (s.data.length - suffix.data.length))
  else s

/-- Scan of `strings.Split(s, ".")`: `acc` is the current segment, reversed. -/
def splitDotAux : List Char → List Char → List String
  | [], acc => [String.mk acc.reverse]
  | c :: cs, acc =>
    if c = '.' then String.mk acc.reverse :: splitDotAux cs [] else splitDotAux cs (c :: acc)

/-- Go `strings.Split(s, ".")`. -/
def splitDot (s : String) : List String := splitDotAux s.data []

/-- The maps `typesMap`, `fieldsMap`, `modulesMap`, `dataSourcesMap`. -/
structure Maps where
  typesMap : List String := []
  fieldsMap : FieldsMap := []
  modulesMap : List String := []
  dataSourcesMap : List String := []
deriving Repr, DecidableEq

/-- `typesMap[n] = struct{}{}`. -/
def Maps.setType (m : Maps) (n : String) : Maps := { m with typesMap := n :: m.typesMap }

/-- `delete(typesMap, n)`. -/
def Maps.delType (m : Maps) (n : String) : Maps :=
  { m with typesMap := m.typesMap.filter (fun x => decide (x ≠ n)) }

/-- `fieldsMap[n] = map[string]struct{}{}`. -/
def Maps.newFields (m : Maps) (n : String) : Maps := { m with fieldsMap := (n, []) :: m.fieldsMap }

/-- `if _, ok := fieldsMap[n]; !ok { fieldsMap[n] = map[string]struct{}{} }`. -/
def Maps.ensureFields (m : Maps) (n : String) : Maps :=
  match fmGet m.fieldsMap n with
  | some _ => m
  | none => m.newFields n

/-- `fieldsMap[t][f] = struct{}{}`; every such write of the source follows an
initialisation of `fieldsMap[t]`. -/
def Maps.addField (m : Maps) (t f : String) : Maps :=
  { m with fieldsMap := (t, f :: (fmGet m.fieldsMap t).getD []) :: m.fieldsMap }

/-- `modulesMap[n] = struct{}{}`. -/
def Maps.setModule (m : Maps) (n : String) : Maps := { m with modulesMap := n :: m.modulesMap }

/-- `dataSourcesMap[n] = struct{}{}`. -/
def Maps.setDataSource (m : Maps) (n : String) : Maps :=
  { m with dataSourcesMap := n :: m.dataSourcesMap }

/-- Body of `for _, a := range f.Args` in `addFieldTypeRecursively`; `recur` is
the recursive call. -/
def expandArg (recur : String → Maps → Maps × Option Err) (a : ArgIntro) (m : Maps) :
    Maps × Option Err :=
  if a.Typ.TypeName ∈ m.typesMap then (m, none) else recur a.Typ.TypeName m

/-- Body of `for _, f := range t.Fields` in `addFieldTypeRecursively`. -/
def expandField (recur : String → Maps → Maps × Option Err) (typeName : String)
    (f : FieldIntro) (m : Maps) : Maps × Option Err :=
  andThen (forEachE (expandArg recur) f.Args (m.addField typeName f.Name)) fun m =>
  if f.Typ.TypeName ∈ m.typesMap then (m, none) else recur f.Typ.TypeName m

/-- Body of `for _, inp := range t.InputFields` in `addFieldTypeRecursively`. -/
def expandInput (recur : String → Maps → Maps × Option Err) (typeName : String)
    (inp : FieldIntro) (m : Maps) : Maps × Option Err :=
  let m := m.addField typeName inp.Name
  if inp.Typ.TypeName ∈ m.typesMap then (m, none) else recur inp.Typ.TypeName m

/-- `addFieldTypeRecursively` with a bound on the depth of the recursion; the
outcome `Err.fuel` says that the bound was reached. -/
def addFieldTypeRecursivelyFuel : Nat → SchemaIntro → String → Maps → Maps × Option Err
  | 0, schema, typeName, m =>
    match schema.TypeByName typeName with
    | none => (m, some (.notFound "type" typeName))
    | some _ => if typeName ∈ m.typesMap then (m, none) else (m, some .fuel)
  | fuel + 1, schema, typeName, m =>
    match schema.TypeByName typeName with
    | none => (m, some (.notFound "type" typeName))
    | some t =>
      if typeName ∈ m.typesMap then (m, none)
      else
        andThen
          (forEachE (expandField (addFieldTypeRecursivelyFuel fuel schema) typeName) t.Fields
            ((m.setType typeName).ensureFields typeName)) fun m =>
        forEachE (expandInput (addFieldTypeRecursivelyFuel fuel schema) typeName) t.InputFields m

/-- `addFieldTypeRecursively`: each expansion marks a schema type not marked
before, so the depth never exceeds the number of types of the schema. -/
def addFieldTypeRecursively (schema : SchemaIntro) (typeName : String) (m : Maps) :
    Maps × Option Err :=
  addFieldTypeRecursivelyFuel schema.Types.length schema typeName m

/-- A call `addFieldTypeRecursively(...)` whose returned error is dropped. -/
def expandIgnoringError (schema : SchemaIntro) (typeName : String) (m : Maps) : Maps :=
  (addFieldTypeRecursively schema typeName m).1

/-- `for _, a := range f.Args { typesMap[a.Type.TypeName()] = struct{}{} }`. -/
def shallowArgs (f : FieldIntro) (m : Maps) : Maps :=
  f.Args.foldl (fun m a => m.setType a.Typ.TypeName) m

/-- `for _, a := range f.Args { addFieldTypeRecursively(schema, a.Type.TypeName(), ...) }`. -/
def deepArgs (schema : SchemaIntro) (f : FieldIntro) (m : Maps) : Maps :=
  f.Args.foldl (fun m a => expandIgnoringError schema a.Typ.TypeName m) m

/-- `doFieldsMap`: the names of the declared columns and of their extra fields. -/
def declaredNames (doi : DataObjectInfo) : List String :=
  doi.Columns.flatMap fun c => c.Name :: c.ExtraFields.map (fun e => e.Name)

/-- Body of the loop over the fields of the data object type. -/
def objectField (schema : SchemaIntro) (doFieldsMap : List String) (doName : String)
    (f : FieldIntro) (m : Maps) : Maps :=
  let m := m.addField doName f.Name
  if f.Name ∉ doFieldsMap then shallowArgs f (m.setType f.Typ.TypeName)
  else deepArgs schema f (expandIgnoringError schema f.Typ.TypeName m)

/-- Body of the loops over the input fields of the filter type and of the
insert data type. -/
def inputField (schema : SchemaIntro) (doFieldsMap : List String) (owner : String)
    (f : FieldIntro) (m : Maps) : Maps :=
  let m := m.addField owner f.Name
  if f.Name ∉ doFieldsMap then m.setType f.Typ.TypeName
  else expandIgnoringError schema f.Typ.TypeName m

/-- Body of the loops over the fields of the aggregation and sub-aggregation types. -/
def aggregationField (schema : SchemaIntro) (doFieldsMap : List String) (owner : String)
    (f : FieldIntro) (m : Maps) : Maps :=
  let m := m.addField owner f.Name
  if f.Name ∉ doFieldsMap ∧ f.Name ≠ "_rows_count" then shallowArgs f (m.setType f.Typ.TypeName)
  else deepArgs schema f (expandIgnoringError schema f.Typ.TypeName m)

/-- The list-filter name `strings.TrimSuffix(filter, FilterInputSuffix) + ListFilterInputSuffix`. -/
def listFilterName (k : Consts) (filterType : String) : String :=
  trimSuffix filterType k.FilterInputSuffix ++ k.ListFilterInputSuffix

/-- Block `if doi.FilterType != ""`. -/
def filterPart (k : Consts) (schema : SchemaIntro) (doi : DataObjectInfo)
    (doFieldsMap : List String) (m : Maps) : Maps × Option Err :=
  if doi.FilterType ≠ "" then
    match schema.TypeByName doi.FilterType with
    | none => (m, some (.notFound "filter type" doi.FilterType))
    | some fi =>
      let m := (m.setType doi.FilterType).newFields doi.FilterType
      let m := fi.InputFields.foldl (fun m f => inputField schema doFieldsMap doi.FilterType f m) m
      (expandIgnoringError schema (listFilterName k doi.FilterType)
        (m.delType (listFilterName k doi.FilterType)), none)
  else (m, none)

/-- Block `if doi.Arguments != nil && doi.Arguments.Type != ""`. -/
def argumentsPart (schema : SchemaIntro) (doi : DataObjectInfo) (m : Maps) : Maps :=
  match doi.Arguments with
  | some a => if a.Typ ≠ "" then expandIgnoringError schema a.Typ (m.delType a.Typ) else m
  | none => m

/-- Blocks `if doi.AggregationType != ""` and `if doi.SubAggregationType != ""`,
for the type name `agg`; `what` names the type in the error. -/
def aggregationPart (schema : SchemaIntro) (doFieldsMap : List String) (what agg : String)
    (m : Maps) : Maps × Option Err :=
  if agg ≠ "" then
    match schema.TypeByName agg with
    | none => (m, some (.notFound what agg))
    | some ai =>
      (ai.Fields.foldl (fun m f => aggregationField schema doFieldsMap agg f m)
        ((m.setType agg).newFields agg), none)
  else (m, none)

/-- Block `if doi.BucketAggregationType != ""`. -/
def bucketPart (schema : SchemaIntro) (bucket : String) (m : Maps) : Maps × Option Err :=
  if bucket ≠ "" then
    match schema.TypeByName bucket with
    | none => (m, some (.notFound "bucket-aggregation type" bucket))
    | some bai =>
      (bai.Fields.foldl (fun m f => m.addField bucket f.Name)
        ((m.setType bucket).newFields bucket), none)
  else (m, none)

/-- Body of `for _, q := range doi.Queries` under the module query type. -/
def queryRootField (schema : SchemaIntro) (queryType : String) (q : QueryInfo) (m : Maps) : Maps :=
  q.Arguments.foldl (fun m a => expandIgnoringError schema a.Typ m)
    ((m.addField queryType q.Name).setType q.ReturnedTypeName)

/-- Block `if mi.QueryType != ""`. -/
def queryRootPart (schema : SchemaIntro) (mi : ModuleInfo) (doi : DataObjectInfo) (m : Maps) :
    Maps :=
  if mi.QueryType ≠ "" then
    doi.Queries.foldl (fun m q => queryRootField schema mi.QueryType q m)
      ((m.setType mi.QueryType).ensureFields mi.QueryType)
  else m

/-- Block `if doi.Mutations.InsertMutation != ""`. -/
def insertMutationPart (schema : SchemaIntro) (mi : ModuleInfo) (mu : MutationInfo)
    (doFieldsMap : List String) (m : Maps) : Maps :=
  if mu.InsertMutation ≠ "" then
    let m := m.addField mi.MutationType mu.InsertMutation
    match schema.TypeByName mu.InsertDataType with
    | none => m
    | some mdi =>
      mdi.InputFields.foldl (fun m f => inputField schema doFieldsMap mdi.Name f m)
        ((m.setType mu.InsertDataType).newFields mdi.Name)
  else m

/-- Block `if doi.Mutations.UpdateMutation != ""`. -/
def updateMutationPart (schema : SchemaIntro) (mi : ModuleInfo) (mu : MutationInfo) (m : Maps) :
    Maps :=
  if mu.UpdateMutation ≠ "" then
    expandIgnoringError schema mu.UpdateDataType (m.addField mi.MutationType mu.UpdateMutation)
  else m

/-- Block `if doi.Mutations.DeleteMutation != ""`. -/
def deleteMutationPart (mi : ModuleInfo) (mu : MutationInfo) (m : Maps) : Maps :=
  if mu.DeleteMutation ≠ "" then m.addField mi.MutationType mu.DeleteMutation else m

/-- Block `if mi.MutationType != "" && doi.Mutations != nil`. -/
def mutationRootPart (schema : SchemaIntro) (mi : ModuleInfo) (doi : DataObjectInfo)
    (doFieldsMap : List String) (m : Maps) : Maps :=
  match doi.Mutations with
  | some mu =>
    if mi.MutationType ≠ "" then
      deleteMutationPart mi mu
        (updateMutationPart schema mi mu
          (insertMutationPart schema mi mu doFieldsMap
            ((m.setType mi.MutationType).ensureFields mi.MutationType)))
    else m
  | none => m

/-- Blocks `if mi.FunctionType != ""` and `if mi.MutationFunctionType != ""`. -/
def functionRootsPart (mi : ModuleInfo) (m : Maps) : Maps :=
  let m := if mi.FunctionType ≠ "" then m.setType mi.FunctionType else m
  if mi.MutationFunctionType ≠ "" then m.setType mi.MutationFunctionType else m

/-- The four blocks of one level of `fillModulesTypesRecursively`: `pmi` is
the module of the level above, `spi` the module of this level and `n` its
path segment. -/
def moduleLevelRoots (pmi spi : ModuleInfo) (n : String) (m : Maps) : Maps :=
  let m :=
    if pmi.QueryType ≠ "" then
      let m := (m.setType pmi.QueryType).ensureFields pmi.QueryType
      let m := if spi.QueryType ≠ "" then m.addField pmi.QueryType n else m
      if pmi.FunctionType ≠ "" ∧ pmi.Name = "" then m.addField pmi.QueryType "function" else m
    else m
  let m :=
    if pmi.MutationType ≠ "" then
      let m := (m.setType pmi.MutationType).ensureFields pmi.MutationType
      let m := if spi.MutationType ≠ "" then m.addField pmi.MutationType n else m
      if pmi.MutationFunctionType ≠ "" ∧ pmi.Name = "" then
        m.addField pmi.MutationType "function"
      else m
    else m
  let m :=
    if pmi.FunctionType ≠ "" then
      let m := m.setType pmi.FunctionType
      if spi.FunctionType ≠ "" then
        let m := match fmGet m.fieldsMap pmi.FunctionType with
          | some _ => m
          | none => { m with fieldsMap := (pmi.FunctionType, [n]) :: m.fieldsMap }
        m.addField pmi.FunctionType n
      else m
    else m
  if pmi.MutationFunctionType ≠ "" then
    let m := m.setType pmi.MutationFunctionType
    if spi.MutationFunctionType ≠ "" then
      (m.ensureFields pmi.MutationFunctionType).addField pmi.MutationFunctionType n
    else m
  else m

/-- Body of `for i, n := range pp` in `fillModulesTypesRecursively`; the state
carries `pmi`. -/
def moduleLevel (info : SchemaInfo) (pp : List String) (i : Nat) (st : Maps × ModuleInfo) :
    (Maps × ModuleInfo) × Option Err :=
  let n := pp.getD i ""
  let moduleName := ".".intercalate (pp.take (i + 1))
  let m := st.1.setModule moduleName
  match info.Module moduleName with
  | none => ((m, st.2), some (.notFound "parent module" moduleName))
  | some spi => ((moduleLevelRoots st.2 spi n m, spi), none)

/-- `fillModulesTypesRecursively`. -/
def fillModulesTypesRecursively (info : SchemaInfo) (mi : ModuleInfo) (m : Maps) :
    Maps × Option Err :=
  let pp := splitDot mi.Name
  let r := forEachE (moduleLevel info pp) (List.range pp.length)
    (m.setModule "", info.RootModule)
  (r.1.1, r.2)

/-- Block on the data source: registers it and yields the query name prefix. -/
def dataSourcePart (info : SchemaInfo) (dataSource : String) (m : Maps) : Maps × String :=
  match info.DataSource dataSource with
  | some ds =>
    (m.setDataSource ds.Name, if ds.AsModule ∧ ds.Prefix ≠ "" then ds.Prefix ++ "_" else "")
  | none => (m, "")

/-- Body of the last loop over `doi.Queries`. -/
def syntheticQuery (k : Consts) (hasSpatial : Bool) (pfx : String) (q : QueryInfo) (m : Maps) :
    Maps :=
  if q.Typ = k.QueryTypeSelectOne then m
  else
    let m := m.addField k.QueryTimeJoinsTypeName (pfx ++ q.Name)
    let m := m.addField (k.QueryTimeJoinsTypeName ++ k.AggregationSuffix) (pfx ++ q.Name)
    if hasSpatial then
      let m := m.addField k.QueryTimeSpatialTypeName (pfx ++ q.Name)
      let m := m.addField (k.QueryTimeSpatialTypeName ++ k.AggregationSuffix) (pfx ++ q.Name)
      m.addField k.H3DataQueryTypeName (pfx ++ q.Name)
    else m

/-- Block `_join, _spatial and _h3_data fields`. -/
def syntheticPart (k : Consts) (hasSpatial : Bool) (pfx : String) (doi : DataObjectInfo)
    (m : Maps) : Maps :=
  let m := (m.setType k.QueryTimeJoinsTypeName).ensureFields k.QueryTimeJoinsTypeName
  let m := (m.setType (k.QueryTimeJoinsTypeName ++ k.AggregationSuffix)).ensureFields
    (k.QueryTimeJoinsTypeName ++ k.AggregationSuffix)
  let m :=
    if hasSpatial then
      let m := (m.setType k.QueryTimeSpatialTypeName).ensureFields k.QueryTimeSpatialTypeName
      let m := (m.setType (k.QueryTimeSpatialTypeName ++ k.AggregationSuffix)).ensureFields
        (k.QueryTimeSpatialTypeName ++ k.AggregationSuffix)
      (m.setType k.H3DataQueryTypeName).ensureFields k.H3DataQueryTypeName
    else m
  doi.Queries.foldl (fun m q => syntheticQuery k hasSpatial pfx q m) m

/-- `hasSpatial`: some field of the object type is the spatial field with the
spatial type. -/
def hasSpatialField (k : Consts) (ti : TypeIntro) : Bool :=
  ti.Fields.any fun f =>
    decide (f.Name = k.QueryTimeSpatialFieldName) &&
      decide (f.Typ.TypeName = k.QueryTimeSpatialTypeName)

/-- The blocks of `fillDataObjectTypesForUpdate` that follow the loop over the
fields of the object type. -/
def fillDataObjectTail (k : Consts) (schema : SchemaIntro) (info : SchemaInfo)
    (ti : TypeIntro) (mi : ModuleInfo) (doi : DataObjectInfo) (doFieldsMap : List String)
    (m : Maps) : Maps × Option Err :=
  andThen (filterPart k schema doi doFieldsMap m) fun m =>
  andThen (aggregationPart schema doFieldsMap "aggregation type" doi.AggregationType
    (argumentsPart schema doi m)) fun m =>
  andThen (aggregationPart schema doFieldsMap "sub-aggregation type" doi.SubAggregationType m)
    fun m =>
  andThen (bucketPart schema doi.BucketAggregationType m) fun m =>
  andThen (fillModulesTypesRecursively info mi
    (functionRootsPart mi
      (mutationRootPart schema mi doi doFieldsMap (queryRootPart schema mi doi m)))) fun m =>
  (syntheticPart k (hasSpatialField k ti) (dataSourcePart info doi.DataSource m).2 doi
    (dataSourcePart info doi.DataSource m).1, none)

/-- The part of `fillDataObjectTypesForUpdate` after the three lookups. -/
def fillDataObjectBody (k : Consts) (schema : SchemaIntro) (info : SchemaInfo) (doName : String)
    (ti : TypeIntro) (mi : ModuleInfo) (doi : DataObjectInfo) (m : Maps) : Maps × Option Err :=
  fillDataObjectTail k schema info ti mi doi (declaredNames doi)
    (ti.Fields.foldl (fun m f => objectField schema (declaredNames doi) doName f m)
      ((m.setType doName).newFields doName))

/-- `fillDataObjectTypesForUpdate`. -/
def fillDataObjectTypesForUpdate (k : Consts) (schema : SchemaIntro) (info : SchemaInfo)
    (doName : String) (m : Maps) : Maps × Option Err :=
  match schema.TypeByName doName with
  | none => (m, some (.notFound "type" doName))
  | some ti =>
    match info.Module ti.Module with
    | none => (m, some (.notFound "module" ti.Module))
    | some mi =>
      match mi.DataObject ti.Name with
      | none => (m, some (.notFound "data object" ti.Name))
      | some doi => fillDataObjectBody k schema info doName ti mi doi m

/-- `del` then expansion with the error dropped: the pattern
`delete(typesMap, n); addFieldTypeRecursively(schema, n, ...)`. -/
def reexpand (schema : SchemaIntro) (n : String) (m : Maps) : Maps :=
  expandIgnoringError schema n (m.delType n)

/-- The part of `fillFunctionTypesForUpdate` after the lookups. -/
def fillFunctionBody (schema : SchemaIntro) (info : SchemaInfo) (mi : ModuleInfo)
    (fi : FunctionInfo) (isMutation : Bool) (m : Maps) : Maps × Option Err :=
  let m := reexpand schema fi.ReturnType m
  let m := fi.Arguments.foldl (fun m a => expandIgnoringError schema a.Typ m) m
  let m := if fi.AggregationType ≠ "" then reexpand schema fi.AggregationType m else m
  let m := if fi.SubAggregationType ≠ "" then reexpand schema fi.SubAggregationType m else m
  let m := if fi.BucketAggregationType ≠ "" then reexpand schema fi.BucketAggregationType m else m
  let m :=
    if isMutation ∧ mi.MutationFunctionType ≠ "" then
      ((m.setType mi.MutationFunctionType).ensureFields mi.MutationFunctionType).addField
        mi.MutationFunctionType fi.Name
    else m
  let m :=
    if ¬ isMutation ∧ mi.FunctionType ≠ "" then
      ((m.setType mi.FunctionType).ensureFields mi.FunctionType).addField mi.FunctionType fi.Name
    else m
  andThen (fillModulesTypesRecursively info mi m) fun m =>
  (if fi.DataSource ≠ "" then m.setDataSource fi.DataSource else m, none)

/-- `fillFunctionTypesForUpdate`. -/
def fillFunctionTypesForUpdate (schema : SchemaIntro) (info : SchemaInfo) (module name : String)
    (m : Maps) : Maps × Option Err :=
  match info.Module module with
  | none => (m, some (.notFound "module" module))
  | some mi =>
    match mi.Function name with
    | some fi => fillFunctionBody schema info mi fi false m
    | none =>
      match mi.MutationFunction name with
      | none => (m, some (.notFound "function" name))
      | some fi => fillFunctionBody schema info mi fi true m

/-! ## Clearing and the reload entry points (`load_patrial.go`) -/

/-- One delete predicate: `{"type_name": {"eq": t}}`, optionally with
`{"name": {"eq": n}}` (fields) or `{"field_name": {"eq": n}}` (arguments). -/
structure RowFilter where
  type_name : String
  name : Option String := none
deriving Repr, DecidableEq

/-- A field row selected by a predicate. -/
def RowFilter.matchesField (flt : RowFilter) (r : FieldRow) : Bool :=
  decide (r.TypeName = flt.type_name) &&
    (match flt.name with
     | none => true
     | some n => decide (r.Name = n))

/-- An argument row selected by a predicate. -/
def RowFilter.matchesArgument (flt : RowFilter) (r : ArgumentRow) : Bool :=
  decide (r.TypeName = flt.type_name) &&
    (match flt.name with
     | none => true
     | some n => decide (r.FieldName = n))

/-- `deleteFieldsAndArguments`: one mutation with `delete_arguments(filter: {_or: $argFilter})`
and `delete_fields(filter: {_or: $fieldFilter})`. -/
def deleteFieldsAndArguments (filterFields filterArgs : List RowFilter) (c : Catalog) :
    Catalog × Option Err :=
  ({ c with
      arguments := c.arguments.filter (fun a => !filterArgs.any (fun flt => flt.matchesArgument a)),
      fields := c.fields.filter (fun f => !filterFields.any (fun flt => flt.matchesField f)) },
    none)

/-- The pair of predicates for one (type, field): a field filter and an
argument filter. -/
def fieldAndArg (typeName fieldName : String) : List RowFilter × List RowFilter :=
  ([{ type_name := typeName, name := some fieldName }],
   [{ type_name := typeName, name := some fieldName }])

/-- The pair of predicates for one type: fields and arguments of that type. -/
def typeFieldsAndArgs (typeName : String) : List RowFilter × List RowFilter :=
  ([{ type_name := typeName }], [{ type_name := typeName }])

/-- The pair of predicates for the fields of one type only. -/
def typeFields (typeName : String) : List RowFilter × List RowFilter :=
  ([{ type_name := typeName }], [])

/-- Appending the predicates of one step to the accumulated ones. -/
def appendFilters (acc step : List RowFilter × List RowFilter) :
    List RowFilter × List RowFilter :=
  (acc.1 ++ step.1, acc.2 ++ step.2)

/-- Predicates appended for one query on the synthetic types. -/
def syntheticFilters (k : Consts) (hasGeometry : Bool) (pfx : String) (q : QueryInfo) :
    List (List RowFilter × List RowFilter) :=
  [fieldAndArg k.QueryTimeJoinsTypeName (pfx ++ q.Name),
   fieldAndArg (k.QueryTimeJoinsTypeName ++ k.AggregationSuffix) (pfx ++ q.Name)] ++
  (if hasGeometry then
    [fieldAndArg k.QueryTimeSpatialTypeName (pfx ++ q.Name),
     fieldAndArg (k.QueryTimeSpatialTypeName ++ k.AggregationSuffix) (pfx ++ q.Name),
     fieldAndArg k.H3DataQueryTypeName (pfx ++ q.Name)]
   else [])

/-- The query name prefix computed by `clearDataObjectTypes`. -/
def clearPrefix (info : SchemaInfo) (dataSource : String) : String :=
  match info.DataSource dataSource with
  | some ds => if ds.AsModule ∧ ds.Prefix ≠ "" then ds.Prefix ++ "_" else ""
  | none => ""

/-- The predicates that `clearDataObjectTypes` appends for one data object,
in the order of the source. -/
def dataObjectFilterSteps (k : Consts) (info : SchemaInfo) (doName : String) (mi : ModuleInfo)
    (doi : DataObjectInfo) : List (List RowFilter × List RowFilter) :=
  [typeFieldsAndArgs doName] ++
  (if doi.FilterType ≠ "" then
    [typeFields doi.FilterType, typeFields (listFilterName k doi.FilterType)]
   else []) ++
  (match doi.Arguments with
   | some a => if a.Typ ≠ "" then [typeFields a.Typ] else []
   | none => []) ++
  (if doi.AggregationType ≠ "" then [typeFieldsAndArgs doi.AggregationType] else []) ++
  (if doi.SubAggregationType ≠ "" then [typeFieldsAndArgs doi.SubAggregationType] else []) ++
  (if doi.BucketAggregationType ≠ "" then [typeFieldsAndArgs doi.BucketAggregationType]
   else []) ++
  (match doi.Mutations with
   | some mu =>
     (if mu.InsertDataType ≠ "" then [typeFields mu.InsertDataType] else []) ++
     (if mu.UpdateDataType ≠ "" then [typeFields mu.UpdateDataType] else [])
   | none => []) ++
  (if mi.QueryType ≠ "" then doi.Queries.map (fun q => fieldAndArg mi.QueryType q.Name)
   else []) ++
  (match doi.Mutations with
   | some mu =>
     if mi.MutationType ≠ "" then
       (if mu.InsertMutation ≠ "" then [fieldAndArg mi.MutationType mu.InsertMutation]
        else []) ++
       (if mu.UpdateMutation ≠ "" then [fieldAndArg mi.MutationType mu.UpdateMutation]
        else []) ++
       (if mu.DeleteMutation ≠ "" then [fieldAndArg mi.MutationType mu.DeleteMutation]
        else [])
     else []
   | none => []) ++
  doi.Queries.flatMap
    (syntheticFilters k doi.HasGeometry (clearPrefix info doi.DataSource))

/-- Body of `for _, doName := range names` in `clearDataObjectTypes`: the
lookups, then the appends to `deleteFieldFilters` and `deleteArgFilters`. -/
def clearDataObjectStep (k : Consts) (schema : SchemaIntro) (info : SchemaInfo)
    (doName : String) (acc : List RowFilter × List RowFilter) :
    (List RowFilter × List RowFilter) × Option Err :=
  match schema.TypeByName doName with
  | none => (acc, some (.notFound "type" doName))
  | some ti =>
    match info.Module ti.Module with
    | none => (acc, some (.notFound "module" ti.Module))
    | some mi =>
      match mi.DataObject ti.Name with
      | none => (acc, some (.notFound "data object" ti.Name))
      | some doi => ((dataObjectFilterSteps k info doName mi doi).foldl appendFilters acc, none)

/-- `clearDataObjectTypes`. -/
def clearDataObjectTypes (k : Consts) (schema : SchemaIntro) (info : SchemaInfo)
    (names : List String) (c : Catalog) : Catalog × Option Err :=
  andThenFlat (fun _ => c) (forEachE (clearDataObjectStep k schema info) names ([], []))
    fun acc => deleteFieldsAndArguments acc.1 acc.2 c

/-- The predicates that `clearFunctionTypes` builds for a function. -/
def functionFilterSteps (mi : ModuleInfo) (fi : FunctionInfo) (isMutation : Bool) :
    List (List RowFilter × List RowFilter) :=
  (if fi.ReturnType ≠ "" then [typeFieldsAndArgs fi.ReturnType] else []) ++
  fi.Arguments.map (fun a => typeFields a.Typ) ++
  (if fi.AggregationType ≠ "" then [typeFieldsAndArgs fi.AggregationType] else []) ++
  (if fi.SubAggregationType ≠ "" then [typeFieldsAndArgs fi.SubAggregationType] else []) ++
  (if fi.BucketAggregationType ≠ "" then [typeFieldsAndArgs fi.BucketAggregationType]
   else []) ++
  (if isMutation ∧ mi.MutationFunctionType ≠ "" then
    [fieldAndArg mi.MutationFunctionType fi.Name] else []) ++
  (if ¬ isMutation ∧ mi.FunctionType ≠ "" then [fieldAndArg mi.FunctionType fi.Name] else [])

/-- `clearFunctionTypes`. -/
def clearFunctionTypes (info : SchemaInfo) (module name : String) (c : Catalog) :
    Catalog × Option Err :=
  match info.Module module with
  | none => (c, some (.notFound "module" module))
  | some mi =>
    match mi.Function name with
    | some fi =>
      deleteFieldsAndArguments
        ((functionFilterSteps mi fi false).foldl appendFilters ([], [])).1
        ((functionFilterSteps mi fi false).foldl appendFilters ([], [])).2 c
    | none =>
      match mi.MutationFunction name with
      | none => (c, some (.notFound "function" name))
      | some fi =>
        deleteFieldsAndArguments
          ((functionFilterSteps mi fi true).foldl appendFilters ([], [])).1
          ((functionFilterSteps mi fi true).foldl appendFilters ([], [])).2 c

/-- The reconciliation of a closure: `loadSchemaPatrial` on the four maps. -/
def loadClosure (cfg : Config) (schema : SchemaIntro) (info : SchemaInfo) (update : Bool)
    (m : Maps) (c : Catalog) : Catalog × Option Err :=
  loadSchemaPatrial cfg schema info update m.typesMap m.fieldsMap m.modulesMap m.dataSourcesMap c

/-- `LoadDataObject` (the schema and the summary it fetches are arguments). -/
def LoadDataObject (cfg : Config) (k : Consts) (schema : SchemaIntro) (info : SchemaInfo)
    (name : String) (patrial : Bool) (c : Catalog) : Catalog × Option Err :=
  andThen (if !patrial then clearDataObjectTypes k schema info [name] c else (c, none)) fun c =>
  match fillDataObjectTypesForUpdate k schema info name {} with
  | (_, some e) => (c, some e)
  | (m, none) => loadClosure cfg schema info patrial m c

/-- `LoadFunction` (the schema and the summary it fetches are arguments). -/
def LoadFunction (cfg : Config) (schema : SchemaIntro) (info : SchemaInfo)
    (module name : String) (patrial : Bool) (c : Catalog) : Catalog × Option Err :=
  andThen (if !patrial then clearFunctionTypes info module name c else (c, none)) fun c =>
  match fillFunctionTypesForUpdate schema info module name {} with
  | (_, some e) => (c, some e)
  | (m, none) => loadClosure cfg schema info patrial m c

/-! ## Statement vocabulary for the flattening -/

/-- Join of a (type, field, argument) triple as `fmt.Sprintf("%s.%s.%s")` does. -/
def joinKey (t : String × String × String) : String :=
  t.1 ++ "." ++ t.2.1 ++ "." ++ t.2.2

/-- Types of the schema that pass the scope test of `typesMap`. -/
def scopedTypes (typesMap : List String) (schema : SchemaIntro) : List TypeIntro :=
  schema.Types.filter (fun st => !nameSkipped typesMap st.Name)

/-- Flattened fields of a type that pass the scope test of `fieldsMap`. -/
def scopedFields (fieldsMap : FieldsMap) (st : TypeIntro) : List FieldIntro :=
  (activeFields st).filter (fun f => !fieldSkipped fieldsMap st.Name f.Name)

/-- The (owner type, owner field, argument name) triples of the arguments met
by a flattening scoped by `typesMap` and `fieldsMap`, in the order met; with
both maps empty these are all arguments of all flattened fields. -/
def argTriples (typesMap : List String) (fieldsMap : FieldsMap) (schema : SchemaIntro) :
    List (String × String × String) :=
  (scopedTypes typesMap schema).flatMap fun st =>
    (scopedFields fieldsMap st).flatMap fun f =>
      f.Args.map fun a => (st.Name, f.Name, a.Name)

/-- The Field rows of a flattening scoped by `typesMap` and `fieldsMap`. -/
def flatFields (typesMap : List String) (fieldsMap : FieldsMap) (schema : SchemaIntro) :
    List FieldRow :=
  (scopedTypes typesMap schema).flatMap fun st =>
    (scopedFields fieldsMap st).map (fieldRowOf st)

/-- The Argument rows of a flattening scoped by `typesMap` and `fieldsMap`. -/
def flatArguments (typesMap : List String) (fieldsMap : FieldsMap) (schema : SchemaIntro) :
    List ArgumentRow :=
  (scopedTypes typesMap schema).flatMap fun st =>
    (scopedFields fieldsMap st).flatMap fun f => f.Args.map (argumentRowOf st f)

/-- What a completed run of a flattening loop does to the accumulators: it
appends field rows `ff` and argument rows `aa`, adds the keys `ks` to the key
set, and the keys were new and pairwise distinct. -/
def FlatSpec (ks : List String) (ff : List FieldRow) (aa : List ArgumentRow)
    (s s' : Flat) : Prop :=
  s'.ff = s.ff ++ ff ∧ s'.aa = s.aa ++ aa ∧ (∀ k, k ∈ s'.am ↔ k ∈ s.am ∨ k ∈ ks) ∧
    ks.Nodup ∧ ∀ k ∈ ks, k ∉ s.am

/-! ## Concrete inputs used by the examples -/

/-- A stored type with curated content. -/
def storedC1 : TypeRow :=
  { Name := "T", Description := "old", Long := "curated", IsSummarized := true }

/-- A catalog holding `storedC1`. -/
def catalogC1 : Catalog := { types := [storedC1] }

/-- The upstream value of the same type, with another description. -/
def upstreamC1 : TypeRow := { Name := "T", Description := "up", Kind := "OBJECT" }

/-- An upstream schema with the single type `T`. -/
def schemaC2 : SchemaIntro := { Types := [{ Name := "T", Description := "up" }] }

/-- A schema whose type `T` has a field `f` with two arguments named `a`. -/
def schemaC7 : SchemaIntro :=
  { Types := [
      { Name := "T"
        Fields := [
          { Name := "f"
            Typ := .leaf "Int" "SCALAR"
            Args := [{ Name := "a", Typ := .leaf "Int" "SCALAR" },
                     { Name := "a", Typ := .leaf "Int" "SCALAR" }] }] },
      { Name := "Other" }] }

/-! ## Statement vocabulary for the closure -/

/-- Type names a schema type refers to: the target types of its fields, of
their arguments and of its input fields. -/
def TypeIntro.targets (t : TypeIntro) : List String :=
  (t.Fields.flatMap fun f => f.Typ.TypeName :: f.Args.map (fun a => a.Typ.TypeName)) ++
    t.InputFields.map (fun f => f.Typ.TypeName)

/-- One reference step of the schema graph: `a` resolves to a type that refers to `b`. -/
def Edge (schema : SchemaIntro) (a b : String) : Prop :=
  ∃ t, schema.TypeByName a = some t ∧ b ∈ t.targets

/-- Type `b` is reachable from `a` through field, argument and input field types. -/
def Reach (schema : SchemaIntro) (a b : String) : Prop :=
  Relation.ReflTransGen (Edge schema) a b

/-- The four root type names of a module. -/
def ModuleInfo.roots (m : ModuleInfo) : List String :=
  [m.QueryType, m.MutationType, m.FunctionType, m.MutationFunctionType]

/-- The five synthetic cross-object types. -/
def syntheticTypes (k : Consts) : List String :=
  [k.QueryTimeJoinsTypeName, k.QueryTimeJoinsTypeName ++ k.AggregationSuffix,
   k.QueryTimeSpatialTypeName, k.QueryTimeSpatialTypeName ++ k.AggregationSuffix,
   k.H3DataQueryTypeName]

/-- An invariant `I` of the maps that the primitive steps of the closure
builders keep: marking a type, writing `fieldsMap` at a key allowed by `okKey`,
writing the module and data source sets, expanding from a root allowed by
`okRoot` and re-expanding (`delete` then expansion) a name allowed by `okRe`. -/
structure Frame (schema : SchemaIntro) (I : Maps → Prop) (okKey okRoot okRe : String → Prop) :
    Prop where
  types : ∀ m n, I m → I (m.setType n)
  fields : ∀ m n v, okKey n → I m → I { m with fieldsMap := (n, v) :: m.fieldsMap }
  other : ∀ m mm dd, I m → I { m with modulesMap := mm, dataSourcesMap := dd }
  expand : ∀ m n, okRoot n → I m → I (expandIgnoringError schema n m)
  reexpand : ∀ m n, okRe n → I m → I (reexpand schema n m)

/-- A field of an aggregation type is expanded deeply when it is a declared
column or the row count. -/
@[reducible] def aggDeep (decl : List String) (f : FieldIntro) : Prop :=
  ¬ (f.Name ∉ decl ∧ f.Name ≠ "_rows_count")

/-- The entry of `fieldsMap` for `A` exists and is, as a set, `v`; and `A` is marked. -/
def EntryIs (A : String) (v : List String) (m : Maps) : Prop :=
  A ∈ m.typesMap ∧ ∃ e, fmGet m.fieldsMap A = some e ∧ ∀ x, x ∈ e ↔ x ∈ v

/-- The scalar reference `Int`. -/
def intRef : TypeRefIntro := .leaf "Int" "SCALAR"

/-- A schema with the data object type `X` (columns `a`, `b`, `c`) and its
aggregation type `X_agg` (fields `a`, `b`, `c`, `_rows_count`). -/
def schemaC3 : SchemaIntro :=
  { Types := [
      { Name := "X"
        Module := "m"
        Fields := [{ Name := "a", Typ := intRef }, { Name := "b", Typ := intRef },
                   { Name := "c", Typ := intRef }] },
      { Name := "X_agg"
        Module := "m"
        Fields := [{ Name := "a", Typ := intRef }, { Name := "b", Typ := intRef },
                   { Name := "c", Typ := intRef }, { Name := "_rows_count", Typ := intRef }] },
      { Name := "Int", Kind := "SCALAR" },
      { Name := "Query", Fields := [{ Name := "X", Typ := .leaf "X" "OBJECT" }] }] }

/-- The descriptor of `X`: declared columns `a`, `b`, `c`. -/
def objectC3 : DataObjectInfo :=
  { Name := "X"
    Module := "m"
    AggregationType := "X_agg"
    Queries := [{ Name := "X", ReturnedTypeName := "X" }]
    Columns := [{ Name := "a" }, { Name := "b" }, { Name := "c" }] }

/-- The module `m` owning `X`. -/
def moduleC3 : ModuleInfo := { Name := "m", QueryType := "Query", dataObjects := [objectC3] }

/-- The summary holding the module `m`. -/
def infoC3 : SchemaInfo := { modules := [moduleC3], dataObjects := [objectC3] }

/-- Target type names of a field and of its arguments. -/
def FieldIntro.targets (f : FieldIntro) : List String :=
  f.Typ.TypeName :: f.Args.map (fun a => a.Typ.TypeName)

/-- Fields of the schema type named `n` (none when `n` does not resolve). -/
def fieldsOf (schema : SchemaIntro) (n : String) : List FieldIntro :=
  match schema.TypeByName n with
  | some t => t.Fields
  | none => []

/-- Input fields of the schema type named `n` (none when `n` does not resolve). -/
def inputFieldsOf (schema : SchemaIntro) (n : String) : List FieldIntro :=
  match schema.TypeByName n with
  | some t => t.InputFields
  | none => []

/-- Names that `fillDataObjectTypesForUpdate` deletes from `typesMap` and then
expands again: the list-filter variant and the arguments type. -/
def reRoots (k : Consts) (doi : DataObjectInfo) : List String :=
  (if doi.FilterType ≠ "" then [listFilterName k doi.FilterType] else []) ++
    (match doi.Arguments with
     | some a => if a.Typ ≠ "" then [a.Typ] else []
     | none => [])

/-- Names from which the blocks after the object field loop start a recursive
expansion. -/
def tailRoots (k : Consts) (schema : SchemaIntro) (mi : ModuleInfo) (doi : DataObjectInfo) :
    List String :=
  reRoots k doi ++
  (if doi.FilterType ≠ "" then
    ((inputFieldsOf schema doi.FilterType).filter
      (fun f => decide (f.Name ∈ declaredNames doi))).map (fun f => f.Typ.TypeName)
   else []) ++
  (if doi.AggregationType ≠ "" then
    ((fieldsOf schema doi.AggregationType).filter
      (fun f => decide (aggDeep (declaredNames doi) f))).flatMap FieldIntro.targets
   else []) ++
  (if doi.SubAggregationType ≠ "" then
    ((fieldsOf schema doi.SubAggregationType).filter
      (fun f => decide (aggDeep (declaredNames doi) f))).flatMap FieldIntro.targets
   else []) ++
  (if mi.QueryType ≠ "" then doi.Queries.flatMap (fun q => q.Arguments.map (fun a => a.Typ))
   else []) ++
  (match doi.Mutations with
   | some mu =>
     if mi.MutationType ≠ "" then
       (if mu.InsertMutation ≠ "" then
         ((inputFieldsOf schema mu.InsertDataType).filter
           (fun f => decide (f.Name ∈ declaredNames doi))).map (fun f => f.Typ.TypeName)
        else []) ++
       (if mu.UpdateMutation ≠ "" then [mu.UpdateDataType] else [])
     else []
   | none => [])

/-- Names from which `fillDataObjectTypesForUpdate` starts a recursive
expansion: the targets of the declared columns on the object type, and the
roots of the later blocks. -/
def deepRoots (k : Consts) (schema : SchemaIntro) (ti : TypeIntro) (mi : ModuleInfo)
    (doi : DataObjectInfo) : List String :=
  (ti.Fields.filter (fun f => decide (f.Name ∈ declaredNames doi))).flatMap FieldIntro.targets ++
    tailRoots k schema mi doi

/-- The types whose `fieldsMap` entry the blocks after the object field loop
write by name: filter, aggregation, sub-aggregation, bucket aggregation and
insert data types, the root types of the modules and the synthetic types. -/
def tailFamily (k : Consts) (info : SchemaInfo) (doi : DataObjectInfo) : List String :=
  ([doi.FilterType, doi.AggregationType, doi.SubAggregationType, doi.BucketAggregationType] ++
    (info.RootModule :: info.modules).flatMap ModuleInfo.roots).filter
      (fun n => decide (n ≠ "")) ++
    (match doi.Mutations with
     | some mu => [mu.InsertDataType]
     | none => []) ++
    syntheticTypes k

/-- The types whose `fieldsMap` entry `fillDataObjectTypesForUpdate` writes by
name: the object type and `tailFamily`. -/
def namedFamily (k : Consts) (info : SchemaInfo) (doName : String) (doi : DataObjectInfo) :
    List String :=
  doName :: tailFamily k info doi

/-- A schema in which the non-declared field `g` of `X` has the target `Other`
and an argument of type `OtherFilter`; `a` is a declared column. -/
def schemaC4 : SchemaIntro :=
  { Types := [
      { Name := "X"
        Module := "m"
        Fields := [
          { Name := "a", Typ := intRef },
          { Name := "g"
            Typ := .wrap "" "LIST" (.leaf "Other" "OBJECT")
            Args := [{ Name := "filter", Typ := .leaf "OtherFilter" "INPUT_OBJECT" }] }] },
      { Name := "Other", Fields := [{ Name := "y", Typ := intRef }] },
      { Name := "OtherFilter", Kind := "INPUT_OBJECT"
        InputFields := [{ Name := "y", Typ := intRef }] },
      { Name := "Int", Kind := "SCALAR" },
      { Name := "Query", Fields := [{ Name := "X", Typ := .leaf "X" "OBJECT" }] }] }

/-- The descriptor of `X` in `schemaC4`: one declared column `a`. -/
def objectC4 : DataObjectInfo :=
  { Name := "X"
    Module := "m"
    Queries := [{ Name := "X", ReturnedTypeName := "X" }]
    Columns := [{ Name := "a" }] }

/-- The module `m` owning `objectC4`. -/
def moduleC4 : ModuleInfo := { Name := "m", QueryType := "Query", dataObjects := [objectC4] }

/-- The summary holding `moduleC4`. -/
def infoC4 : SchemaInfo := { modules := [moduleC4], dataObjects := [objectC4] }

/-- A schema in which the non-declared field `g` of `X` has the target `Args`,
the arguments type of `X`, which the schema does not contain. -/
def schemaC4del : SchemaIntro :=
  { Types := [
      { Name := "X"
        Module := "m"
        Fields := [{ Name := "g", Typ := .leaf "Args" "INPUT_OBJECT" }] },
      { Name := "Query", Fields := [{ Name := "X", Typ := .leaf "X" "OBJECT" }] }] }

/-- The descriptor of `X` in `schemaC4del`: its arguments type is `Args`. -/
def objectC4del : DataObjectInfo :=
  { Name := "X"
    Module := "m"
    Arguments := some { Typ := "Args" }
    Queries := [{ Name := "X", ReturnedTypeName := "X" }] }

/-- The summary of `schemaC4del`. -/
def infoC4del : SchemaInfo :=
  { modules := [{ Name := "m", QueryType := "Query", dataObjects := [objectC4del] }]
    dataObjects := [objectC4del] }

/-- The type `X` whose fields `g` (not declared) and `a` (declared column) both
have the target `T`. -/
def typeC5 (fields : List FieldIntro) : TypeIntro :=
  { Name := "X", Module := "m", Fields := fields }

/-- The non-declared field `g` of target `T`. -/
def fieldC5g : FieldIntro := { Name := "g", Typ := .leaf "T" "OBJECT" }

/-- The declared column `a` of target `T`. -/
def fieldC5a : FieldIntro := { Name := "a", Typ := .leaf "T" "OBJECT" }

/-- A schema with `X` carrying the given fields, and `T` with a field `x : Int`. -/
def schemaC5 (fields : List FieldIntro) : SchemaIntro :=
  { Types := [
      typeC5 fields,
      { Name := "T", Fields := [{ Name := "x", Typ := intRef }] },
      { Name := "Int", Kind := "SCALAR" },
      { Name := "Query", Fields := [{ Name := "X", Typ := .leaf "X" "OBJECT" }] }] }

/-- The summary of `schemaC5`: `X` with the declared column `a`. -/
def infoC5 : SchemaInfo :=
  { modules := [
      { Name := "m"
        QueryType := "Query"
        dataObjects := [
          { Name := "X"
            Module := "m"
            Queries := [{ Name := "X", ReturnedTypeName := "X" }]
            Columns := [{ Name := "a" }] }] }] }

/-- A schema in which the declared column `a` of `X` has the target `Missing`,
which the schema does not contain. -/
def schemaC6 : SchemaIntro :=
  { Types := [
      { Name := "X"
        Module := "m"
        Fields := [{ Name := "a", Typ := .leaf "Missing" "OBJECT" }] },
      { Name := "Query", Fields := [{ Name := "X", Typ := .leaf "X" "OBJECT" }] }] }

/-- The summary of `schemaC6`: the data object `X` with the declared column `a`
and an arguments type `MissingArgs`, and the function `f` returning `Missing`. -/
def infoC6 : SchemaInfo :=
  { modules := [
      { Name := "m"
        QueryType := "Query"
        dataObjects := [
          { Name := "X"
            Module := "m"
            Arguments := some { Typ := "MissingArgs" }
            Queries := [{ Name := "X", ReturnedTypeName := "X" }]
            Columns := [{ Name := "a" }] }]
        functions := [{ Name := "f", Module := "m", ReturnType := "Missing" }] }] }

/-- The summary resolves the module of a data object to one with a query root:
the condition under which the data object loops do not fail on it. -/
def loadable (info : SchemaInfo) (d : DataObjectInfo) : Prop :=
  ∃ mo, info.Module d.Module = some mo ∧ mo.QueryType ≠ ""

/-- The closure selects the (type, field) pair: the type passes the scope test
of `typesMap` and the field that of `fieldsMap`. -/
def inClosure (m : Maps) (typeName fieldName : String) : Prop :=
  nameSkipped m.typesMap typeName = false ∧ fieldSkipped m.fieldsMap typeName fieldName = false

/-- A schema with the data object type `X`, the query root `Query` and the
synthetic type `_join`; `Query` and `_join` both carry a field for the list
query `X` and one for the by-key query `X_by_pk`. -/
def schemaC8 : SchemaIntro :=
  { Types := [
      { Name := "X"
        Module := "m"
        Fields := [{ Name := "a", Typ := intRef }] },
      { Name := "Int", Kind := "SCALAR" },
      { Name := "Query"
        Fields := [{ Name := "X", Typ := .leaf "X" "OBJECT" },
                   { Name := "X_by_pk", Typ := .leaf "X" "OBJECT" }] },
      { Name := "_join"
        Fields := [{ Name := "X", Typ := .leaf "X" "OBJECT" },
                   { Name := "X_by_pk", Typ := .leaf "X" "OBJECT" }] }] }

/-- The descriptor of `X`: declared column `a`, the list query `X` and the
select-one query `X_by_pk`. -/
def objectC8 : DataObjectInfo :=
  { Name := "X"
    Module := "m"
    Queries := [{ Name := "X", ReturnedTypeName := "X" },
                { Name := "X_by_pk", Typ := "select_one", ReturnedTypeName := "X" }]
    Columns := [{ Name := "a" }] }

/-- The summary holding the module `m` that owns `X`. -/
def infoC8 : SchemaInfo :=
  { modules := [{ Name := "m", QueryType := "Query", dataObjects := [objectC8] }]
    dataObjects := [objectC8] }

/-- Names of the stored fields of one owner type, in table order. -/
def fieldNamesOf (c : Catalog) (typeName : String) : List String :=
  (c.fields.filter (fun r => decide (r.TypeName = typeName))).map (fun r => r.Name)

/-- Keys added by one field in a scoped flattening. -/
def fieldKeys (fm : FieldsMap) (st : TypeIntro) (f : FieldIntro) : List String :=
  if fieldSkipped fm st.Name f.Name then [] else f.Args.map (argKey st f)

/-- Field rows added by one field in a scoped flattening. -/
def fieldFF (fm : FieldsMap) (st : TypeIntro) (f : FieldIntro) : List FieldRow :=
  if fieldSkipped fm st.Name f.Name then [] else [fieldRowOf st f]

/-- Argument rows added by one field in a scoped flattening. -/
def fieldAA (fm : FieldsMap) (st : TypeIntro) (f : FieldIntro) : List ArgumentRow :=
  if fieldSkipped fm st.Name f.Name then [] else f.Args.map (argumentRowOf st f)

/-- Keys added by one type in a scoped flattening. -/
def typeKeys (tm : List String) (fm : FieldsMap) (st : TypeIntro) : List String :=
  if nameSkipped tm st.Name then [] else (activeFields st).flatMap (fieldKeys fm st)

/-- Field rows added by one type in a scoped flattening. -/
def typeFF (tm : List String) (fm : FieldsMap) (st : TypeIntro) : List FieldRow :=
  if nameSkipped tm st.Name then [] else (activeFields st).flatMap (fieldFF fm st)

/-- Argument rows added by one type in a scoped flattening. -/
def typeAA (tm : List String) (fm : FieldsMap) (st : TypeIntro) : List ArgumentRow :=
  if nameSkipped tm st.Name then [] else (activeFields st).flatMap (fieldAA fm st)

/-- Number of types of the schema not marked in `typesMap`: each expansion of
`addFieldTypeRecursively` marks one of them, which bounds the recursion depth. -/
def unmarked (schema : SchemaIntro) (m : Maps) : Nat :=
  (schema.Types.filter (fun t => !decide (t.Name ∈ m.typesMap))).length

/-! ## Statement vocabulary for the data objects table -/

/-- The data object rows stored under a name. -/
def objectRows (c : Catalog) (n : String) : List DataObjectRow :=
  c.dataObjects.filter (fun r => decide (r.Name = n))

/-- The query list stored for a data object name, in table order. -/
def objectQueries (c : Catalog) (n : String) : List DataObjectQuery :=
  c.dataObjectQueries.filter (fun q => decide (q.ObjectName = n))

/-- The data object row expected for a descriptor: its name, its filter type
name, and its arguments type name, empty when the object has no arguments. -/
def expectedObjectRow (d : DataObjectInfo) : DataObjectRow :=
  { Name := d.Name
    FilterTypeName := d.FilterType
    ArgsTypeName := (d.Arguments.map (fun a => a.Typ)).getD "" }

/-- The query list expected for a descriptor owned by the module `m`: one entry
per upstream query, in upstream order, with the query name, the query kind and
the query root type of the module. -/
def expectedQueries (d : DataObjectInfo) (m : ModuleInfo) : List DataObjectQuery :=
  d.Queries.map fun q =>
    { Name := q.Name, ObjectName := d.Name, QueryRoot := m.QueryType, QueryType := q.Typ }

/-- A catalog holding a stale row and query list for the data object `X` and a
row and a query for a name `Y` that the summary does not know. -/
def catalogC13 : Catalog :=
  { dataObjects := [{ Name := "X", FilterTypeName := "stale_filter" }, { Name := "Y" }]
    dataObjectQueries := [{ Name := "stale_query", ObjectName := "X" },
                          { Name := "Y", ObjectName := "Y" }] }

/-- A catalog in which the module `m` and the data source `ds` are stored with
the descriptions of an earlier load. -/
def catalogC14 : Catalog :=
  { modules := [{ Name := "m", Description := "old", QueryRoot := "OldQuery" }]
    dataSources := [{ Name := "ds", Description := "old" }] }

/-- The upstream summary for `catalogC14`: the module `m` and the data source
`ds` both carry a new description, and `m` a new query root. -/
def infoC14 : SchemaInfo :=
  { modules := [{ Name := "m", Description := "new", QueryType := "Query" }]
    DataSources := [{ Name := "ds", Description := "new" }] }

/-! ## Round trips to the catalog store and their journal

The reconciliation reaches the store through round trips (`s.h.Query`).  The
definitions above give what a round trip does to the tables.  Here each round
trip is also an event: a mutation is entered in a journal when it is issued,
together with the store as it was at that moment, and every round trip, query
or mutation, takes its transport outcome from a schedule of faults; a round
trip that fails in transport writes nothing and returns the error.  The
functions of `load_base_schema.go` and `load_patrial.go` are repeated over this
state in the namespace `Journal`, under the names of the source. -/

/-- The six catalog tables (the query list belongs to the data objects). -/
inductive Table where
  | types | fields | arguments | modules | dataSources | dataObjects
deriving Repr, DecidableEq

/-- The mutations that the reconciliation issues: `insert_*`, `update_*`, the
delete-and-insert of `addDataObject`, the batched delete of
`deleteFieldsAndArguments`, and the delete of every table of `Clear`. -/
inductive Request where
  | insert (t : Table)
  | update (t : Table)
  | replace (t : Table)
  | deleteFieldsAndArguments
  | clearAll
deriving Repr, DecidableEq

/-- One journal entry: the mutation, the key it is issued for (owner type,
owner field, row name, as far as the table has them) and the store when it was
issued. -/
structure Write where
  req : Request
  typeName : String := ""
  fieldName : String := ""
  name : String := ""
  before : Catalog
deriving Repr, DecidableEq

/-- The store, the transport outcomes of the coming round trips (`some e`: the
round trip fails with `e`; an exhausted schedule means no more failures) and
the journal of the mutations issued so far. -/
structure World where
  cat : Catalog
  faults : List (Option Err) := []
  log : List Write := []
deriving Repr, DecidableEq

/-- The transport outcome of the next round trip. -/
def World.pop (w : World) : Option Err × World :=
  match w.faults with
  | [] => (none, w)
  | f :: fs => (f, { w with faults := fs })

/-- A query round trip. -/
def query {α : Type} (read : Catalog → α) (w : World) : World × Except Err α :=
  match w.pop with
  | (some e, w') => (w', .error e)
  | (none, w') => (w', .ok (read w'.cat))

/-- A mutation round trip: it is journaled as issued; when transport fails
nothing is written. -/
def mutate (entry : Catalog → Write) (op : Catalog → Catalog × Option Err) (w : World) :
    World × Option Err :=
  match w.pop with
  | (some e, w') => ({ w' with log := w'.log ++ [entry w'.cat] }, some e)
  | (none, w') =>
    ({ w' with cat := (op w'.cat).1, log := w'.log ++ [entry w'.cat] }, (op w'.cat).2)

namespace Journal

/-- `checkTypeExists`. -/
def checkTypeExists (name : String) (w : World) : World × Except Err Bool :=
  query (fun c => Indexer.checkTypeExists c name) w

/-- `AddType`. -/
def AddType (cfg : Config) (t : TypeRow) (w : World) : World × Option Err :=
  mutate (fun c => { req := .insert .types, name := t.Name, before := c }) (Indexer.AddType cfg t) w

/-- `updateType`. -/
def updateType (cfg : Config) (t : TypeRow) (w : World) : World × Option Err :=
  mutate (fun c => { req := .update .types, name := t.Name, before := c })
    (Indexer.updateType cfg t) w

/-- `mergeType`. -/
def mergeType (cfg : Config) (t : TypeRow) (update : Bool) (w : World) : World × Option Err :=
  match checkTypeExists t.Name w with
  | (w, .error e) => (w, some e)
  | (w, .ok found) =>
    if found && !update then (w, none)
    else if !found then AddType cfg t w
    else updateType cfg t w

/-- `checkFieldExists`. -/
def checkFieldExists (typeName fieldName : String) (w : World) : World × Except Err Bool :=
  query (fun c => Indexer.checkFieldExists c typeName fieldName) w

/-- `AddField`. -/
def AddField (cfg : Config) (f : FieldRow) (w : World) : World × Option Err :=
  mutate (fun c => { req := .insert .fields, typeName := f.TypeName, name := f.Name, before := c })
    (Indexer.AddField cfg f) w

/-- `updateTypeField`. -/
def updateTypeField (cfg : Config) (f : FieldRow) (w : World) : World × Option Err :=
  mutate (fun c => { req := .update .fields, typeName := f.TypeName, name := f.Name, before := c })
    (Indexer.updateTypeField cfg f) w

/-- `mergeField`. -/
def mergeField (cfg : Config) (f : FieldRow) (update : Bool) (w : World) : World × Option Err :=
  match checkFieldExists f.TypeName f.Name w with
  | (w, .error e) => (w, some e)
  | (w, .ok found) =>
    if found && !update then (w, none)
    else if !found then AddField cfg f w
    else updateTypeField cfg f w

/-- `checkArgumentExists`. -/
def checkArgumentExists (typeName fieldName argName : String) (w : World) :
    World × Except Err Bool :=
  query (fun c => Indexer.checkArgumentExists c typeName fieldName argName) w

/-- `AddArgument`. -/
def AddArgument (a : ArgumentRow) (w : World) : World × Option Err :=
  mutate (fun c => { req := .insert .arguments, typeName := a.TypeName,
                     fieldName := a.FieldName, name := a.Name, before := c })
    (Indexer.AddArgument a) w

/-- `updateArgument`. -/
def updateArgument (a : ArgumentRow) (w : World) : World × Option Err :=
  mutate (fun c => { req := .update .arguments, typeName := a.TypeName,
                     fieldName := a.FieldName, name := a.Name, before := c })
    (Indexer.updateArgument a) w

/-- `mergeArgument`. -/
def mergeArgument (a : ArgumentRow) (update : Bool) (w : World) : World × Option Err :=
  match checkArgumentExists a.TypeName a.FieldName a.Name w with
  | (w, .error e) => (w, some e)
  | (w, .ok found) =>
    if found && !update then (w, none)
    else if !found then AddArgument a w
    else updateArgument a w

/-- `checkModuleExists`. -/
def checkModuleExists (name : String) (w : World) : World × Except Err Bool :=
  query (fun c => Indexer.checkModuleExists c name) w

/-- `AddModule`. -/
def AddModule (cfg : Config) (m : ModuleRow) (w : World) : World × Option Err :=
  mutate (fun c => { req := .insert .modules, name := m.Name, before := c })
    (Indexer.AddModule cfg m) w

/-- `updateModule`. -/
def updateModule (cfg : Config) (m : ModuleRow) (w : World) : World × Option Err :=
  mutate (fun c => { req := .update .modules, name := m.Name, before := c })
    (Indexer.updateModule cfg m) w

/-- `mergeModule`. -/
def mergeModule (cfg : Config) (m : ModuleRow) (update : Bool) (w : World) : World × Option Err :=
  match checkModuleExists m.Name w with
  | (w, .error e) => (w, some e)
  | (w, .ok found) =>
    if found && !update then (w, none)
    else if !found then AddModule cfg m w
    else updateModule cfg m w

/-- `checkDataSourceExists`. -/
def checkDataSourceExists (name : String) (w : World) : World × Except Err Bool :=
  query (fun c => Indexer.checkDataSourceExists c name) w

/-- `AddDataSource`. -/
def AddDataSource (cfg : Config) (ds : DataSourceRow) (w : World) : World × Option Err :=
  mutate (fun c => { req := .insert .dataSources, name := ds.Name, before := c })
    (Indexer.AddDataSource cfg ds) w

/-- `updateDataSource`. -/
def updateDataSource (cfg : Config) (ds : DataSourceRow) (w : World) : World × Option Err :=
  mutate (fun c => { req := .update .dataSources, name := ds.Name, before := c })
    (Indexer.updateDataSource cfg ds) w

/-- `mergeDataSource`. -/
def mergeDataSource (cfg : Config) (ds : DataSourceRow) (update : Bool) (w : World) :
    World × Option Err :=
  match checkDataSourceExists ds.Name w with
  | (w, .error e) => (w, some e)
  | (w, .ok found) =>
    if found && !update then (w, none)
    else if !found then AddDataSource cfg ds w
    else updateDataSource cfg ds w

/-- `addDataObject`. -/
def addDataObject (obj : DataObjectRow) (w : World) : World × Option Err :=
  mutate (fun c => { req := .replace .dataObjects, name := obj.Name, before := c })
    (Indexer.addDataObject obj) w

/-- `Clear`. -/
def Clear (w : World) : World × Option Err :=
  mutate (fun c => { req := .clearAll, before := c }) Indexer.Clear w

/-- `deleteFieldsAndArguments`. -/
def deleteFieldsAndArguments (filterFields filterArgs : List RowFilter) (w : World) :
    World × Option Err :=
  mutate (fun c => { req := .deleteFieldsAndArguments, before := c })
    (Indexer.deleteFieldsAndArguments filterFields filterArgs) w

end Journal

namespace Journal

/-- Body of `for _, st := range schema.Types` in `fillBaseSchema`; the
accumulators `ff`, `aa`, `am` are those of the record `Flat`. -/
def baseType (cfg : Config) (st : TypeIntro) (s : World × Flat) : (World × Flat) × Option Err :=
  match AddType cfg (typeRowOf st) s.1 with
  | (w, some e) => ((w, s.2), some e)
  | (w, none) =>
    ((w, (forEachE (baseField st) (activeFields st) s.2).1),
      (forEachE (baseField st) (activeFields st) s.2).2)

/-- Body of `for _, st := range schema.Types` in `loadSchemaPatrial`. -/
def patrialType (cfg : Config) (update : Bool) (typesMap : List String) (fieldsMap : FieldsMap)
    (st : TypeIntro) (s : World × Flat) : (World × Flat) × Option Err :=
  if nameSkipped typesMap st.Name then (s, none)
  else
    match mergeType cfg (typeRowOf st) update s.1 with
    | (w, some e) => ((w, s.2), some e)
    | (w, none) =>
      ((w, (forEachE (patrialField fieldsMap st) (activeFields st) s.2).1),
        (forEachE (patrialField fieldsMap st) (activeFields st) s.2).2)

/-- Body of `for _, do := range meta.DataObjects()` after the scope test. -/
def loadDataObject (info : SchemaInfo) (d : DataObjectInfo) (w : World) : World × Option Err :=
  match info.Module d.Module with
  | none => (w, some (.moduleNotFound d.Module d.Name))
  | some m =>
    if m.QueryType = "" then (w, some (.moduleNotFound d.Module d.Name))
    else addDataObject (dataObjectRowOf d m) w

/-- `fillBaseSchema`. -/
def fillBaseSchema (cfg : Config) (schema : SchemaIntro) (info : SchemaInfo) (w : World) :
    World × Option Err :=
  andThen (Clear w) fun w =>
  andThen (AddType cfg unknownType w) fun w =>
  andThenFlat Prod.fst (forEachE (baseType cfg) schema.Types (w, { c := w.cat })) fun s =>
  andThen (forEachE (fun f => AddField cfg f) s.2.ff s.1) fun w =>
  andThen (forEachE (fun a => AddArgument a) s.2.aa w) fun w =>
  andThen (forEachE (fun m => AddModule cfg (moduleRowOf m)) info.modules w) fun w =>
  andThen (forEachE (fun ds => AddDataSource cfg (dataSourceRowOf ds)) info.DataSources w) fun w =>
  forEachE (loadDataObject info) info.dataObjects w

/-- Body of `for _, m := range meta.Modules()` in `loadSchemaPatrial`. -/
def patrialModule (cfg : Config) (modulesMap : List String) (m : ModuleInfo) (w : World) :
    World × Option Err :=
  if nameSkipped modulesMap m.Name then (w, none)
  else mergeModule cfg (moduleRowOf m) false w

/-- Body of `for _, ds := range meta.DataSources` in `loadSchemaPatrial`. -/
def patrialDataSource (cfg : Config) (update : Bool) (dataSourcesMap : List String)
    (ds : DataSourceInfo) (w : World) : World × Option Err :=
  if nameSkipped dataSourcesMap ds.Name then (w, none)
  else mergeDataSource cfg (dataSourceRowOf ds) update w

/-- Body of `for _, do := range meta.DataObjects()` in `loadSchemaPatrial`. -/
def patrialDataObject (info : SchemaInfo) (typesMap : List String) (d : DataObjectInfo)
    (w : World) : World × Option Err :=
  if nameSkipped typesMap d.Name then (w, none)
  else loadDataObject info d w

/-- `loadSchemaPatrial`. -/
def loadSchemaPatrial (cfg : Config) (schema : SchemaIntro) (info : SchemaInfo) (update : Bool)
    (typesMap : List String) (fieldsMap : FieldsMap) (modulesMap dataSourcesMap : List String)
    (w : World) : World × Option Err :=
  andThen (mergeType cfg unknownType false w) fun w =>
  andThenFlat Prod.fst
    (forEachE (patrialType cfg update typesMap fieldsMap) schema.Types (w, { c := w.cat }))
    fun s =>
  andThen (forEachE (fun f => mergeField cfg f update) s.2.ff s.1) fun w =>
  andThen (forEachE (fun a => mergeArgument a update) s.2.aa w) fun w =>
  andThen (forEachE (patrialModule cfg modulesMap) info.modules w) fun w =>
  andThen (forEachE (patrialDataSource cfg update dataSourcesMap) info.DataSources w) fun w =>
  forEachE (patrialDataObject info typesMap) info.dataObjects w

/-- `clearDataObjectTypes`. -/
def clearDataObjectTypes (k : Consts) (schema : SchemaIntro) (info : SchemaInfo)
    (names : List String) (w : World) : World × Option Err :=
  andThenFlat (fun _ => w) (forEachE (clearDataObjectStep k schema info) names ([], []))
    fun acc => deleteFieldsAndArguments acc.1 acc.2 w

/-- `clearFunctionTypes`. -/
def clearFunctionTypes (info : SchemaInfo) (module name : String) (w : World) :
    World × Option Err :=
  match info.Module module with
  | none => (w, some (.notFound "module" module))
  | some mi =>
    match mi.Function name with
    | some fi =>
      deleteFieldsAndArguments
        ((functionFilterSteps mi fi false).foldl appendFilters ([], [])).1
        ((functionFilterSteps mi fi false).foldl appendFilters ([], [])).2 w
    | none =>
      match mi.MutationFunction name with
      | none => (w, some (.notFound "function" name))
      | some fi =>
        deleteFieldsAndArguments
          ((functionFilterSteps mi fi true).foldl appendFilters ([], [])).1
          ((functionFilterSteps mi fi true).foldl appendFilters ([], [])).2 w

/-- `LoadDataObject`. -/
def LoadDataObject (cfg : Config) (k : Consts) (schema : SchemaIntro) (info : SchemaInfo)
    (name : String) (patrial : Bool) (w : World) : World × Option Err :=
  andThen (if !patrial then clearDataObjectTypes k schema info [name] w else (w, none)) fun w =>
  match fillDataObjectTypesForUpdate k schema info name {} with
  | (_, some e) => (w, some e)
  | (m, none) =>
    loadSchemaPatrial cfg schema info patrial m.typesMap m.fieldsMap m.modulesMap
      m.dataSourcesMap w

/-- `LoadFunction`. -/
def LoadFunction (cfg : Config) (schema : SchemaIntro) (info : SchemaInfo)
    (module name : String) (patrial : Bool) (w : World) : World × Option Err :=
  andThen (if !patrial then clearFunctionTypes info module name w else (w, none)) fun w =>
  match fillFunctionTypesForUpdate schema info module name {} with
  | (_, some e) => (w, some e)
  | (m, none) =>
    loadSchemaPatrial cfg schema info patrial m.typesMap m.fieldsMap m.modulesMap
      m.dataSourcesMap w

end Journal

/-! ## Statement vocabulary for the journal -/

/-- Position of a table in the order of the reconciliation phases. -/
def Table.rank : Table → Nat
  | .types => 1
  | .fields => 2
  | .arguments => 3
  | .modules => 4
  | .dataSources => 5
  | .dataObjects => 6

/-- Phase of a mutation: the rank of the table it inserts into, updates or
replaces; the deletes of the clearing steps come before every phase. -/
def Request.rank : Request → Nat
  | .insert t => t.rank
  | .update t => t.rank
  | .replace t => t.rank
  | .deleteFieldsAndArguments => 0
  | .clearAll => 0

/-- The journal is in phase order: no entry is followed by one of an earlier phase. -/
def PhaseOrdered (log : List Write) : Prop :=
  (log.map (fun e => e.req.rank)).Pairwise (fun a b => a ≤ b)

/-- The owner of the written row was stored when the mutation was issued: the
Type row of the owner type for a write to the fields table, the Field row of
the owner (type, field) for a write to the arguments table. -/
def OwnerPresent (e : Write) : Prop :=
  match e.req with
  | .insert .fields => checkTypeExists e.before e.typeName = true
  | .update .fields => checkTypeExists e.before e.typeName = true
  | .insert .arguments => checkFieldExists e.before e.typeName e.fieldName = true
  | .update .arguments => checkFieldExists e.before e.typeName e.fieldName = true
  | _ => True

/-- The entry is a delete (the batched delete or the clearing of every table). -/
def Write.isDelete (e : Write) : Bool :=
  match e.req with
  | .deleteFieldsAndArguments => true
  | .clearAll => true
  | _ => false

/-- The journal is in phase order, no entry is of a phase after `k`, and every
entry found the owner of its row stored. -/
def JournalUpto (k : Nat) (log : List Write) : Prop :=
  PhaseOrdered log ∧ (∀ e ∈ log, e.req.rank ≤ k) ∧ ∀ e ∈ log, OwnerPresent e

/-- State of the type loop of a reconciliation: the journal holds writes to the
types table only, every accumulated field row is owned by a stored type, and
every accumulated argument row has its field row accumulated. -/
def TypesWritten (s : World × Flat) : Prop :=
  JournalUpto 1 s.1.log ∧ (∀ f ∈ s.2.ff, checkTypeExists s.1.cat f.TypeName = true) ∧
  ∀ a ∈ s.2.aa, ∃ f ∈ s.2.ff, f.TypeName = a.TypeName ∧ f.Name = a.FieldName

/-- The journaled state `w` stands for the plain store `c`: same tables, and no
transport failure to come. -/
def Erases (w : World) (c : Catalog) : Prop := w.cat = c ∧ w.faults = []

/-- The journaled state of a type loop stands for the plain one. -/
def ErasesFlat (s : World × Flat) (fl : Flat) : Prop :=
  Erases s.1 fl.c ∧ s.2.ff = fl.ff ∧ s.2.aa = fl.aa ∧ s.2.am = fl.am

/-- No row of the types, fields and arguments tables of `c0` is missing from
`c`: the keys of each of the three tables of `c0` are, in order, the first keys
of the table of `c`. -/
def KeysKept (c0 c : Catalog) : Prop :=
  (c0.types.map (fun r => r.Name)) <+: (c.types.map (fun r => r.Name)) ∧
  (c0.fields.map (fun r => (r.TypeName, r.Name))) <+:
    (c.fields.map (fun r => (r.TypeName, r.Name))) ∧
  (c0.arguments.map (fun r => (r.TypeName, r.FieldName, r.Name))) <+:
    (c.arguments.map (fun r => (r.TypeName, r.FieldName, r.Name)))

/-- The journal `l` continues the journal `l0` without a delete. -/
def NoDeleteSince (l0 l : List Write) : Prop :=
  ∃ rest, l = l0 ++ rest ∧ ∀ e ∈ rest, e.isDelete = false

/-- Since the state with store `c0` and journal `l0`, nothing was deleted from
the types, fields and arguments tables and no delete was issued. -/
def NothingDeleted (c0 : Catalog) (l0 : List Write) (w : World) : Prop :=
  KeysKept c0 w.cat ∧ NoDeleteSince l0 w.log

/-- The journal entry of the batched delete issued on the store `c`. -/
def deleteEntry (c : Catalog) : Write := { req := .deleteFieldsAndArguments, before := c }

/-- Shape of a reload `run` (from a patch flag and a state) with clearing step
`clear`, started on the store `c` with the transport outcomes `faults` and an
empty journal.  With patch semantics nothing is deleted.  Without, either the
clearing step fails before it issues anything and so does the reload, or the
batched delete is the first entry of the journal and the only delete in it;
and an error of the clearing step is returned with the state that step left,
in which nothing was written. -/
def ClearsFirst (run : Bool → World → World × Option Err)
    (clear : World → World × Option Err) (c : Catalog) (faults : List (Option Err)) : Prop :=
  NothingDeleted c [] (run true { cat := c, faults := faults }).1 ∧
  ((((run false { cat := c, faults := faults }).1.log = [] ∧
      (run false { cat := c, faults := faults }).2 ≠ none) ∨
    ∃ rest, (run false { cat := c, faults := faults }).1.log = deleteEntry c :: rest ∧
      ∀ e ∈ rest, e.isDelete = false) ∧
   ∀ e, (clear { cat := c, faults := faults }).2 = some e →
      run false { cat := c, faults := faults } = ((clear { cat := c, faults := faults }).1, some e) ∧
      (clear { cat := c, faults := faults }).1.cat = c ∧
      ((clear { cat := c, faults := faults }).1.log = [] ∨
        (clear { cat := c, faults := faults }).1.log = [deleteEntry c]))

/-! ## Connection pool (`pkg/pool/connection.go`)

The pool is followed call by call: a call of `Pool.Connection` is one test of
its admission loop in the state reached, a call of `Connection.Close` is the
call of the close function of a connection returned earlier. -/

/-- Value of a Go `int32` after a conversion or an addition: the integer
reduced to the range from -2^31 to 2^31 - 1. -/
def wrapInt32 (x : Int) : Int := (x + 2147483648) % 4294967296 - 2147483648

/-- `Pool`: the capacity `size` and the counter `used` (`atomic.Int32`). -/
structure Pool where
  size : Int
  used : Int := 0
deriving Repr, DecidableEq

/-- `pool.New`. -/
def Pool.New (maxConnections : Int) : Pool := { size := maxConnections, used := 0 }

/-- Outcome of a call of `Pool.Connection`. -/
inductive Acquired where
  | connection
  | waiting
  | failed (e : Err)
deriving Repr, DecidableEq

/-- `Pool.Connection`: while `used >= int32(size)` the call waits, or returns
the error of the context once it is done; else it builds the client,
`client` being the error of the constructor or of an unknown provider, and
returns the connection.  The counter is read, never written. -/
def Pool.Connection (p : Pool) (ctxDone : Bool) (client : Option Err) : Pool × Acquired :=
  if p.used ≥ wrapInt32 p.size then
    if ctxDone then (p, .failed (.text "context canceled")) else (p, .waiting)
  else
    match client with
    | some e => (p, .failed e)
    | none => (p, .connection)

/-- The close function of a connection: `pool.used.Add(-1)`. -/
def Pool.closeFunc (p : Pool) : Pool := { p with used := wrapInt32 (p.used - 1) }

/-- A call on the pool: `Connection`, or `Close` on the connection returned
by the `i`-th successful `Connection` call. -/
inductive PoolCall where
  | acquire (ctxDone : Bool) (client : Option Err)
  | close (i : Nat)
deriving Repr, DecidableEq

/-- The pool and, for every connection returned so far, whether its close
function is still set (`Close` resets it, so a second `Close` does nothing). -/
structure PoolState where
  pool : Pool
  held : List Bool := []
deriving Repr, DecidableEq

/-- Effect of one call. -/
def PoolState.call (s : PoolState) : PoolCall → PoolState
  | .acquire ctxDone client =>
    match s.pool.Connection ctxDone client with
    | (p, .connection) => { pool := p, held := s.held ++ [true] }
    | (p, _) => { s with pool := p }
  | .close i =>
    if s.held.getD i false then { pool := s.pool.closeFunc, held := s.held.set i false }
    else s

/-- Effect of a sequence of calls. -/
def PoolState.calls (s : PoolState) (cs : List PoolCall) : PoolState := cs.foldl PoolState.call s

/-- Number of connections returned and not yet closed. -/
def PoolState.outstanding (s : PoolState) : Nat := s.held.count true

/-! ## Order of the module tasks (`modulesForSummary`, `Summarize`) -/

/-- Go `sort.Slice(names, less)`, as the sorted permutation built by
insertion: `a` is placed before `b` when `less b a` is false.  The Go sort is
not stable; for a `less` that is a strict total order on the values, as here,
the sorted sequence of values is the same for every sorting algorithm. -/
def sortSlice (less : String → String → Bool) (names : List String) : List String :=
  names.insertionSort (fun a b => less b a = false)

/-- Go `a < b` on strings, as lists of characters: the first position where
they differ decides, and a proper prefix is smaller.  Characters are compared
by code point, which for valid UTF-8 is the byte order of Go. -/
def strLt : List Char → List Char → Bool
  | _, [] => false
  | [], _ :: _ => true
  | a :: as, b :: bs =>
    if a.toNat < b.toNat then true else if b.toNat < a.toNat then false else strLt as bs

/-- The order in which `modulesForSummary` returns the names: sorted with
`names[i] > names[j]` as `less`. -/
def modulesOrder (names : List String) : List String :=
  sortSlice (fun a b => strLt b.data a.data) names

/-- The module `y` is an ancestor of the module `x`: the root module (empty
name) for every other module, or a name that, followed by a dot, starts `x`. -/
def isAncestor (y x : String) : Prop :=
  y ≠ x ∧ (y = "" ∨ ∃ rest : String, x = y ++ "." ++ rest)

/-- Events of a task group: `start m`, the call `eg.Go` for `m` has taken a
slot and the task runs; `finish m`, the task has returned and given the slot
back. -/
inductive TaskEvent where
  | start (m : String)
  | finish (m : String)
deriving Repr, DecidableEq

/-- State of an `errgroup.Group` during the dispatch loop
`for _, m := range modules { eg.Go(...) }`: the names not yet handed over, in
order, and the tasks running. -/
structure GroupRun where
  queue : List String
  running : List String := []
deriving Repr, DecidableEq

/-- One event under `eg.SetLimit(limit)`: `eg.Go` hands over the head of the
queue when a slot is free (a negative limit is no limit, with limit zero no
task is ever started); a running task may finish at any time. -/
def GroupRun.step (limit : Int) (s : GroupRun) : TaskEvent → Option GroupRun
  | .start m =>
    match s.queue with
    | [] => none
    | q :: rest =>
      if q = m ∧ (limit < 0 ∨ (s.running.length : Int) < limit) then
        some { queue := rest, running := m :: s.running }
      else none
  | .finish m =>
    if m ∈ s.running then some { s with running := s.running.erase m } else none

/-- The state after a sequence of events, if every one of them is possible. -/
def GroupRun.exec (limit : Int) : GroupRun → List TaskEvent → Option GroupRun
  | s, [] => some s
  | s, e :: es =>
    match s.step limit e with
    | none => none
    | some s' => GroupRun.exec limit s' es

/-- The sequence `trace` is an execution of the dispatch loop over `modules`
under the limit. -/
@[reducible]
def Schedule (limit : Int) (modules : List String) (trace : List TaskEvent) : Prop :=
  (GroupRun.exec limit { queue := modules } trace).isSome = true

/-- In `trace` the task of `x` has finished before the task of `y` starts. -/
def CompletesBefore (trace : List TaskEvent) (x y : String) : Prop :=
  ∀ p q, trace = p ++ TaskEvent.start y :: q → TaskEvent.finish x ∈ p

/-- In `trace` the task of `x` has started before the task of `y` starts. -/
def StartsBefore (trace : List TaskEvent) (x y : String) : Prop :=
  ∀ p q, trace = p ++ TaskEvent.start y :: q → TaskEvent.start x ∈ p

/-- Names of the tasks started in a trace, in order. -/
def started (trace : List TaskEvent) : List String :=
  trace.filterMap (fun e => match e with | .start m => some m | .finish _ => none)

/-! ## Summarization (`summary.go`, `summary_object.go`, `summary_function.go`,
`summary_data_source.go`, `summary_module.go`)

The summarization runs on the journaled store.  The text generation and the
relations of the store that only feed the prompts are outside the source and
are parameters.  A Go map is the list of its bindings, in the order in which
the run iterates over it. -/

/-- `errors.Is(err, types.ErrNoData)`. -/
def Err.isNoData : Err → Bool
  | .noData => true
  | .wrap _ cause => cause.isNoData
  | _ => false

/-- The statement `if err != nil { return fmt.Errorf(msg + ": %w", err) }`
after a step. -/
def wrapErr {σ : Type} (msg : String) (r : σ × Option Err) : σ × Option Err :=
  match r with
  | (s, some e) => (s, some (.wrap msg e))
  | (s, none) => (s, none)

/-- The error of a call made with a canceled context. -/
def ctxCanceled : Err := .text "context canceled"

/-- Further names of the query engine that the summarization reads
(`base.HugrTypeTable`, `base.HugrTypeView`, `base.HugrTypeModule`,
`base.HugrTypeFieldFunction`, `sources.Extension`, `metainfo.QueryTypeH3`,
`metainfo.QueryTypeJQ`). -/
structure SummaryConsts where
  HugrTypeTable : String
  HugrTypeView : String
  HugrTypeModule : String
  HugrTypeFieldFunction : String
  Extension : String
  QueryTypeH3 : String
  QueryTypeJQ : String
deriving Repr, DecidableEq

/-- `summary.DataObjectSubQuerySummary`. -/
structure DataObjectSubQuerySummary where
  Short : String := ""
  Filter : String := ""
  Select : String := ""
  Agg : String := ""
  BucketAgg : String := ""
deriving Repr, DecidableEq

/-- `summary.DataObjectFilterSummary`. -/
structure DataObjectFilterSummary where
  Row : String := ""
  Fields : List (String × String) := []
  References : List (String × String) := []
deriving Repr, DecidableEq

/-- `summary.DataObjectArgumentsSummary`. -/
structure DataObjectArgumentsSummary where
  Short : String := ""
  Fields : List (String × String) := []
deriving Repr, DecidableEq

/-- `summary.DataObjectSummary`; a map that the source tests against nil is an
option. -/
structure DataObjectSummary where
  Short : String := ""
  Long : String := ""
  AggregationTypeShort : String := ""
  AggregationTypeLong : String := ""
  SubAggregationTypeShort : String := ""
  SubAggregationTypeLong : String := ""
  BucketAggregationTypeShort : String := ""
  BucketAggregationTypeLong : String := ""
  Fields : List (String × String) := []
  ExtraFields : List (String × String) := []
  Filter : DataObjectFilterSummary := {}
  References : Option (List (String × DataObjectSubQuerySummary)) := none
  SubQueries : Option (List (String × DataObjectSubQuerySummary)) := none
  FunctionCalls : Option (List (String × String)) := none
  Arguments : DataObjectArgumentsSummary := {}
  Queries : Option (List (String × String)) := none
  Mutations : Option (List (String × String)) := none
deriving Repr, DecidableEq

/-- `summary.FunctionReturnsSummary`. -/
structure FunctionReturnsSummary where
  Short : String := ""
  Fields : List (String × String) := []
deriving Repr, DecidableEq

/-- `summary.FunctionSummary`. -/
structure FunctionSummary where
  Short : String := ""
  Long : String := ""
  Parameters : Option (List (String × String)) := none
  Returns : FunctionReturnsSummary := {}
deriving Repr, DecidableEq

/-- `summary.DataSourceSummary`. -/
structure DataSourceSummary where
  Short : String := ""
  Long : String := ""
deriving Repr, DecidableEq

/-- `summary.ModuleSummary`. -/
structure ModuleSummary where
  Short : String := ""
  Long : String := ""
  QueryType : String := ""
  MutationType : String := ""
  FunctionType : String := ""
  MutFunctionType : String := ""
deriving Repr, DecidableEq

/-- The meta summary as the summarization reads it: the lookups by path
`Table`, `View`, `Function`, `MutateFunction` of `metainfo.SchemaInfo`, and its
data source list. -/
structure MetaSummary where
  Table : String → Option DataObjectInfo
  View : String → Option DataObjectInfo
  Function : String → Option FunctionInfo
  MutateFunction : String → Option FunctionInfo
  DataSources : List DataSourceInfo := []

/-- What is outside `Summarize`: the configuration, the external names, the
behaviour of `ScanData` on an empty result set (`emptyIsNoData`: it returns
`ErrNoData`; else it decodes an empty list), the meta summary that
`fetchSummary` decodes, and the two relations of the store from which
`dataSourceForSummary` reads the items of a data source (its tables, views and
functions) and the modules that hold them. -/
structure Summarizer where
  cfg : Config := {}
  k : Consts
  sk : SummaryConsts
  emptyIsNoData : Bool
  summary : Except Err MetaSummary
  catalogItems : Catalog → String → List String
  catalogModules : Catalog → String → List String

/-- A target of the summarization. -/
inductive Target where
  | dataObject (name : String)
  | function (typeName name : String)
  | dataSource (name : String)
  | module (name : String)
deriving Repr, DecidableEq

/-- What the tasks of one run meet: for every target the transport outcomes
of the round trips of its task, and the result of the summary service (the
connection, the generation and the decoding of its output) for it. -/
structure Outcomes where
  faults : Target → List (Option Err)
  dataObject : String → Except Err DataObjectSummary
  function : String → String → Except Err FunctionSummary
  dataSource : String → Except Err DataSourceSummary
  module : String → Except Err ModuleSummary

/-- The text sent for the embedding by `UpdateTypeDescription` and
`UpdateModuleDescription`: the long description, else the short one, cut to
1000 (bytes in the source, characters here). -/
def summaryText (desc long : String) : String :=
  let s := if long = "" then desc else long
  if s.length > 1000 then String.mk (s.data.take 1000) else s

/-- `UpdateTypeDescription`. -/
def UpdateTypeDescription (cfg : Config) (name desc long : String) (isSummarized : Bool)
    (w : World) : World × Option Err :=
  wrapErr "failed to update type description"
    (mutate (fun c => { req := .update .types, name := name, before := c })
      (fun c => ({ c with types := c.types.map (fun r =>
        if r.Name = name then
          { r with
            Description := desc, Long := long, IsSummarized := isSummarized,
            Vec := if cfg.EmbeddingsEnabled then some (summaryText desc long) else r.Vec }
        else r) }, none)) w)

/-- `UpdateFieldDescription`. -/
def UpdateFieldDescription (cfg : Config) (typeName fieldName desc : String)
    (summarized : Bool) (w : World) : World × Option Err :=
  wrapErr "failed to update field description"
    (mutate (fun c => { req := .update .fields, typeName := typeName, name := fieldName,
                        before := c })
      (fun c => ({ c with fields := c.fields.map (fun r =>
        if r.TypeName = typeName ∧ r.Name = fieldName then
          { r with
            Description := desc, IsSummarized := summarized,
            Vec := if cfg.EmbeddingsEnabled then some desc else r.Vec }
        else r) }, none)) w)

/-- `UpdateArgumentDescription`. -/
def UpdateArgumentDescription (typeName fieldName argName desc : String)
    (w : World) : World × Option Err :=
  wrapErr "failed to update argument description"
    (mutate (fun c => { req := .update .arguments, typeName := typeName,
                        fieldName := fieldName, name := argName, before := c })
      (fun c => ({ c with arguments := c.arguments.map (fun r =>
        if r.TypeName = typeName ∧ r.FieldName = fieldName ∧ r.Name = argName then
          { r with Description := desc }
        else r) }, none)) w)

/-- `UpdateModuleDescription`: without the embedding only the description and
the flag are written. -/
def UpdateModuleDescription (cfg : Config) (name desc long : String) (isSummarized : Bool)
    (w : World) : World × Option Err :=
  wrapErr "failed to update module description"
    (mutate (fun c => { req := .update .modules, name := name, before := c })
      (fun c => ({ c with modules := c.modules.map (fun r =>
        if r.Name = name then
          if cfg.EmbeddingsEnabled && decide (summaryText desc long ≠ "") then
            { r with
              Description := desc, LongDescription := long, IsSummarized := isSummarized,
              Vec := some (summaryText desc long) }
          else { r with Description := desc, IsSummarized := isSummarized }
        else r) }, none)) w)

/-- `UpdateDataSourceDescription`. -/
def UpdateDataSourceDescription (cfg : Config) (name desc long : String)
    (isSummarized : Bool) (w : World) : World × Option Err :=
  wrapErr "failed to update data source description"
    (mutate (fun c => { req := .update .dataSources, name := name, before := c })
      (fun c => ({ c with dataSources := c.dataSources.map (fun r =>
        if r.Name = name then
          { r with
            Description := desc, LongDescription := long, IsSummarized := isSummarized,
            Vec := if cfg.EmbeddingsEnabled then some long else r.Vec }
        else r) }, none)) w)

/-- A call of one of the five update functions, with its arguments. -/
inductive Update where
  | type (name desc long : String) (isSummarized : Bool)
  | field (typeName fieldName desc : String) (summarized : Bool)
  | argument (typeName fieldName argName desc : String)
  | module (name desc long : String) (isSummarized : Bool)
  | dataSource (name desc long : String) (isSummarized : Bool)
deriving Repr, DecidableEq

/-- The call. -/
def Update.run (cfg : Config) : Update → World → World × Option Err
  | .type name desc long flag => UpdateTypeDescription cfg name desc long flag
  | .field typeName fieldName desc flag => UpdateFieldDescription cfg typeName fieldName desc flag
  | .argument typeName fieldName argName desc =>
    UpdateArgumentDescription typeName fieldName argName desc
  | .module name desc long flag => UpdateModuleDescription cfg name desc long flag
  | .dataSource name desc long flag => UpdateDataSourceDescription cfg name desc long flag

/-- A run of update calls, each followed by
`if err != nil { return fmt.Errorf(msg, err) }` with its own message: the
calls are made in order up to the first that fails. -/
def runUpdates (cfg : Config) (us : List (Update × String)) (w : World) : World × Option Err :=
  forEachE (fun u w => wrapErr u.2 (u.1.run cfg w)) us w

/-- Outcome of `ScanData` on the rows of a list selection. -/
def scanRows {α : Type} (emptyIsNoData : Bool) (rows : List α) : Except Err (List α) :=
  if rows.isEmpty && emptyIsNoData then .error .noData else .ok rows

/-- `fetchSummary`: a round trip that decodes the meta summary. -/
def fetchSummary (env : Summarizer) (w : World) : World × Except Err MetaSummary :=
  match query (fun _ => env.summary) w with
  | (w, .error e) => (w, .error e)
  | (w, .ok r) => (w, r)

/-- `ModuleByName`: `modules_by_pk`; a missing row is `ErrNoData` of the
decoding. -/
def ModuleByName (name : String) (w : World) : World × Except Err ModuleRow :=
  match query (fun c => c.modules.find? (fun m => decide (m.Name = name))) w with
  | (w, .error e) => (w, .error (.wrap "failed to get module by name" e))
  | (w, .ok none) => (w, .error (.wrap "failed to decode module" .noData))
  | (w, .ok (some m)) => (w, .ok m)

/-- `ModuleByTypeName`: the first module one of whose root types is the name. -/
def ModuleByTypeName (env : Summarizer) (typeName : String) (w : World) :
    World × Except Err ModuleRow :=
  match query (fun c => c.modules.filter (fun m =>
      decide (m.QueryRoot = typeName) || decide (m.MutationRoot = typeName) ||
      decide (m.FunctionRoot = typeName) || decide (m.MutFunctionRoot = typeName))) w with
  | (w, .error e) => (w, .error (.wrap "failed to get module by type name" e))
  | (w, .ok rows) =>
    match scanRows env.emptyIsNoData rows with
    | .error e => (w, .error (.wrap "failed to decode module" e))
    | .ok [] => (w, .error .noData)
    | .ok (m :: _) => (w, .ok m)

/-- `moduleForSummary`: the module row; the nested lists of the query feed
only the prompt.  A missing row gives nil. -/
def moduleForSummary (name : String) (w : World) : World × Except Err (Option ModuleRow) :=
  match query (fun c => c.modules.find? (fun m => decide (m.Name = name))) w with
  | (w, .error e) => (w, .error (.wrap "failed to query modules" e))
  | (w, .ok r) => (w, .ok r)

/-- `dataSourcesByNames`, called with at least one name: a round trip whose
rows feed only the prompt. -/
def dataSourcesByNames (w : World) : World × Option Err :=
  match query (fun _ => ()) w with
  | (w, .error e) => (w, some (.wrap "failed to query data source" e))
  | (w, .ok _) => (w, none)

/-- `dataSourceForSummary`: whether a descriptor is returned (its content
feeds only the prompt). -/
def dataSourceForSummary (env : Summarizer) (name : String) (w : World) :
    World × Except Err Bool :=
  match query (fun c => (c.dataSources.find? (fun d => decide (d.Name = name)),
      env.catalogItems c name, env.catalogModules c name)) w with
  | (w, .error e) => (w, .error (.wrap "failed to query data source" e))
  | (w, .ok (none, _, _)) => (w, .error (.wrap "failed to decode data source" .noData))
  | (w, .ok (some _, items, modules)) =>
    if items.length = 0 then (w, .error (.text "no data objects to summarize"))
    else
      match scanRows env.emptyIsNoData modules with
      | .error e =>
        if e.isNoData then (w, .ok false) else (w, .error (.wrap "failed to decode modules" e))
      | .ok _ => (w, .ok true)

/-- `DataObjectTypesForSummary`: the types of role table or view that are not
summarized (the `order_by` of the query is left out). -/
def DataObjectTypesForSummary (env : Summarizer) (w : World) :
    World × Except Err (List TypeRow) :=
  match query (fun c => c.types.filter (fun t =>
      (decide (t.HugrType = env.sk.HugrTypeTable) || decide (t.HugrType = env.sk.HugrTypeView))
        && !t.IsSummarized)) w with
  | (w, .error e) => (w, .error (.wrap "failed to summarize data objects" e))
  | (w, .ok rows) =>
    match scanRows env.emptyIsNoData rows with
    | .error e =>
      if e.isNoData then (w, .ok []) else (w, .error (.wrap "failed to decode data objects" e))
    | .ok rows => (w, .ok rows)

/-- `FunctionFieldsForSummary`, called with the context of the task group:
the function fields of module root types that are not summarized. -/
def FunctionFieldsForSummary (env : Summarizer) (ctx : Bool) (w : World) :
    World × Except Err (List FieldRow) :=
  if !ctx then (w, .error (.wrap "failed to query function fields" ctxCanceled))
  else
    match query (fun c => c.fields.filter (fun f =>
        !f.IsSummarized && decide (f.HugrType = env.sk.HugrTypeFieldFunction) &&
        c.types.any (fun t =>
          decide (t.Name = f.TypeName) && decide (t.HugrType = env.sk.HugrTypeModule)))) w with
    | (w, .error e) => (w, .error (.wrap "failed to query function fields" e))
    | (w, .ok rows) =>
      match scanRows env.emptyIsNoData rows with
      | .error e =>
        if e.isNoData then (w, .ok [])
        else (w, .error (.wrap "failed to scan function fields" e))
      | .ok rows => (w, .ok rows)

/-- `dataSourcesForSummary`. -/
def dataSourcesForSummary (env : Summarizer) (w : World) : World × Except Err (List String) :=
  match query (fun c => (c.dataSources.filter (fun d => !d.IsSummarized)).map
      (fun d => d.Name)) w with
  | (w, .error e) => (w, .error (.wrap "failed to query data sources" e))
  | (w, .ok rows) =>
    match scanRows env.emptyIsNoData rows with
    | .error e => (w, .error (.wrap "failed to decode data sources" e))
    | .ok dss =>
      if dss.length = 0 then (w, .error (.text "no data sources to summarize"))
      else (w, .ok (dss.filter (fun n => decide (n ≠ env.sk.Extension))))

/-- The names of the modules that are not summarized, as the store holds them. -/
def modulesAwaiting (c : Catalog) : List String :=
  (c.modules.filter (fun m => !m.IsSummarized)).map (fun m => m.Name)

/-- `modulesForSummary`. -/
def modulesForSummary (env : Summarizer) (w : World) : World × Except Err (List String) :=
  match query modulesAwaiting w with
  | (w, .error e) => (w, .error (.wrap "failed to query modules" e))
  | (w, .ok rows) =>
    match scanRows env.emptyIsNoData rows with
    | .error e =>
      if !e.isNoData then (w, .error (.wrap "failed to decode modules" e))
      else (w, .error (.text "no modules to summarize"))
    | .ok modules =>
      if modules.length = 0 then (w, .error (.text "no modules to summarize"))
      else (w, .ok (modulesOrder modules))

/-- The descriptor that `SummarizeDataObject` looks up for a type row. -/
def dataObjectOf (sk : SummaryConsts) (summary : MetaSummary) (t : TypeRow) :
    Option DataObjectInfo :=
  let path := if t.Module ≠ "" then t.Module ++ "." ++ t.Name else t.Name
  if t.HugrType = sk.HugrTypeTable then summary.Table path
  else if t.HugrType = sk.HugrTypeView then summary.View path
  else none

/-- The updates of a loop over `ds.Fields` or `ds.ExtraFields` (steps 2, 3). -/
def columnUpdates (t : TypeRow) (d : DataObjectInfo) (fields : List (String × String))
    (msg msgAgg msgSub : String) : List (Update × String) :=
  fields.flatMap (fun nd =>
    [(Update.field t.Name nd.1 nd.2 true, msg)] ++
    (if d.AggregationType ≠ "" then [(Update.field d.AggregationType nd.1 nd.2 true, msgAgg)]
     else []) ++
    (if d.SubAggregationType ≠ "" then
      [(Update.field d.SubAggregationType nd.1 nd.2 true, msgSub)]
     else []))

/-- The updates of the filter type (step 3, second). -/
def filterUpdates (d : DataObjectInfo) (ds : DataObjectSummary) : List (Update × String) :=
  if d.FilterType ≠ "" then
    ds.Filter.Fields.map (fun nd =>
      (Update.field d.FilterType nd.1 nd.2 true, "failed to update filter field description")) ++
    ds.Filter.References.map (fun nd =>
      (Update.field d.FilterType nd.1 nd.2 true,
        "failed to update filter reference description")) ++
    [(Update.type d.FilterType ds.Filter.Row "" true,
      "failed to update filter type description")]
  else []

/-- The updates for one reference (step 4). -/
def referenceUpdates (t : TypeRow) (d : DataObjectInfo)
    (rs : List (String × DataObjectSubQuerySummary)) (ref : SubqueryInfo) :
    List (Update × String) :=
  match rs.lookup ref.Name with
  | none => []
  | some r =>
    (if r.Select ≠ "" then
      [(Update.field t.Name ref.FieldDataQuery r.Select true,
        "failed to update reference field description")] else []) ++
    (if r.Agg ≠ "" ∧ ref.FieldAggQuery ≠ "" then
      [(Update.field t.Name ref.FieldAggQuery r.Agg true,
        "failed to update reference agg field description")] else []) ++
    (if r.BucketAgg ≠ "" ∧ ref.FieldBucketAggQuery ≠ "" then
      [(Update.field t.Name ref.FieldBucketAggQuery r.BucketAgg true,
        "failed to update reference bucket agg field description")] else []) ++
    (if d.AggregationType ≠ "" ∧ r.Select ≠ "" then
      [(Update.field d.AggregationType ref.FieldDataQuery r.Select true,
        "failed to update reference agg field description")] ++
      (if ref.FieldAggQuery ≠ "" then
        [(Update.field d.AggregationType ref.FieldAggQuery r.Agg true,
          "failed to update reference agg field description")] else [])
     else []) ++
    (if d.SubAggregationType ≠ "" ∧ ref.FieldAggQuery ≠ "" ∧ r.Agg ≠ "" then
      [(Update.field d.SubAggregationType ref.FieldDataQuery r.Agg true,
        "failed to update reference subagg field description")] else [])

/-- The updates for one subquery (step 5). -/
def subqueryUpdates (t : TypeRow) (d : DataObjectInfo)
    (ss : List (String × DataObjectSubQuerySummary)) (sq : SubqueryInfo) :
    List (Update × String) :=
  match ss.lookup sq.Name with
  | none => []
  | some r =>
    (if r.Select ≠ "" then
      [(Update.field t.Name sq.FieldDataQuery r.Select true,
        "failed to update subquery field description")] else []) ++
    (if r.Agg ≠ "" then
      [(Update.field t.Name sq.FieldAggQuery r.Agg true,
        "failed to update subquery field description")] else []) ++
    (if r.BucketAgg ≠ "" then
      [(Update.field t.Name sq.FieldBucketAggQuery r.BucketAgg true,
        "failed to update subquery field description")] else []) ++
    (if d.AggregationType ≠ "" ∧ r.Select ≠ "" then
      [(Update.field d.AggregationType sq.FieldDataQuery r.Select true,
        "failed to update reference agg field description")] ++
      (if sq.FieldAggQuery ≠ "" then
        [(Update.field d.AggregationType sq.FieldAggQuery r.Agg true,
          "failed to update reference agg field description")] else [])
     else []) ++
    (if d.SubAggregationType ≠ "" ∧ sq.FieldAggQuery ≠ "" ∧ r.Agg ≠ "" then
      [(Update.field d.SubAggregationType sq.FieldDataQuery r.Agg true,
        "failed to update reference subagg field description")] else [])

/-- The updates for one function call field (step 6). -/
def functionCallUpdates (t : TypeRow) (d : DataObjectInfo) (fcs : List (String × String))
    (fc : FunctionCallInfo) : List (Update × String) :=
  if (fcs.lookup fc.Name).getD "" = "" then []
  else
    [(Update.field t.Name fc.FieldName ((fcs.lookup fc.Name).getD "") true,
      "failed to update function call field description")] ++
    (if d.AggregationType ≠ "" then
      [(Update.field d.AggregationType fc.FieldName ((fcs.lookup fc.Name).getD "") true,
        "failed to update reference agg field description")] else [])

/-- The updates that `SummarizeDataObject` makes before it reads the module
(steps 2 to 6), in order. -/
def objectUpdatesFirst (t : TypeRow) (d : DataObjectInfo) (ds : DataObjectSummary) :
    List (Update × String) :=
  columnUpdates t d ds.Fields "failed to update field description"
    "failed to update agg field description" "failed to update subagg field description" ++
  columnUpdates t d ds.ExtraFields "failed to update extra field description"
    "failed to update agg extra field description"
    "failed to update subagg extra field description" ++
  filterUpdates d ds ++
  (match ds.References with
   | none => []
   | some rs => d.References.flatMap (referenceUpdates t d rs)) ++
  (match ds.SubQueries with
   | none => []
   | some ss => d.Subqueries.flatMap (subqueryUpdates t d ss)) ++
  (match ds.FunctionCalls with
   | none => []
   | some fcs => d.FunctionCalls.flatMap (functionCallUpdates t d fcs))

/-- The prefix of the query-time fields of the data source of the object. -/
def dsPrefixOf (summary : MetaSummary) (d : DataObjectInfo) : String :=
  summary.DataSources.foldl (fun acc s =>
    if s.Name = d.DataSource ∧ s.AsModule = true ∧ s.Prefix ≠ "" then s.Prefix ++ "_" else acc) ""

/-- The updates for one query of the object (step 7). -/
def queryUpdates (env : Summarizer) (summary : MetaSummary) (t : TypeRow) (d : DataObjectInfo)
    (m : ModuleRow) (qs : List (String × String)) (sq : QueryInfo) : List (Update × String) :=
  match qs.lookup sq.Name with
  | none => []
  | some desc =>
    [(Update.field m.QueryRoot sq.Name desc true,
      "failed to update module query field description")] ++
    (if sq.Typ = env.k.QueryTypeSelectOne ∨ sq.Typ = env.sk.QueryTypeH3 ∨
        sq.Typ = env.sk.QueryTypeJQ then []
     else
      [(Update.field env.k.QueryTimeJoinsTypeName (dsPrefixOf summary d ++ sq.Name) desc true,
        "data object " ++ t.Name ++ ": Failed to update subquery field description"),
       (Update.field env.k.QueryTimeSpatialTypeName (dsPrefixOf summary d ++ sq.Name) desc true,
        "data object " ++ t.Name ++ ": Failed to update subquery field description"),
       (Update.field env.k.H3DataQueryTypeName (dsPrefixOf summary d ++ sq.Name) desc true,
        "data object " ++ t.Name ++ ": Failed to update subquery field description")])

/-- The updates that `SummarizeDataObject` makes after it has read the module
and before the row of the object (steps 7 to 9), in order. -/
def objectUpdatesSecond (env : Summarizer) (summary : MetaSummary) (t : TypeRow)
    (d : DataObjectInfo) (ds : DataObjectSummary) (m : ModuleRow) : List (Update × String) :=
  (match ds.Queries with
   | none => []
   | some qs => d.Queries.flatMap (queryUpdates env summary t d m qs)) ++
  (match d.Mutations, ds.Mutations with
   | some _, some ms =>
     if m.MutationRoot ≠ "" then
       (ms.filter (fun nd => decide (nd.2 ≠ ""))).map (fun nd =>
         (Update.field m.MutationRoot nd.1 nd.2 true,
           "data object " ++ t.Name ++ ": Failed to update mutation field description"))
     else []
   | _, _ => []) ++
  (match d.Arguments with
   | some a =>
     if ds.Arguments.Short ≠ "" then
       a.NestedFields.flatMap (fun arg =>
         match ds.Arguments.Fields.lookup arg with
         | none => []
         | some desc =>
           [(Update.field a.Typ arg desc true,
             "data object " ++ t.Name ++ ": Failed to update argument field description")]) ++
       [(Update.type a.Typ ds.Arguments.Short "" true,
         "data object " ++ t.Name ++ ": Failed to update argument type description")]
     else []
   | none => [])

/-- The update of the row of the object (step 1, made after step 9). -/
def objectRowUpdate (t : TypeRow) (ds : DataObjectSummary) : List (Update × String) :=
  [(Update.type t.Name ds.Short ds.Long true, "failed to update type description")]

/-- The updates that follow the update of the row of the object: the
aggregation, sub-aggregation and bucket-aggregation types. -/
def objectUpdatesLast (d : DataObjectInfo) (ds : DataObjectSummary) : List (Update × String) :=
  (if ds.AggregationTypeShort ≠ "" ∧ d.AggregationType ≠ "" then
    [(Update.type d.AggregationType ds.AggregationTypeShort ds.AggregationTypeLong true,
      "failed to update agg type description")] else []) ++
  (if ds.SubAggregationTypeShort ≠ "" ∧ d.SubAggregationType ≠ "" then
    [(Update.type d.SubAggregationType ds.SubAggregationTypeShort ds.SubAggregationTypeLong
        true, "failed to update subagg type description")] else []) ++
  (if ds.BucketAggregationTypeShort ≠ "" ∧ d.BucketAggregationType ≠ "" then
    [(Update.type d.BucketAggregationType ds.BucketAggregationTypeShort
        ds.BucketAggregationTypeLong true, "failed to update bucket agg type description")]
   else [])

/-- `SummarizeDataObject`, for the type row `t`, under a context that is live
(`ctx`) or canceled.  When the descriptor is not found the source only logs it
and goes on to dereference it: the outcome is the panic.  A canceled context
fails the generation, the first call that takes the context. -/
def SummarizeDataObject (env : Summarizer) (o : Outcomes) (summary : MetaSummary) (t : TypeRow)
    (ctx : Bool) (w : World) : World × Option Err :=
  match dataObjectOf env.sk summary t with
  | none => (w, some (.panic "nil data object"))
  | some d =>
    match (if ctx then o.dataObject t.Name else .error ctxCanceled) with
    | .error e =>
      (w, some (.wrap ("failed to summarize data object " ++
        (if t.Module ≠ "" then t.Module ++ "." ++ t.Name else t.Name)) e))
    | .ok ds =>
      andThen (runUpdates env.cfg (objectUpdatesFirst t d ds) w) fun w =>
      match ModuleByName t.Module w with
      | (w, .error e) =>
        (w, some (.wrap ("data object " ++ t.Name ++ ": Failed to get module by name") e))
      | (w, .ok m) =>
        runUpdates env.cfg (objectUpdatesSecond env summary t d ds m ++ objectRowUpdate t ds ++
          objectUpdatesLast d ds) w

/-- The updates of `SummarizeFunction` (steps 4 to 7), in order: the row of
the function field first. -/
def functionUpdates (f : FieldRow) (fi : FunctionInfo) (fs : FunctionSummary) (path : String) :
    List (Update × String) :=
  [(Update.field f.TypeName f.Name fs.Long true,
    "function " ++ path ++ " failed to update field description")] ++
  (match fs.Parameters with
   | none => []
   | some ps => fi.Arguments.flatMap (fun arg =>
       match ps.lookup arg.Name with
       | none => []
       | some desc =>
         [(Update.argument f.TypeName f.Name arg.Name desc,
           "function " ++ path ++ " failed to update parameter description")])) ++
  (if fs.Returns.Fields.length ≠ 0 then
    [(Update.type fi.ReturnType fs.Returns.Short fs.Long true,
      "function " ++ path ++ " failed to update return type description")] ++
    fi.ReturnTypeFields.flatMap (fun rf =>
      match fs.Returns.Fields.lookup rf with
      | none => []
      | some desc =>
        [(Update.field fi.ReturnType rf desc true,
          "function " ++ path ++ " failed to update return field description")])
   else [])

/-- `SummarizeFunction`, for the field row `f`. -/
def SummarizeFunction (env : Summarizer) (o : Outcomes) (summary : MetaSummary) (f : FieldRow)
    (ctx : Bool) (w : World) : World × Option Err :=
  match (if ctx then ModuleByTypeName env f.TypeName w
         else (w, .error (.wrap "failed to get module by type name" ctxCanceled))) with
  | (w, .error e) =>
    (w, some (.wrap ("function " ++ f.Name ++ " failed to get module by type name") e))
  | (w, .ok m) =>
    match (summary.Function (if m.Name ≠ "" then m.Name ++ "." ++ f.Name else f.Name)).orElse
        (fun _ =>
          summary.MutateFunction (if m.Name ≠ "" then m.Name ++ "." ++ f.Name else f.Name)) with
    | none =>
      (w, some (.text ("function " ++
        (if m.Name ≠ "" then m.Name ++ "." ++ f.Name else f.Name) ++ " not found")))
    | some fi =>
      match o.function f.TypeName f.Name with
      | .error e =>
        (w, some (.wrap ("function " ++
          (if m.Name ≠ "" then m.Name ++ "." ++ f.Name else f.Name) ++
          " failed to get summary") e))
      | .ok fs =>
        runUpdates env.cfg
          (functionUpdates f fi fs (if m.Name ≠ "" then m.Name ++ "." ++ f.Name else f.Name)) w

/-- `SummarizeDataSource`. -/
def SummarizeDataSource (env : Summarizer) (o : Outcomes) (name : String) (ctx : Bool)
    (w : World) : World × Option Err :=
  match (if ctx then dataSourceForSummary env name w
         else (w, .error (.wrap "failed to query data source" ctxCanceled))) with
  | (w, .error e) => (w, some (.wrap "failed to get data source for summary" e))
  | (w, .ok false) => (w, some (.text "data source not found"))
  | (w, .ok true) =>
    match o.dataSource name with
    | .error e => (w, some (.wrap ("failed to summarize data source " ++ name) e))
    | .ok s =>
      runUpdates env.cfg
        [(Update.dataSource name s.Short s.Long true,
          "failed to update data source description")] w

/-- The updates of the root types of a module. -/
def moduleRootUpdates (mm : ModuleRow) (ms : ModuleSummary) : List (Update × String) :=
  (if mm.QueryRoot ≠ "" ∧ ms.QueryType ≠ "" then
    [(Update.type mm.QueryRoot ms.QueryType "" true,
      "failed to update query root type description")] else []) ++
  (if mm.MutationRoot ≠ "" ∧ ms.MutationType ≠ "" then
    [(Update.type mm.MutationRoot ms.MutationType "" true,
      "failed to update mutation root type description")] else []) ++
  (if mm.FunctionRoot ≠ "" ∧ ms.FunctionType ≠ "" then
    [(Update.type mm.FunctionRoot ms.FunctionType "" true,
      "failed to update function root type description")] else []) ++
  (if mm.MutFunctionRoot ≠ "" ∧ ms.MutFunctionType ≠ "" then
    [(Update.type mm.MutFunctionRoot ms.MutFunctionType "" true,
      "failed to update mutation function root type description")] else [])

/-- The updates of the fields of the parent module named after the module. -/
def parentFieldUpdates (parentName last : String) (parent : ModuleRow) (ms : ModuleSummary) :
    List (Update × String) :=
  (if parent.QueryRoot ≠ "" ∧ ms.QueryType ≠ "" then
    [(Update.field parent.QueryRoot last ms.QueryType true,
      "failed to update parent module " ++ parentName ++ " field " ++ last)] else []) ++
  (if parent.MutationRoot ≠ "" ∧ ms.MutationType ≠ "" then
    [(Update.field parent.MutationRoot last ms.MutationType true,
      "failed to update parent module " ++ parentName ++ " field " ++ last)] else []) ++
  (if parent.FunctionRoot ≠ "" ∧ ms.FunctionType ≠ "" then
    [(Update.field parent.FunctionRoot last ms.FunctionType true,
      "failed to update parent module " ++ parentName ++ " field " ++ last)] else []) ++
  (if parent.MutFunctionRoot ≠ "" ∧ ms.MutFunctionType ≠ "" then
    [(Update.field parent.MutFunctionRoot last ms.MutFunctionType true,
      "failed to update parent module " ++ parentName ++ " field " ++ last)] else [])

/-- The update of the row of the module, the last statement of
`SummarizeModule`. -/
def moduleRowUpdate (name : String) (ms : ModuleSummary) : List (Update × String) :=
  if ms.Short ≠ "" ∨ ms.Long ≠ "" then
    [(Update.module name ms.Short ms.Long true,
      "failed to update module " ++ name ++ " description")]
  else []

/-- `SummarizeModule`. -/
def SummarizeModule (env : Summarizer) (o : Outcomes) (name : String) (ctx : Bool)
    (w : World) : World × Option Err :=
  match (if ctx then moduleForSummary name w
         else (w, .error (.wrap "failed to query modules" ctxCanceled))) with
  | (w, .error e) => (w, some (.wrap "failed to get module for summary" e))
  | (w, .ok none) => (w, some (.text ("module " ++ name ++ " not found")))
  | (w, .ok (some mm)) =>
    andThen (wrapErr ("failed to get data sources for module " ++ name) (dataSourcesByNames w))
      fun w =>
    match o.module name with
    | .error e => (w, some (.wrap ("failed to summarize module " ++ name) e))
    | .ok ms =>
      andThen (runUpdates env.cfg (moduleRootUpdates mm ms) w) fun w =>
      andThen
        (if (splitDot name).length > 1 then
          match ModuleByName (".".intercalate (splitDot name).dropLast) w with
          | (w, .error e) =>
            (w, some (.wrap ("failed to get parent module " ++
              ".".intercalate (splitDot name).dropLast) e))
          | (w, .ok parent) =>
            runUpdates env.cfg
              (parentFieldUpdates (".".intercalate (splitDot name).dropLast)
                ((splitDot name).getLastD "") parent ms) w
         else (w, none)) fun w =>
      runUpdates env.cfg (moduleRowUpdate name ms) w

/-- An `errgroup.Group` made by `errgroup.WithContext`: the first error
returned by a task, and whether the context of the group is canceled. -/
structure Group where
  err : Option Err := none
  canceled : Bool := false
deriving Repr, DecidableEq

/-- State of a run of `Summarize`: the store, the task group of the current
phase, and, for the record, the targets selected so far and the tasks run so
far, each with the state of the context it ran under (true: live). -/
structure SumState where
  world : World
  group : Group := {}
  selected : List Target := []
  ran : List (Target × Bool) := []

/-- `eg.Go(f)`, the tasks being run one after the other in the order of the
calls: the task runs under the context of the group; the first error that a
task returns is kept and cancels the context.  A panic ends the run. -/
def SumState.Go (t : Target) (f : Bool → World → World × Option Err) (s : SumState) :
    SumState × Option Err :=
  match f (!s.group.canceled) s.world with
  | (w, some (.panic m)) =>
    ({ s with world := w, ran := s.ran ++ [(t, !s.group.canceled)] }, some (.panic m))
  | (w, some e) =>
    ({ s with
       world := w, ran := s.ran ++ [(t, !s.group.canceled)],
       group := { err := if s.group.err.isSome then s.group.err else some e, canceled := true } },
     none)
  | (w, none) => ({ s with world := w, ran := s.ran ++ [(t, !s.group.canceled)] }, none)

/-- Body of the closures that `Summarize` hands to `eg.Go`: the error of the
task is logged and nil is returned. -/
def logged (task : World → World × Option Err) (w : World) : World × Option Err :=
  match task w with
  | (w, some (.panic m)) => (w, some (.panic m))
  | (w, _) => (w, none)

/-- The task runs with the transport outcomes that the run gives to its
target; the outcomes of the round trips of `Summarize` itself are not touched. -/
def withFaults (fs : List (Option Err)) (task : World → World × Option Err) (w : World) :
    World × Option Err :=
  ({ (task { w with faults := fs }).1 with faults := w.faults }, (task { w with faults := fs }).2)

/-- `eg.Wait()` followed by `if err != nil { return fmt.Errorf(msg, err) }`. -/
def SumState.Wait (msg : String) (s : SumState) : SumState × Option Err :=
  match s.group.err with
  | some e => (s, some (.wrap msg e))
  | none => (s, none)

/-- The slice that a selection leaves when its error is not looked at: nil on
error. -/
def orNil {α : Type} : Except Err (List α) → List α
  | .ok l => l
  | .error _ => []

/-- Step 3 of `Summarize`: the selection of the functions, whose error is not
looked at, the dispatch of their tasks to the task group of the objects, and
the wait for the group. -/
def summarizeFunctions (env : Summarizer) (o : Outcomes) (summary : MetaSummary)
    (s : SumState) : SumState × Option Err :=
  andThen (forEachE (fun (f : FieldRow) (s : SumState) =>
      s.Go (.function f.TypeName f.Name) (fun ctx =>
        logged (withFaults (o.faults (.function f.TypeName f.Name))
          (SummarizeFunction env o summary f ctx))))
      (orNil (FunctionFieldsForSummary env (!s.group.canceled) s.world).2)
      { s with
        world := (FunctionFieldsForSummary env (!s.group.canceled) s.world).1,
        selected := s.selected ++
          (orNil (FunctionFieldsForSummary env (!s.group.canceled) s.world).2).map
            (fun f => Target.function f.TypeName f.Name) })
    fun s =>
  s.Wait "failed to summarize data objects and functions"

/-- Phase of the data objects and functions (steps 2 and 3 of `Summarize`),
for the selected objects. -/
def summarizeObjectsAndFunctions (env : Summarizer) (o : Outcomes) (summary : MetaSummary)
    (objects : List TypeRow) (s : SumState) : SumState × Option Err :=
  andThen (forEachE (fun (t : TypeRow) (s : SumState) =>
      s.Go (.dataObject t.Name) (fun ctx =>
        logged (withFaults (o.faults (.dataObject t.Name))
          (SummarizeDataObject env o summary t ctx)))) objects
      { s with group := {},
               selected := s.selected ++ objects.map (fun t => Target.dataObject t.Name) })
    fun s =>
  summarizeFunctions env o summary s

/-- Dispatch of the data source tasks and the wait for them. -/
def dispatchDataSources (env : Summarizer) (o : Outcomes) (dataSources : List String)
    (s : SumState) : SumState × Option Err :=
  andThen (forEachE (fun (n : String) (s : SumState) => s.Go (.dataSource n) (fun ctx =>
      logged (withFaults (o.faults (.dataSource n)) (SummarizeDataSource env o n ctx))))
      dataSources
      { s with selected := s.selected ++ dataSources.map Target.dataSource })
    fun s =>
  s.Wait "failed to summarize modules"

/-- Phase of the data sources (step 4). -/
def summarizeDataSources (env : Summarizer) (o : Outcomes) (s : SumState) :
    SumState × Option Err :=
  match dataSourcesForSummary env s.world with
  | (w, .error e) =>
    if !e.isNoData then
      ({ s with world := w, group := {} }, some (.wrap "failed to summarize data sources" e))
    else dispatchDataSources env o [] { s with world := w, group := {} }
  | (w, .ok dataSources) => dispatchDataSources env o dataSources { s with world := w, group := {} }

/-- Dispatch of the module tasks, in the order of the list, and the wait for
them. -/
def dispatchModules (env : Summarizer) (o : Outcomes) (modules : List String)
    (s : SumState) : SumState × Option Err :=
  andThen (forEachE (fun (n : String) (s : SumState) => s.Go (.module n) (fun ctx =>
      logged (withFaults (o.faults (.module n)) (SummarizeModule env o n ctx))))
      modules
      { s with selected := s.selected ++ modules.map Target.module })
    fun s =>
  (s, s.group.err)

/-- Phase of the modules (step 5). -/
def summarizeModules (env : Summarizer) (o : Outcomes) (s : SumState) : SumState × Option Err :=
  match modulesForSummary env s.world with
  | (w, .error e) =>
    if e.isNoData then ({ s with world := w, group := {} }, none)
    else ({ s with world := w, group := {} }, some (.wrap "failed to summarize modules" e))
  | (w, .ok modules) => dispatchModules env o modules { s with world := w, group := {} }

/-- `Summarize`, with the tasks of a phase run one after the other in the
order in which they are handed to the task group. -/
def Summarize (env : Summarizer) (o : Outcomes) (w : World) : SumState × Option Err :=
  match fetchSummary env w with
  | (w, .error e) => ({ world := w }, some (.wrap "failed to fetch meta summary" e))
  | (w, .ok summary) =>
    match DataObjectTypesForSummary env w with
    | (w, .error e) => ({ world := w }, some (.wrap "failed to summarize data objects" e))
    | (w, .ok objects) =>
      andThen (summarizeObjectsAndFunctions env o summary objects { world := w }) fun s =>
      andThen (summarizeDataSources env o s) fun s =>
      summarizeModules env o s

/-- Whether the target is a function. -/
def Target.isFunction : Target → Bool
  | .function _ _ => true
  | _ => false

/-- Whether the call updates the modules table. -/
def Update.isModule : Update → Bool
  | .module _ _ _ _ => true
  | _ => false

/-- Whether the call updates the data sources table. -/
def Update.isDataSource : Update → Bool
  | .dataSource _ _ _ _ => true
  | _ => false

/-- The type row has a descriptor in the meta summary that `fetchSummary`
decodes (when it decodes none, `Summarize` returns at once). -/
def described (env : Summarizer) (t : TypeRow) : Bool :=
  match env.summary with
  | .ok summary => (dataObjectOf env.sk summary t).isSome
  | .error _ => true

/-- Every data object that awaits summarization in the store is described by
the meta summary. -/
@[reducible]
def objectsDescribed (env : Summarizer) (c : Catalog) : Prop :=
  ∀ t ∈ c.types,
    ((decide (t.HugrType = env.sk.HugrTypeTable) || decide (t.HugrType = env.sk.HugrTypeView))
      && !t.IsSummarized) = true →
    described env t = true

/-- Sample values of the external names read by the summarization. -/
def summaryConstsC : SummaryConsts :=
  { HugrTypeTable := "table", HugrTypeView := "view", HugrTypeModule := "module",
    HugrTypeFieldFunction := "function", Extension := "extension",
    QueryTypeH3 := "h3", QueryTypeJQ := "jq" }

/-- A meta summary with the data object `T` (aggregation type `T_agg`) and the
function `f` with the argument `x`. -/
def metaC : MetaSummary :=
  { Table := fun p => if p = "T" then some { Name := "T", AggregationType := "T_agg" } else none
    View := fun _ => none
    Function := fun p =>
      if p = "f" then some { Name := "f", Arguments := [{ Name := "x", Typ := "Int" }] } else none
    MutateFunction := fun _ => none }

/-- A summarizer over `metaC`, for either behaviour of `ScanData` on an empty
result set; the items and modules of a data source are read off the types
table. -/
def summarizerC (emptyIsNoData : Bool) : Summarizer :=
  { k := specConsts, sk := summaryConstsC, emptyIsNoData := emptyIsNoData, summary := .ok metaC
    catalogItems := fun c n =>
      (c.types.filter (fun t => decide (t.Catalog = n))).map (fun t => t.Name)
    catalogModules := fun c n =>
      (c.types.filter (fun t => decide (t.Catalog = n))).map (fun t => t.Module) }

/-- Every round trip succeeds and the summary service returns a summary for
every target. -/
def outcomesOk : Outcomes :=
  { faults := fun _ => []
    dataObject := fun _ => .ok { Short := "s", Long := "l", AggregationTypeShort := "a" }
    function := fun _ _ => .ok { Long := "L", Parameters := some [("x", "d")] }
    dataSource := fun _ => .ok { Short := "s", Long := "l" }
    module := fun _ => .ok { Short := "s" } }

/-- The summary service fails for every target. -/
def outcomesFail : Outcomes :=
  { faults := fun _ => []
    dataObject := fun _ => .error (.text "generation failed")
    function := fun _ _ => .error (.text "generation failed")
    dataSource := fun _ => .error (.text "generation failed")
    module := fun _ => .error (.text "generation failed") }

/-- A store with the data object `T`, the function field `f` of the root
module, a data source and two modules, none of them summarized. -/
def catalogC18 : Catalog :=
  { types := [{ Name := "T", HugrType := "table", Catalog := "ds" }, { Name := "T_agg" },
              { Name := "Function", HugrType := "module" }]
    fields := [{ Name := "f", TypeName := "Function", HugrType := "function" }]
    arguments := [{ Name := "x", FieldName := "f", TypeName := "Function" }]
    modules := [{ Name := "", FunctionRoot := "Function" }, { Name := "a" }]
    dataSources := [{ Name := "ds" }] }

/-- The store `catalogC18` after a pass that summarized every module. -/
def catalogModulesDone : Catalog :=
  { catalogC18 with
    modules := [{ Name := "", FunctionRoot := "Function", IsSummarized := true },
                { Name := "a", IsSummarized := true }] }

/-- The store `catalogC18` after a pass that summarized the data source. -/
def catalogDataSourcesDone : Catalog :=
  { catalogC18 with dataSources := [{ Name := "ds", IsSummarized := true }] }

/-- A store with the modules `a`, `a.b`, `a.b.c` and the root module awaiting
summarization, and a summarized module `z`. -/
def catalogC17 : Catalog :=
  { modules := [{ Name := "a" }, { Name := "z", IsSummarized := true }, { Name := "a.b" },
                { Name := "" }, { Name := "a.b.c" }] }

/-- The updates of a list write to the types, fields and arguments tables only. -/
def SchemaOnly (us : List (Update × String)) : Prop :=
  ∀ u ∈ us, u.1.isModule = false ∧ u.1.isDataSource = false

/-- The step did not end in a panic. -/
def NoPanic {σ : Type} (r : σ × Option Err) : Prop := ∀ m, r.2 ≠ some (.panic m)

/-- Every target selected so far had its task run, under a live context, in
the order of the selection. -/
def AllRan (s : SumState) : Prop := s.ran = s.selected.map (fun t => (t, true))

/-- The targets selected so far that are not functions. -/
def SumState.selectedOther (s : SumState) : List Target :=
  s.selected.filter (fun t => !t.isFunction)

/-! ## Claims on type references (`schema.go`) -/

/-- `TypeRefIntro.TypeName` on a pointer receiver: `none` is the nil
reference. -/
def TypeRefIntro.TypeNamePtr : Option TypeRefIntro → String
  | none => "Unknown"
  | some t => t.TypeName

/-- The `Name` fields of the nodes of a reference, outermost node first. -/
def TypeRefIntro.chainNames : TypeRefIntro → List String
  | .leaf n _ => [n]
  | .wrap n _ o => n :: o.chainNames

/-- The chain of a possibly nil reference; the nil reference has no node. -/
def chainOf : Option TypeRefIntro → List String
  | none => []
  | some t => t.chainNames

/-- Statement of the unwrapping rule: the name of the outermost node of the
chain that has a non-empty name, the sentinel when there is none. -/
def outermostNamed (names : List String) : String :=
  (names.find? (fun n => decide (n ≠ ""))).getD "Unknown"

/-! ## Claims on the summarization tasks (`summary_module.go`, `summary_object.go`) -/

/-- What identifies a journal entry: the mutation and the key it is issued
for. -/
def Write.key (e : Write) : Request × String × String × String :=
  (e.req, e.typeName, e.fieldName, e.name)

/-- The journal entry of a call of an update function. -/
def Update.key : Update → Request × String × String × String
  | .type name _ _ _ => (.update .types, "", "", name)
  | .field typeName fieldName _ _ => (.update .fields, typeName, "", fieldName)
  | .argument typeName fieldName argName _ => (.update .arguments, typeName, fieldName, argName)
  | .module name _ _ _ => (.update .modules, "", "", name)
  | .dataSource name _ _ _ => (.update .dataSources, "", "", name)

/-- The store after a call of an update function whose round trip goes
through. -/
def Update.effect (cfg : Config) (u : Update) (c : Catalog) : Catalog :=
  (u.run cfg { cat := c }).1.cat

/-- The keys of the entries that a run added to the journal. -/
def addedWrites (start result : World) : List (Request × String × String × String) :=
  (result.log.drop start.log.length).map Write.key

/-- Statement of the propagation: kind by kind, the root type of the parent
row paired with the root description of the module summary, for the kinds
where the parent has a root type and the description is not empty. -/
def rootDescriptions (parent : ModuleRow) (ms : ModuleSummary) : List (String × String) :=
  [(parent.QueryRoot, ms.QueryType), (parent.MutationRoot, ms.MutationType),
   (parent.FunctionRoot, ms.FunctionType), (parent.MutFunctionRoot, ms.MutFunctionType)].filter
    (fun p => decide (p.1 ≠ "") && decide (p.2 ≠ ""))

/-- Statement of the propagation: the fields table once the description `p.2`
is written on the field `fieldName` of the type `p.1`. -/
def describeField (cfg : Config) (fieldName : String) (fields : List FieldRow)
    (p : String × String) : List FieldRow :=
  fields.map fun r =>
    if r.TypeName = p.1 ∧ r.Name = fieldName then
      { r with
        Description := p.2, IsSummarized := true,
        Vec := if cfg.EmbeddingsEnabled then some p.2 else r.Vec }
    else r

/-- A store with the root module, the top-level module `a` and its submodule
`a.b`, each with a query root type, and the fields of the root types that lead
to the submodules. -/
def catalogC28 : Catalog :=
  { types := [{ Name := "Query" }, { Name := "a_query" }, { Name := "a_b_query" }]
    fields := [{ Name := "a", TypeName := "Query" }, { Name := "b", TypeName := "a_query" }]
    modules := [{ Name := "", QueryRoot := "Query" }, { Name := "a", QueryRoot := "a_query" },
                { Name := "a.b", QueryRoot := "a_b_query" }] }

/-- The summary service returns, for every module, a summary with the query
root description `d`. -/
def outcomesC28 : Outcomes :=
  { outcomesOk with module := fun _ => .ok { Short := "s", QueryType := "d" } }

/-! ## Field listing of a type (`introspections_type_fields.go`)

Scores are `float64` in the source; the model computes with rationals, on which
`1 - x` and the comparisons are those of the source wherever the float
operations are exact (as they are for the dyadic values of the example). -/

/-- `TypeFieldsRequest`. -/
structure TypeFieldsRequest where
  TypeName : String
  Limit : Int := 0
  Offset : Int := 0
  RelevanceQuery : String := ""
  TopK : Int := 0
  MinScore : ℚ := 0
  IncludeDescription : Bool := false
  IncludeArguments : Bool := false
deriving Repr, DecidableEq

/-- An argument row of `typeFieldInfoResult`. -/
structure typeFieldArgumentResult where
  Name : String
  Typ : String := ""
  Description : String := ""
  IsList : Bool := false
  IsNonNull : Bool := false
deriving Repr, DecidableEq

/-- `typeFieldInfoResult`: a row of the catalog query; `Score` is the
`_distance_to_query` of the row (0 when the query has no such column). -/
structure typeFieldInfoResult where
  Name : String
  Description : String := ""
  Typ : String := ""
  HugrType : String := ""
  IsList : Bool := false
  IsNonNull : Bool := false
  IsPrimaryKey : Bool := false
  Arguments : List typeFieldArgumentResult := []
  DescriptionSnippet : String := ""
  Score : ℚ := 0
deriving Repr, DecidableEq

/-- `TypeFieldArgumentInfo`. -/
structure TypeFieldArgumentInfo where
  Name : String
  TypeName : String := ""
  Description : String := ""
  IsList : Bool := false
  Required : Bool := false
deriving Repr, DecidableEq

/-- `TypeFieldInfo`. -/
structure TypeFieldInfo where
  Name : String
  TypeName : String := ""
  HugrType : String := ""
  IsList : Bool := false
  Nullable : Bool := false
  ArgumentsCount : Nat := 0
  Arguments : List TypeFieldArgumentInfo := []
  DescriptionSnippet : String := ""
  Score : ℚ := 0
deriving Repr, DecidableEq

/-- `SearchResult[TypeFieldInfo]`. -/
structure TypeFieldsResult where
  Total : Nat := 0
  Items : List TypeFieldInfo := []
deriving Repr, DecidableEq

/-- The four adjustments of the request at the head of
`TypeFieldsIntrospection`. -/
def TypeFieldsRequest.normalized (req : TypeFieldsRequest) : TypeFieldsRequest :=
  let req := if req.Limit ≤ 0 then { req with Limit := 20 } else req
  let req := if req.Limit > 100 then { req with Limit := 100 } else req
  let req := if req.Offset < 0 then { req with Offset := 0 } else req
  if req.RelevanceQuery ≠ "" ∧ req.TopK ≤ 0 then { req with TopK := 10 } else req

/-- The two tests `check field accessible` of the loop: the row is skipped
when the type is an object without a field of that name, or an input object
without an input field of that name. -/
def fieldAccessible (typeInfo : TypeIntro) (it : typeFieldInfoResult) : Bool :=
  !(decide (typeInfo.Kind = "OBJECT") &&
      !typeInfo.Fields.any (fun f => decide (f.Name = it.Name))) &&
  !(decide (typeInfo.Kind = "INPUT_OBJECT") &&
      !typeInfo.InputFields.any (fun f => decide (f.Name = it.Name)))

/-- The test `limit by relevance score` of the loop: the row is skipped when
it holds. -/
def scoreSkipped (req : TypeFieldsRequest) (it : typeFieldInfoResult) : Bool :=
  decide (req.RelevanceQuery ≠ "") && decide (req.MinScore > 0) &&
    decide (it.Score < 1 - req.MinScore)

/-- The item built from a row that is not skipped. -/
def fieldItem (req : TypeFieldsRequest) (it : typeFieldInfoResult) : TypeFieldInfo :=
  { Name := it.Name
    TypeName := it.Typ
    HugrType := it.HugrType
    IsList := it.IsList
    Nullable := !it.IsNonNull
    ArgumentsCount := it.Arguments.length
    Score := 1 - it.Score
    DescriptionSnippet := if req.IncludeDescription then it.DescriptionSnippet else ""
    Arguments :=
      if req.IncludeArguments then
        it.Arguments.map fun a =>
          { Name := a.Name, TypeName := a.Typ, Description := a.Description, IsList := a.IsList,
            Required := a.IsNonNull }
      else [] }

/-- The loop over the rows. -/
def fieldItems (req : TypeFieldsRequest) (typeInfo : TypeIntro)
    (items : List typeFieldInfoResult) : List TypeFieldInfo :=
  (items.filter fun it => fieldAccessible typeInfo it && !scoreSkipped req it).map (fieldItem req)

/-- The cut to `top_k` of the block `apply offset/limit or topK`. -/
def topKItems (req : TypeFieldsRequest) (out : List TypeFieldInfo) : List TypeFieldInfo :=
  if req.RelevanceQuery ≠ "" ∧ req.TopK > 0 then
    if (out.length : Int) > req.TopK then out.take req.TopK.toNat else out
  else out

/-- The offset and limit of the block `apply offset/limit or topK`. -/
def windowItems (req : TypeFieldsRequest) (out : List TypeFieldInfo) : List TypeFieldInfo :=
  if req.Limit > 0 ∧ req.Offset ≥ 0 then
    let out := if req.Offset < (out.length : Int) then out.drop req.Offset.toNat else []
    if (out.length : Int) > req.Limit then out.take req.Limit.toNat else out
  else out

/-- The block `apply offset/limit or topK`: the total is taken between the
two cuts. -/
def pageItems (req : TypeFieldsRequest) (out : List TypeFieldInfo) : TypeFieldsResult :=
  { Total := (topKItems req out).length, Items := windowItems req (topKItems req out) }

/-- `TypeFieldsIntrospection`, given the outcome of `typeIntroShort` and the
decoded rows of the catalog query (or the error of that round trip). -/
def TypeFieldsIntrospection (req : TypeFieldsRequest) (typeInfo : Except Err (Option TypeIntro))
    (rows : Except Err (List typeFieldInfoResult)) : Except Err TypeFieldsResult :=
  match typeInfo with
  | .error e => .error e
  | .ok none => .ok { Total := 0, Items := [] }
  | .ok (some ti) =>
    match rows with
    | .error e => .error (.wrap "query type fields" e)
    | .ok items => .ok (pageItems req.normalized (fieldItems req.normalized ti items))

/-- A request with the relevance query `q` and `min_score` one half. -/
def requestC22 : TypeFieldsRequest :=
  { TypeName := "T", RelevanceQuery := "q", MinScore := 1 / 2 }

/-- An object type with the fields `near` and `far`. -/
def typeC22 : TypeIntro :=
  { Name := "T", Fields := [{ Name := "near", Typ := .leaf "String" "SCALAR" },
                            { Name := "far", Typ := .leaf "String" "SCALAR" }] }

/-- The rows of the catalog for `typeC22`: `near` at distance one quarter of
the query (score three quarters), `far` at distance three quarters (score one
quarter). -/
def rowsC22 : List typeFieldInfoResult :=
  [{ Name := "near", Score := 1 / 4 }, { Name := "far", Score := 3 / 4 }]

/-! ## Statement vocabulary for the closure computed by `addFieldTypeRecursively` -/

/-- The names that `addFieldTypeRecursively` records under a type: those of
its fields and those of its input fields. -/
def TypeIntro.memberNames (t : TypeIntro) : List String :=
  t.Fields.map (fun f => f.Name) ++ t.InputFields.map (fun f => f.Name)

/-- What a finished expansion leaves for a type `x` marked between the maps
`m` and `r`: `x` resolves, its targets are marked in `r`, and its entry in the
`fieldsMap` of `r` holds its member names besides what `m` held for it. -/
def Completed (schema : SchemaIntro) (m r : Maps) (x : String) : Prop :=
  ∃ t, schema.TypeByName x = some t ∧ (∀ c ∈ t.targets, c ∈ r.typesMap) ∧
    ∃ l, fmGet r.fieldsMap x = some l ∧
      ∀ f, f ∈ l ↔ (f ∈ t.memberNames ∨ f ∈ (fmGet m.fieldsMap x).getD [])

/-- Relation between the maps before and after a call that returned no error:
nothing is unmarked, the entries of the types marked before and of the types
still unmarked are untouched, and every type marked by the call is completed. -/
structure Expanded (schema : SchemaIntro) (m r : Maps) : Prop where
  mono : ∀ x ∈ m.typesMap, x ∈ r.typesMap
  frame : ∀ x, (x ∈ m.typesMap ∨ x ∉ r.typesMap) → fmGet r.fieldsMap x = fmGet m.fieldsMap x
  completed : ∀ x ∈ r.typesMap, x ∉ m.typesMap → Completed schema m r x

/-- State of the expansion of `n`, started from `m`, when the members `F` are
recorded and the targets `Tg` are visited. -/
structure Expanding (schema : SchemaIntro) (m : Maps) (n : String) (F Tg : List String)
    (s : Maps) : Prop where
  self : n ∈ s.typesMap
  mono : ∀ x ∈ m.typesMap, x ∈ s.typesMap
  frame : ∀ x, x ≠ n → (x ∈ m.typesMap ∨ x ∉ s.typesMap) →
    fmGet s.fieldsMap x = fmGet m.fieldsMap x
  completed : ∀ x ∈ s.typesMap, x ∉ m.typesMap → x ≠ n → Completed schema m s x
  entry : ∃ l, fmGet s.fieldsMap n = some l ∧
    ∀ f, f ∈ l ↔ (f ∈ F ∨ f ∈ (fmGet m.fieldsMap n).getD [])
  targets : ∀ c ∈ Tg, c ∈ s.typesMap

/-- The targets of a field in the order of their visit: the argument types,
then the type of the field. -/
def FieldIntro.visited (f : FieldIntro) : List String :=
  f.Args.map (fun a => a.Typ.TypeName) ++ [f.Typ.TypeName]

/-- A schema with cycles: `A` and `B` refer to each other, the input type `In`
(an argument type of `A.b`) refers to itself, and `Other` is not referred to. -/
def schemaC23 : SchemaIntro :=
  { Types := [
      { Name := "A"
        Fields := [{ Name := "b", Typ := .wrap "" "LIST" (.leaf "B" "OBJECT")
                     Args := [{ Name := "x", Typ := .leaf "In" "INPUT_OBJECT" }] },
                   { Name := "s", Typ := .leaf "String" "SCALAR" }] },
      { Name := "B", Fields := [{ Name := "a", Typ := .wrap "" "NON_NULL" (.leaf "A" "OBJECT") }] },
      { Name := "In", Kind := "INPUT_OBJECT"
        InputFields := [{ Name := "y", Typ := .leaf "In" "INPUT_OBJECT" }] },
      { Name := "String", Kind := "SCALAR" },
      { Name := "Other", Fields := [{ Name := "o", Typ := .leaf "Other" "OBJECT" }] }] }

/-! ## Statement vocabulary for the module chain and the synthetic types -/

/-- The blocks of `fillDataObjectTypesForUpdate` between the loop over the
fields of the object type and the data source block: `fillDataObjectTail`
without its last two blocks. -/
def fillDataObjectHead (k : Consts) (schema : SchemaIntro) (info : SchemaInfo)
    (mi : ModuleInfo) (doi : DataObjectInfo) (doFieldsMap : List String)
    (m : Maps) : Maps × Option Err :=
  andThen (filterPart k schema doi doFieldsMap m) fun m =>
  andThen (aggregationPart schema doFieldsMap "aggregation type" doi.AggregationType
    (argumentsPart schema doi m)) fun m =>
  andThen (aggregationPart schema doFieldsMap "sub-aggregation type" doi.SubAggregationType m)
    fun m =>
  andThen (bucketPart schema doi.BucketAggregationType m) fun m =>
  fillModulesTypesRecursively info mi
    (functionRootsPart mi
      (mutationRootPart schema mi doi doFieldsMap (queryRootPart schema mi doi m)))

/-- The types whose `fieldsMap` entry the blocks of `fillDataObjectHead` write
by name: `tailFamily` without the synthetic types. -/
def headFamily (info : SchemaInfo) (doi : DataObjectInfo) : List String :=
  ([doi.FilterType, doi.AggregationType, doi.SubAggregationType, doi.BucketAggregationType] ++
    (info.RootModule :: info.modules).flatMap ModuleInfo.roots).filter
      (fun n => decide (n ≠ "")) ++
    (match doi.Mutations with
     | some mu => [mu.InsertDataType]
     | none => [])

/-- The synthetic types that hold fields of a data object: the two join types
and, for a spatial object, the two spatial types and the H3 type. -/
def syntheticFor (k : Consts) (spatial : Bool) : List String :=
  [k.QueryTimeJoinsTypeName, k.QueryTimeJoinsTypeName ++ k.AggregationSuffix] ++
    (if spatial then
      [k.QueryTimeSpatialTypeName, k.QueryTimeSpatialTypeName ++ k.AggregationSuffix,
       k.H3DataQueryTypeName]
     else [])

/-- Statement of the prefix rule: the prefix of the data source followed by
`_` when the data source of the object is known, is mounted as its own module
and has a non-empty prefix; empty otherwise. -/
def objectPrefix (info : SchemaInfo) (doi : DataObjectInfo) : String :=
  match info.DataSource doi.DataSource with
  | some ds => if ds.AsModule ∧ ds.Prefix ≠ "" then ds.Prefix ++ "_" else ""
  | none => ""

/-- Statement of the registration rule: the prefixed names of the queries of
the object whose kind is not select-one. -/
def joinNames (k : Consts) (pfx : String) (doi : DataObjectInfo) : List String :=
  (doi.Queries.filter (fun q => decide (q.Typ ≠ k.QueryTypeSelectOne))).map
    (fun q => pfx ++ q.Name)

/-- That a synthetic type is apart from the types of the object: it is not the
object type nor a type that `fillDataObjectHead` writes by name, and no
expansion started by the builder reaches it. -/
def Apart (k : Consts) (schema : SchemaIntro) (info : SchemaInfo) (doName : String)
    (ti : TypeIntro) (mi : ModuleInfo) (doi : DataObjectInfo) (T : String) : Prop :=
  T ∉ doName :: headFamily info doi ∧ ∀ root ∈ deepRoots k schema ti mi doi, ¬ Reach schema root T

/-- The descriptor of `X` of `objectC8`, in the data source `ds`. -/
def objectC26 : DataObjectInfo := { objectC8 with DataSource := "ds" }

/-- The summary of `infoC8` with the data source `ds`, mounted as a module with
the prefix `p`. -/
def infoC26 : SchemaInfo :=
  { modules := [{ Name := "m", QueryType := "Query", dataObjects := [objectC26] }]
    dataObjects := [objectC26]
    DataSources := [{ Name := "ds", AsModule := true, Prefix := "p" }] }

/-- The predicates that `clearDataObjectTypes` appends for one data object
before its block on the synthetic types: `dataObjectFilterSteps` without its
last part. -/
def familyFilterSteps (k : Consts) (doName : String) (mi : ModuleInfo) (doi : DataObjectInfo) :
    List (List RowFilter × List RowFilter) :=
  [typeFieldsAndArgs doName] ++
  (if doi.FilterType ≠ "" then
    [typeFields doi.FilterType, typeFields (listFilterName k doi.FilterType)]
   else []) ++
  (match doi.Arguments with
   | some a => if a.Typ ≠ "" then [typeFields a.Typ] else []
   | none => []) ++
  (if doi.AggregationType ≠ "" then [typeFieldsAndArgs doi.AggregationType] else []) ++
  (if doi.SubAggregationType ≠ "" then [typeFieldsAndArgs doi.SubAggregationType] else []) ++
  (if doi.BucketAggregationType ≠ "" then [typeFieldsAndArgs doi.BucketAggregationType]
   else []) ++
  (match doi.Mutations with
   | some mu =>
     (if mu.InsertDataType ≠ "" then [typeFields mu.InsertDataType] else []) ++
     (if mu.UpdateDataType ≠ "" then [typeFields mu.UpdateDataType] else [])
   | none => []) ++
  (if mi.QueryType ≠ "" then doi.Queries.map (fun q => fieldAndArg mi.QueryType q.Name)
   else []) ++
  (match doi.Mutations with
   | some mu =>
     if mi.MutationType ≠ "" then
       (if mu.InsertMutation ≠ "" then [fieldAndArg mi.MutationType mu.InsertMutation]
        else []) ++
       (if mu.UpdateMutation ≠ "" then [fieldAndArg mi.MutationType mu.UpdateMutation]
        else []) ++
       (if mu.DeleteMutation ≠ "" then [fieldAndArg mi.MutationType mu.DeleteMutation]
        else [])
     else []
   | none => [])

/-- That the predicates of `familyFilterSteps` are on other types than the
synthetic ones. -/
@[reducible]
def familyStepsApart (k : Consts) (doName : String) (mi : ModuleInfo) (doi : DataObjectInfo) :
    Prop :=
  ∀ T ∈ syntheticTypes k, ∀ s ∈ familyFilterSteps k doName mi doi,
    (∀ flt ∈ s.1, flt.type_name ≠ T) ∧ (∀ flt ∈ s.2, flt.type_name ≠ T)

/-- The field rows of the owner type `T` named `x` are selected by one of the
field predicates that `clearDataObjectTypes` builds for the object. -/
def fieldCleared (k : Consts) (info : SchemaInfo) (doName : String) (mi : ModuleInfo)
    (doi : DataObjectInfo) (T x : String) : Prop :=
  ∃ flt ∈ (dataObjectFilterSteps k info doName mi doi).flatMap (fun s => s.1),
    flt.type_name = T ∧ (flt.name = none ∨ flt.name = some x)

/-- The argument rows of the owner type `T` and owner field `x` are selected by
one of the argument predicates that `clearDataObjectTypes` builds for the
object. -/
def argumentCleared (k : Consts) (info : SchemaInfo) (doName : String) (mi : ModuleInfo)
    (doi : DataObjectInfo) (T x : String) : Prop :=
  ∃ flt ∈ (dataObjectFilterSteps k info doName mi doi).flatMap (fun s => s.2),
    flt.type_name = T ∧ (flt.name = none ∨ flt.name = some x)

/-- The name `x` is registered under the type `T` in the maps `r`. -/
def registered (r : Maps) (T x : String) : Prop := x ∈ (fmGet r.fieldsMap T).getD []

/-- The module at depth `i` of the path `pp`: the root module at depth 0, and
below it the module named by the first `i` segments. -/
def levelAt (info : SchemaInfo) (pp : List String) : Nat → Option ModuleInfo
  | 0 => some info.RootModule
  | i + 1 => info.Module (".".intercalate (pp.take (i + 1)))

/-- Block `if pmi.QueryType != ""` of one level of
`fillModulesTypesRecursively`. -/
def levelQuery (pmi spi : ModuleInfo) (n : String) (m : Maps) : Maps :=
  if pmi.QueryType ≠ "" then
    let m := (m.setType pmi.QueryType).ensureFields pmi.QueryType
    let m := if spi.QueryType ≠ "" then m.addField pmi.QueryType n else m
    if pmi.FunctionType ≠ "" ∧ pmi.Name = "" then m.addField pmi.QueryType "function" else m
  else m

/-- Block `if pmi.MutationType != ""` of one level. -/
def levelMutation (pmi spi : ModuleInfo) (n : String) (m : Maps) : Maps :=
  if pmi.MutationType ≠ "" then
    let m := (m.setType pmi.MutationType).ensureFields pmi.MutationType
    let m := if spi.MutationType ≠ "" then m.addField pmi.MutationType n else m
    if pmi.MutationFunctionType ≠ "" ∧ pmi.Name = "" then
      m.addField pmi.MutationType "function"
    else m
  else m

/-- Block `if pmi.FunctionType != ""` of one level. -/
def levelFunction (pmi spi : ModuleInfo) (n : String) (m : Maps) : Maps :=
  if pmi.FunctionType ≠ "" then
    let m := m.setType pmi.FunctionType
    if spi.FunctionType ≠ "" then
      let m := match fmGet m.fieldsMap pmi.FunctionType with
        | some _ => m
        | none => { m with fieldsMap := (pmi.FunctionType, [n]) :: m.fieldsMap }
      m.addField pmi.FunctionType n
    else m
  else m

/-- Block `if pmi.MutationFunctionType != ""` of one level. -/
def levelMutFunction (pmi spi : ModuleInfo) (n : String) (m : Maps) : Maps :=
  if pmi.MutationFunctionType ≠ "" then
    let m := m.setType pmi.MutationFunctionType
    if spi.MutationFunctionType ≠ "" then
      (m.ensureFields pmi.MutationFunctionType).addField pmi.MutationFunctionType n
    else m
  else m

/-- The field `n` is registered under the root type of `P` of every kind for
which both `P` and `S` have a root type. -/
def segmentMarked (r : Maps) (P S : ModuleInfo) (n : String) : Prop :=
  (P.QueryType ≠ "" → S.QueryType ≠ "" → registered r P.QueryType n) ∧
  (P.MutationType ≠ "" → S.MutationType ≠ "" → registered r P.MutationType n) ∧
  (P.FunctionType ≠ "" → S.FunctionType ≠ "" → registered r P.FunctionType n) ∧
  (P.MutationFunctionType ≠ "" → S.MutationFunctionType ≠ "" →
    registered r P.MutationFunctionType n)

/-- The maps `r` extend the maps `m`: no type is unmarked, no name leaves an
entry of `fieldsMap`, and the module set is the same. -/
structure Extends (m r : Maps) : Prop where
  types : ∀ x ∈ m.typesMap, x ∈ r.typesMap
  members : ∀ T x, registered m T x → registered r T x
  modules : r.modulesMap = m.modulesMap

/-- The type of the object `V` of the module `a`. -/
def typeC25 : TypeIntro :=
  { Name := "V", Module := "a", Fields := [{ Name := "c", Typ := intRef }] }

/-- A schema with the object `V` of the module `a`. -/
def schemaC25 : SchemaIntro := { Types := [typeC25, { Name := "Int", Kind := "SCALAR" }] }

/-- The descriptor of `V`: a view with one query and no mutations. -/
def objectC25 : DataObjectInfo :=
  { Name := "V", Module := "a", Queries := [{ Name := "V", ReturnedTypeName := "V" }],
    Columns := [{ Name := "c" }] }

/-- The module `a` that owns `V`: it has a query root and a mutation root. -/
def moduleC25 : ModuleInfo :=
  { Name := "a", QueryType := "a_query", MutationType := "a_mutation",
    dataObjects := [objectC25] }

/-- The summary with the root module and the module `a`. -/
def infoC25 : SchemaInfo :=
  { RootModule := { Name := "", QueryType := "Query", MutationType := "Mutation",
                    FunctionType := "Function" }
    modules := [moduleC25]
    dataObjects := [objectC25] }

/-- A schema with the object `W` of the module `x.y`. -/
def schemaC25b : SchemaIntro :=
  { Types := [{ Name := "W", Module := "x.y", Fields := [{ Name := "c", Typ := intRef }] },
              { Name := "Int", Kind := "SCALAR" }] }

/-- A summary in which the module `x.y` is present and its parent `x` is not. -/
def infoC25b : SchemaInfo :=
  { modules := [{ Name := "x.y", QueryType := "xy_query"
                  dataObjects := [{ Name := "W", Module := "x.y" }] }] }

/-! ## The related graph of a data object (`pkg/summary/objects.go`) -/

/-- A node of the related graph (`summary.RelatedNode`). -/
structure RelatedNode where
  Typ : String := ""
  Name : String
  Module : String := ""
  DataSource : String := ""
  Brief : String := ""
deriving Repr, DecidableEq

/-- An edge of the related graph (`summary.RelatedEdge`). -/
structure RelatedEdge where
  Name : String
  From : String
  To : String
  Kind : String := ""
deriving Repr, DecidableEq

/-- The related graph (`summary.RelatedGraph`); the slices grow at the end. -/
structure RelatedGraph where
  MaxDepth : Nat
  Nodes : List RelatedNode := []
  Edges : List RelatedEdge := []
deriving Repr, DecidableEq

/-- The reference types of the query engine that `addDataObject` tells apart
(`metainfo.ReferenceTypeOneToMany`, `ReferenceTypeManyToOne`,
`ReferenceTypeManyToMany`). -/
structure ReferenceTypes where
  OneToMany : String
  ManyToOne : String
  ManyToMany : String
deriving Repr, DecidableEq

/-- `RelatedGraph.nodeExists`. -/
def RelatedGraph.nodeExists (g : RelatedGraph) (name : String) : Bool :=
  g.Nodes.any (fun node => decide (node.Name = name))

/-- `RelatedGraph.edgeExists`. -/
def RelatedGraph.edgeExists (g : RelatedGraph) (name : String) : Bool :=
  g.Edges.any (fun edge => decide (edge.Name = name))

/-- The text of one column in the brief of a data-object node. -/
def columnBrief (field : ColumnInfo) : String :=
  if field.Description ≠ "" then field.Name ++ " (" ++ field.Description ++ ")" else field.Name

/-- The brief of a data-object node: the description, then the list of the
columns. -/
def objectBrief (object : DataObjectInfo) : String :=
  object.Columns.enum.foldl
    (fun brief c => (if c.1 > 0 then brief ++ ", " else brief) ++ columnBrief c.2)
    ((if object.Description ≠ "" then object.Description ++ " | " else object.Description)
      ++ "Fields: ")

/-- The node that `addDataObject` appends for a data object. -/
def objectNode (object : DataObjectInfo) : RelatedNode :=
  { Typ := object.Typ, Name := object.Name, Module := object.Module,
    DataSource := object.DataSource, Brief := objectBrief object }

/-- The node that `addFunctionCall` appends for a function call. -/
def functionNode (fnCall : FunctionCallInfo) : RelatedNode :=
  { Typ := "function", Name := "fc:" ++ fnCall.Name, Module := fnCall.Module,
    DataSource := fnCall.DataSource, Brief := fnCall.Description }

/-- The guarded append `if !g.nodeExists(n.Name) { g.Nodes = append(g.Nodes, n) }`. -/
def RelatedGraph.addNode (g : RelatedGraph) (n : RelatedNode) : RelatedGraph :=
  if g.nodeExists n.Name then g else { g with Nodes := g.Nodes ++ [n] }

/-- The guarded append `if !g.edgeExists(e.Name) { g.Edges = append(g.Edges, e) }`. -/
def RelatedGraph.addEdge (g : RelatedGraph) (e : RelatedEdge) : RelatedGraph :=
  if g.edgeExists e.Name then g else { g with Edges := g.Edges ++ [e] }

/-- The lookup of the target of a reference or subquery: `schema.Table(path)`,
and `schema.View(path)` when there is no such table. -/
def relatedObject (schema : MetaSummary) (path : String) : Option DataObjectInfo :=
  match schema.Table path with
  | some o => some o
  | none => schema.View path

/-- The `switch ref.Type` of `addDataObject`; the kind stays empty for any other
reference type. -/
def referenceKind (rt : ReferenceTypes) (t : String) : String :=
  if t = rt.OneToMany then "fk:one-to-many"
  else if t = rt.ManyToOne then "fk:many-to-one"
  else if t = rt.ManyToMany then "fk:many-to-many"
  else ""

/-- `RelatedGraph.addFunctionCall`. -/
def RelatedGraph.addFunctionCall (fnCall : FunctionCallInfo) (_depth : Nat) (g : RelatedGraph) :
    RelatedGraph × Option Err :=
  (g.addNode (functionNode fnCall), none)

/-- `RelatedGraph.addDataObject`, with a bound `fuel` on the depth of the
recursion; `Err.fuel` is returned when the bound is hit. -/
def RelatedGraph.addDataObjectFuel (rt : ReferenceTypes) (schema : MetaSummary) :
    Nat → DataObjectInfo → Nat → RelatedGraph → RelatedGraph × Option Err
  | 0, _, _, g => (g, some .fuel)
  | fuel + 1, object, depth, g =>
    let g := g.addNode (objectNode object)
    if depth ≥ g.MaxDepth then (g, none)
    else
      andThen (forEachE (fun ref g =>
          match relatedObject schema (ref.Module ++ "." ++ ref.DataObject) with
          | none => (g, none)
          | some refObject =>
            andThen (RelatedGraph.addDataObjectFuel rt schema fuel refObject (depth + 1) g) fun g =>
              (g.addEdge { Name := object.Name ++ ":" ++ ref.FieldDataQuery,
                           From := object.Name, To := ref.DataObject,
                           Kind := referenceKind rt ref.Typ }, none))
          object.References g) fun g =>
      andThen (forEachE (fun subq g =>
          match relatedObject schema (subq.Module ++ "." ++ subq.DataObject) with
          | none => (g, none)
          | some sqObject =>
            andThen (RelatedGraph.addDataObjectFuel rt schema fuel sqObject (depth + 1) g) fun g =>
              (g.addEdge { Name := object.Name ++ ":" ++ subq.FieldDataQuery,
                           From := object.Name, To := sqObject.Name,
                           Kind := "subquery" }, none))
          object.Subqueries g) fun g =>
      forEachE (fun fnCall g =>
          andThen (RelatedGraph.addFunctionCall fnCall (depth + 1) g) fun g =>
            (g.addEdge { Name := object.Name ++ "->" ++ "fc:" ++ fnCall.FieldName,
                         From := object.Name, To := "fc:" ++ fnCall.Name,
                         Kind := "function_call" }, none))
        object.FunctionCalls g

/-- `RelatedGraph.addDataObject`: the recursion goes one level deeper at each
call and stops at `MaxDepth`, so `MaxDepth + 1 - depth` levels are enough. -/
def RelatedGraph.addDataObject (rt : ReferenceTypes) (schema : MetaSummary) (object : DataObjectInfo)
    (depth : Nat) (g : RelatedGraph) : RelatedGraph × Option Err :=
  RelatedGraph.addDataObjectFuel rt schema (g.MaxDepth + 1 - depth) object depth g

/-- The graph with which `prepareDataObjectInput` starts: no nodes, no edges,
`MaxDepth: 2`. -/
def emptyRelatedGraph : RelatedGraph := { MaxDepth := 2 }

/-- One hop: `o` has a reference or a subquery whose target resolves to `p`. -/
def Hop (schema : MetaSummary) (o p : DataObjectInfo) : Prop :=
  ∃ ref ∈ o.References ++ o.Subqueries,
    relatedObject schema (ref.Module ++ "." ++ ref.DataObject) = some p

/-- The data object `o` is reached from `X` through exactly `d` hops. -/
inductive Hops (schema : MetaSummary) (X : DataObjectInfo) : Nat → DataObjectInfo → Prop
  | zero : Hops schema X 0 X
  | step {d : Nat} {o p : DataObjectInfo} : Hops schema X d o → Hop schema o p →
      Hops schema X (d + 1) p

/-- The data object `o` is `X` or is reached from `X` through at most `d`
hops. -/
def Within (schema : MetaSummary) (X : DataObjectInfo) (d : Nat) (o : DataObjectInfo) : Prop :=
  ∃ i ≤ d, Hops schema X i o

/-- The node named `name` sits at depth `d`: `d` is the least number of hops
through which a data object of that name is reached from `X`. -/
def SitsAt (schema : MetaSummary) (X : DataObjectInfo) (name : String) (d : Nat) : Prop :=
  (∃ o, Hops schema X d o ∧ o.Name = name) ∧
  ∀ i < d, ∀ o, Hops schema X i o → o.Name ≠ name

/-- What `addDataObject` keeps true of the graph it grows from the data object
`X` with the depth bound `M`: the bound is not touched, node names and edge
names are pairwise distinct, every node is the node of a function call or of a
data object within `M` hops of `X`, and every edge leaves a data object that is
fewer than `M` hops from `X`. -/
structure GraphInv (schema : MetaSummary) (X : DataObjectInfo) (M : Nat)
    (g : RelatedGraph) : Prop where
  depth : g.MaxDepth = M
  nodes : (g.Nodes.map (fun n => n.Name)).Nodup
  edges : (g.Edges.map (fun e => e.Name)).Nodup
  reached : ∀ n ∈ g.Nodes, (∃ fnCall, n = functionNode fnCall) ∨
    ∃ o, Within schema X M o ∧ n = objectNode o
  leaves : ∀ e ∈ g.Edges, ∃ i o, i < M ∧ Hops schema X i o ∧ e.From = o.Name

/-- Sample reference types. -/
def referenceTypesC29 : ReferenceTypes :=
  { OneToMany := "one-to-many", ManyToOne := "many-to-one", ManyToMany := "many-to-many" }

/-- The data objects of `metaC29`, all tables of the module `m`: `X` refers to
`A` and to `B` and calls the function `f`; `A` refers to `B` and has a subquery
back to `X`; `B` refers to `C`; `C` refers back to `X` and to `D`. -/
def objectsC29 : List DataObjectInfo :=
  [{ Name := "X", Module := "m", Typ := "table", Columns := [{ Name := "id" }],
     References := [{ Name := "a", FieldDataQuery := "a", Typ := "one-to-many",
                      Module := "m", DataObject := "A" },
                    { Name := "b", FieldDataQuery := "b", Module := "m", DataObject := "B" }],
     FunctionCalls := [{ Name := "f", FieldName := "ff" }] },
   { Name := "A", Module := "m", Typ := "table",
     References := [{ Name := "b", FieldDataQuery := "b", Module := "m", DataObject := "B" }],
     Subqueries := [{ Name := "x", FieldDataQuery := "x", Module := "m", DataObject := "X" }] },
   { Name := "B", Module := "m", Typ := "table",
     References := [{ Name := "c", FieldDataQuery := "c", Module := "m", DataObject := "C" }] },
   { Name := "C", Module := "m", Typ := "table",
     References := [{ Name := "x", FieldDataQuery := "x", Module := "m", DataObject := "X" },
                    { Name := "d", FieldDataQuery := "d", Module := "m", DataObject := "D" }] },
   { Name := "D", Module := "m", Typ := "table" }]

/-- A meta summary whose data objects refer to each other in a cycle. -/
def metaC29 : MetaSummary :=
  { Table := fun p => objectsC29.find? (fun o => decide (o.Module ++ "." ++ o.Name = p))
    View := fun _ => none
    Function := fun _ => none
    MutateFunction := fun _ => none }

/-- The data object `X` of `metaC29`. -/
def objectC29 : DataObjectInfo := objectsC29.headD { Name := "X" }

/-! ## Theorems -/

theorem checkTypeExists_iff (c : Catalog) (name : String) :
    checkTypeExists c name = true ↔ ∃ r ∈ c.types, r.Name = name := by
  simp [checkTypeExists]

theorem checkTypeExists_false_iff (c : Catalog) (name : String) :
    checkTypeExists c name = false ↔ ∀ r ∈ c.types, r.Name ≠ name := by
  rw [← Bool.not_eq_true, checkTypeExists_iff]
  simp

/-- C1 (merge preservation). For a stored Type row `r` and an upstream Type `t`
of the same name whose description differs: with `update = false`, `mergeType`
returns without error and leaves the whole catalog unchanged; with
`update = true` it returns without error, the types table keeps its length and
the row stored at each position under that name now carries the upstream
description, while rows of other names and all other tables are unchanged.
When no row of that name is stored, `mergeType` appends the upstream row (with
its embedding text when embeddings are on) in both modes. -/
theorem mergeType_preservation (cfg : Config) (c : Catalog) (t : TypeRow) :
    (∀ r ∈ c.types, r.Name = t.Name → r.Description ≠ t.Description →
      mergeType cfg t false c = (c, none) ∧
      (mergeType cfg t true c).2 = none ∧
      (∃ r' ∈ (mergeType cfg t true c).1.types,
          r'.Name = r.Name ∧ r'.Description = t.Description) ∧
      (∀ r' ∈ (mergeType cfg t true c).1.types,
          r'.Name = t.Name → r'.Description = t.Description) ∧
      (∀ r', r'.Name ≠ t.Name →
          (r' ∈ (mergeType cfg t true c).1.types ↔ r' ∈ c.types)) ∧
      (mergeType cfg t true c).1.types.length = c.types.length ∧
      (mergeType cfg t true c).1.fields = c.fields ∧
      (mergeType cfg t true c).1.arguments = c.arguments) ∧
    ((∀ r ∈ c.types, r.Name ≠ t.Name) → ∀ update : Bool,
      (mergeType cfg t update c).2 = none ∧
      ∃ row : TypeRow, (mergeType cfg t update c).1.types = c.types ++ [row] ∧
        row.Name = t.Name ∧ row.Description = t.Description ∧ row.Long = t.Long ∧
        row.Kind = t.Kind ∧ row.HugrType = t.HugrType ∧ row.Module = t.Module ∧
        row.Catalog = t.Catalog ∧ row.IsSummarized = t.IsSummarized) := by
  constructor
  · intro r hr hn _
    have hex : checkTypeExists c t.Name = true := (checkTypeExists_iff c t.Name).2 ⟨r, hr, hn⟩
    refine ⟨by simp [mergeType, hex], by simp [mergeType, hex, updateType], ?_, ?_, ?_, ?_, ?_, ?_⟩
    · simp only [mergeType, hex, updateType]
      simp only [Bool.not_true, Bool.and_false, Bool.false_eq_true, if_false, List.mem_map]
      refine ⟨_, ⟨r, hr, rfl⟩, ?_, ?_⟩
      · simp [hn]
      · simp [hn]
    · intro r' hr' hn'
      simp only [mergeType, hex, updateType, Bool.not_true, Bool.and_false, Bool.false_eq_true,
        if_false, List.mem_map] at hr'
      obtain ⟨r0, _, rfl⟩ := hr'
      by_cases h0 : r0.Name = t.Name
      · simp [h0]
      · simp [h0] at hn'
    · intro r' hn'
      simp only [mergeType, hex, updateType, Bool.not_true, Bool.and_false, Bool.false_eq_true,
        if_false, List.mem_map]
      constructor
      · rintro ⟨r0, hr0, rfl⟩
        by_cases h0 : r0.Name = t.Name
        · simp [h0] at hn'
        · simpa [h0] using hr0
      · intro h
        exact ⟨r', h, by simp [hn']⟩
    · simp [mergeType, hex, updateType]
    · simp [mergeType, hex, updateType]
    · simp [mergeType, hex, updateType]
  · intro hno update
    have hex : checkTypeExists c t.Name = false := (checkTypeExists_false_iff c t.Name).2 hno
    exact ⟨by simp [mergeType, hex, AddType],
      { t with Vec := if cfg.EmbeddingsEnabled &&
          decide ((if t.Long = "" then t.Description else t.Long) ≠ "")
          then some (if t.Long = "" then t.Description else t.Long) else t.Vec },
      by simp [mergeType, hex, AddType], rfl, rfl, rfl, rfl, rfl, rfl, rfl, rfl⟩

/-! ### Loops -/

theorem forEachE_inv {α σ : Type} (P : σ → Prop) (body : α → σ → σ × Option Err)
    (h : ∀ x s, P s → P (body x s).1) (xs : List α) (s : σ) (hs : P s) :
    P (forEachE body xs s).1 := by
  induction xs generalizing s with
  | nil => simpa [forEachE] using hs
  | cons x xs ih =>
    have hx := h x s hs
    rcases hb : body x s with ⟨s', _ | e⟩
    · rw [hb] at hx; simpa [forEachE, hb] using ih s' hx
    · rw [hb] at hx; simpa [forEachE, hb] using hx

theorem forEachE_ok_mem {α σ : Type} (Q : α → σ → Prop) (body : α → σ → σ × Option Err)
    (hstep : ∀ x s, (body x s).2 = none → Q x (body x s).1)
    (hpres : ∀ x y s, Q x s → Q x (body y s).1)
    (xs : List α) (s : σ) (hok : (forEachE body xs s).2 = none) :
    ∀ x ∈ xs, Q x (forEachE body xs s).1 := by
  induction xs generalizing s with
  | nil => intro x hx; cases hx
  | cons y ys ih =>
    rcases hb : body y s with ⟨s', _ | e⟩
    · simp only [forEachE, hb] at hok ⊢
      intro x hx
      rcases List.mem_cons.1 hx with rfl | hx
      · have h1 := hstep x s (by rw [hb])
        rw [hb] at h1
        exact forEachE_inv (Q x) body (fun y s => hpres x y s) ys s' h1
      · exact ih s' hok x hx
    · simp [forEachE, hb] at hok

theorem andThen_of_ok {σ : Type} (r : σ × Option Err) (k : σ → σ × Option Err)
    (h : r.2 = none) : andThen r k = k r.1 := by
  rcases r with ⟨s, _ | e⟩
  · rfl
  · cases h

theorem andThen_of_err {σ : Type} (r : σ × Option Err) (k : σ → σ × Option Err) (e : Err)
    (h : r.2 = some e) : andThen r k = r := by
  rcases r with ⟨s, _ | e'⟩
  · cases h
  · rfl

theorem andThen_inv {σ : Type} (P : σ → Prop) (r : σ × Option Err) (k : σ → σ × Option Err)
    (hr : P r.1) (hk : ∀ s, P s → P (k s).1) : P (andThen r k).1 := by
  rcases r with ⟨s, _ | e⟩
  · exact hk s hr
  · exact hr

theorem andThen_ok {σ : Type} (r : σ × Option Err) (k : σ → σ × Option Err)
    (h : (andThen r k).2 = none) : r.2 = none ∧ (k r.1).2 = none := by
  rcases r with ⟨s, _ | e⟩
  · exact ⟨rfl, h⟩
  · cases h

theorem andThenFlat_of_ok {σ τ : Type} (keep : σ → τ) (r : σ × Option Err)
    (k : σ → τ × Option Err) (h : r.2 = none) : andThenFlat keep r k = k r.1 := by
  rcases r with ⟨s, _ | e⟩
  · rfl
  · cases h

theorem andThenFlat_of_err {σ τ : Type} (keep : σ → τ) (r : σ × Option Err)
    (k : σ → τ × Option Err) (e : Err) (h : r.2 = some e) :
    andThenFlat keep r k = (keep r.1, some e) := by
  rcases r with ⟨s, _ | e'⟩
  · cases h
  · cases h; rfl

theorem andThenFlat_inv {σ τ : Type} (P : τ → Prop) (keep : σ → τ) (r : σ × Option Err)
    (k : σ → τ × Option Err) (hr : P (keep r.1)) (hk : P (k r.1).1) :
    P (andThenFlat keep r k).1 := by
  rcases r with ⟨s, _ | e⟩
  · exact hk
  · exact hr

theorem andThenFlat_ok {σ τ : Type} (keep : σ → τ) (r : σ × Option Err)
    (k : σ → τ × Option Err) (h : (andThenFlat keep r k).2 = none) :
    r.2 = none ∧ (k r.1).2 = none := by
  rcases r with ⟨s, _ | e⟩
  · exact ⟨rfl, h⟩
  · cases h

/-! ### Frame facts: which tables an operation leaves alone -/

theorem mergeType_snd (cfg : Config) (t : TypeRow) (u : Bool) (c : Catalog) :
    (mergeType cfg t u c).2 = none := by
  unfold mergeType
  by_cases h : checkTypeExists c t.Name = true
  · cases u <;> simp [h, updateType]
  · simp [h, AddType]

theorem mergeType_frame (cfg : Config) (t : TypeRow) (u : Bool) (c : Catalog) :
    (mergeType cfg t u c).1.fields = c.fields ∧
    (mergeType cfg t u c).1.arguments = c.arguments ∧
    (mergeType cfg t u c).1.modules = c.modules ∧
    (mergeType cfg t u c).1.dataSources = c.dataSources ∧
    (mergeType cfg t u c).1.dataObjects = c.dataObjects ∧
    (mergeType cfg t u c).1.dataObjectQueries = c.dataObjectQueries := by
  unfold mergeType
  by_cases h : checkTypeExists c t.Name = true
  · cases u <;> simp [h, updateType]
  · simp [h, AddType]

theorem mergeField_types (cfg : Config) (f : FieldRow) (u : Bool) (c : Catalog) :
    (mergeField cfg f u c).1.types = c.types := by
  unfold mergeField
  by_cases h : checkFieldExists c f.TypeName f.Name = true
  · cases u <;> simp [h, updateTypeField]
  · simp [h, AddField]

theorem mergeArgument_types (a : ArgumentRow) (u : Bool) (c : Catalog) :
    (mergeArgument a u c).1.types = c.types := by
  unfold mergeArgument
  by_cases h : checkArgumentExists c a.TypeName a.FieldName a.Name = true
  · cases u <;> simp [h, updateArgument]
  · simp [h, AddArgument]

theorem mergeModule_types (cfg : Config) (m : ModuleRow) (u : Bool) (c : Catalog) :
    (mergeModule cfg m u c).1.types = c.types := by
  unfold mergeModule
  by_cases h : checkModuleExists c m.Name = true
  · cases u <;> simp [h, updateModule]
  · simp [h, AddModule]

theorem mergeDataSource_types (cfg : Config) (d : DataSourceRow) (u : Bool) (c : Catalog) :
    (mergeDataSource cfg d u c).1.types = c.types := by
  unfold mergeDataSource
  by_cases h : checkDataSourceExists c d.Name = true
  · cases u <;> simp [h, updateDataSource]
  · simp [h, AddDataSource]

theorem loadDataObject_types (info : SchemaInfo) (d : DataObjectInfo) (c : Catalog) :
    (loadDataObject info d c).1.types = c.types := by
  unfold loadDataObject
  split
  · rfl
  · split <;> simp [addDataObject]

theorem flattenArg_c (st : TypeIntro) (f : FieldIntro) (a : ArgIntro) (s : Flat) :
    (flattenArg st f a s).1.c = s.c := by
  simp only [flattenArg]
  split <;> rfl

theorem patrialField_c (fm : FieldsMap) (st : TypeIntro) (f : FieldIntro) (s : Flat) :
    (patrialField fm st f s).1.c = s.c := by
  unfold patrialField
  split
  · rfl
  · exact forEachE_inv (fun s' => s'.c = s.c) _
      (fun a s' h => (flattenArg_c st f a s').trans h) _ { s with ff := s.ff ++ [fieldRowOf st f] } rfl

theorem patrialFields_c (fm : FieldsMap) (st : TypeIntro) (fs : List FieldIntro) (s : Flat) :
    (forEachE (patrialField fm st) fs s).1.c = s.c :=
  forEachE_inv (fun s' => s'.c = s.c) _
    (fun f s' h => (patrialField_c fm st f s').trans h) _ _ rfl

/-- The store after one step of the type loop of `loadSchemaPatrial`. -/
theorem patrialType_c (cfg : Config) (u : Bool) (tm : List String) (fm : FieldsMap)
    (st : TypeIntro) (s : Flat) :
    (patrialType cfg u tm fm st s).1.c =
      if nameSkipped tm st.Name then s.c else (mergeType cfg (typeRowOf st) u s.c).1 := by
  unfold patrialType
  split
  · rfl
  · have he := mergeType_snd cfg (typeRowOf st) u s.c
    rcases hm : mergeType cfg (typeRowOf st) u s.c with ⟨c', _ | e⟩
    · simp only []
      exact patrialFields_c fm st _ _
    · rw [hm] at he

/-- The types table after a successful `loadSchemaPatrial` is the one left by
its type loop, which returned no error. -/
theorem loadSchemaPatrial_types (cfg : Config) (schema : SchemaIntro) (info : SchemaInfo)
    (u : Bool) (tm : List String) (fm : FieldsMap) (mm dm : List String) (c : Catalog)
    (hok : (loadSchemaPatrial cfg schema info u tm fm mm dm c).2 = none) :
    (loadSchemaPatrial cfg schema info u tm fm mm dm c).1.types =
      (forEachE (patrialType cfg u tm fm) schema.Types
        { c := (mergeType cfg unknownType false c).1 }).1.c.types ∧
    (forEachE (patrialType cfg u tm fm) schema.Types
        { c := (mergeType cfg unknownType false c).1 }).2 = none := by
  have h0 := mergeType_snd cfg unknownType false c
  rw [loadSchemaPatrial, andThen_of_ok _ _ h0] at hok ⊢
  obtain ⟨h1, -⟩ := andThenFlat_ok _ _ _ hok
  refine ⟨?_, h1⟩
  rw [andThenFlat_of_ok _ _ _ h1]
  generalize (forEachE (patrialType cfg u tm fm) schema.Types
    { c := (mergeType cfg unknownType false c).1 }).1 = s1
  refine andThen_inv (fun (c' : Catalog) => c'.types = s1.c.types) _ _ ?_ (fun c2 h2 => ?_)
  · exact forEachE_inv (fun (c' : Catalog) => c'.types = s1.c.types) _
      (fun f c' h => (mergeField_types cfg f u c').trans h) _ _ rfl
  refine andThen_inv (fun (c' : Catalog) => c'.types = s1.c.types) _ _ ?_ (fun c3 h3 => ?_)
  · exact forEachE_inv (fun (c' : Catalog) => c'.types = s1.c.types) _
      (fun a c' h => (mergeArgument_types a u c').trans h) _ _ h2
  refine andThen_inv (fun (c' : Catalog) => c'.types = s1.c.types) _ _ ?_ (fun c4 h4 => ?_)
  · refine forEachE_inv (fun (c' : Catalog) => c'.types = s1.c.types) _ (fun m c' h => ?_) _ _ h3
    unfold patrialModule
    split
    · exact h
    · exact (mergeModule_types cfg _ false c').trans h
  refine andThen_inv (fun (c' : Catalog) => c'.types = s1.c.types) _ _ ?_ (fun c5 h5 => ?_)
  · refine forEachE_inv (fun (c' : Catalog) => c'.types = s1.c.types) _ (fun m c' h => ?_) _ _ h4
    unfold patrialDataSource
    split
    · exact h
    · exact (mergeDataSource_types cfg _ u c').trans h
  · refine forEachE_inv (fun (c' : Catalog) => c'.types = s1.c.types) _ (fun m c' h => ?_) _ _ h5
    unfold patrialDataObject
    split
    · exact h
    · exact (loadDataObject_types info _ c').trans h

/-- In patch mode `mergeType` leaves every row stored under the merged name
with the long description and the summarized flag of the merged value. -/
theorem mergeType_update_long (cfg : Config) (t : TypeRow) (c : Catalog) :
    ∀ r ∈ (mergeType cfg t true c).1.types, r.Name = t.Name →
      r.Long = t.Long ∧ r.IsSummarized = t.IsSummarized := by
  intro r hr hn
  unfold mergeType at hr
  by_cases h : checkTypeExists c t.Name = true
  · simp only [h, updateType, Bool.not_true, Bool.and_false, Bool.false_eq_true, if_false,
      List.mem_map] at hr
    obtain ⟨r0, _, rfl⟩ := hr
    by_cases h0 : r0.Name = t.Name
    · simp [h0]
    · simp [h0] at hn
  · have hno := (checkTypeExists_false_iff c t.Name).1 (by simpa using h)
    simp only [h, AddType, Bool.false_and, Bool.false_eq_true, if_false, Bool.not_false,
      if_true, List.mem_append, List.mem_singleton] at hr
    rcases hr with hr | rfl
    · exact absurd hn (hno r hr)
    · exact ⟨rfl, rfl⟩

/-- Merging a value with empty long description and cleared summarized flag
keeps the property "rows named `n` have empty long description and cleared
flag". -/
theorem mergeType_keeps_cleared (cfg : Config) (t : TypeRow) (u : Bool) (c : Catalog)
    (n : String) (ht : t.Long = "" ∧ t.IsSummarized = false)
    (h : ∀ r ∈ c.types, r.Name = n → r.Long = "" ∧ r.IsSummarized = false) :
    ∀ r ∈ (mergeType cfg t u c).1.types, r.Name = n →
      r.Long = "" ∧ r.IsSummarized = false := by
  intro r hr hn
  unfold mergeType at hr
  by_cases hx : checkTypeExists c t.Name = true
  · cases u
    · simp only [hx, Bool.not_false, Bool.and_true, if_true] at hr
      exact h r hr hn
    · simp only [hx, updateType, Bool.not_true, Bool.and_false, Bool.false_eq_true, if_false,
        List.mem_map] at hr
      obtain ⟨r0, hr0, rfl⟩ := hr
      by_cases h0 : r0.Name = t.Name
      · simp [h0, ht.1, ht.2]
      · simp only [h0, if_false] at hn ⊢
        exact h r0 hr0 hn
  · simp only [hx, AddType, Bool.false_and, Bool.false_eq_true, if_false, Bool.not_false,
      if_true, List.mem_append, List.mem_singleton] at hr
    rcases hr with hr | rfl
    · exact h r hr hn
    · exact ht

/-- A merge never removes a name from the types table. -/
theorem mergeType_keeps_name (cfg : Config) (t : TypeRow) (u : Bool) (c : Catalog)
    (n : String) (h : ∃ r ∈ c.types, r.Name = n) :
    ∃ r ∈ (mergeType cfg t u c).1.types, r.Name = n := by
  obtain ⟨r, hr, hn⟩ := h
  unfold mergeType
  by_cases hx : checkTypeExists c t.Name = true
  · cases u
    · simp only [hx, Bool.not_false, Bool.and_true, if_true]
      exact ⟨r, hr, hn⟩
    · simp only [hx, updateType, Bool.not_true, Bool.and_false, Bool.false_eq_true, if_false,
        List.mem_map]
      refine ⟨_, ⟨r, hr, rfl⟩, ?_⟩
      split <;> exact hn
  · simp only [hx, AddType, Bool.false_and, Bool.false_eq_true, if_false, Bool.not_false,
      if_true, List.mem_append, List.mem_singleton]
    exact ⟨r, Or.inl hr, hn⟩

/-- C2 (amended). A patch reload overwrites the curated columns of in-scope
types: if the upstream schema has a type named `n` that is in scope
(`typesMap` empty or containing `n`) and `loadSchemaPatrial` runs with
`update = true` and returns no error, then every row stored under `n`
afterwards has an empty long description and a cleared summarized flag,
whatever was stored before, and a row stored under `n` before is still there. -/
theorem loadSchemaPatrial_patch_clears_long (cfg : Config) (schema : SchemaIntro)
    (info : SchemaInfo) (tm : List String) (fm : FieldsMap) (mm dm : List String)
    (c : Catalog) (st : TypeIntro) (hst : st ∈ schema.Types)
    (hscope : nameSkipped tm st.Name = false)
    (hok : (loadSchemaPatrial cfg schema info true tm fm mm dm c).2 = none) :
    (∀ r ∈ (loadSchemaPatrial cfg schema info true tm fm mm dm c).1.types,
        r.Name = st.Name → r.Long = "" ∧ r.IsSummarized = false) ∧
    ((∃ r ∈ c.types, r.Name = st.Name) →
      ∃ r ∈ (loadSchemaPatrial cfg schema info true tm fm mm dm c).1.types,
        r.Name = st.Name) := by
  obtain ⟨htypes, hloop⟩ := loadSchemaPatrial_types cfg schema info true tm fm mm dm c hok
  rw [htypes]
  constructor
  · have key := forEachE_ok_mem
      (fun (x : TypeIntro) (s : Flat) => nameSkipped tm x.Name = false →
        ∀ r ∈ s.c.types, r.Name = x.Name → r.Long = "" ∧ r.IsSummarized = false)
      (patrialType cfg true tm fm)
      (fun x s _ hx => by
        rw [patrialType_c]
        simp only [hx, Bool.false_eq_true, if_false]
        exact mergeType_update_long cfg (typeRowOf x) s.c)
      (fun x y s hq hx => by
        rw [patrialType_c]
        split
        · exact hq hx
        · exact mergeType_keeps_cleared cfg (typeRowOf y) true s.c x.Name ⟨rfl, rfl⟩ (hq hx))
      schema.Types _ hloop st hst
    exact key hscope
  · intro hex
    refine forEachE_inv (fun (s : Flat) => ∃ r ∈ s.c.types, r.Name = st.Name)
      (patrialType cfg true tm fm) (fun x s h => ?_) schema.Types _ ?_
    · show ∃ r ∈ (patrialType cfg true tm fm x s).1.c.types, r.Name = st.Name
      rw [patrialType_c]
      split
      · exact h
      · exact mergeType_keeps_name cfg _ true s.c st.Name h
    · exact mergeType_keeps_name cfg unknownType false c st.Name hex

/-- C9. `fillBaseSchema` does not depend on the catalog it starts from: from
any two initial catalogs it yields the same rows (embedding texts included)
and the same outcome; hence running it again on its own result changes
nothing. -/
theorem fillBaseSchema_idempotent (cfg : Config) (schema : SchemaIntro) (info : SchemaInfo)
    (c₁ c₂ : Catalog) :
    fillBaseSchema cfg schema info c₁ = fillBaseSchema cfg schema info c₂ ∧
    fillBaseSchema cfg schema info (fillBaseSchema cfg schema info c₁).1 =
      fillBaseSchema cfg schema info c₁ := by
  exact ⟨rfl, rfl⟩

/-- Witness of C1: a stored row `T` with description "old" merged with an
upstream `T` of description "up", and the same upstream type merged into an
empty catalog. -/
theorem mergeType_preservation_witness :
    (mergeType {} upstreamC1 false catalogC1 = (catalogC1, none) ∧
      (∃ r' ∈ (mergeType {} upstreamC1 true catalogC1).1.types,
        r'.Name = storedC1.Name ∧ r'.Description = "up")) ∧
    (∀ update : Bool, (mergeType {} upstreamC1 update {}).2 = none ∧
      ∃ row : TypeRow, (mergeType {} upstreamC1 update {}).1.types = [] ++ [row] ∧
        row.Name = "T" ∧ row.Description = "up") := by
  have h := mergeType_preservation {} catalogC1 upstreamC1
  have h1 := h.1 storedC1 (by decide) (by decide) (by decide)
  have h0 := mergeType_preservation {} {} upstreamC1
  refine ⟨⟨h1.1, h1.2.2.1⟩, fun u => ?_⟩
  obtain ⟨he, row, hrow, hn, hd, -⟩ := h0.2 (by intro r hr; cases hr) u
  exact ⟨he, row, hrow, hn, hd⟩

/-- Counterexample to C2: the stored type `T` has the long description
"curated" and is summarized; a patch reload (`update = true`) with `T` in scope
succeeds and leaves `T` with an empty long description and a cleared flag. -/
theorem loadSchemaPatrial_patch_destroys_curated :
    catalogC1.types =
      [{ Name := "T", Description := "old", Long := "curated", IsSummarized := true }] ∧
    loadSchemaPatrial {} schemaC2 {} true ["T"] [("T", [])] [] [] catalogC1 =
      ({ types := [{ Name := "T", Description := "up", Long := "", Kind := "OBJECT",
                     IsSummarized := false },
                   { Name := "Unknown", Description := "Unknown type", Kind := "SCALAR" }] },
       none) ∧
    ¬ (∀ r ∈ (loadSchemaPatrial {} schemaC2 {} true ["T"] [("T", [])] [] [] catalogC1).1.types,
        r.Name = "T" → r.Long = "curated" ∧ r.IsSummarized = true) := by
  decide

/-- Witness of the amended C2 on the same input. -/
theorem loadSchemaPatrial_patch_clears_long_witness :
    (∀ r ∈ (loadSchemaPatrial {} schemaC2 {} true ["T"] [("T", [])] [] [] catalogC1).1.types,
        r.Name = "T" → r.Long = "" ∧ r.IsSummarized = false) ∧
    ((∃ r ∈ catalogC1.types, r.Name = "T") →
      ∃ r ∈ (loadSchemaPatrial {} schemaC2 {} true ["T"] [("T", [])] [] [] catalogC1).1.types,
        r.Name = "T") :=
  loadSchemaPatrial_patch_clears_long {} schemaC2 {} ["T"] [("T", [])] [] [] catalogC1
    { Name := "T", Description := "up" } (by decide) (by decide) (by decide)

/-! ### The flattening loops -/

theorem FlatSpec.nil (s s' : Flat) (hff : s'.ff = s.ff) (haa : s'.aa = s.aa)
    (ham : s'.am = s.am) : FlatSpec [] [] [] s s' := by
  refine ⟨by simp [hff], by simp [haa], by simp [ham], List.nodup_nil, ?_⟩
  intro k hk; cases hk

theorem FlatSpec.trans {ks₁ ks₂ : List String} {ff₁ ff₂ : List FieldRow}
    {aa₁ aa₂ : List ArgumentRow} {s s' s'' : Flat}
    (h₁ : FlatSpec ks₁ ff₁ aa₁ s s') (h₂ : FlatSpec ks₂ ff₂ aa₂ s' s'') :
    FlatSpec (ks₁ ++ ks₂) (ff₁ ++ ff₂) (aa₁ ++ aa₂) s s'' := by
  obtain ⟨a1, b1, c1, d1, e1⟩ := h₁
  obtain ⟨a2, b2, c2, d2, e2⟩ := h₂
  refine ⟨by rw [a2, a1, List.append_assoc], by rw [b2, b1, List.append_assoc], ?_, ?_, ?_⟩
  · intro k
    rw [c2, c1, List.mem_append, or_assoc]
  · rw [List.nodup_append]
    refine ⟨d1, d2, ?_⟩
    intro k hk1 hk2
    exact e2 k hk2 ((c1 k).2 (Or.inr hk1))
  · intro k hk
    rcases List.mem_append.1 hk with h | h
    · exact e1 k h
    · intro hks
      exact e2 k h ((c1 k).2 (Or.inl hks))

/-- A loop whose body meets `FlatSpec` for the keys, field rows and argument
rows of its element meets it for the concatenation over the list. -/
theorem forEachE_flatSpec {α : Type} (body : α → Flat → Flat × Option Err)
    (keys : α → List String) (ffOf : α → List FieldRow) (aaOf : α → List ArgumentRow)
    (hbody : ∀ x s, (body x s).2 = none → FlatSpec (keys x) (ffOf x) (aaOf x) s (body x s).1)
    (xs : List α) (s : Flat) (hok : (forEachE body xs s).2 = none) :
    FlatSpec (xs.flatMap keys) (xs.flatMap ffOf) (xs.flatMap aaOf) s (forEachE body xs s).1 := by
  induction xs generalizing s with
  | nil => exact FlatSpec.nil _ _ rfl rfl rfl
  | cons x xs ih =>
    have hx := hbody x s
    rcases hb : body x s with ⟨s', _ | e⟩
    · rw [hb] at hx
      simp only [forEachE, hb] at hok ⊢
      simp only [List.flatMap_cons]
      exact (hx rfl).trans (ih s' hok)
    · simp [forEachE, hb] at hok

/-- Conversely the loop completes when the keys of the whole list are new and
pairwise distinct, provided each body does. -/
theorem forEachE_flat_ok {α : Type} (body : α → Flat → Flat × Option Err)
    (keys : α → List String) (ffOf : α → List FieldRow) (aaOf : α → List ArgumentRow)
    (hbody : ∀ x s, (body x s).2 = none → FlatSpec (keys x) (ffOf x) (aaOf x) s (body x s).1)
    (hok : ∀ x s, (keys x).Nodup → (∀ k ∈ keys x, k ∉ s.am) → (body x s).2 = none)
    (xs : List α) (s : Flat) (hnd : (xs.flatMap keys).Nodup)
    (hnew : ∀ k ∈ xs.flatMap keys, k ∉ s.am) : (forEachE body xs s).2 = none := by
  induction xs generalizing s with
  | nil => rfl
  | cons x xs ih =>
    simp only [List.flatMap_cons, List.nodup_append] at hnd
    have h1 : (body x s).2 = none :=
      hok x s hnd.1 (fun k hk => hnew k (by simp [List.flatMap_cons, hk]))
    have hx := hbody x s h1
    rcases hb : body x s with ⟨s', _ | e⟩
    · rw [hb] at hx
      simp only [forEachE, hb]
      refine ih s' hnd.2.1 ?_
      intro k hk hks
      rcases (hx.2.2.1 k).1 hks with h | h
      · exact hnew k (by simp [List.flatMap_cons, hk]) h
      · exact hnd.2.2 h hk
    · rw [hb] at h1; cases h1

theorem forEachE_err {α σ : Type} (R : Err → Prop) (body : α → σ → σ × Option Err)
    (h : ∀ x s e, (body x s).2 = some e → R e) (xs : List α) (s : σ) (e : Err)
    (he : (forEachE body xs s).2 = some e) : R e := by
  induction xs generalizing s with
  | nil => simp [forEachE] at he
  | cons x xs ih =>
    rcases hb : body x s with ⟨s', _ | e'⟩
    · simp only [forEachE, hb] at he
      exact ih s' he
    · simp only [forEachE, hb] at he
      have := h x s e' (by rw [hb])
      cases he
      exact this

theorem flattenArg_spec (st : TypeIntro) (f : FieldIntro) (a : ArgIntro) (s : Flat)
    (hok : (flattenArg st f a s).2 = none) :
    FlatSpec [argKey st f a] [] [argumentRowOf st f a] s (flattenArg st f a s).1 := by
  simp only [flattenArg] at hok ⊢
  by_cases h : argKey st f a ∈ s.am
  · simp [h] at hok
  · simp only [h, if_false]
    refine ⟨by simp, rfl, ?_, List.nodup_singleton _, ?_⟩
    · intro k; simp [or_comm, eq_comm]
    · intro k hk
      rw [List.mem_singleton.1 hk]
      exact h

theorem flattenArg_ok (st : TypeIntro) (f : FieldIntro) (a : ArgIntro) (s : Flat)
    (h : argKey st f a ∉ s.am) : (flattenArg st f a s).2 = none := by
  simp [flattenArg, h]

theorem flattenArg_err (st : TypeIntro) (f : FieldIntro) (a : ArgIntro) (s : Flat) (e : Err)
    (h : (flattenArg st f a s).2 = some e) : ∃ k, e = .duplicateArgument k := by
  simp only [flattenArg] at h
  split at h
  · exact ⟨_, by simpa using h.symm⟩
  · cases h

theorem flatMap_filter_eq {α β : Type} (p : α → Bool) (g : α → List β) (xs : List α) :
    (xs.filter p).flatMap g = xs.flatMap (fun x => if p x then g x else []) := by
  induction xs with
  | nil => rfl
  | cons x xs ih =>
    by_cases h : p x = true
    · simp [List.filter_cons, h, List.flatMap_cons, ih]
    · simp [List.filter_cons, h, List.flatMap_cons, ih]

theorem flatMap_single_eq_map {α β : Type} (g : α → β) (xs : List α) :
    xs.flatMap (fun x => [g x]) = xs.map g := by
  induction xs with
  | nil => rfl
  | cons x xs ih => simp [List.flatMap_cons, ih]

theorem flatMap_nil_eq {α β : Type} (xs : List α) :
    xs.flatMap (fun _ => ([] : List β)) = [] := by
  induction xs with
  | nil => rfl
  | cons x xs ih => simp [List.flatMap_cons, ih]

/-- The argument loop of one field. -/
theorem flattenArgs_spec (st : TypeIntro) (f : FieldIntro) (args : List ArgIntro) (s : Flat)
    (hok : (forEachE (flattenArg st f) args s).2 = none) :
    FlatSpec (args.map (argKey st f)) [] (args.map (argumentRowOf st f)) s
      (forEachE (flattenArg st f) args s).1 := by
  have h := forEachE_flatSpec (flattenArg st f) (fun a => [argKey st f a]) (fun _ => [])
    (fun a => [argumentRowOf st f a]) (fun a s h => flattenArg_spec st f a s h) args s hok
  rwa [flatMap_single_eq_map, flatMap_single_eq_map, flatMap_nil_eq] at h

theorem flattenArgs_ok (st : TypeIntro) (f : FieldIntro) (args : List ArgIntro) (s : Flat)
    (hnd : (args.map (argKey st f)).Nodup) (hnew : ∀ k ∈ args.map (argKey st f), k ∉ s.am) :
    (forEachE (flattenArg st f) args s).2 = none := by
  refine forEachE_flat_ok (flattenArg st f) (fun a => [argKey st f a]) (fun _ => [])
    (fun a => [argumentRowOf st f a]) (fun a s h => flattenArg_spec st f a s h)
    (fun a s _ h => flattenArg_ok st f a s (h _ (List.mem_singleton.2 rfl))) args s ?_ ?_
  · rwa [flatMap_single_eq_map]
  · rwa [flatMap_single_eq_map]

theorem patrialField_spec (fm : FieldsMap) (st : TypeIntro) (f : FieldIntro) (s : Flat)
    (hok : (patrialField fm st f s).2 = none) :
    FlatSpec (fieldKeys fm st f) (fieldFF fm st f) (fieldAA fm st f) s
      (patrialField fm st f s).1 := by
  unfold patrialField at hok ⊢
  unfold fieldKeys fieldFF fieldAA
  by_cases h : fieldSkipped fm st.Name f.Name = true
  · simp only [h, if_true]
    exact FlatSpec.nil _ _ rfl rfl rfl
  · simp only [h, if_false] at hok ⊢
    have h1 : FlatSpec [] [fieldRowOf st f] [] s { s with ff := s.ff ++ [fieldRowOf st f] } :=
      ⟨rfl, by simp, by simp, List.nodup_nil, by intro k hk; cases hk⟩
    have h2 := flattenArgs_spec st f f.Args _ hok
    simpa using h1.trans h2

theorem patrialField_ok (fm : FieldsMap) (st : TypeIntro) (f : FieldIntro) (s : Flat)
    (hnd : (fieldKeys fm st f).Nodup) (hnew : ∀ k ∈ fieldKeys fm st f, k ∉ s.am) :
    (patrialField fm st f s).2 = none := by
  unfold patrialField
  unfold fieldKeys at hnd hnew
  by_cases h : fieldSkipped fm st.Name f.Name = true
  · simp [h]
  · simp only [h, if_false] at hnd hnew ⊢
    exact flattenArgs_ok st f f.Args _ hnd hnew

theorem patrialField_err (fm : FieldsMap) (st : TypeIntro) (f : FieldIntro) (s : Flat) (e : Err)
    (h : (patrialField fm st f s).2 = some e) : ∃ k, e = .duplicateArgument k := by
  unfold patrialField at h
  split at h
  · cases h
  · exact forEachE_err _ _ (fun a s e h => flattenArg_err st f a s e h) _ _ e h

theorem patrialType_spec (cfg : Config) (u : Bool) (tm : List String) (fm : FieldsMap)
    (st : TypeIntro) (s : Flat) (hok : (patrialType cfg u tm fm st s).2 = none) :
    FlatSpec (typeKeys tm fm st) (typeFF tm fm st) (typeAA tm fm st) s
      (patrialType cfg u tm fm st s).1 := by
  unfold patrialType at hok ⊢
  unfold typeKeys typeFF typeAA
  by_cases h : nameSkipped tm st.Name = true
  · simp only [h, if_true]
    exact FlatSpec.nil _ _ rfl rfl rfl
  · simp only [h, if_false] at hok ⊢
    have he := mergeType_snd cfg (typeRowOf st) u s.c
    rcases hm : mergeType cfg (typeRowOf st) u s.c with ⟨c', _ | e⟩
    · rw [hm] at hok
      simp only [] at hok ⊢
      have h1 : FlatSpec [] [] [] s { s with c := c' } := FlatSpec.nil _ _ rfl rfl rfl
      have h2 := forEachE_flatSpec (patrialField fm st) (fieldKeys fm st) (fieldFF fm st)
        (fieldAA fm st) (fun f s h => patrialField_spec fm st f s h) (activeFields st) _ hok
      simpa using h1.trans h2
    · rw [hm] at he; cases he

theorem patrialType_ok (cfg : Config) (u : Bool) (tm : List String) (fm : FieldsMap)
    (st : TypeIntro) (s : Flat) (hnd : (typeKeys tm fm st).Nodup)
    (hnew : ∀ k ∈ typeKeys tm fm st, k ∉ s.am) : (patrialType cfg u tm fm st s).2 = none := by
  unfold patrialType
  unfold typeKeys at hnd hnew
  by_cases h : nameSkipped tm st.Name = true
  · simp [h]
  · simp only [h, if_false] at hnd hnew ⊢
    have he := mergeType_snd cfg (typeRowOf st) u s.c
    rcases hm : mergeType cfg (typeRowOf st) u s.c with ⟨c', _ | e⟩
    · simp only []
      exact forEachE_flat_ok (patrialField fm st) (fieldKeys fm st) (fieldFF fm st)
        (fieldAA fm st) (fun f s h => patrialField_spec fm st f s h)
        (fun f s h1 h2 => patrialField_ok fm st f s h1 h2) (activeFields st) _ hnd hnew
    · rw [hm] at he; cases he

theorem patrialType_err (cfg : Config) (u : Bool) (tm : List String) (fm : FieldsMap)
    (st : TypeIntro) (s : Flat) (e : Err) (h : (patrialType cfg u tm fm st s).2 = some e) :
    ∃ k, e = .duplicateArgument k := by
  unfold patrialType at h
  split at h
  · cases h
  · have he := mergeType_snd cfg (typeRowOf st) u s.c
    rcases hm : mergeType cfg (typeRowOf st) u s.c with ⟨c', _ | e'⟩
    · rw [hm] at h
      exact forEachE_err _ _ (fun f s e h => patrialField_err fm st f s e h) _ _ e h
    · rw [hm] at he; cases he

theorem joinKey_argKey (st : TypeIntro) (f : FieldIntro) (a : ArgIntro) :
    joinKey (st.Name, f.Name, a.Name) = argKey st f a := rfl

theorem flatMap_typeKeys (tm : List String) (fm : FieldsMap) (schema : SchemaIntro) :
    schema.Types.flatMap (typeKeys tm fm) = (argTriples tm fm schema).map joinKey := by
  unfold argTriples scopedTypes scopedFields
  rw [flatMap_filter_eq, List.map_flatMap]
  congr 1
  funext st
  unfold typeKeys
  by_cases h : nameSkipped tm st.Name = true
  · simp [h]
  · simp only [h, Bool.not_eq_true, Bool.not_false, if_true, if_false, Bool.false_eq_true]
    rw [flatMap_filter_eq, List.map_flatMap]
    congr 1
    funext f
    unfold fieldKeys
    by_cases h2 : fieldSkipped fm st.Name f.Name = true
    · simp [h2]
    · simp [h2, joinKey_argKey]

theorem flatMap_typeFF (tm : List String) (fm : FieldsMap) (schema : SchemaIntro) :
    schema.Types.flatMap (typeFF tm fm) = flatFields tm fm schema := by
  unfold flatFields scopedTypes scopedFields
  rw [flatMap_filter_eq]
  congr 1
  funext st
  unfold typeFF
  by_cases h : nameSkipped tm st.Name = true
  · simp [h]
  · simp only [h, Bool.not_eq_true, Bool.not_false, if_true, if_false, Bool.false_eq_true]
    rw [← flatMap_single_eq_map, flatMap_filter_eq]
    congr 1
    funext f
    unfold fieldFF
    by_cases h2 : fieldSkipped fm st.Name f.Name = true
    · simp [h2]
    · simp [h2]

theorem flatMap_typeAA (tm : List String) (fm : FieldsMap) (schema : SchemaIntro) :
    schema.Types.flatMap (typeAA tm fm) = flatArguments tm fm schema := by
  unfold flatArguments scopedTypes scopedFields
  rw [flatMap_filter_eq]
  congr 1
  funext st
  unfold typeAA
  by_cases h : nameSkipped tm st.Name = true
  · simp [h]
  · simp only [h, Bool.not_eq_true, Bool.not_false, if_true, if_false, Bool.false_eq_true]
    rw [flatMap_filter_eq]
    congr 1
    funext f
    unfold fieldAA
    by_cases h2 : fieldSkipped fm st.Name f.Name = true
    · simp [h2]
    · simp [h2]

/-- A completed type loop of `loadSchemaPatrial` has appended the scoped field
and argument rows, and the scoped argument keys were pairwise distinct. -/
theorem patrialTypes_spec (cfg : Config) (u : Bool) (tm : List String) (fm : FieldsMap)
    (schema : SchemaIntro) (s : Flat)
    (hok : (forEachE (patrialType cfg u tm fm) schema.Types s).2 = none) :
    FlatSpec ((argTriples tm fm schema).map joinKey) (flatFields tm fm schema)
      (flatArguments tm fm schema) s (forEachE (patrialType cfg u tm fm) schema.Types s).1 := by
  have h := forEachE_flatSpec (patrialType cfg u tm fm) (typeKeys tm fm) (typeFF tm fm)
    (typeAA tm fm) (fun st s h => patrialType_spec cfg u tm fm st s h) schema.Types s hok
  rwa [flatMap_typeKeys, flatMap_typeFF, flatMap_typeAA] at h

/-- The type loop of `loadSchemaPatrial` completes when the scoped argument
keys are pairwise distinct and new. -/
theorem patrialTypes_ok (cfg : Config) (u : Bool) (tm : List String) (fm : FieldsMap)
    (schema : SchemaIntro) (s : Flat) (hnd : ((argTriples tm fm schema).map joinKey).Nodup)
    (hnew : ∀ k ∈ (argTriples tm fm schema).map joinKey, k ∉ s.am) :
    (forEachE (patrialType cfg u tm fm) schema.Types s).2 = none := by
  refine forEachE_flat_ok (patrialType cfg u tm fm) (typeKeys tm fm) (typeFF tm fm)
    (typeAA tm fm) (fun st s h => patrialType_spec cfg u tm fm st s h)
    (fun st s h1 h2 => patrialType_ok cfg u tm fm st s h1 h2) schema.Types s ?_ ?_
  · rwa [flatMap_typeKeys]
  · rwa [flatMap_typeKeys]

theorem baseField_eq (st : TypeIntro) (f : FieldIntro) (s : Flat) :
    baseField st f s = patrialField [] st f s := by
  simp [baseField, patrialField, fieldSkipped]

theorem baseType_eq (cfg : Config) (st : TypeIntro) (s : Flat)
    (h : checkTypeExists s.c st.Name = false) :
    baseType cfg st s = patrialType cfg false [] [] st s := by
  have hf : baseField st = patrialField [] st := by
    funext f s; exact baseField_eq st f s
  have hn : (typeRowOf st).Name = st.Name := rfl
  simp [baseType, patrialType, nameSkipped, mergeType, hn, h, hf]

theorem baseType_conflict (cfg : Config) (st : TypeIntro) (s : Flat)
    (h : checkTypeExists s.c st.Name = true) :
    baseType cfg st s = (s, some (.conflict "types" st.Name)) := by
  have hn : (typeRowOf st).Name = st.Name := rfl
  simp [baseType, AddType, hn, h]

theorem baseType_spec (cfg : Config) (st : TypeIntro) (s : Flat)
    (hok : (baseType cfg st s).2 = none) :
    FlatSpec (typeKeys [] [] st) (typeFF [] [] st) (typeAA [] [] st) s (baseType cfg st s).1 := by
  by_cases h : checkTypeExists s.c st.Name = true
  · rw [baseType_conflict cfg st s h] at hok; cases hok
  · have h' : checkTypeExists s.c st.Name = false := by simpa using h
    rw [baseType_eq cfg st s h'] at hok ⊢
    exact patrialType_spec cfg false [] [] st s hok

theorem baseTypes_spec (cfg : Config) (schema : SchemaIntro) (s : Flat)
    (hok : (forEachE (baseType cfg) schema.Types s).2 = none) :
    FlatSpec ((argTriples [] [] schema).map joinKey) (flatFields [] [] schema)
      (flatArguments [] [] schema) s (forEachE (baseType cfg) schema.Types s).1 := by
  have h := forEachE_flatSpec (baseType cfg) (typeKeys [] []) (typeFF [] [])
    (typeAA [] []) (fun st s h => baseType_spec cfg st s h) schema.Types s hok
  rwa [flatMap_typeKeys, flatMap_typeFF, flatMap_typeAA] at h

/-- The type loops write to the types table only. -/
theorem AddType_frame (cfg : Config) (t : TypeRow) (c : Catalog) :
    (AddType cfg t c).1.fields = c.fields ∧ (AddType cfg t c).1.arguments = c.arguments ∧
    (AddType cfg t c).1.modules = c.modules ∧
    (AddType cfg t c).1.dataSources = c.dataSources ∧
    (AddType cfg t c).1.dataObjects = c.dataObjects ∧
    (AddType cfg t c).1.dataObjectQueries = c.dataObjectQueries := by
  unfold AddType
  by_cases h : checkTypeExists c t.Name = true <;> simp [h]

theorem baseType_c (cfg : Config) (st : TypeIntro) (s : Flat) :
    (baseType cfg st s).1.c = (AddType cfg (typeRowOf st) s.c).1 := by
  unfold baseType
  rcases hm : AddType cfg (typeRowOf st) s.c with ⟨c', _ | e⟩
  · simp only []
    have hf : baseField st = patrialField [] st := by
      funext f s; exact baseField_eq st f s
    rw [hf]
    exact patrialFields_c [] st _ _
  · rfl

theorem patrialTypes_frame (cfg : Config) (u : Bool) (tm : List String) (fm : FieldsMap)
    (types : List TypeIntro) (s : Flat) :
    (forEachE (patrialType cfg u tm fm) types s).1.c.fields = s.c.fields ∧
    (forEachE (patrialType cfg u tm fm) types s).1.c.arguments = s.c.arguments := by
  refine forEachE_inv (fun (s' : Flat) => s'.c.fields = s.c.fields ∧
    s'.c.arguments = s.c.arguments) _ (fun st s' h => ?_) types s ⟨rfl, rfl⟩
  show (patrialType cfg u tm fm st s').1.c.fields = _ ∧ (patrialType cfg u tm fm st s').1.c.arguments = _
  rw [patrialType_c]
  split
  · exact h
  · have hf := mergeType_frame cfg (typeRowOf st) u s'.c
    exact ⟨hf.1.trans h.1, hf.2.1.trans h.2⟩

theorem baseTypes_frame (cfg : Config) (types : List TypeIntro) (s : Flat) :
    (forEachE (baseType cfg) types s).1.c.fields = s.c.fields ∧
    (forEachE (baseType cfg) types s).1.c.arguments = s.c.arguments := by
  refine forEachE_inv (fun (s' : Flat) => s'.c.fields = s.c.fields ∧
    s'.c.arguments = s.c.arguments) _ (fun st s' h => ?_) types s ⟨rfl, rfl⟩
  show (baseType cfg st s').1.c.fields = _ ∧ (baseType cfg st s').1.c.arguments = _
  rw [baseType_c]
  have hf := AddType_frame cfg (typeRowOf st) s'.c
  exact ⟨hf.1.trans h.1, hf.2.1.trans h.2⟩

/-- C7 (amended). Let two arguments of the flattened fields (the `fields` of
a type, or its `inputFields` when it is an INPUT_OBJECT) carry the same
(owner type, owner field, argument name) triple. Then `fillBaseSchema` returns
an error and leaves the fields and arguments tables empty. `loadSchemaPatrial`
returns the duplicate-argument error, with the fields and arguments tables
untouched, when both arguments lie in the scope of the closure (owner type in
`typesMap` or `typesMap` empty, owner field in `fieldsMap` or `fieldsMap`
empty). -/
theorem duplicate_argument_detection (cfg : Config) (schema : SchemaIntro) (info : SchemaInfo)
    (update : Bool) (tm : List String) (fm : FieldsMap) (mm dm : List String) (c : Catalog) :
    (¬ (argTriples [] [] schema).Nodup →
      (fillBaseSchema cfg schema info c).2 ≠ none ∧
      (fillBaseSchema cfg schema info c).1.fields = [] ∧
      (fillBaseSchema cfg schema info c).1.arguments = []) ∧
    (¬ (argTriples tm fm schema).Nodup →
      (∃ k, (loadSchemaPatrial cfg schema info update tm fm mm dm c).2 =
          some (.duplicateArgument k)) ∧
      (loadSchemaPatrial cfg schema info update tm fm mm dm c).1.fields = c.fields ∧
      (loadSchemaPatrial cfg schema info update tm fm mm dm c).1.arguments = c.arguments) := by
  constructor
  · intro hdup
    have hA : (AddType cfg unknownType ({} : Catalog)).2 = none := by
      simp [AddType, checkTypeExists]
    have hfr := baseTypes_frame cfg schema.Types { c := (AddType cfg unknownType {}).1 }
    have hf0 := AddType_frame cfg unknownType ({} : Catalog)
    rcases hL : (forEachE (baseType cfg) schema.Types
        { c := (AddType cfg unknownType {}).1 }).2 with _ | e
    · exact absurd (List.Nodup.of_map _ (baseTypes_spec cfg schema _ hL).2.2.2.1) hdup
    · have hres : fillBaseSchema cfg schema info c =
          ((forEachE (baseType cfg) schema.Types
            { c := (AddType cfg unknownType {}).1 }).1.c, some e) := by
        rw [fillBaseSchema, andThen_of_ok (Clear c) _ rfl]
        show andThen (AddType cfg unknownType {}) _ = _
        rw [andThen_of_ok _ _ hA, andThenFlat_of_err _ _ _ e hL]
      rw [hres]
      exact ⟨by simp, hfr.1.trans hf0.1, hfr.2.trans hf0.2.1⟩
  · intro hdup
    have hA := mergeType_snd cfg unknownType false c
    have hfr := patrialTypes_frame cfg update tm fm schema.Types
      { c := (mergeType cfg unknownType false c).1 }
    have hf0 := mergeType_frame cfg unknownType false c
    rcases hL : (forEachE (patrialType cfg update tm fm) schema.Types
        { c := (mergeType cfg unknownType false c).1 }).2 with _ | e
    · exact absurd (List.Nodup.of_map _ (patrialTypes_spec cfg update tm fm schema _ hL).2.2.2.1)
        hdup
    · have hres : loadSchemaPatrial cfg schema info update tm fm mm dm c =
          ((forEachE (patrialType cfg update tm fm) schema.Types
            { c := (mergeType cfg unknownType false c).1 }).1.c, some e) := by
        rw [loadSchemaPatrial, andThen_of_ok _ _ hA, andThenFlat_of_err _ _ _ e hL]
      rw [hres]
      obtain ⟨k, hk⟩ := forEachE_err _ _
        (fun st s e h => patrialType_err cfg update tm fm st s e h) _ _ e hL
      exact ⟨⟨k, by rw [hk]⟩, hfr.1.trans hf0.1, hfr.2.trans hf0.2.1⟩

/-- Counterexample to C7: `schemaC7` has two arguments `T.f(a)`, and the full
rebuild fails on it, yet `loadSchemaPatrial` with the closure `{Other}` returns
no error. -/
theorem loadSchemaPatrial_misses_duplicate :
    ¬ (argTriples [] [] schemaC7).Nodup ∧
    (fillBaseSchema {} schemaC7 {} {}).2 = some (.duplicateArgument "T.f.a") ∧
    (loadSchemaPatrial {} schemaC7 {} false ["Other"] [("Other", [])] [""] [] {}).2 = none ∧
    (loadSchemaPatrial {} schemaC7 {} true ["Other"] [("Other", [])] [""] [] {}).2 = none := by
  decide

/-- Witness of the amended C7 on `schemaC7` with the closure `{T}`, `{T ↦ {f}}`. -/
theorem duplicate_argument_detection_witness :
    ((fillBaseSchema {} schemaC7 {} {}).2 ≠ none ∧
      (fillBaseSchema {} schemaC7 {} {}).1.fields = [] ∧
      (fillBaseSchema {} schemaC7 {} {}).1.arguments = []) ∧
    ((∃ k, (loadSchemaPatrial {} schemaC7 {} false ["T"] [("T", ["f"])] [] [] {}).2 =
          some (.duplicateArgument k)) ∧
      (loadSchemaPatrial {} schemaC7 {} false ["T"] [("T", ["f"])] [] [] {}).1.fields = [] ∧
      (loadSchemaPatrial {} schemaC7 {} false ["T"] [("T", ["f"])] [] [] {}).1.arguments = []) :=
  ⟨(duplicate_argument_detection {} schemaC7 {} false ["T"] [("T", ["f"])] [] [] {}).1
      (by decide),
   (duplicate_argument_detection {} schemaC7 {} false ["T"] [("T", ["f"])] [] [] {}).2
      (by decide)⟩

/-! ### Full rebuild against unscoped reconciliation -/

theorem andThen_congr {σ : Type} (r r' : σ × Option Err) (k k' : σ → σ × Option Err)
    (hr : r = r') (hk : r.2 = none → k r.1 = k' r.1) : andThen r k = andThen r' k' := by
  subst hr
  rcases r with ⟨s, _ | e⟩
  · exact hk rfl
  · rfl

theorem andThenFlat_congr {σ τ : Type} (keep : σ → τ) (r r' : σ × Option Err)
    (k k' : σ → τ × Option Err) (hr : r = r') (hk : r.2 = none → k r.1 = k' r.1) :
    andThenFlat keep r k = andThenFlat keep r' k' := by
  subst hr
  rcases r with ⟨s, _ | e⟩
  · exact hk rfl
  · rfl

/-- Two loop bodies that agree on the states an invariant describes give the
same loop. -/
theorem forEachE_congr_inv {α σ : Type} (Inv : List α → σ → Prop)
    (b₁ b₂ : α → σ → σ × Option Err)
    (hstep : ∀ x xs s, Inv (x :: xs) s →
      b₁ x s = b₂ x s ∧ ((b₁ x s).2 = none → Inv xs (b₁ x s).1))
    (xs : List α) (s : σ) (h : Inv xs s) : forEachE b₁ xs s = forEachE b₂ xs s := by
  induction xs generalizing s with
  | nil => rfl
  | cons x xs ih =>
    obtain ⟨he, hn⟩ := hstep x xs s h
    rcases hb : b₁ x s with ⟨s', _ | e⟩
    · rw [hb] at he hn
      simp only [forEachE, hb, ← he]
      exact ih s' (hn rfl)
    · rw [hb] at he
      simp only [forEachE, hb, ← he]

theorem AddField_frame (cfg : Config) (f : FieldRow) (c : Catalog) :
    (AddField cfg f c).1.types = c.types ∧ (AddField cfg f c).1.arguments = c.arguments ∧
    (AddField cfg f c).1.modules = c.modules ∧
    (AddField cfg f c).1.dataSources = c.dataSources ∧
    (AddField cfg f c).1.dataObjects = c.dataObjects ∧
    (AddField cfg f c).1.dataObjectQueries = c.dataObjectQueries := by
  unfold AddField
  by_cases h : checkFieldExists c f.TypeName f.Name = true <;> simp [h]

theorem AddArgument_frame (a : ArgumentRow) (c : Catalog) :
    (AddArgument a c).1.types = c.types ∧ (AddArgument a c).1.fields = c.fields ∧
    (AddArgument a c).1.modules = c.modules ∧
    (AddArgument a c).1.dataSources = c.dataSources ∧
    (AddArgument a c).1.dataObjects = c.dataObjects ∧
    (AddArgument a c).1.dataObjectQueries = c.dataObjectQueries := by
  unfold AddArgument
  by_cases h : checkArgumentExists c a.TypeName a.FieldName a.Name = true <;> simp [h]

theorem AddModule_frame (cfg : Config) (m : ModuleRow) (c : Catalog) :
    (AddModule cfg m c).1.types = c.types ∧ (AddModule cfg m c).1.fields = c.fields ∧
    (AddModule cfg m c).1.arguments = c.arguments ∧
    (AddModule cfg m c).1.dataSources = c.dataSources ∧
    (AddModule cfg m c).1.dataObjects = c.dataObjects ∧
    (AddModule cfg m c).1.dataObjectQueries = c.dataObjectQueries := by
  unfold AddModule
  by_cases h : checkModuleExists c m.Name = true <;> simp [h]

theorem AddDataSource_frame (cfg : Config) (d : DataSourceRow) (c : Catalog) :
    (AddDataSource cfg d c).1.types = c.types ∧ (AddDataSource cfg d c).1.fields = c.fields ∧
    (AddDataSource cfg d c).1.arguments = c.arguments ∧
    (AddDataSource cfg d c).1.modules = c.modules ∧
    (AddDataSource cfg d c).1.dataObjects = c.dataObjects ∧
    (AddDataSource cfg d c).1.dataObjectQueries = c.dataObjectQueries := by
  unfold AddDataSource
  by_cases h : checkDataSourceExists c d.Name = true <;> simp [h]

theorem mergeField_eq_Add (cfg : Config) (f : FieldRow) (u : Bool) (c : Catalog)
    (h : checkFieldExists c f.TypeName f.Name = false) :
    mergeField cfg f u c = AddField cfg f c := by
  simp [mergeField, h]

theorem mergeArgument_eq_Add (a : ArgumentRow) (u : Bool) (c : Catalog)
    (h : checkArgumentExists c a.TypeName a.FieldName a.Name = false) :
    mergeArgument a u c = AddArgument a c := by
  simp [mergeArgument, h]

theorem mergeModule_eq_Add (cfg : Config) (m : ModuleRow) (u : Bool) (c : Catalog)
    (h : checkModuleExists c m.Name = false) :
    mergeModule cfg m u c = AddModule cfg m c := by
  simp [mergeModule, h]

theorem mergeDataSource_eq_Add (cfg : Config) (d : DataSourceRow) (u : Bool) (c : Catalog)
    (h : checkDataSourceExists c d.Name = false) :
    mergeDataSource cfg d u c = AddDataSource cfg d c := by
  simp [mergeDataSource, h]

theorem checkTypeExists_AddType (cfg : Config) (t : TypeRow) (c : Catalog) (n : String)
    (h : (AddType cfg t c).2 = none) :
    checkTypeExists (AddType cfg t c).1 n = (checkTypeExists c n || decide (t.Name = n)) := by
  unfold AddType at h ⊢
  by_cases hx : checkTypeExists c t.Name = true
  · simp [hx] at h
  · simp only [Bool.not_eq_true] at hx
    simp only [hx, Bool.false_eq_true, if_false]
    simp [checkTypeExists]

theorem checkFieldExists_AddField (cfg : Config) (f : FieldRow) (c : Catalog) (t n : String)
    (h : (AddField cfg f c).2 = none) :
    checkFieldExists (AddField cfg f c).1 t n =
      (checkFieldExists c t n || (decide (f.TypeName = t) && decide (f.Name = n))) := by
  unfold AddField at h ⊢
  by_cases hx : checkFieldExists c f.TypeName f.Name = true
  · simp [hx] at h
  · simp only [Bool.not_eq_true] at hx
    simp only [hx, Bool.false_eq_true, if_false]
    simp [checkFieldExists, embedField]

theorem checkArgumentExists_AddArgument (a : ArgumentRow) (c : Catalog) (t f n : String)
    (h : (AddArgument a c).2 = none) :
    checkArgumentExists (AddArgument a c).1 t f n =
      (checkArgumentExists c t f n ||
        (decide (a.TypeName = t) && decide (a.FieldName = f) && decide (a.Name = n))) := by
  unfold AddArgument at h ⊢
  by_cases hx : checkArgumentExists c a.TypeName a.FieldName a.Name = true
  · simp [hx] at h
  · simp only [Bool.not_eq_true] at hx
    simp only [hx, Bool.false_eq_true, if_false]
    simp [checkArgumentExists]

theorem checkModuleExists_AddModule (cfg : Config) (m : ModuleRow) (c : Catalog) (n : String)
    (h : (AddModule cfg m c).2 = none) :
    checkModuleExists (AddModule cfg m c).1 n =
      (checkModuleExists c n || decide (m.Name = n)) := by
  unfold AddModule at h ⊢
  by_cases hx : checkModuleExists c m.Name = true
  · simp [hx] at h
  · simp only [Bool.not_eq_true] at hx
    simp only [hx, Bool.false_eq_true, if_false]
    simp [checkModuleExists]

theorem checkDataSourceExists_AddDataSource (cfg : Config) (d : DataSourceRow) (c : Catalog)
    (n : String) (h : (AddDataSource cfg d c).2 = none) :
    checkDataSourceExists (AddDataSource cfg d c).1 n =
      (checkDataSourceExists c n || decide (d.Name = n)) := by
  unfold AddDataSource at h ⊢
  by_cases hx : checkDataSourceExists c d.Name = true
  · simp [hx] at h
  · simp only [Bool.not_eq_true] at hx
    simp only [hx, Bool.false_eq_true, if_false]
    simp [checkDataSourceExists]

theorem AddFields_eq_merge (cfg : Config) (u : Bool) (ffs : List FieldRow) (c : Catalog)
    (hnd : (ffs.map (fun f => (f.TypeName, f.Name))).Nodup)
    (hnew : ∀ f ∈ ffs, checkFieldExists c f.TypeName f.Name = false) :
    forEachE (fun f => AddField cfg f) ffs c = forEachE (fun f => mergeField cfg f u) ffs c := by
  refine forEachE_congr_inv
    (fun rest c => (rest.map (fun (f : FieldRow) => (f.TypeName, f.Name))).Nodup ∧
      ∀ f ∈ rest, checkFieldExists c f.TypeName f.Name = false) _ _ ?_ ffs c ⟨hnd, hnew⟩
  rintro x xs s ⟨h1, h2⟩
  refine ⟨(mergeField_eq_Add cfg x u s (h2 x (List.mem_cons_self _ _))).symm, fun hok => ?_⟩
  rw [List.map_cons, List.nodup_cons] at h1
  refine ⟨h1.2, fun f hf => ?_⟩
  rw [checkFieldExists_AddField cfg x s _ _ hok, h2 f (List.mem_cons_of_mem _ hf)]
  simp only [Bool.false_or, Bool.and_eq_false_imp, decide_eq_true_eq, decide_eq_false_iff_not]
  intro ht hn
  exact h1.1 (List.mem_map.2 ⟨f, hf, by rw [ht, hn]⟩)

theorem AddArguments_eq_merge (u : Bool) (aas : List ArgumentRow) (c : Catalog)
    (hnd : (aas.map (fun a => (a.TypeName, a.FieldName, a.Name))).Nodup)
    (hnew : ∀ a ∈ aas, checkArgumentExists c a.TypeName a.FieldName a.Name = false) :
    forEachE (fun a => AddArgument a) aas c = forEachE (fun a => mergeArgument a u) aas c := by
  refine forEachE_congr_inv
    (fun rest c =>
      (rest.map (fun (a : ArgumentRow) => (a.TypeName, a.FieldName, a.Name))).Nodup ∧
      ∀ a ∈ rest, checkArgumentExists c a.TypeName a.FieldName a.Name = false) _ _ ?_ aas c
    ⟨hnd, hnew⟩
  rintro x xs s ⟨h1, h2⟩
  refine ⟨(mergeArgument_eq_Add x u s (h2 x (List.mem_cons_self _ _))).symm, fun hok => ?_⟩
  rw [List.map_cons, List.nodup_cons] at h1
  refine ⟨h1.2, fun a ha => ?_⟩
  rw [checkArgumentExists_AddArgument x s _ _ _ hok, h2 a (List.mem_cons_of_mem _ ha)]
  simp only [Bool.false_or, Bool.and_eq_false_imp, decide_eq_true_eq, decide_eq_false_iff_not,
    Bool.and_eq_true]
  rintro ⟨ht, hf⟩ hn
  exact h1.1 (List.mem_map.2 ⟨a, ha, by rw [ht, hf, hn]⟩)

theorem AddModules_eq_merge (cfg : Config) (ms : List ModuleInfo) (c : Catalog)
    (hnd : (ms.map (fun m => m.Name)).Nodup)
    (hnew : ∀ m ∈ ms, checkModuleExists c m.Name = false) :
    forEachE (fun m => AddModule cfg (moduleRowOf m)) ms c =
      forEachE (patrialModule cfg []) ms c := by
  refine forEachE_congr_inv
    (fun rest c => (rest.map (fun (m : ModuleInfo) => m.Name)).Nodup ∧
      ∀ m ∈ rest, checkModuleExists c m.Name = false) _ _ ?_ ms c ⟨hnd, hnew⟩
  rintro x xs s ⟨h1, h2⟩
  have hx : checkModuleExists s (moduleRowOf x).Name = false := h2 x (List.mem_cons_self _ _)
  refine ⟨?_, fun hok => ?_⟩
  · simp only [patrialModule, nameSkipped, List.isEmpty_nil, Bool.not_true, Bool.false_and,
      Bool.false_eq_true, if_false]
    exact (mergeModule_eq_Add cfg (moduleRowOf x) false s hx).symm
  rw [List.map_cons, List.nodup_cons] at h1
  refine ⟨h1.2, fun m hm => ?_⟩
  rw [checkModuleExists_AddModule cfg _ s _ hok, h2 m (List.mem_cons_of_mem _ hm)]
  simp only [Bool.false_or, decide_eq_false_iff_not]
  intro hn
  exact h1.1 (List.mem_map.2 ⟨m, hm, hn.symm⟩)

theorem AddDataSources_eq_merge (cfg : Config) (u : Bool) (ds : List DataSourceInfo)
    (c : Catalog) (hnd : (ds.map (fun d => d.Name)).Nodup)
    (hnew : ∀ d ∈ ds, checkDataSourceExists c d.Name = false) :
    forEachE (fun d => AddDataSource cfg (dataSourceRowOf d)) ds c =
      forEachE (patrialDataSource cfg u []) ds c := by
  refine forEachE_congr_inv
    (fun rest c => (rest.map (fun (d : DataSourceInfo) => d.Name)).Nodup ∧
      ∀ d ∈ rest, checkDataSourceExists c d.Name = false) _ _ ?_ ds c ⟨hnd, hnew⟩
  rintro x xs s ⟨h1, h2⟩
  have hx : checkDataSourceExists s (dataSourceRowOf x).Name = false :=
    h2 x (List.mem_cons_self _ _)
  refine ⟨?_, fun hok => ?_⟩
  · simp only [patrialDataSource, nameSkipped, List.isEmpty_nil, Bool.not_true, Bool.false_and,
      Bool.false_eq_true, if_false]
    exact (mergeDataSource_eq_Add cfg (dataSourceRowOf x) u s hx).symm
  rw [List.map_cons, List.nodup_cons] at h1
  refine ⟨h1.2, fun d hd => ?_⟩
  rw [checkDataSourceExists_AddDataSource cfg _ s _ hok, h2 d (List.mem_cons_of_mem _ hd)]
  simp only [Bool.false_or, decide_eq_false_iff_not]
  intro hn
  exact h1.1 (List.mem_map.2 ⟨d, hd, hn.symm⟩)

theorem baseType_ok_AddType (cfg : Config) (st : TypeIntro) (s : Flat)
    (h : (baseType cfg st s).2 = none) : (AddType cfg (typeRowOf st) s.c).2 = none := by
  unfold baseType at h
  rcases hm : AddType cfg (typeRowOf st) s.c with ⟨c', _ | e⟩
  · rfl
  · rw [hm] at h; cases h

theorem baseTypes_eq_patrial (cfg : Config) (types : List TypeIntro) (s : Flat)
    (hnd : (types.map (fun st => st.Name)).Nodup)
    (hnew : ∀ st ∈ types, checkTypeExists s.c st.Name = false) :
    forEachE (baseType cfg) types s = forEachE (patrialType cfg false [] []) types s := by
  refine forEachE_congr_inv
    (fun rest (s : Flat) => (rest.map (fun (st : TypeIntro) => st.Name)).Nodup ∧
      ∀ st ∈ rest, checkTypeExists s.c st.Name = false) _ _ ?_ types s ⟨hnd, hnew⟩
  rintro x xs s ⟨h1, h2⟩
  refine ⟨baseType_eq cfg x s (h2 x (List.mem_cons_self _ _)), fun hok => ?_⟩
  rw [List.map_cons, List.nodup_cons] at h1
  refine ⟨h1.2, fun st hst => ?_⟩
  rw [baseType_c, checkTypeExists_AddType cfg _ s.c _ (baseType_ok_AddType cfg x s hok),
    h2 st (List.mem_cons_of_mem _ hst)]
  simp only [Bool.false_or, decide_eq_false_iff_not]
  intro hn
  exact h1.1 (List.mem_map.2 ⟨st, hst, hn.symm⟩)

theorem scopedTypes_nil (schema : SchemaIntro) : scopedTypes [] schema = schema.Types := by
  simp [scopedTypes, nameSkipped]

theorem scopedFields_nil (st : TypeIntro) : scopedFields [] st = activeFields st := by
  simp [scopedFields, fieldSkipped]

/-- Distinct type names and distinct field names within each type give
distinct (type, field) keys of the flattened field rows. -/
theorem flatFields_keys_nodup (schema : SchemaIntro)
    (hnames : (schema.Types.map (fun st => st.Name)).Nodup)
    (hfields : ∀ st ∈ schema.Types, ((activeFields st).map (fun f => f.Name)).Nodup) :
    ((flatFields [] [] schema).map (fun f => (f.TypeName, f.Name))).Nodup := by
  unfold flatFields
  rw [scopedTypes_nil, List.map_flatMap, List.nodup_flatMap]
  constructor
  · intro st hst
    rw [scopedFields_nil, List.map_map]
    have h := hfields st hst
    have h2 : ((activeFields st).map (fun f => f.Name)).map (fun n => (st.Name, n)) =
        (activeFields st).map ((fun (f : FieldRow) => (f.TypeName, f.Name)) ∘ fieldRowOf st) := by
      rw [List.map_map]; rfl
    rw [← h2]
    exact h.map (fun a b hab => by simpa using hab)
  · have hp : List.Pairwise (fun (a b : TypeIntro) => a.Name ≠ b.Name) schema.Types :=
      List.pairwise_map.1 hnames
    refine hp.imp ?_
    intro a b hab p hpa hpb
    simp only [List.mem_map] at hpa hpb
    obtain ⟨_, ⟨fa, _, rfl⟩, rfl⟩ := hpa
    obtain ⟨_, ⟨fb, _, rfl⟩, hfb⟩ := hpb
    exact hab (by simpa [fieldRowOf] using (congrArg Prod.fst hfb).symm)

theorem flatArguments_triples (tm : List String) (fm : FieldsMap) (schema : SchemaIntro) :
    (flatArguments tm fm schema).map (fun a => (a.TypeName, a.FieldName, a.Name)) =
      argTriples tm fm schema := by
  unfold flatArguments argTriples
  rw [List.map_flatMap]
  congr 1
  funext st
  rw [List.map_flatMap]
  congr 1
  funext f
  rw [List.map_map]
  rfl

theorem baseTypes_frame_all (cfg : Config) (types : List TypeIntro) (s : Flat) :
    (forEachE (baseType cfg) types s).1.c.fields = s.c.fields ∧
    (forEachE (baseType cfg) types s).1.c.arguments = s.c.arguments ∧
    (forEachE (baseType cfg) types s).1.c.modules = s.c.modules ∧
    (forEachE (baseType cfg) types s).1.c.dataSources = s.c.dataSources := by
  refine forEachE_inv (fun (s' : Flat) => s'.c.fields = s.c.fields ∧
    s'.c.arguments = s.c.arguments ∧ s'.c.modules = s.c.modules ∧
    s'.c.dataSources = s.c.dataSources) _ (fun st s' h => ?_) types s ⟨rfl, rfl, rfl, rfl⟩
  show (baseType cfg st s').1.c.fields = _ ∧ (baseType cfg st s').1.c.arguments = _ ∧
    (baseType cfg st s').1.c.modules = _ ∧ (baseType cfg st s').1.c.dataSources = _
  rw [baseType_c]
  have hf := AddType_frame cfg (typeRowOf st) s'.c
  exact ⟨hf.1.trans h.1, hf.2.1.trans h.2.1, hf.2.2.1.trans h.2.2.1, hf.2.2.2.1.trans h.2.2.2⟩

theorem AddFields_frame (cfg : Config) (ffs : List FieldRow) (c : Catalog) :
    (forEachE (fun f => AddField cfg f) ffs c).1.arguments = c.arguments ∧
    (forEachE (fun f => AddField cfg f) ffs c).1.modules = c.modules ∧
    (forEachE (fun f => AddField cfg f) ffs c).1.dataSources = c.dataSources := by
  refine forEachE_inv (fun (c' : Catalog) => c'.arguments = c.arguments ∧
    c'.modules = c.modules ∧ c'.dataSources = c.dataSources) _ (fun f c' h => ?_) ffs c
    ⟨rfl, rfl, rfl⟩
  have hf := AddField_frame cfg f c'
  exact ⟨hf.2.1.trans h.1, hf.2.2.1.trans h.2.1, hf.2.2.2.1.trans h.2.2⟩

theorem AddArguments_frame (aas : List ArgumentRow) (c : Catalog) :
    (forEachE (fun a => AddArgument a) aas c).1.modules = c.modules ∧
    (forEachE (fun a => AddArgument a) aas c).1.dataSources = c.dataSources := by
  refine forEachE_inv (fun (c' : Catalog) => c'.modules = c.modules ∧
    c'.dataSources = c.dataSources) _ (fun a c' h => ?_) aas c ⟨rfl, rfl⟩
  have hf := AddArgument_frame a c'
  exact ⟨hf.2.2.1.trans h.1, hf.2.2.2.1.trans h.2⟩

theorem AddModules_frame (cfg : Config) (ms : List ModuleInfo) (c : Catalog) :
    (forEachE (fun m => AddModule cfg (moduleRowOf m)) ms c).1.dataSources = c.dataSources := by
  refine forEachE_inv (fun (c' : Catalog) => c'.dataSources = c.dataSources) _
    (fun m c' h => ?_) ms c rfl
  exact (AddModule_frame cfg (moduleRowOf m) c').2.2.2.1.trans h

theorem checkFieldExists_of_nil (c : Catalog) (h : c.fields = []) (t n : String) :
    checkFieldExists c t n = false := by
  simp [checkFieldExists, h]

theorem checkArgumentExists_of_nil (c : Catalog) (h : c.arguments = []) (t f n : String) :
    checkArgumentExists c t f n = false := by
  simp [checkArgumentExists, h]

theorem checkModuleExists_of_nil (c : Catalog) (h : c.modules = []) (n : String) :
    checkModuleExists c n = false := by
  simp [checkModuleExists, h]

theorem checkDataSourceExists_of_nil (c : Catalog) (h : c.dataSources = []) (n : String) :
    checkDataSourceExists c n = false := by
  simp [checkDataSourceExists, h]

/-- C10. For a well-formed upstream schema and summary (pairwise distinct type
names, none of them "Unknown"; distinct names among the flattened fields of
each type; pairwise distinct module names and data source names) and every
initial catalog, `fillBaseSchema` returns the same catalog and the same outcome
as `Clear` followed by `loadSchemaPatrial` with empty type, field, module and
data source sets and `update = false`. -/
theorem fillBaseSchema_eq_clear_loadSchemaPatrial (cfg : Config) (schema : SchemaIntro)
    (info : SchemaInfo) (c : Catalog)
    (hnames : (schema.Types.map (fun st => st.Name)).Nodup)
    (hunk : "Unknown" ∉ schema.Types.map (fun st => st.Name))
    (hfields : ∀ st ∈ schema.Types, ((activeFields st).map (fun f => f.Name)).Nodup)
    (hmods : (info.modules.map (fun m => m.Name)).Nodup)
    (hds : (info.DataSources.map (fun d => d.Name)).Nodup) :
    fillBaseSchema cfg schema info c =
      andThen (Clear c) (loadSchemaPatrial cfg schema info false [] [] [] []) := by
  unfold fillBaseSchema
  refine andThen_congr _ _ _ _ rfl (fun _ => ?_)
  show andThen (AddType cfg unknownType {}) _ = loadSchemaPatrial cfg schema info false [] [] [] [] {}
  unfold loadSchemaPatrial
  have hA : AddType cfg unknownType ({} : Catalog) = mergeType cfg unknownType false {} := by
    simp [mergeType, checkTypeExists]
  have hAt : (AddType cfg unknownType ({} : Catalog)).1.types.map (fun r => r.Name) =
      ["Unknown"] := by
    simp [AddType, checkTypeExists, unknownType]
  have hAf := AddType_frame cfg unknownType ({} : Catalog)
  refine andThen_congr _ _ _ _ hA (fun _ => ?_)
  have hnew : ∀ st ∈ schema.Types,
      checkTypeExists (AddType cfg unknownType ({} : Catalog)).1 st.Name = false := by
    intro st hst
    rw [checkTypeExists_false_iff]
    intro r hr hn
    have h1 : r.Name ∈ (AddType cfg unknownType ({} : Catalog)).1.types.map (fun r => r.Name) :=
      List.mem_map.2 ⟨r, hr, rfl⟩
    rw [hAt, List.mem_singleton] at h1
    exact hunk (List.mem_map.2 ⟨st, hst, by rw [← hn, h1]⟩)
  have hloop := baseTypes_eq_patrial cfg schema.Types
    { c := (AddType cfg unknownType ({} : Catalog)).1 } hnames hnew
  refine andThenFlat_congr _ _ _ _ _ hloop (fun hL => ?_)
  have hspec := baseTypes_spec cfg schema _ hL
  have hfr := baseTypes_frame_all cfg schema.Types
    { c := (AddType cfg unknownType ({} : Catalog)).1 }
  generalize (forEachE (baseType cfg) schema.Types
    { c := (AddType cfg unknownType ({} : Catalog)).1 }).1 = s at hspec hfr
  obtain ⟨hff, haa, -, hknd, -⟩ := hspec
  simp only [List.nil_append] at hff haa
  have hf0 : s.c.fields = [] := hfr.1.trans hAf.1
  have ha0 : s.c.arguments = [] := hfr.2.1.trans hAf.2.1
  have hm0 : s.c.modules = [] := hfr.2.2.1.trans hAf.2.2.1
  have hd0 : s.c.dataSources = [] := hfr.2.2.2.trans hAf.2.2.2.1
  have hF := AddFields_eq_merge cfg false s.ff s.c
    (by rw [hff]; exact flatFields_keys_nodup schema hnames hfields)
    (fun f _ => checkFieldExists_of_nil s.c hf0 _ _)
  refine andThen_congr _ _ _ _ hF (fun _ => ?_)
  have hfrF := AddFields_frame cfg s.ff s.c
  generalize (forEachE (fun f => AddField cfg f) s.ff s.c).1 = c2 at hfrF
  have hG := AddArguments_eq_merge false s.aa c2
    (by rw [haa, flatArguments_triples]; exact List.Nodup.of_map _ hknd)
    (fun a _ => checkArgumentExists_of_nil c2 (hfrF.1.trans ha0) _ _ _)
  refine andThen_congr _ _ _ _ hG (fun _ => ?_)
  have hfrA := AddArguments_frame s.aa c2
  generalize (forEachE (fun a => AddArgument a) s.aa c2).1 = c3 at hfrA
  have hM := AddModules_eq_merge cfg info.modules c3 hmods
    (fun m _ => checkModuleExists_of_nil c3 (hfrA.1.trans (hfrF.2.1.trans hm0)) _)
  refine andThen_congr _ _ _ _ hM (fun _ => ?_)
  have hfrM := AddModules_frame cfg info.modules c3
  generalize (forEachE (fun m => AddModule cfg (moduleRowOf m)) info.modules c3).1 = c4 at hfrM
  have hD := AddDataSources_eq_merge cfg false info.DataSources c4 hds
    (fun d _ => checkDataSourceExists_of_nil c4
      (hfrM.trans (hfrA.2.trans (hfrF.2.2.trans hd0))) _)
  refine andThen_congr _ _ _ _ hD (fun _ => ?_)
  have hfun : loadDataObject info = patrialDataObject info [] := by
    funext d c'
    simp [patrialDataObject, nameSkipped]
  rw [hfun]

/-! ### Invariants of the closure builders -/

theorem foldl_inv {α σ : Type} (P : σ → Prop) (f : σ → α → σ)
    (xs : List α) (h : ∀ x ∈ xs, ∀ s, P s → P (f s x)) (s : σ) (hs : P s) :
    P (xs.foldl f s) := by
  induction xs generalizing s with
  | nil => exact hs
  | cons x xs ih =>
    exact ih (fun y hy => h y (List.mem_cons_of_mem _ hy)) _ (h x (List.mem_cons_self _ _) s hs)

theorem forEachE_inv_mem {α σ : Type} (P : σ → Prop) (body : α → σ → σ × Option Err)
    (xs : List α) (h : ∀ x ∈ xs, ∀ s, P s → P (body x s).1) (s : σ) (hs : P s) :
    P (forEachE body xs s).1 := by
  induction xs generalizing s with
  | nil => simpa [forEachE] using hs
  | cons x xs ih =>
    have hx := h x (List.mem_cons_self _ _) s hs
    rcases hb : body x s with ⟨s', _ | e⟩
    · rw [hb] at hx
      simpa [forEachE, hb] using ih (fun y hy => h y (List.mem_cons_of_mem _ hy)) s' hx
    · rw [hb] at hx; simpa [forEachE, hb] using hx

theorem TypeByName_name (schema : SchemaIntro) (n : String) (t : TypeIntro)
    (h : schema.TypeByName n = some t) : t.Name = n := by
  have := List.find?_some h
  simpa using this

theorem TypeByName_mem (schema : SchemaIntro) (n : String) (t : TypeIntro)
    (h : schema.TypeByName n = some t) : t ∈ schema.Types :=
  List.mem_of_find?_eq_some h

/-- Preservation principle for `addFieldTypeRecursively`. An invariant `I` of
the maps survives an expansion started at a name satisfying the guard `G` when
the guard passes to the targets of a guarded type, and the marking of a
guarded unmarked type `n` and the later writes to `fieldsMap[n]` keep `I`
(`Ok n` records what is known of such an `n`). -/
theorem addFieldTypeRecursivelyFuel_preserves (schema : SchemaIntro) (I : Maps → Prop)
    (G Ok : String → Prop)
    (hG : ∀ n t, G n → schema.TypeByName n = some t → ∀ c ∈ t.targets, G c)
    (hOk : ∀ m n, G n → I m → n ∉ m.typesMap → Ok n)
    (hmark : ∀ m n, Ok n → I m → I ((m.setType n).ensureFields n))
    (hadd : ∀ m n f, Ok n → I m → I (m.addField n f)) :
    ∀ fuel n m, G n → I m → I (addFieldTypeRecursivelyFuel fuel schema n m).1 := by
  intro fuel
  induction fuel with
  | zero =>
    intro n m _ hI
    unfold addFieldTypeRecursivelyFuel
    split
    · exact hI
    · split <;> exact hI
  | succ fuel ih =>
    intro n m hGn hI
    unfold addFieldTypeRecursivelyFuel
    split
    · exact hI
    · rename_i t ht
      split
      · exact hI
      · rename_i hn
        have hok := hOk m n hGn hI hn
        have hc := hG n t hGn ht
        refine andThen_inv I _ _ ?_ (fun m1 h1 => ?_)
        · refine forEachE_inv_mem I _ t.Fields (fun f hf m1 h1 => ?_) _ (hmark m n hok hI)
          unfold expandField
          refine andThen_inv I _ _ ?_ (fun m2 h2 => ?_)
          · refine forEachE_inv_mem I _ f.Args (fun a ha m2 h2 => ?_) _ (hadd m1 n f.Name hok h1)
            unfold expandArg
            split
            · exact h2
            · refine ih _ _ (hc _ ?_) h2
              simp only [TypeIntro.targets, List.mem_append, List.mem_flatMap, List.mem_cons,
                List.mem_map]
              exact Or.inl ⟨f, hf, Or.inr ⟨a, ha, rfl⟩⟩
          · split
            · exact h2
            · refine ih _ _ (hc _ ?_) h2
              simp only [TypeIntro.targets, List.mem_append, List.mem_flatMap, List.mem_cons,
                List.mem_map]
              exact Or.inl ⟨f, hf, Or.inl rfl⟩
        · refine forEachE_inv_mem I _ t.InputFields (fun f hf m2 h2 => ?_) _ h1
          unfold expandInput
          simp only []
          split
          · exact hadd m2 n f.Name hok h2
          · refine ih _ _ (hc _ ?_) (hadd m2 n f.Name hok h2)
            simp only [TypeIntro.targets, List.mem_append, List.mem_flatMap, List.mem_cons,
              List.mem_map]
            exact Or.inr ⟨f, hf, rfl⟩

section FrameLemmas

variable {schema : SchemaIntro} {I : Maps → Prop} {okKey okRoot okRe : String → Prop}

theorem Frame.newFields (F : Frame schema I okKey okRoot okRe) (m : Maps) (n : String)
    (hk : okKey n) (h : I m) : I (m.newFields n) :=
  F.fields m n [] hk h

theorem Frame.ensureFields (F : Frame schema I okKey okRoot okRe) (m : Maps) (n : String)
    (hk : okKey n) (h : I m) : I (m.ensureFields n) := by
  unfold Maps.ensureFields
  split
  · exact h
  · exact F.newFields m n hk h

theorem Frame.addField (F : Frame schema I okKey okRoot okRe) (m : Maps) (n f : String)
    (hk : okKey n) (h : I m) : I (m.addField n f) :=
  F.fields m n _ hk h

theorem Frame.setModule (F : Frame schema I okKey okRoot okRe) (m : Maps) (n : String)
    (h : I m) : I (m.setModule n) :=
  F.other m (n :: m.modulesMap) m.dataSourcesMap h

theorem Frame.setDataSource (F : Frame schema I okKey okRoot okRe) (m : Maps) (n : String)
    (h : I m) : I (m.setDataSource n) :=
  F.other m m.modulesMap (n :: m.dataSourcesMap) h

theorem Frame.on_shallowArgs (F : Frame schema I okKey okRoot okRe) (f : FieldIntro) (m : Maps)
    (h : I m) : I (shallowArgs f m) :=
  foldl_inv I _ f.Args (fun _ _ s hs => F.types s _ hs) m h

theorem Frame.on_deepArgs (F : Frame schema I okKey okRoot okRe) (f : FieldIntro) (m : Maps)
    (hr : ∀ a ∈ f.Args, okRoot a.Typ.TypeName) (h : I m) : I (deepArgs schema f m) :=
  foldl_inv I _ f.Args (fun a ha s hs => F.expand s _ (hr a ha) hs) m h

theorem Frame.on_objectField (F : Frame schema I okKey okRoot okRe) (decl : List String)
    (doName : String) (f : FieldIntro) (m : Maps) (hk : okKey doName)
    (hr : f.Name ∈ decl → okRoot f.Typ.TypeName ∧ ∀ a ∈ f.Args, okRoot a.Typ.TypeName)
    (h : I m) : I (objectField schema decl doName f m) := by
  unfold objectField
  simp only []
  split
  · exact F.on_shallowArgs f _ (F.types _ _ (F.addField m doName f.Name hk h))
  · rename_i hd
    have hd' : f.Name ∈ decl := by simpa using hd
    exact F.on_deepArgs f _ (hr hd').2 (F.expand _ _ (hr hd').1 (F.addField m doName f.Name hk h))

theorem Frame.on_inputField (F : Frame schema I okKey okRoot okRe) (decl : List String)
    (owner : String) (f : FieldIntro) (m : Maps) (hk : okKey owner)
    (hr : f.Name ∈ decl → okRoot f.Typ.TypeName) (h : I m) :
    I (inputField schema decl owner f m) := by
  unfold inputField
  simp only []
  split
  · exact F.types _ _ (F.addField m owner f.Name hk h)
  · rename_i hd
    have hd' : f.Name ∈ decl := by simpa using hd
    exact F.expand _ _ (hr hd') (F.addField m owner f.Name hk h)

theorem Frame.on_aggregationField (F : Frame schema I okKey okRoot okRe) (decl : List String)
    (owner : String) (f : FieldIntro) (m : Maps) (hk : okKey owner)
    (hr : aggDeep decl f → okRoot f.Typ.TypeName ∧ ∀ a ∈ f.Args, okRoot a.Typ.TypeName)
    (h : I m) : I (aggregationField schema decl owner f m) := by
  unfold aggregationField
  simp only []
  split
  · exact F.on_shallowArgs f _ (F.types _ _ (F.addField m owner f.Name hk h))
  · rename_i hd
    exact F.on_deepArgs f _ (hr hd).2 (F.expand _ _ (hr hd).1 (F.addField m owner f.Name hk h))

theorem Frame.on_filterPart (F : Frame schema I okKey okRoot okRe) (k : Consts)
    (doi : DataObjectInfo) (decl : List String) (m : Maps)
    (hc : doi.FilterType ≠ "" → okKey doi.FilterType ∧ okRe (listFilterName k doi.FilterType) ∧
      ∀ fi, schema.TypeByName doi.FilterType = some fi →
        ∀ f ∈ fi.InputFields, f.Name ∈ decl → okRoot f.Typ.TypeName)
    (h : I m) : I (filterPart k schema doi decl m).1 := by
  unfold filterPart
  split
  · rename_i hne
    obtain ⟨h1, h2, h3⟩ := hc hne
    split
    · exact h
    · rename_i fi hfi
      refine F.reexpand _ _ h2 ?_
      refine foldl_inv I _ fi.InputFields (fun f hf s hs => ?_) _
        (F.newFields _ _ h1 (F.types _ _ h))
      exact F.on_inputField decl _ f s h1 (h3 fi hfi f hf) hs
  · exact h

theorem Frame.on_argumentsPart (F : Frame schema I okKey okRoot okRe) (doi : DataObjectInfo)
    (m : Maps) (hc : ∀ a, doi.Arguments = some a → a.Typ ≠ "" → okRe a.Typ) (h : I m) :
    I (argumentsPart schema doi m) := by
  unfold argumentsPart
  split
  · rename_i a ha
    split
    · rename_i hne
      exact F.reexpand _ _ (hc a ha hne) h
    · exact h
  · exact h

theorem Frame.on_aggregationPart (F : Frame schema I okKey okRoot okRe) (decl : List String)
    (what agg : String) (m : Maps)
    (hc : agg ≠ "" → okKey agg ∧ ∀ ai, schema.TypeByName agg = some ai →
      ∀ f ∈ ai.Fields, aggDeep decl f →
        okRoot f.Typ.TypeName ∧ ∀ a ∈ f.Args, okRoot a.Typ.TypeName)
    (h : I m) : I (aggregationPart schema decl what agg m).1 := by
  unfold aggregationPart
  split
  · rename_i hne
    obtain ⟨h1, h2⟩ := hc hne
    split
    · exact h
    · rename_i ai hai
      refine foldl_inv I _ ai.Fields (fun f hf s hs => ?_) _
        (F.newFields _ _ h1 (F.types _ _ h))
      exact F.on_aggregationField decl _ f s h1 (h2 ai hai f hf) hs
  · exact h

theorem Frame.on_bucketPart (F : Frame schema I okKey okRoot okRe) (bucket : String) (m : Maps)
    (hc : bucket ≠ "" → okKey bucket) (h : I m) : I (bucketPart schema bucket m).1 := by
  unfold bucketPart
  split
  · rename_i hne
    split
    · exact h
    · rename_i bai _
      exact foldl_inv I _ bai.Fields (fun f _ s hs => F.addField s _ _ (hc hne) hs) _
        (F.newFields _ _ (hc hne) (F.types _ _ h))
  · exact h

theorem Frame.on_queryRootPart (F : Frame schema I okKey okRoot okRe) (mi : ModuleInfo)
    (doi : DataObjectInfo) (m : Maps)
    (hc : mi.QueryType ≠ "" → okKey mi.QueryType ∧
      ∀ q ∈ doi.Queries, ∀ a ∈ q.Arguments, okRoot a.Typ)
    (h : I m) : I (queryRootPart schema mi doi m) := by
  unfold queryRootPart
  split
  · rename_i hne
    obtain ⟨h1, h2⟩ := hc hne
    refine foldl_inv I _ doi.Queries (fun q hq s hs => ?_) _
      (F.ensureFields _ _ h1 (F.types _ _ h))
    unfold queryRootField
    exact foldl_inv I _ q.Arguments (fun a ha s hs => F.expand s _ (h2 q hq a ha) hs) _
      (F.types _ _ (F.addField s _ _ h1 hs))
  · exact h

theorem Frame.on_mutationRootPart (F : Frame schema I okKey okRoot okRe) (mi : ModuleInfo)
    (doi : DataObjectInfo) (decl : List String) (m : Maps)
    (hc : ∀ mu, doi.Mutations = some mu → mi.MutationType ≠ "" →
      okKey mi.MutationType ∧
      (mu.InsertMutation ≠ "" → okKey mu.InsertDataType ∧
        ∀ mdi, schema.TypeByName mu.InsertDataType = some mdi →
          ∀ f ∈ mdi.InputFields, f.Name ∈ decl → okRoot f.Typ.TypeName) ∧
      (mu.UpdateMutation ≠ "" → okRoot mu.UpdateDataType))
    (h : I m) : I (mutationRootPart schema mi doi decl m) := by
  unfold mutationRootPart
  split
  · rename_i mu hmu
    split
    · rename_i hne
      obtain ⟨h1, h2, h3⟩ := hc mu hmu hne
      have hI0 := F.ensureFields _ mi.MutationType h1 (F.types m mi.MutationType h)
      have hI1 : I (insertMutationPart schema mi mu decl
          ((m.setType mi.MutationType).ensureFields mi.MutationType)) := by
        unfold insertMutationPart
        split
        · rename_i hi
          simp only []
          split
          · exact F.addField _ _ _ h1 hI0
          · rename_i mdi hmdi
            have hname := TypeByName_name schema _ _ hmdi
            refine foldl_inv I _ mdi.InputFields (fun f hf s hs => ?_) _
              (F.newFields _ _ (by rw [hname]; exact (h2 hi).1)
                (F.types _ _ (F.addField _ _ _ h1 hI0)))
            exact F.on_inputField decl _ f s (by rw [hname]; exact (h2 hi).1)
              ((h2 hi).2 mdi hmdi f hf) hs
        · exact hI0
      have hI2 : I (updateMutationPart schema mi mu (insertMutationPart schema mi mu decl
          ((m.setType mi.MutationType).ensureFields mi.MutationType))) := by
        unfold updateMutationPart
        split
        · rename_i hu
          exact F.expand _ _ (h3 hu) (F.addField _ _ _ h1 hI1)
        · exact hI1
      unfold deleteMutationPart
      split
      · exact F.addField _ _ _ h1 hI2
      · exact hI2
    · exact h
  · exact h

theorem Frame.on_functionRootsPart (F : Frame schema I okKey okRoot okRe) (mi : ModuleInfo)
    (m : Maps) (h : I m) : I (functionRootsPart mi m) := by
  unfold functionRootsPart
  simp only []
  split <;> split <;> first | exact h | exact F.types _ _ h | exact F.types _ _ (F.types _ _ h)

end FrameLemmas

section FrameLemmasModules

variable {schema : SchemaIntro} {I : Maps → Prop} {okKey okRoot okRe : String → Prop}

theorem Frame.on_moduleLevelRoots (F : Frame schema I okKey okRoot okRe) (pmi spi : ModuleInfo)
    (n : String) (m : Maps) (hc : ∀ r ∈ pmi.roots, r ≠ "" → okKey r) (h : I m) :
    I (moduleLevelRoots pmi spi n m) := by
  have hq : pmi.QueryType ≠ "" → okKey pmi.QueryType := hc _ (by simp [ModuleInfo.roots])
  have hm : pmi.MutationType ≠ "" → okKey pmi.MutationType := hc _ (by simp [ModuleInfo.roots])
  have hf : pmi.FunctionType ≠ "" → okKey pmi.FunctionType := hc _ (by simp [ModuleInfo.roots])
  have hg : pmi.MutationFunctionType ≠ "" → okKey pmi.MutationFunctionType :=
    hc _ (by simp [ModuleInfo.roots])
  unfold moduleLevelRoots
  simp only []
  have h1 : I (if pmi.QueryType ≠ "" then
      (if pmi.FunctionType ≠ "" ∧ pmi.Name = "" then
        (if spi.QueryType ≠ "" then
          ((m.setType pmi.QueryType).ensureFields pmi.QueryType).addField pmi.QueryType n
          else (m.setType pmi.QueryType).ensureFields pmi.QueryType).addField
            pmi.QueryType "function"
      else (if spi.QueryType ≠ "" then
          ((m.setType pmi.QueryType).ensureFields pmi.QueryType).addField pmi.QueryType n
          else (m.setType pmi.QueryType).ensureFields pmi.QueryType))
      else m) := by
    split
    · rename_i hne
      have e := F.ensureFields _ pmi.QueryType (hq hne) (F.types m pmi.QueryType h)
      split <;> split <;>
        first
        | exact e
        | exact F.addField _ _ _ (hq hne) e
        | exact F.addField _ _ _ (hq hne) (F.addField _ _ _ (hq hne) e)
    · exact h
  generalize (if pmi.QueryType ≠ "" then _ else m) = m1 at h1
  have h2 : I (if pmi.MutationType ≠ "" then
      (if pmi.MutationFunctionType ≠ "" ∧ pmi.Name = "" then
        (if spi.MutationType ≠ "" then
          ((m1.setType pmi.MutationType).ensureFields pmi.MutationType).addField
            pmi.MutationType n
          else (m1.setType pmi.MutationType).ensureFields pmi.MutationType).addField
            pmi.MutationType "function"
      else (if spi.MutationType ≠ "" then
          ((m1.setType pmi.MutationType).ensureFields pmi.MutationType).addField
            pmi.MutationType n
          else (m1.setType pmi.MutationType).ensureFields pmi.MutationType))
      else m1) := by
    split
    · rename_i hne
      have e := F.ensureFields _ pmi.MutationType (hm hne) (F.types m1 pmi.MutationType h1)
      split <;> split <;>
        first
        | exact e
        | exact F.addField _ _ _ (hm hne) e
        | exact F.addField _ _ _ (hm hne) (F.addField _ _ _ (hm hne) e)
    · exact h1
  generalize (if pmi.MutationType ≠ "" then _ else m1) = m2 at h2
  have h3 : I (if pmi.FunctionType ≠ "" then
      (if spi.FunctionType ≠ "" then
        (match fmGet (m2.setType pmi.FunctionType).fieldsMap pmi.FunctionType with
          | some _ => m2.setType pmi.FunctionType
          | none => { m2.setType pmi.FunctionType with
              fieldsMap := (pmi.FunctionType, [n]) ::
                (m2.setType pmi.FunctionType).fieldsMap }).addField pmi.FunctionType n
      else m2.setType pmi.FunctionType)
      else m2) := by
    split
    · rename_i hne
      split
      · refine F.addField _ _ _ (hf hne) ?_
        split
        · exact F.types _ _ h2
        · exact F.fields _ _ _ (hf hne) (F.types _ _ h2)
      · exact F.types _ _ h2
    · exact h2
  generalize (if pmi.FunctionType ≠ "" then _ else m2) = m3 at h3
  split
  · rename_i hne
    split
    · exact F.addField _ _ _ (hg hne) (F.ensureFields _ _ (hg hne) (F.types _ _ h3))
    · exact F.types _ _ h3
  · exact h3

end FrameLemmasModules

section FrameLemmasTail

variable {schema : SchemaIntro} {I : Maps → Prop} {okKey okRoot okRe : String → Prop}

theorem Module_mem (info : SchemaInfo) (n : String) (mo : ModuleInfo)
    (h : info.Module n = some mo) : mo ∈ info.modules :=
  List.mem_of_find?_eq_some h

theorem Frame.on_fillModulesTypesRecursively (F : Frame schema I okKey okRoot okRe)
    (info : SchemaInfo) (mi : ModuleInfo) (m : Maps)
    (hc : ∀ mo ∈ info.RootModule :: info.modules, ∀ r ∈ mo.roots, r ≠ "" → okKey r)
    (h : I m) : I (fillModulesTypesRecursively info mi m).1 := by
  unfold fillModulesTypesRecursively
  simp only []
  have key := forEachE_inv
    (fun (st : Maps × ModuleInfo) => I st.1 ∧ st.2 ∈ info.RootModule :: info.modules)
    (moduleLevel info (splitDot mi.Name))
    (fun i st hst => by
      unfold moduleLevel
      simp only []
      split
      · exact ⟨F.setModule _ _ hst.1, hst.2⟩
      · rename_i spi hspi
        exact ⟨F.on_moduleLevelRoots _ _ _ _ (hc _ hst.2) (F.setModule _ _ hst.1),
          List.mem_cons_of_mem _ (Module_mem info _ _ hspi)⟩)
    (List.range (splitDot mi.Name).length) (m.setModule "", info.RootModule)
    ⟨F.setModule _ _ h, List.mem_cons_self _ _⟩
  exact key.1

theorem Frame.on_dataSourcePart (F : Frame schema I okKey okRoot okRe) (info : SchemaInfo)
    (ds : String) (m : Maps) (h : I m) : I (dataSourcePart info ds m).1 := by
  unfold dataSourcePart
  split
  · exact F.setDataSource _ _ h
  · exact h

theorem Frame.on_syntheticPart (F : Frame schema I okKey okRoot okRe) (k : Consts)
    (hasSpatial : Bool) (pfx : String) (doi : DataObjectInfo) (m : Maps)
    (hc : ∀ r ∈ syntheticTypes k, okKey r) (h : I m) :
    I (syntheticPart k hasSpatial pfx doi m) := by
  have k1 : okKey k.QueryTimeJoinsTypeName := hc _ (by simp [syntheticTypes])
  have k2 : okKey (k.QueryTimeJoinsTypeName ++ k.AggregationSuffix) :=
    hc _ (by simp [syntheticTypes])
  have k3 : okKey k.QueryTimeSpatialTypeName := hc _ (by simp [syntheticTypes])
  have k4 : okKey (k.QueryTimeSpatialTypeName ++ k.AggregationSuffix) :=
    hc _ (by simp [syntheticTypes])
  have k5 : okKey k.H3DataQueryTypeName := hc _ (by simp [syntheticTypes])
  unfold syntheticPart
  simp only []
  have h1 := F.ensureFields _ _ k2 (F.types _ (k.QueryTimeJoinsTypeName ++ k.AggregationSuffix)
    (F.ensureFields _ _ k1 (F.types m k.QueryTimeJoinsTypeName h)))
  refine foldl_inv I _ doi.Queries (fun q _ s hs => ?_) _ ?_
  · unfold syntheticQuery
    simp only []
    split
    · exact hs
    · have e := F.addField _ (k.QueryTimeJoinsTypeName ++ k.AggregationSuffix) (pfx ++ q.Name) k2
        (F.addField s k.QueryTimeJoinsTypeName (pfx ++ q.Name) k1 hs)
      split
      · exact F.addField _ _ _ k5 (F.addField _ _ _ k4 (F.addField _ _ _ k3 e))
      · exact e
  · split
    · exact F.ensureFields _ _ k5 (F.types _ _ (F.ensureFields _ _ k4 (F.types _ _
        (F.ensureFields _ _ k3 (F.types _ _ h1)))))
    · exact h1

end FrameLemmasTail

/-! ### Closure completeness for the aggregation type -/

theorem fmGet_cons_ne (m : FieldsMap) (n A : String) (v : List String) (h : n ≠ A) :
    fmGet ((n, v) :: m) A = fmGet m A := by
  simp [fmGet, h]

theorem fmGet_cons_self (m : FieldsMap) (A : String) (v : List String) :
    fmGet ((A, v) :: m) A = some v := by
  simp [fmGet]

theorem ensureFields_fmGet_ne (m : Maps) (n A : String) (h : n ≠ A) :
    fmGet (m.ensureFields n).fieldsMap A = fmGet m.fieldsMap A := by
  unfold Maps.ensureFields
  split
  · rfl
  · exact fmGet_cons_ne _ _ _ _ h

theorem ensureFields_typesMap (m : Maps) (n : String) :
    (m.ensureFields n).typesMap = m.typesMap := by
  unfold Maps.ensureFields
  split <;> rfl

/-- Once `A` is marked, no expansion touches `fieldsMap[A]`. -/
theorem EntryIs_expand (schema : SchemaIntro) (A : String) (v : List String) (n : String)
    (m : Maps) (h : EntryIs A v m) : EntryIs A v (expandIgnoringError schema n m) := by
  refine addFieldTypeRecursivelyFuel_preserves schema (EntryIs A v) (fun _ => True)
    (fun n => n ≠ A) (fun _ _ _ _ _ _ => trivial) ?_ ?_ ?_ _ n m trivial h
  · intro m n _ hI hn hna
    exact hn (hna ▸ hI.1)
  · intro m n hn hI
    refine ⟨?_, ?_⟩
    · rw [ensureFields_typesMap]
      exact List.mem_cons_of_mem _ hI.1
    · rw [ensureFields_fmGet_ne _ _ _ hn]
      exact hI.2
  · intro m n f hn hI
    refine ⟨hI.1, ?_⟩
    show ∃ e, fmGet ((n, _) :: m.fieldsMap) A = some e ∧ _
    rw [fmGet_cons_ne _ _ _ _ hn]
    exact hI.2

/-- The frame of `EntryIs A v`: every key other than `A` may be written and
every root may be expanded. -/
theorem EntryIs_frame (schema : SchemaIntro) (A : String) (v : List String) :
    Frame schema (EntryIs A v) (fun n => n ≠ A) (fun _ => True) (fun _ => False) where
  types := fun m n h => ⟨List.mem_cons_of_mem _ h.1, h.2⟩
  fields := fun m n v' hn h => ⟨h.1, by
    show ∃ e, fmGet ((n, v') :: m.fieldsMap) A = some e ∧ _
    rw [fmGet_cons_ne _ _ _ _ hn]
    exact h.2⟩
  other := fun m mm dd h => h
  expand := fun m n _ h => EntryIs_expand schema A v n m h
  reexpand := fun m n hn _ => hn.elim

theorem foldl_prefix {α σ : Type} (J : List α → σ → Prop) (f : σ → α → σ)
    (hstep : ∀ done x s, J done s → J (done ++ [x]) (f s x)) :
    ∀ (rest done : List α) (s : σ), J done s → J (done ++ rest) (rest.foldl f s) := by
  intro rest
  induction rest with
  | nil => intro done s h; simpa using h
  | cons x rest ih =>
    intro done s h
    have := ih (done ++ [x]) (f s x) (hstep done x s h)
    simpa using this

/-- The aggregation block leaves `fieldsMap[A]` equal to the field names of `A`. -/
theorem aggregationPart_entry (schema : SchemaIntro) (decl : List String) (what A : String)
    (ai : TypeIntro) (m : Maps) (hA : A ≠ "") (hai : schema.TypeByName A = some ai) :
    EntryIs A (ai.Fields.map (fun f => f.Name)) (aggregationPart schema decl what A m).1 := by
  unfold aggregationPart
  simp only [hA, ne_eq, not_false_eq_true, if_true, hai]
  have key := foldl_prefix
    (fun (done : List FieldIntro) (s : Maps) => EntryIs A (done.map (fun f => f.Name)) s)
    (fun m f => aggregationField schema decl A f m)
    (fun done x s hs => by
      have F := EntryIs_frame schema A ((done ++ [x]).map (fun f => f.Name))
      have h1 : EntryIs A ((done ++ [x]).map (fun f => f.Name)) (s.addField A x.Name) := by
        obtain ⟨ht, e, he, hiff⟩ := hs
        refine ⟨ht, x.Name :: e, ?_, ?_⟩
        · show fmGet ((A, x.Name :: (fmGet s.fieldsMap A).getD []) :: s.fieldsMap) A = _
          rw [fmGet_cons_self, he]
          rfl
        · intro y
          simp only [List.mem_cons, List.map_append, List.map_cons, List.map_nil,
            List.mem_append, List.mem_singleton, hiff y, List.not_mem_nil, or_false]
          exact or_comm
      show EntryIs A _ (aggregationField schema decl A x s)
      unfold aggregationField
      simp only []
      split
      · exact F.on_shallowArgs x _ (F.types _ _ h1)
      · exact F.on_deepArgs x _ (fun _ _ => trivial) (F.expand _ _ trivial h1))
    ai.Fields [] ((m.setType A).newFields A)
    ⟨List.mem_cons_self _ _, [], fmGet_cons_self _ _ _, by simp⟩
  simpa using key

theorem andThen_post {σ : Type} (Q : σ → Prop) (r : σ × Option Err) (k : σ → σ × Option Err)
    (hok : (andThen r k).2 = none) (h : r.2 = none → (k r.1).2 = none → Q (k r.1).1) :
    Q (andThen r k).1 := by
  obtain ⟨h1, h2⟩ := andThen_ok r k hok
  rw [andThen_of_ok r k h1]
  exact h h1 h2

/-- C3 (closure completeness). Let `X` be a data object (its type, its module
and its descriptor resolve) whose aggregation type `A` is named and resolves
to `ai` in the schema, and let `A` differ from the sub-aggregation, bucket
aggregation and insert data types of `X`, from the root types of every module
and from the five synthetic types. If `fillDataObjectTypesForUpdate` returns
without error (from any initial maps, in particular the empty ones), the
returned `fieldsMap` has an entry for `A` whose members are exactly the field
names of `A`. -/
theorem aggregation_fields_exact (k : Consts) (schema : SchemaIntro) (info : SchemaInfo)
    (doName : String) (ti : TypeIntro) (mi : ModuleInfo) (doi : DataObjectInfo)
    (ai : TypeIntro) (m r : Maps)
    (hti : schema.TypeByName doName = some ti) (hmi : info.Module ti.Module = some mi)
    (hdoi : mi.DataObject ti.Name = some doi)
    (hA : doi.AggregationType ≠ "") (hai : schema.TypeByName doi.AggregationType = some ai)
    (hsub : doi.SubAggregationType ≠ doi.AggregationType)
    (hbucket : doi.BucketAggregationType ≠ doi.AggregationType)
    (hins : ∀ mu, doi.Mutations = some mu → mu.InsertDataType ≠ doi.AggregationType)
    (hroots : ∀ mo ∈ info.RootModule :: info.modules, doi.AggregationType ∉ mo.roots)
    (hsyn : doi.AggregationType ∉ syntheticTypes k)
    (hok : fillDataObjectTypesForUpdate k schema info doName m = (r, none)) :
    ∃ e, fmGet r.fieldsMap doi.AggregationType = some e ∧
      ∀ x, x ∈ e ↔ x ∈ ai.Fields.map (fun f => f.Name) := by
  have F := EntryIs_frame schema doi.AggregationType (ai.Fields.map (fun f => f.Name))
  have hkroot : ∀ mo ∈ info.RootModule :: info.modules, ∀ r ∈ mo.roots, r ≠ "" →
      r ≠ doi.AggregationType := by
    intro mo hmo r hr _ he
    exact hroots mo hmo (he ▸ hr)
  have hmi_mem : mi ∈ info.RootModule :: info.modules :=
    List.mem_cons_of_mem _ (Module_mem info _ _ hmi)
  simp only [fillDataObjectTypesForUpdate, hti, hmi, hdoi] at hok
  have hok2 : (fillDataObjectBody k schema info doName ti mi doi m).2 = none := by rw [hok]
  have hr : r = (fillDataObjectBody k schema info doName ti mi doi m).1 := by rw [hok]
  rw [hr]
  suffices h : EntryIs doi.AggregationType (ai.Fields.map (fun f => f.Name))
      (fillDataObjectBody k schema info doName ti mi doi m).1 from h.2
  unfold fillDataObjectBody fillDataObjectTail at hok2 ⊢
  refine andThen_post _ _ _ hok2 (fun _ hok3 => ?_)
  refine andThen_inv _ _ _ (aggregationPart_entry schema _ _ _ ai _ hA hai) (fun m1 h1 => ?_)
  refine andThen_inv _ _ _ ?_ (fun m2 h2 => ?_)
  · refine F.on_aggregationPart _ _ _ _ (fun _ => ⟨hsub, fun _ _ _ _ _ => ⟨trivial, ?_⟩⟩) h1
    exact fun _ _ => trivial
  refine andThen_inv _ _ _ (F.on_bucketPart _ _ (fun _ => hbucket) h2) (fun m3 h3 => ?_)
  refine andThen_inv _ _ _ ?_ (fun m4 h4 => ?_)
  · refine F.on_fillModulesTypesRecursively info mi _ hkroot ?_
    refine F.on_functionRootsPart mi _ ?_
    refine F.on_mutationRootPart mi doi _ _ ?_ ?_
    · intro mu hmu hne
      refine ⟨hkroot mi hmi_mem _ (by simp [ModuleInfo.roots]) hne, fun _ => ⟨hins mu hmu, ?_⟩,
        fun _ => trivial⟩
      exact fun _ _ _ _ _ => trivial
    · refine F.on_queryRootPart mi doi _ ?_ h3
      intro hne
      exact ⟨hkroot mi hmi_mem _ (by simp [ModuleInfo.roots]) hne, fun _ _ _ _ => trivial⟩
  · simp only []
    refine F.on_syntheticPart k _ _ doi _ ?_ (F.on_dataSourcePart info _ _ h4)
    intro r hr he
    exact hsyn (he ▸ hr)

/-- Witness of C3: declared columns `{a, b, c}` and aggregation fields
`{a, b, c, _rows_count}`. -/
theorem aggregation_fields_exact_witness :
    (fillDataObjectTypesForUpdate specConsts schemaC3 infoC3 "X" {}).2 = none ∧
    ∃ e, fmGet (fillDataObjectTypesForUpdate specConsts schemaC3 infoC3 "X" {}).1.fieldsMap
        "X_agg" = some e ∧
      ∀ x, x ∈ e ↔ x ∈ ["a", "b", "c", "_rows_count"] :=
  ⟨by decide,
   aggregation_fields_exact specConsts schemaC3 infoC3 "X"
    { Name := "X"
      Module := "m"
      Fields := [{ Name := "a", Typ := intRef }, { Name := "b", Typ := intRef },
                 { Name := "c", Typ := intRef }] }
    moduleC3 objectC3
    { Name := "X_agg"
      Module := "m"
      Fields := [{ Name := "a", Typ := intRef }, { Name := "b", Typ := intRef },
                 { Name := "c", Typ := intRef }, { Name := "_rows_count", Typ := intRef }] }
    {} (fillDataObjectTypesForUpdate specConsts schemaC3 infoC3 "X" {}).1
    (by decide) (by decide) (by decide) (by decide) (by decide) (by decide) (by decide)
    (by intro mu h; cases h) (by decide) (by decide) (by decide)⟩

section FrameTail

variable {schema : SchemaIntro} {I : Maps → Prop} {okKey okRoot okRe : String → Prop}

theorem mem_tailFamily (k : Consts) (info : SchemaInfo) (doi : DataObjectInfo) (n : String)
    (hn : n ≠ "")
    (h : n ∈ [doi.FilterType, doi.AggregationType, doi.SubAggregationType,
          doi.BucketAggregationType] ∨
      ∃ mo ∈ info.RootModule :: info.modules, n ∈ mo.roots) :
    n ∈ tailFamily k info doi := by
  unfold tailFamily
  refine List.mem_append_left _ (List.mem_append_left _
    (List.mem_filter.2 ⟨?_, by simpa using hn⟩))
  rcases h with h | ⟨mo, hmo, hr⟩
  · exact List.mem_append_left _ h
  · exact List.mem_append_right _ (List.mem_flatMap.2 ⟨mo, hmo, hr⟩)

theorem mem_tailFamily_insert (k : Consts) (info : SchemaInfo) (doi : DataObjectInfo)
    (mu : MutationInfo) (hmu : doi.Mutations = some mu) :
    mu.InsertDataType ∈ tailFamily k info doi := by
  unfold tailFamily
  refine List.mem_append_left _ (List.mem_append_right _ ?_)
  rw [hmu]
  exact List.mem_singleton.2 rfl

theorem fieldsOf_eq (schema : SchemaIntro) (n : String) (t : TypeIntro)
    (h : schema.TypeByName n = some t) : fieldsOf schema n = t.Fields := by
  simp [fieldsOf, h]

theorem inputFieldsOf_eq (schema : SchemaIntro) (n : String) (t : TypeIntro)
    (h : schema.TypeByName n = some t) : inputFieldsOf schema n = t.InputFields := by
  simp [inputFieldsOf, h]

theorem Frame.on_fillDataObjectTail (F : Frame schema I okKey okRoot okRe) (k : Consts)
    (info : SchemaInfo) (ti : TypeIntro) (mi : ModuleInfo) (doi : DataObjectInfo) (m : Maps)
    (hmi : mi ∈ info.RootModule :: info.modules)
    (hk : ∀ n ∈ tailFamily k info doi, okKey n)
    (hr : ∀ n ∈ tailRoots k schema mi doi, okRoot n)
    (hre : ∀ n ∈ reRoots k doi, okRe n) (h : I m) :
    I (fillDataObjectTail k schema info ti mi doi (declaredNames doi) m).1 := by
  have hkroot : ∀ mo ∈ info.RootModule :: info.modules, ∀ r ∈ mo.roots, r ≠ "" → okKey r :=
    fun mo hmo r hr hne => hk r (mem_tailFamily k info doi r hne (Or.inr ⟨mo, hmo, hr⟩))
  unfold fillDataObjectTail
  refine andThen_inv _ _ _ ?_ (fun m1 h1 => ?_)
  · refine F.on_filterPart k doi _ m (fun hne => ⟨?_, ?_, ?_⟩) h
    · exact hk _ (mem_tailFamily k info doi _ hne (Or.inl (by simp)))
    · exact hre _ (by simp [reRoots, hne])
    · intro fi hfi f hf hd
      refine hr _ ?_
      simp only [tailRoots, List.mem_append]
      refine Or.inl (Or.inl (Or.inl (Or.inl (Or.inr ?_))))
      rw [if_pos hne, inputFieldsOf_eq schema _ fi hfi]
      exact List.mem_map.2 ⟨f, List.mem_filter.2 ⟨hf, by simpa using hd⟩, rfl⟩
  refine andThen_inv _ _ _ ?_ (fun m2 h2 => ?_)
  · refine F.on_aggregationPart _ _ _ _ (fun hne => ⟨?_, ?_⟩) ?_
    · exact hk _ (mem_tailFamily k info doi _ hne (Or.inl (by simp)))
    · intro ai hai f hf hd
      have hmem : ∀ t ∈ f.targets, t ∈ tailRoots k schema mi doi := by
        intro t ht
        simp only [tailRoots, List.mem_append]
        refine Or.inl (Or.inl (Or.inl (Or.inr ?_)))
        rw [if_pos hne, fieldsOf_eq schema _ ai hai]
        exact List.mem_flatMap.2 ⟨f, List.mem_filter.2 ⟨hf, decide_eq_true hd⟩, ht⟩
      exact ⟨hr _ (hmem _ (List.mem_cons_self _ _)),
        fun a ha => hr _ (hmem _ (List.mem_cons_of_mem _ (List.mem_map.2 ⟨a, ha, rfl⟩)))⟩
    · refine F.on_argumentsPart doi _ (fun a ha hne => ?_) h1
      exact hre _ (by simp [reRoots, ha, hne])
  refine andThen_inv _ _ _ ?_ (fun m3 h3 => ?_)
  · refine F.on_aggregationPart _ _ _ _ (fun hne => ⟨?_, ?_⟩) h2
    · exact hk _ (mem_tailFamily k info doi _ hne (Or.inl (by simp)))
    · intro ai hai f hf hd
      have hmem : ∀ t ∈ f.targets, t ∈ tailRoots k schema mi doi := by
        intro t ht
        simp only [tailRoots, List.mem_append]
        refine Or.inl (Or.inl (Or.inr ?_))
        rw [if_pos hne, fieldsOf_eq schema _ ai hai]
        exact List.mem_flatMap.2 ⟨f, List.mem_filter.2 ⟨hf, decide_eq_true hd⟩, ht⟩
      exact ⟨hr _ (hmem _ (List.mem_cons_self _ _)),
        fun a ha => hr _ (hmem _ (List.mem_cons_of_mem _ (List.mem_map.2 ⟨a, ha, rfl⟩)))⟩
  refine andThen_inv _ _ _ ?_ (fun m4 h4 => ?_)
  · exact F.on_bucketPart _ _
      (fun hne => hk _ (mem_tailFamily k info doi _ hne (Or.inl (by simp)))) h3
  refine andThen_inv _ _ _ ?_ (fun m5 h5 => ?_)
  · refine F.on_fillModulesTypesRecursively info mi _ hkroot ?_
    refine F.on_functionRootsPart mi _ ?_
    refine F.on_mutationRootPart mi doi _ _ ?_ ?_
    · intro mu hmu hne
      refine ⟨hkroot mi hmi _ (by simp [ModuleInfo.roots]) hne, fun hi => ⟨?_, ?_⟩, fun hu => ?_⟩
      · exact hk _ (mem_tailFamily_insert k info doi mu hmu)
      · intro mdi hmdi f hf hd
        refine hr _ ?_
        simp only [tailRoots, List.mem_append]
        refine Or.inr ?_
        rw [hmu]
        simp only [if_pos hne, if_pos hi, List.mem_append]
        refine Or.inl ?_
        rw [inputFieldsOf_eq schema _ mdi hmdi]
        exact List.mem_map.2 ⟨f, List.mem_filter.2 ⟨hf, by simpa using hd⟩, rfl⟩
      · refine hr _ ?_
        simp only [tailRoots, List.mem_append]
        refine Or.inr ?_
        rw [hmu]
        simp [if_pos hne, hu]
    · refine F.on_queryRootPart mi doi _ (fun hne => ⟨?_, ?_⟩) h4
      · exact hkroot mi hmi _ (by simp [ModuleInfo.roots]) hne
      · intro q hq a ha
        refine hr _ ?_
        simp only [tailRoots, List.mem_append]
        refine Or.inl (Or.inr ?_)
        rw [if_pos hne]
        exact List.mem_flatMap.2 ⟨q, hq, List.mem_map.2 ⟨a, ha, rfl⟩⟩
  · exact F.on_syntheticPart k _ _ doi _
      (fun r hr => hk r (List.mem_append_right _ hr)) (F.on_dataSourcePart info _ _ h5)

end FrameTail

/-! ### The shallow rule -/

/-- The expansion case of `addFieldTypeRecursively`: an invariant that holds
after the marking of the expanded type and survives the recursive calls holds
at the end. -/
theorem addFieldTypeRecursivelyFuel_expand (schema : SchemaIntro) (I : Maps → Prop)
    (G Ok : String → Prop)
    (hG : ∀ n t, G n → schema.TypeByName n = some t → ∀ c ∈ t.targets, G c)
    (hOk : ∀ m n, G n → I m → n ∉ m.typesMap → Ok n)
    (hmark : ∀ m n, Ok n → I m → I ((m.setType n).ensureFields n))
    (hadd : ∀ m n f, Ok n → I m → I (m.addField n f))
    (fuel : Nat) (n : String) (t : TypeIntro) (m : Maps)
    (ht : schema.TypeByName n = some t) (hn : n ∉ m.typesMap) (hGn : G n) (hok : Ok n)
    (h0 : I ((m.setType n).ensureFields n)) :
    I (addFieldTypeRecursivelyFuel (fuel + 1) schema n m).1 := by
  have ih := addFieldTypeRecursivelyFuel_preserves schema I G Ok hG hOk hmark hadd fuel
  have hc := hG n t hGn ht
  unfold addFieldTypeRecursivelyFuel
  simp only [ht, hn, if_false]
  refine andThen_inv I _ _ ?_ (fun m1 h1 => ?_)
  · refine forEachE_inv_mem I _ t.Fields (fun f hf m1 h1 => ?_) _ h0
    unfold expandField
    refine andThen_inv I _ _ ?_ (fun m2 h2 => ?_)
    · refine forEachE_inv_mem I _ f.Args (fun a ha m2 h2 => ?_) _ (hadd m1 n f.Name hok h1)
      unfold expandArg
      split
      · exact h2
      · refine ih _ _ (hc _ ?_) h2
        simp only [TypeIntro.targets, List.mem_append, List.mem_flatMap, List.mem_cons,
          List.mem_map]
        exact Or.inl ⟨f, hf, Or.inr ⟨a, ha, rfl⟩⟩
    · split
      · exact h2
      · refine ih _ _ (hc _ ?_) h2
        simp only [TypeIntro.targets, List.mem_append, List.mem_flatMap, List.mem_cons,
          List.mem_map]
        exact Or.inl ⟨f, hf, Or.inl rfl⟩
  · refine forEachE_inv_mem I _ t.InputFields (fun f hf m2 h2 => ?_) _ h1
    unfold expandInput
    simp only []
    split
    · exact hadd m2 n f.Name hok h2
    · refine ih _ _ (hc _ ?_) (hadd m2 n f.Name hok h2)
      simp only [TypeIntro.targets, List.mem_append, List.mem_flatMap, List.mem_cons,
        List.mem_map]
      exact Or.inr ⟨f, hf, rfl⟩

/-- Marked types stay marked through an expansion. -/
theorem expand_typesMap_mono (schema : SchemaIntro) (fuel : Nat) (T n : String) (m : Maps)
    (h : T ∈ m.typesMap) : T ∈ (addFieldTypeRecursivelyFuel fuel schema n m).1.typesMap := by
  refine addFieldTypeRecursivelyFuel_preserves schema (fun m => T ∈ m.typesMap) (fun _ => True)
    (fun _ => True) (fun _ _ _ _ _ _ => trivial) (fun _ _ _ _ _ => trivial) ?_ ?_ fuel n m
    trivial h
  · intro m n _ hI
    rw [ensureFields_typesMap]
    exact List.mem_cons_of_mem _ hI
  · intro m n f _ hI
    exact hI

/-- An expansion started at a resolvable name marks it. -/
theorem expand_marks_root (schema : SchemaIntro) (n : String) (t : TypeIntro) (m : Maps)
    (ht : schema.TypeByName n = some t) : n ∈ (expandIgnoringError schema n m).typesMap := by
  unfold expandIgnoringError addFieldTypeRecursively
  have hne : schema.Types ≠ [] := by
    intro h0
    have := TypeByName_mem schema n t ht
    rw [h0] at this
    cases this
  obtain ⟨l, hl⟩ : ∃ l, schema.Types.length = l + 1 :=
    Nat.exists_eq_succ_of_ne_zero (by simpa using hne)
  rw [hl]
  by_cases hn : n ∈ m.typesMap
  · unfold addFieldTypeRecursivelyFuel
    simp only [ht, hn, if_true]
  · refine addFieldTypeRecursivelyFuel_expand schema (fun m => n ∈ m.typesMap) (fun _ => True)
      (fun _ => True) (fun _ _ _ _ _ _ => trivial) (fun _ _ _ _ _ => trivial) ?_ ?_ l n t m ht hn
      trivial trivial ?_
    · intro m n' _ hI
      rw [ensureFields_typesMap]
      exact List.mem_cons_of_mem _ hI
    · intro m n' f _ hI
      exact hI
    · show n ∈ ((m.setType n).ensureFields n).typesMap
      rw [ensureFields_typesMap]
      exact List.mem_cons_self _ _

/-- The frame of "`T` is marked": everything keeps it except the deletion of
`T` itself, which is undone by the re-expansion when `T` resolves. -/
theorem marked_frame (schema : SchemaIntro) (T : String) :
    Frame schema (fun m => T ∈ m.typesMap) (fun _ => True) (fun _ => True)
      (fun n => n = T → schema.TypeByName T ≠ none) where
  types := fun m n h => List.mem_cons_of_mem _ h
  fields := fun m n v _ h => h
  other := fun m mm dd h => h
  expand := fun m n _ h => expand_typesMap_mono schema _ T n m h
  reexpand := fun m n hn h => by
    by_cases he : n = T
    · subst he
      rcases ht : schema.TypeByName n with _ | t
      · exact absurd ht (hn rfl)
      · exact expand_marks_root schema n t _ ht
    · refine expand_typesMap_mono schema _ T n _ ?_
      exact List.mem_filter.2 ⟨h, by simpa using fun h' => he h'.symm⟩

/-- An expansion started at a name from which `T` is not reachable leaves
`fieldsMap[T]` absent. -/
theorem noEntry_expand (schema : SchemaIntro) (T n : String) (m : Maps)
    (hr : ¬ Reach schema n T) (h : fmGet m.fieldsMap T = none) :
    fmGet (expandIgnoringError schema n m).fieldsMap T = none := by
  refine addFieldTypeRecursivelyFuel_preserves schema (fun m => fmGet m.fieldsMap T = none)
    (fun n => ¬ Reach schema n T) (fun n => n ≠ T) ?_ ?_ ?_ ?_ _ n m hr h
  · intro n t hn ht c hc hcT
    exact hn (Relation.ReflTransGen.head ⟨t, ht, hc⟩ hcT)
  · intro m n hn _ _ he
    exact hn (he ▸ Relation.ReflTransGen.refl)
  · intro m n hn hI
    rw [ensureFields_fmGet_ne _ _ _ hn]
    exact hI
  · intro m n f hn hI
    show fmGet ((n, _) :: m.fieldsMap) T = none
    rw [fmGet_cons_ne _ _ _ _ hn]
    exact hI

/-- The frame of "`fieldsMap` has no entry for `T`". -/
theorem noEntry_frame (schema : SchemaIntro) (T : String) :
    Frame schema (fun m => fmGet m.fieldsMap T = none) (fun n => n ≠ T)
      (fun n => ¬ Reach schema n T) (fun n => ¬ Reach schema n T) where
  types := fun m n h => h
  fields := fun m n v hn h => by
    show fmGet ((n, v) :: m.fieldsMap) T = none
    rw [fmGet_cons_ne _ _ _ _ hn]
    exact h
  other := fun m mm dd h => h
  expand := fun m n hn h => noEntry_expand schema T n m hn h
  reexpand := fun m n hn h => noEntry_expand schema T n (m.delType n) hn h

theorem foldl_mem_inv {α σ : Type} (Q : σ → Prop) (f : σ → α → σ) (xs : List α) (x : α)
    (hx : x ∈ xs) (hstep : ∀ s, Q (f s x)) (hpres : ∀ y ∈ xs, ∀ s, Q s → Q (f s y)) (s : σ) :
    Q (xs.foldl f s) := by
  induction xs generalizing s with
  | nil => cases hx
  | cons y ys ih =>
    rcases List.mem_cons.1 hx with rfl | hx'
    · exact foldl_inv Q f ys (fun z hz => hpres z (List.mem_cons_of_mem _ hz)) _ (hstep s)
    · exact ih hx' (fun z hz => hpres z (List.mem_cons_of_mem _ hz)) _

/-- The shallow branch marks the target of the field and of each argument. -/
theorem shallow_marks (f : FieldIntro) (m : Maps) (T : String) (hT : T ∈ f.targets) :
    T ∈ (shallowArgs f (m.setType f.Typ.TypeName)).typesMap := by
  unfold shallowArgs
  rcases List.mem_cons.1 hT with rfl | hT'
  · exact foldl_inv (fun (s : Maps) => f.Typ.TypeName ∈ s.typesMap) _ f.Args
      (fun a _ s hs => List.mem_cons_of_mem _ hs) _ (List.mem_cons_self _ _)
  · obtain ⟨a, ha, rfl⟩ := List.mem_map.1 hT'
    exact foldl_mem_inv (fun (s : Maps) => a.Typ.TypeName ∈ s.typesMap) _ f.Args a ha
      (fun s => List.mem_cons_self _ _) (fun b _ s hs => List.mem_cons_of_mem _ hs) _

/-- Nothing outside a set of names closed under the references of the schema
is reachable from inside. -/
theorem not_reach_of_closed (schema : SchemaIntro) (S : List String)
    (hclosed : ∀ t ∈ schema.Types, t.Name ∈ S → ∀ c ∈ t.targets, c ∈ S)
    (a b : String) (ha : a ∈ S) (hb : b ∉ S) : ¬ Reach schema a b := by
  have key : ∀ c, Reach schema a c → c ∈ S := by
    intro c h
    induction h with
    | refl => exact ha
    | tail _ hbc ih =>
      obtain ⟨t, ht, hc⟩ := hbc
      exact hclosed t (TypeByName_mem schema _ t ht)
        (by rw [TypeByName_name schema _ t ht]; exact ih) _ hc
  exact fun h => hb (key b h)

/-- C4: let `f` be a field of the type of the data object `X` whose name is
neither a declared column nor an extra field of one, let `T` be the target
type of `f` or of one of its arguments, a type of the schema, and let
`fillDataObjectTypesForUpdate` return without error from empty maps.  Then `T`
is in the returned type set.  And `T` is not expanded: when it is referenced
from `X` only through such fields, that is, when it is not one of the types of
the family of `X` that the builder writes by name and is not reachable from a
type that the builder expands, `T` has no entry in the returned `fieldsMap`. -/
theorem shallow_rule (k : Consts) (schema : SchemaIntro) (info : SchemaInfo)
    (doName : String) (ti : TypeIntro) (mi : ModuleInfo) (doi : DataObjectInfo)
    (r : Maps) (f : FieldIntro) (T : String)
    (hti : schema.TypeByName doName = some ti) (hmi : info.Module ti.Module = some mi)
    (hdoi : mi.DataObject ti.Name = some doi)
    (hf : f ∈ ti.Fields) (hnd : f.Name ∉ declaredNames doi) (hT : T ∈ f.targets)
    (hres : schema.TypeByName T ≠ none)
    (hok : fillDataObjectTypesForUpdate k schema info doName {} = (r, none)) :
    T ∈ r.typesMap ∧
    (T ∉ namedFamily k info doName doi →
      (∀ root ∈ deepRoots k schema ti mi doi, ¬ Reach schema root T) →
      fmGet r.fieldsMap T = none) := by
  have hmi_mem : mi ∈ info.RootModule :: info.modules :=
    List.mem_cons_of_mem _ (Module_mem info _ _ hmi)
  simp only [fillDataObjectTypesForUpdate, hti, hmi, hdoi] at hok
  have hr : r = (fillDataObjectBody k schema info doName ti mi doi {}).1 := by rw [hok]
  rw [hr]
  unfold fillDataObjectBody
  constructor
  · have F := marked_frame schema T
    refine F.on_fillDataObjectTail k info ti mi doi _ hmi_mem (fun _ _ => trivial)
      (fun _ _ => trivial) (fun _ _ _ => hres) ?_
    refine foldl_mem_inv (fun (s : Maps) => T ∈ s.typesMap) _ ti.Fields f hf (fun s => ?_)
      (fun y _ s hs => F.on_objectField _ _ y s trivial (fun _ => ⟨trivial, fun _ _ => trivial⟩) hs)
      _
    unfold objectField
    simp only [hnd, not_false_eq_true, if_true]
    exact shallow_marks f _ T hT
  · intro hfam hreach
    have F := noEntry_frame schema T
    have hT1 : doName ≠ T := fun he => hfam (he ▸ List.mem_cons_self _ _)
    refine F.on_fillDataObjectTail k info ti mi doi _ hmi_mem
      (fun n hn he => hfam (he ▸ List.mem_cons_of_mem _ hn))
      (fun n hn => hreach n (List.mem_append_right _ hn))
      (fun n hn => hreach n (List.mem_append_right _ (by
        simp only [tailRoots, List.append_assoc]
        exact List.mem_append_left _ hn))) ?_
    refine foldl_inv (fun (s : Maps) => fmGet s.fieldsMap T = none) _ ti.Fields
      (fun y hy s hs => ?_) _ ?_
    · refine F.on_objectField _ _ y s hT1 (fun hd => ?_) hs
      have hmem : ∀ t ∈ y.targets, t ∈ deepRoots k schema ti mi doi := fun t ht =>
        List.mem_append_left _
          (List.mem_flatMap.2 ⟨y, List.mem_filter.2 ⟨hy, by simpa using hd⟩, ht⟩)
      exact ⟨hreach _ (hmem _ (List.mem_cons_self _ _)),
        fun a ha => hreach _ (hmem _ (List.mem_cons_of_mem _ (List.mem_map.2 ⟨a, ha, rfl⟩)))⟩
    · show fmGet ((doName, []) :: ([] : FieldsMap)) T = none
      rw [fmGet_cons_ne _ _ _ _ hT1]
      rfl

/-- The shallow mark of a name that the schema does not contain can be lost:
the non-declared field `g` of `X` has the target `Args`, the arguments type of
`X`, absent from the schema; the arguments block deletes the mark, the error of
the re-expansion is dropped, the builder returns no error and `Args` is not in
the returned type set. -/
theorem shallow_target_dropped :
    fieldsOf schemaC4del "X" = [{ Name := "g", Typ := .leaf "Args" "INPUT_OBJECT" }] ∧
    declaredNames objectC4del = [] ∧
    (fillDataObjectTypesForUpdate specConsts schemaC4del infoC4del "X" {}).2 = none ∧
    "Args" ∉ (fillDataObjectTypesForUpdate specConsts schemaC4del infoC4del "X" {}).1.typesMap := by
  decide

/-- Witness of C4 on `schemaC4`: the target `Other` of the non-declared field
`g` is in the type set and has no `fieldsMap` entry. -/
theorem shallow_rule_witness :
    "Other" ∈ (fillDataObjectTypesForUpdate specConsts schemaC4 infoC4 "X" {}).1.typesMap ∧
    fmGet (fillDataObjectTypesForUpdate specConsts schemaC4 infoC4 "X" {}).1.fieldsMap "Other" =
      none := by
  have h := shallow_rule specConsts schemaC4 infoC4 "X"
    { Name := "X"
      Module := "m"
      Fields := [
        { Name := "a", Typ := intRef },
        { Name := "g"
          Typ := .wrap "" "LIST" (.leaf "Other" "OBJECT")
          Args := [{ Name := "filter", Typ := .leaf "OtherFilter" "INPUT_OBJECT" }] }] }
    moduleC4 objectC4
    (fillDataObjectTypesForUpdate specConsts schemaC4 infoC4 "X" {}).1
    { Name := "g"
      Typ := .wrap "" "LIST" (.leaf "Other" "OBJECT")
      Args := [{ Name := "filter", Typ := .leaf "OtherFilter" "INPUT_OBJECT" }] }
    "Other" (by decide) (by decide) (by decide) (by decide) (by decide) (by decide) (by decide)
    (by decide)
  refine ⟨h.1, h.2 (by decide) (fun root hroot => ?_)⟩
  have hsub : ∀ x ∈ deepRoots specConsts schemaC4
      { Name := "X"
        Module := "m"
        Fields := [
          { Name := "a", Typ := intRef },
          { Name := "g"
            Typ := .wrap "" "LIST" (.leaf "Other" "OBJECT")
            Args := [{ Name := "filter", Typ := .leaf "OtherFilter" "INPUT_OBJECT" }] }] }
      moduleC4 objectC4, x ∈ ["Int"] := by decide
  exact not_reach_of_closed schemaC4 ["Int"] (by decide) root "Other" (hsub root hroot)
    (by decide)

/-- C5 at the failing input: with the non-declared field `g` before the
declared column `a`, both of target `T`, the builder returns no error, `T` is
in the type set but has no `fieldsMap` entry and the type `Int` reachable from
it is not in the type set; with `a` before `g` the entry of `T` is `{x}`. -/
theorem declared_column_not_expanded :
    (fillDataObjectTypesForUpdate specConsts (schemaC5 [fieldC5g, fieldC5a]) infoC5 "X" {}).2 =
      none ∧
    "T" ∈ (fillDataObjectTypesForUpdate specConsts (schemaC5 [fieldC5g, fieldC5a]) infoC5 "X"
      {}).1.typesMap ∧
    fmGet (fillDataObjectTypesForUpdate specConsts (schemaC5 [fieldC5g, fieldC5a]) infoC5 "X"
      {}).1.fieldsMap "T" = none ∧
    "Int" ∉ (fillDataObjectTypesForUpdate specConsts (schemaC5 [fieldC5g, fieldC5a]) infoC5 "X"
      {}).1.typesMap ∧
    fmGet (fillDataObjectTypesForUpdate specConsts (schemaC5 [fieldC5a, fieldC5g]) infoC5 "X"
      {}).1.fieldsMap "T" = some ["x"] := by
  decide

/-- C6 at the failing input: the declared column `a` of `X` has the target
`Missing`, the arguments type of `X` is `MissingArgs` and the function `f`
returns `Missing`; the schema contains none of them. The expansion of
`Missing` reports the error, both builders return no error, and `LoadDataObject`
and `LoadFunction` go on to write rows and return no error. -/
theorem unresolvable_reference_not_fatal :
    schemaC6.TypeByName "Missing" = none ∧ schemaC6.TypeByName "MissingArgs" = none ∧
    (addFieldTypeRecursively schemaC6 "Missing" {}).2 = some (.notFound "type" "Missing") ∧
    (fillDataObjectTypesForUpdate specConsts schemaC6 infoC6 "X" {}).2 = none ∧
    (fillFunctionTypesForUpdate schemaC6 infoC6 "m" "f" {}).2 = none ∧
    (LoadDataObject {} specConsts schemaC6 infoC6 "X" true {}).2 = none ∧
    (LoadDataObject {} specConsts schemaC6 infoC6 "X" true {}).1.fields.length = 2 ∧
    (LoadFunction {} schemaC6 infoC6 "m" "f" true {}).2 = none := by
  decide

/-- Witness of C10 on `schemaC3` and `infoC3`, where the rebuild succeeds. -/
theorem fillBaseSchema_eq_clear_loadSchemaPatrial_witness :
    fillBaseSchema {} schemaC3 infoC3 catalogC1 =
      andThen (Clear catalogC1) (loadSchemaPatrial {} schemaC3 infoC3 false [] [] [] []) ∧
    (fillBaseSchema {} schemaC3 infoC3 catalogC1).2 = none :=
  ⟨fillBaseSchema_eq_clear_loadSchemaPatrial {} schemaC3 infoC3 catalogC1 (by decide)
    (by decide) (by decide) (by decide) (by decide), by decide⟩

/-! ### Clear and rebuild -/

theorem sublist_flatMap {α β : Type} (g g' : α → List β) (xs : List α)
    (h : ∀ x, (g x).Sublist (g' x)) : (xs.flatMap g).Sublist (xs.flatMap g') := by
  induction xs with
  | nil => exact List.Sublist.refl _
  | cons x xs ih =>
    simp only [List.flatMap_cons]
    exact (h x).append ih

theorem filter_flatMap_sublist {α β : Type} (p : α → Bool) (g g' : α → List β) (xs : List α)
    (h : ∀ x, (g x).Sublist (g' x)) : ((xs.filter p).flatMap g).Sublist (xs.flatMap g') := by
  rw [flatMap_filter_eq]
  refine sublist_flatMap _ _ xs (fun x => ?_)
  split
  · exact h x
  · exact List.nil_sublist _

/-- The scoped argument triples are a sublist of the unscoped ones. -/
theorem argTriples_sublist (tm : List String) (fm : FieldsMap) (schema : SchemaIntro) :
    (argTriples tm fm schema).Sublist (argTriples [] [] schema) := by
  unfold argTriples
  rw [scopedTypes_nil]
  refine filter_flatMap_sublist _ _ _ _ (fun st => ?_)
  rw [scopedFields_nil]
  exact filter_flatMap_sublist _ _ _ _ (fun f => List.Sublist.refl _)

theorem flatFields_sublist (tm : List String) (fm : FieldsMap) (schema : SchemaIntro) :
    (flatFields tm fm schema).Sublist (flatFields [] [] schema) := by
  unfold flatFields
  rw [scopedTypes_nil]
  refine filter_flatMap_sublist _ _ _ _ (fun st => ?_)
  rw [scopedFields_nil]
  exact (List.filter_sublist _).map _

theorem flatArguments_sublist (tm : List String) (fm : FieldsMap) (schema : SchemaIntro) :
    (flatArguments tm fm schema).Sublist (flatArguments [] [] schema) := by
  unfold flatArguments
  rw [scopedTypes_nil]
  refine filter_flatMap_sublist _ _ _ _ (fun st => ?_)
  rw [scopedFields_nil]
  exact filter_flatMap_sublist _ _ _ _ (fun f => List.Sublist.refl _)

/-- A field row of the unscoped flattening whose owner type and name pass the
scope tests is a row of the scoped flattening. -/
theorem mem_flatFields_of_scope (tm : List String) (fm : FieldsMap) (schema : SchemaIntro)
    (f : FieldRow) (hf : f ∈ flatFields [] [] schema)
    (h1 : nameSkipped tm f.TypeName = false) (h2 : fieldSkipped fm f.TypeName f.Name = false) :
    f ∈ flatFields tm fm schema := by
  unfold flatFields at hf ⊢
  rw [scopedTypes_nil] at hf
  obtain ⟨st, hst, hfst⟩ := List.mem_flatMap.1 hf
  rw [scopedFields_nil] at hfst
  obtain ⟨g, hg, rfl⟩ := List.mem_map.1 hfst
  refine List.mem_flatMap.2 ⟨st, List.mem_filter.2 ⟨hst, ?_⟩, List.mem_map.2 ⟨g, ?_, rfl⟩⟩
  · simpa [fieldRowOf] using h1
  · exact List.mem_filter.2 ⟨hg, by simpa [fieldRowOf] using h2⟩

theorem mem_flatArguments_of_scope (tm : List String) (fm : FieldsMap) (schema : SchemaIntro)
    (a : ArgumentRow) (ha : a ∈ flatArguments [] [] schema)
    (h1 : nameSkipped tm a.TypeName = false)
    (h2 : fieldSkipped fm a.TypeName a.FieldName = false) :
    a ∈ flatArguments tm fm schema := by
  unfold flatArguments at ha ⊢
  rw [scopedTypes_nil] at ha
  obtain ⟨st, hst, hfst⟩ := List.mem_flatMap.1 ha
  rw [scopedFields_nil] at hfst
  obtain ⟨g, hg, hga⟩ := List.mem_flatMap.1 hfst
  obtain ⟨x, hx, rfl⟩ := List.mem_map.1 hga
  refine List.mem_flatMap.2 ⟨st, List.mem_filter.2 ⟨hst, ?_⟩,
    List.mem_flatMap.2 ⟨g, ?_, List.mem_map.2 ⟨x, hx, rfl⟩⟩⟩
  · simpa [argumentRowOf] using h1
  · exact List.mem_filter.2 ⟨hg, by simpa [argumentRowOf] using h2⟩

theorem embedField_key (cfg : Config) (f : FieldRow) :
    (embedField cfg f).TypeName = f.TypeName ∧ (embedField cfg f).Name = f.Name :=
  ⟨rfl, rfl⟩

/-- A completed loop of `AddField` has appended the rows, whose keys were
pairwise distinct and absent before. -/
theorem AddFields_spec (cfg : Config) (ffs : List FieldRow) (c : Catalog)
    (hok : (forEachE (fun f => AddField cfg f) ffs c).2 = none) :
    (forEachE (fun f => AddField cfg f) ffs c).1 =
      { c with fields := c.fields ++ ffs.map (embedField cfg) } ∧
    (ffs.map (fun f => (f.TypeName, f.Name))).Nodup ∧
    ∀ f ∈ ffs, checkFieldExists c f.TypeName f.Name = false := by
  induction ffs generalizing c with
  | nil => simp [forEachE]
  | cons f rest ih =>
    by_cases hx : checkFieldExists c f.TypeName f.Name = true
    · simp [forEachE, AddField, hx] at hok
    · simp only [Bool.not_eq_true] at hx
      have hstep : AddField cfg f c = ({ c with fields := c.fields ++ [embedField cfg f] }, none) := by
        simp [AddField, hx]
      simp only [forEachE, hstep] at hok ⊢
      obtain ⟨h1, h2, h3⟩ := ih _ hok
      have hex : ∀ g : FieldRow,
          checkFieldExists { c with fields := c.fields ++ [embedField cfg f] } g.TypeName g.Name =
            (checkFieldExists c g.TypeName g.Name ||
              (decide (f.TypeName = g.TypeName) && decide (f.Name = g.Name))) := by
        intro g
        simp [checkFieldExists, embedField]
      refine ⟨?_, ?_, ?_⟩
      · rw [h1]
        simp
      · rw [List.map_cons, List.nodup_cons]
        refine ⟨?_, h2⟩
        intro hmem
        obtain ⟨g, hg, hk⟩ := List.mem_map.1 hmem
        have := h3 g hg
        rw [hex g] at this
        simp only [Prod.mk.injEq] at hk
        simp [hk.1, hk.2] at this
      · intro g hg
        rcases List.mem_cons.1 hg with rfl | hg'
        · exact hx
        · have := h3 g hg'
          rw [hex g] at this
          simp only [Bool.or_eq_false_iff] at this
          exact this.1

theorem AddArguments_spec (aas : List ArgumentRow) (c : Catalog)
    (hok : (forEachE (fun a => AddArgument a) aas c).2 = none) :
    (forEachE (fun a => AddArgument a) aas c).1 =
      { c with arguments := c.arguments ++ aas } ∧
    (aas.map (fun a => (a.TypeName, a.FieldName, a.Name))).Nodup ∧
    ∀ a ∈ aas, checkArgumentExists c a.TypeName a.FieldName a.Name = false := by
  induction aas generalizing c with
  | nil => simp [forEachE]
  | cons a rest ih =>
    by_cases hx : checkArgumentExists c a.TypeName a.FieldName a.Name = true
    · simp [forEachE, AddArgument, hx] at hok
    · simp only [Bool.not_eq_true] at hx
      have hstep : AddArgument a c = ({ c with arguments := c.arguments ++ [a] }, none) := by
        simp [AddArgument, hx]
      simp only [forEachE, hstep] at hok ⊢
      obtain ⟨h1, h2, h3⟩ := ih _ hok
      have hex : ∀ g : ArgumentRow,
          checkArgumentExists { c with arguments := c.arguments ++ [a] }
              g.TypeName g.FieldName g.Name =
            (checkArgumentExists c g.TypeName g.FieldName g.Name ||
              (decide (a.TypeName = g.TypeName) && decide (a.FieldName = g.FieldName) &&
                decide (a.Name = g.Name))) := by
        intro g
        simp [checkArgumentExists]
      refine ⟨?_, ?_, ?_⟩
      · rw [h1]
        simp
      · rw [List.map_cons, List.nodup_cons]
        refine ⟨?_, h2⟩
        intro hmem
        obtain ⟨g, hg, hk⟩ := List.mem_map.1 hmem
        have := h3 g hg
        rw [hex g] at this
        simp only [Prod.mk.injEq] at hk
        simp [hk.1, hk.2.1, hk.2.2] at this
      · intro g hg
        rcases List.mem_cons.1 hg with rfl | hg'
        · exact hx
        · have := h3 g hg'
          rw [hex g] at this
          simp only [Bool.or_eq_false_iff] at this
          exact this.1

/-- With `update = false` and pairwise distinct keys, the merge loop over
field rows appends exactly the rows whose key was absent, and never fails. -/
theorem mergeFields_spec (cfg : Config) (ffs : List FieldRow) (c : Catalog)
    (hnd : (ffs.map (fun f => (f.TypeName, f.Name))).Nodup) :
    forEachE (fun f => mergeField cfg f false) ffs c =
      ({ c with fields := c.fields ++
          (ffs.filter (fun f => !checkFieldExists c f.TypeName f.Name)).map (embedField cfg) },
        none) := by
  induction ffs generalizing c with
  | nil => simp [forEachE]
  | cons f rest ih =>
    rw [List.map_cons, List.nodup_cons] at hnd
    by_cases hx : checkFieldExists c f.TypeName f.Name = true
    · have hstep : mergeField cfg f false c = (c, none) := by simp [mergeField, hx]
      simp only [forEachE, hstep]
      rw [ih c hnd.2]
      simp [List.filter_cons, hx]
    · simp only [Bool.not_eq_true] at hx
      have hstep : mergeField cfg f false c =
          ({ c with fields := c.fields ++ [embedField cfg f] }, none) := by
        simp [mergeField, AddField, hx]
      simp only [forEachE, hstep]
      rw [ih _ hnd.2]
      have hfilter : rest.filter (fun g => !checkFieldExists
            { c with fields := c.fields ++ [embedField cfg f] } g.TypeName g.Name) =
          rest.filter (fun g => !checkFieldExists c g.TypeName g.Name) := by
        refine List.filter_congr (fun g hg => ?_)
        have hne : ¬ (f.TypeName = g.TypeName ∧ f.Name = g.Name) := by
          rintro ⟨h1, h2⟩
          exact hnd.1 (List.mem_map.2 ⟨g, hg, by rw [h1, h2]⟩)
        have : (decide (f.TypeName = g.TypeName) && decide (f.Name = g.Name)) = false := by
          simpa using hne
        simp [checkFieldExists, embedField, this]
      rw [hfilter]
      simp [List.filter_cons, hx]

theorem mergeArguments_spec (aas : List ArgumentRow) (c : Catalog)
    (hnd : (aas.map (fun a => (a.TypeName, a.FieldName, a.Name))).Nodup) :
    forEachE (fun a => mergeArgument a false) aas c =
      ({ c with arguments := c.arguments ++
          aas.filter (fun a => !checkArgumentExists c a.TypeName a.FieldName a.Name) },
        none) := by
  induction aas generalizing c with
  | nil => simp [forEachE]
  | cons a rest ih =>
    rw [List.map_cons, List.nodup_cons] at hnd
    by_cases hx : checkArgumentExists c a.TypeName a.FieldName a.Name = true
    · have hstep : mergeArgument a false c = (c, none) := by simp [mergeArgument, hx]
      simp only [forEachE, hstep]
      rw [ih c hnd.2]
      simp [List.filter_cons, hx]
    · simp only [Bool.not_eq_true] at hx
      have hstep : mergeArgument a false c =
          ({ c with arguments := c.arguments ++ [a] }, none) := by
        simp [mergeArgument, AddArgument, hx]
      simp only [forEachE, hstep]
      rw [ih _ hnd.2]
      have hfilter : rest.filter (fun g => !checkArgumentExists
            { c with arguments := c.arguments ++ [a] } g.TypeName g.FieldName g.Name) =
          rest.filter (fun g => !checkArgumentExists c g.TypeName g.FieldName g.Name) := by
        refine List.filter_congr (fun g hg => ?_)
        have hne : ¬ (a.TypeName = g.TypeName ∧ a.FieldName = g.FieldName ∧ a.Name = g.Name) := by
          rintro ⟨h1, h2, h3⟩
          exact hnd.1 (List.mem_map.2 ⟨g, hg, by rw [h1, h2, h3]⟩)
        have : (decide (a.TypeName = g.TypeName) && decide (a.FieldName = g.FieldName) &&
            decide (a.Name = g.Name)) = false := by
          simpa [and_assoc] using hne
        simp [checkArgumentExists, this]
      rw [hfilter]
      simp [List.filter_cons, hx]

theorem mergeModule_snd (cfg : Config) (m : ModuleRow) (u : Bool) (c : Catalog) :
    (mergeModule cfg m u c).2 = none := by
  unfold mergeModule
  by_cases h : checkModuleExists c m.Name = true
  · cases u <;> simp [h, updateModule]
  · simp [h, AddModule]

theorem mergeDataSource_snd (cfg : Config) (d : DataSourceRow) (u : Bool) (c : Catalog) :
    (mergeDataSource cfg d u c).2 = none := by
  unfold mergeDataSource
  by_cases h : checkDataSourceExists c d.Name = true
  · cases u <;> simp [h, updateDataSource]
  · simp [h, AddDataSource]

theorem mergeModule_rows (cfg : Config) (m : ModuleRow) (u : Bool) (c : Catalog) :
    (mergeModule cfg m u c).1.fields = c.fields ∧
    (mergeModule cfg m u c).1.arguments = c.arguments := by
  unfold mergeModule
  by_cases h : checkModuleExists c m.Name = true
  · cases u <;> simp [h, updateModule]
  · simp [h, AddModule]

theorem mergeDataSource_rows (cfg : Config) (d : DataSourceRow) (u : Bool) (c : Catalog) :
    (mergeDataSource cfg d u c).1.fields = c.fields ∧
    (mergeDataSource cfg d u c).1.arguments = c.arguments := by
  unfold mergeDataSource
  by_cases h : checkDataSourceExists c d.Name = true
  · cases u <;> simp [h, updateDataSource]
  · simp [h, AddDataSource]

theorem loadDataObject_rows (info : SchemaInfo) (d : DataObjectInfo) (c : Catalog) :
    (loadDataObject info d c).1.fields = c.fields ∧
    (loadDataObject info d c).1.arguments = c.arguments := by
  unfold loadDataObject
  split
  · exact ⟨rfl, rfl⟩
  · split <;> simp [addDataObject]

theorem loadDataObject_ok_iff (info : SchemaInfo) (d : DataObjectInfo) (c : Catalog) :
    (loadDataObject info d c).2 = none ↔ loadable info d := by
  unfold loadDataObject loadable
  rcases info.Module d.Module with _ | mo
  · simp
  · by_cases h : mo.QueryType = ""
    · simp [h]
    · simp [h, addDataObject]

theorem forEachE_ok_of_all {α σ : Type} (body : α → σ → σ × Option Err) (xs : List α) (s : σ)
    (h : ∀ x ∈ xs, ∀ s, (body x s).2 = none) : (forEachE body xs s).2 = none := by
  induction xs generalizing s with
  | nil => rfl
  | cons x xs ih =>
    have hx := h x (List.mem_cons_self _ _) s
    rcases hb : body x s with ⟨s', _ | e⟩
    · simp only [forEachE, hb]
      exact ih s' (fun y hy => h y (List.mem_cons_of_mem _ hy))
    · rw [hb] at hx; cases hx

/-- The last three phases of `loadSchemaPatrial` leave the fields and arguments
tables alone, and do not fail when every data object is loadable. -/
theorem patrial_tail_rows (cfg : Config) (info : SchemaInfo) (u : Bool)
    (tm mm dm : List String) (c : Catalog) (hload : ∀ d ∈ info.dataObjects, loadable info d) :
    (andThen (forEachE (patrialModule cfg mm) info.modules c) fun c =>
      andThen (forEachE (patrialDataSource cfg u dm) info.DataSources c) fun c =>
      forEachE (patrialDataObject info tm) info.dataObjects c).2 = none ∧
    (andThen (forEachE (patrialModule cfg mm) info.modules c) fun c =>
      andThen (forEachE (patrialDataSource cfg u dm) info.DataSources c) fun c =>
      forEachE (patrialDataObject info tm) info.dataObjects c).1.fields = c.fields ∧
    (andThen (forEachE (patrialModule cfg mm) info.modules c) fun c =>
      andThen (forEachE (patrialDataSource cfg u dm) info.DataSources c) fun c =>
      forEachE (patrialDataObject info tm) info.dataObjects c).1.arguments = c.arguments := by
  have hM : (forEachE (patrialModule cfg mm) info.modules c).2 = none :=
    forEachE_ok_of_all _ _ _ (fun m _ s => by
      unfold patrialModule
      split
      · rfl
      · exact mergeModule_snd cfg _ false s)
  have hMr := forEachE_inv (fun (c' : Catalog) => c'.fields = c.fields ∧
      c'.arguments = c.arguments) (patrialModule cfg mm) (fun m s hs => by
      unfold patrialModule
      split
      · exact hs
      · have := mergeModule_rows cfg (moduleRowOf m) false s
        exact ⟨this.1.trans hs.1, this.2.trans hs.2⟩) info.modules c ⟨rfl, rfl⟩
  rw [andThen_of_ok _ _ hM]
  generalize (forEachE (patrialModule cfg mm) info.modules c).1 = c1 at hMr
  have hD : (forEachE (patrialDataSource cfg u dm) info.DataSources c1).2 = none :=
    forEachE_ok_of_all _ _ _ (fun m _ s => by
      unfold patrialDataSource
      split
      · rfl
      · exact mergeDataSource_snd cfg _ u s)
  have hDr := forEachE_inv (fun (c' : Catalog) => c'.fields = c.fields ∧
      c'.arguments = c.arguments) (patrialDataSource cfg u dm) (fun m s hs => by
      unfold patrialDataSource
      split
      · exact hs
      · have := mergeDataSource_rows cfg (dataSourceRowOf m) u s
        exact ⟨this.1.trans hs.1, this.2.trans hs.2⟩) info.DataSources c1 hMr
  rw [andThen_of_ok _ _ hD]
  generalize (forEachE (patrialDataSource cfg u dm) info.DataSources c1).1 = c2 at hDr
  refine ⟨?_, ?_⟩
  · refine forEachE_ok_of_all _ _ _ (fun d hd s => ?_)
    unfold patrialDataObject
    split
    · rfl
    · exact (loadDataObject_ok_iff info d s).2 (hload d hd)
  · exact forEachE_inv (fun (c' : Catalog) => c'.fields = c.fields ∧
      c'.arguments = c.arguments) (patrialDataObject info tm) (fun m s hs => by
      unfold patrialDataObject
      split
      · exact hs
      · have := loadDataObject_rows info m s
        exact ⟨this.1.trans hs.1, this.2.trans hs.2⟩) info.dataObjects c2 hDr

/-- What a successful full rebuild leaves in the fields and arguments tables. -/
theorem fillBaseSchema_rows (cfg : Config) (schema : SchemaIntro) (info : SchemaInfo)
    (c : Catalog) (hfull : (fillBaseSchema cfg schema info c).2 = none) :
    (fillBaseSchema cfg schema info c).1.fields =
      (flatFields [] [] schema).map (embedField cfg) ∧
    (fillBaseSchema cfg schema info c).1.arguments = flatArguments [] [] schema ∧
    ((flatFields [] [] schema).map (fun f => (f.TypeName, f.Name))).Nodup ∧
    (argTriples [] [] schema).Nodup ∧
    ((argTriples [] [] schema).map joinKey).Nodup ∧
    ∀ d ∈ info.dataObjects, loadable info d := by
  generalize hR : fillBaseSchema cfg schema info c = R
  unfold fillBaseSchema at hfull hR
  rw [andThen_of_ok (Clear c) _ rfl] at hfull hR
  have hfull' : (andThen (AddType cfg unknownType ({} : Catalog)) _).2 = none := hfull
  have hR' : andThen (AddType cfg unknownType ({} : Catalog)) _ = R := hR
  clear hfull hR
  obtain ⟨hA, h1⟩ := andThen_ok _ _ hfull'
  rw [andThen_of_ok _ _ hA] at hR'
  obtain ⟨hL, h2⟩ := andThenFlat_ok _ _ _ h1
  rw [andThenFlat_of_ok _ _ _ hL] at hR'
  have hspec := baseTypes_spec cfg schema _ hL
  have hfr := baseTypes_frame cfg schema.Types
    { c := (AddType cfg unknownType ({} : Catalog)).1 }
  have hAf := AddType_frame cfg unknownType ({} : Catalog)
  generalize (forEachE (baseType cfg) schema.Types
    { c := (AddType cfg unknownType ({} : Catalog)).1 }).1 = s at hspec hfr h2 hR'
  obtain ⟨hff, haa, -, hknd, -⟩ := hspec
  simp only [List.nil_append] at hff haa
  have hf0 : s.c.fields = [] := hfr.1.trans hAf.1
  have ha0 : s.c.arguments = [] := hfr.2.trans hAf.2.1
  obtain ⟨hF, h3⟩ := andThen_ok _ _ h2
  rw [andThen_of_ok _ _ hF] at hR'
  obtain ⟨hFeq, hFnd, -⟩ := AddFields_spec cfg s.ff s.c hF
  generalize (forEachE (fun f => AddField cfg f) s.ff s.c).1 = cF at hFeq h3 hR'
  obtain ⟨hG, h4⟩ := andThen_ok _ _ h3
  rw [andThen_of_ok _ _ hG] at hR'
  obtain ⟨hGeq, hGnd, -⟩ := AddArguments_spec s.aa cF hG
  generalize (forEachE (fun a => AddArgument a) s.aa cF).1 = cG at hGeq h4 hR'
  have hcG : cG.fields = (flatFields [] [] schema).map (embedField cfg) ∧
      cG.arguments = flatArguments [] [] schema := by
    subst hGeq; subst hFeq
    simp [hf0, ha0, hff, haa]
  rw [hff] at hFnd
  rw [haa, flatArguments_triples] at hGnd
  obtain ⟨hM, h5⟩ := andThen_ok _ _ h4
  rw [andThen_of_ok _ _ hM] at hR'
  obtain ⟨hD, h6⟩ := andThen_ok _ _ h5
  rw [andThen_of_ok _ _ hD] at hR'
  have hMr := forEachE_inv (fun (c' : Catalog) =>
      c'.fields = (flatFields [] [] schema).map (embedField cfg) ∧
      c'.arguments = flatArguments [] [] schema)
    (fun m => AddModule cfg (moduleRowOf m)) (fun m s hs => by
      have := AddModule_frame cfg (moduleRowOf m) s
      exact ⟨this.2.1.trans hs.1, this.2.2.1.trans hs.2⟩) info.modules cG hcG
  generalize (forEachE (fun m => AddModule cfg (moduleRowOf m)) info.modules cG).1 = c4
    at hMr hD h6 hR'
  have hDr := forEachE_inv (fun (c' : Catalog) =>
      c'.fields = (flatFields [] [] schema).map (embedField cfg) ∧
      c'.arguments = flatArguments [] [] schema)
    (fun ds => AddDataSource cfg (dataSourceRowOf ds)) (fun m s hs => by
      have := AddDataSource_frame cfg (dataSourceRowOf m) s
      exact ⟨this.2.1.trans hs.1, this.2.2.1.trans hs.2⟩) info.DataSources c4 hMr
  generalize (forEachE (fun ds => AddDataSource cfg (dataSourceRowOf ds))
    info.DataSources c4).1 = c5 at hDr h6 hR'
  have hOr := forEachE_inv (fun (c' : Catalog) =>
      c'.fields = (flatFields [] [] schema).map (embedField cfg) ∧
      c'.arguments = flatArguments [] [] schema)
    (loadDataObject info) (fun m s hs => by
      have := loadDataObject_rows info m s
      exact ⟨this.1.trans hs.1, this.2.trans hs.2⟩) info.dataObjects c5 hDr
  subst hR'
  refine ⟨hOr.1, hOr.2, hFnd, hGnd, hknd, ?_⟩
  exact forEachE_ok_mem (fun d _ => loadable info d) (loadDataObject info)
    (fun d s h => (loadDataObject_ok_iff info d s).1 h) (fun _ _ _ h => h)
    info.dataObjects c5 h6

theorem scope_of_mem_flatFields (tm : List String) (fm : FieldsMap) (schema : SchemaIntro)
    (f : FieldRow) (hf : f ∈ flatFields tm fm schema) :
    nameSkipped tm f.TypeName = false ∧ fieldSkipped fm f.TypeName f.Name = false := by
  unfold flatFields at hf
  obtain ⟨st, hst, hfst⟩ := List.mem_flatMap.1 hf
  obtain ⟨g, hg, rfl⟩ := List.mem_map.1 hfst
  have h1 := (List.mem_filter.1 hst).2
  have h2 := (List.mem_filter.1 hg).2
  exact ⟨by simpa [fieldRowOf] using h1, by simpa [fieldRowOf] using h2⟩

theorem scope_of_mem_flatArguments (tm : List String) (fm : FieldsMap) (schema : SchemaIntro)
    (a : ArgumentRow) (ha : a ∈ flatArguments tm fm schema) :
    nameSkipped tm a.TypeName = false ∧ fieldSkipped fm a.TypeName a.FieldName = false := by
  unfold flatArguments at ha
  obtain ⟨st, hst, hfst⟩ := List.mem_flatMap.1 ha
  obtain ⟨g, hg, hga⟩ := List.mem_flatMap.1 hfst
  obtain ⟨x, _, rfl⟩ := List.mem_map.1 hga
  have h1 := (List.mem_filter.1 hst).2
  have h2 := (List.mem_filter.1 hg).2
  exact ⟨by simpa [argumentRowOf] using h1, by simpa [argumentRowOf] using h2⟩

/-- A closure builder that returns no error has passed its three lookups. -/
theorem fillDataObject_lookups (k : Consts) (schema : SchemaIntro) (info : SchemaInfo)
    (doName : String) (m0 : Maps)
    (h : (fillDataObjectTypesForUpdate k schema info doName m0).2 = none) :
    ∃ ti mi doi, schema.TypeByName doName = some ti ∧ info.Module ti.Module = some mi ∧
      mi.DataObject ti.Name = some doi := by
  unfold fillDataObjectTypesForUpdate at h
  rcases h1 : schema.TypeByName doName with _ | ti
  · rw [h1] at h; simp at h
  · rw [h1] at h
    rcases h2 : info.Module ti.Module with _ | mi
    · simp only [h2] at h; simp at h
    · simp only [h2] at h
      rcases h3 : mi.DataObject ti.Name with _ | doi
      · simp only [h3] at h; simp at h
      · exact ⟨ti, mi, doi, rfl, h2, h3⟩

/-- With the lookups passed, `clearDataObjectTypes` for one name is one filter
of the fields table and one of the arguments table. -/
theorem clearDataObjectTypes_shape (k : Consts) (schema : SchemaIntro) (info : SchemaInfo)
    (doName : String) (c : Catalog)
    (hl : ∃ ti mi doi, schema.TypeByName doName = some ti ∧ info.Module ti.Module = some mi ∧
      mi.DataObject ti.Name = some doi) :
    ∃ (pf : FieldRow → Bool) (pa : ArgumentRow → Bool),
      clearDataObjectTypes k schema info [doName] c =
        ({ c with arguments := c.arguments.filter pa, fields := c.fields.filter pf }, none) := by
  obtain ⟨ti, mi, doi, h1, h2, h3⟩ := hl
  have hstep : clearDataObjectStep k schema info doName ([], []) =
      ((dataObjectFilterSteps k info doName mi doi).foldl appendFilters ([], []), none) := by
    unfold clearDataObjectStep
    simp only [h1, h2, h3]
  refine ⟨fun f => !((dataObjectFilterSteps k info doName mi doi).foldl appendFilters
      ([], [])).1.any (fun flt => flt.matchesField f),
    fun a => !((dataObjectFilterSteps k info doName mi doi).foldl appendFilters
      ([], [])).2.any (fun flt => flt.matchesArgument a), ?_⟩
  unfold clearDataObjectTypes
  simp only [forEachE, hstep, andThenFlat, deleteFieldsAndArguments]

/-- The rows of the fields and arguments tables after `loadSchemaPatrial` with
patch mode off: the stored rows, then the rows of the scoped flattening whose
key was not stored. -/
theorem loadSchemaPatrial_rows (cfg : Config) (schema : SchemaIntro) (info : SchemaInfo)
    (tm : List String) (fm : FieldsMap) (mm dm : List String) (c : Catalog)
    (hnd : ((argTriples tm fm schema).map joinKey).Nodup)
    (hfk : ((flatFields tm fm schema).map (fun f => (f.TypeName, f.Name))).Nodup)
    (hak : (argTriples tm fm schema).Nodup)
    (hload : ∀ d ∈ info.dataObjects, loadable info d) :
    (loadSchemaPatrial cfg schema info false tm fm mm dm c).2 = none ∧
    (loadSchemaPatrial cfg schema info false tm fm mm dm c).1.fields =
      c.fields ++ ((flatFields tm fm schema).filter
        (fun f => !checkFieldExists c f.TypeName f.Name)).map (embedField cfg) ∧
    (loadSchemaPatrial cfg schema info false tm fm mm dm c).1.arguments =
      c.arguments ++ (flatArguments tm fm schema).filter
        (fun a => !checkArgumentExists c a.TypeName a.FieldName a.Name) := by
  generalize hR : loadSchemaPatrial cfg schema info false tm fm mm dm c = R
  unfold loadSchemaPatrial at hR
  rw [andThen_of_ok _ _ (mergeType_snd cfg unknownType false c)] at hR
  have hfr0 := mergeType_frame cfg unknownType false c
  generalize (mergeType cfg unknownType false c).1 = c1 at hR hfr0
  have hL : (forEachE (patrialType cfg false tm fm) schema.Types { c := c1 }).2 = none :=
    patrialTypes_ok cfg false tm fm schema { c := c1 } hnd (fun _ _ h => by simp at h)
  rw [andThenFlat_of_ok _ _ _ hL] at hR
  have hspec := patrialTypes_spec cfg false tm fm schema { c := c1 } hL
  have hfr := patrialTypes_frame cfg false tm fm schema.Types { c := c1 }
  generalize (forEachE (patrialType cfg false tm fm) schema.Types { c := c1 }).1 = s
    at hspec hfr hR
  obtain ⟨hff, haa, -, -, -⟩ := hspec
  simp only [List.nil_append] at hff haa
  rw [hff, haa] at hR
  rw [mergeFields_spec cfg _ s.c hfk, andThen_of_ok _ _ rfl] at hR
  rw [mergeArguments_spec _ _ (by rw [flatArguments_triples]; exact hak),
    andThen_of_ok _ _ rfl] at hR
  have htail := patrial_tail_rows cfg info false tm mm dm
    { s.c with
      fields := s.c.fields ++ ((flatFields tm fm schema).filter
        (fun f => !checkFieldExists s.c f.TypeName f.Name)).map (embedField cfg),
      arguments := s.c.arguments ++ (flatArguments tm fm schema).filter
        (fun a => !checkArgumentExists s.c a.TypeName a.FieldName a.Name) } hload
  have hcf : ∀ t n, checkFieldExists s.c t n = checkFieldExists c t n := fun t n => by
    simp only [checkFieldExists, hfr.1, hfr0.1]
  have hca : ∀ t n x, checkArgumentExists s.c t n x = checkArgumentExists c t n x :=
    fun t n x => by simp only [checkArgumentExists, hfr.2, hfr0.2.1]
  simp only [hcf, hca, hfr.1, hfr.2, hfr0.1, hfr0.2.1] at htail hR
  subst hR
  exact htail

/-- C8 (the claim as stated fails): on `schemaC8` the full rebuild stores the
fields `X` and `X_by_pk` of the synthetic type `_join`; the reload of `X` with
patch mode off returns no error, its clear deletes both rows (one predicate per
query of `X`), and its closure selects only `X`, because the builder skips the
select-one query `X_by_pk`; the row `(_join, X_by_pk)` stays missing. -/
theorem clear_rebuild_loses_select_one :
    (fillBaseSchema {} schemaC8 infoC8 {}).2 = none ∧
    fieldNamesOf (fillBaseSchema {} schemaC8 infoC8 {}).1 "_join" = ["X", "X_by_pk"] ∧
    (LoadDataObject {} specConsts schemaC8 infoC8 "X" false
      (fillBaseSchema {} schemaC8 infoC8 {}).1).2 = none ∧
    fieldNamesOf (LoadDataObject {} specConsts schemaC8 infoC8 "X" false
      (fillBaseSchema {} schemaC8 infoC8 {}).1).1 "_join" = ["X"] := by
  decide

/-- C8 (amended): when the full rebuild and the closure builder for `X` return
no error, the reload of `X` with patch mode off (clear, closure, reconciliation,
against the same schema and summary) returns no error, and a row is in the
fields table afterwards exactly when the full rebuild stored it and either the
clear did not delete it or the closure selects its (owner type, field name);
likewise for the arguments table with (owner type, owner field). -/
theorem clear_rebuild_rows (cfg : Config) (k : Consts) (schema : SchemaIntro)
    (info : SchemaInfo) (doName : String) (c0 : Catalog)
    (hfull : (fillBaseSchema cfg schema info c0).2 = none)
    (hfill : (fillDataObjectTypesForUpdate k schema info doName {}).2 = none) :
    (LoadDataObject cfg k schema info doName false
      (fillBaseSchema cfg schema info c0).1).2 = none ∧
    (∀ r, r ∈ (LoadDataObject cfg k schema info doName false
          (fillBaseSchema cfg schema info c0).1).1.fields ↔
        r ∈ (fillBaseSchema cfg schema info c0).1.fields ∧
        (r ∈ (clearDataObjectTypes k schema info [doName]
              (fillBaseSchema cfg schema info c0).1).1.fields ∨
          inClosure (fillDataObjectTypesForUpdate k schema info doName {}).1
            r.TypeName r.Name)) ∧
    (∀ a, a ∈ (LoadDataObject cfg k schema info doName false
          (fillBaseSchema cfg schema info c0).1).1.arguments ↔
        a ∈ (fillBaseSchema cfg schema info c0).1.arguments ∧
        (a ∈ (clearDataObjectTypes k schema info [doName]
              (fillBaseSchema cfg schema info c0).1).1.arguments ∨
          inClosure (fillDataObjectTypesForUpdate k schema info doName {}).1
            a.TypeName a.FieldName)) := by
  obtain ⟨hFf, hFa, hkf, hka, hkj, hload⟩ := fillBaseSchema_rows cfg schema info c0 hfull
  generalize (fillBaseSchema cfg schema info c0).1 = full at hFf hFa ⊢
  have hlook := fillDataObject_lookups k schema info doName {} hfill
  obtain ⟨pf, pa, hclear⟩ := clearDataObjectTypes_shape k schema info doName full hlook
  rcases hm : fillDataObjectTypesForUpdate k schema info doName {} with ⟨m, _ | e⟩
  swap
  · rw [hm] at hfill; cases hfill
  have hLD : LoadDataObject cfg k schema info doName false full =
      loadSchemaPatrial cfg schema info false m.typesMap m.fieldsMap m.modulesMap
        m.dataSourcesMap
        { full with arguments := full.arguments.filter pa, fields := full.fields.filter pf } := by
    unfold LoadDataObject
    simp only [Bool.not_false, if_true, hclear, andThen, hm, loadClosure]
  rw [hLD, hclear]
  obtain ⟨h1, h2, h3⟩ := loadSchemaPatrial_rows cfg schema info m.typesMap m.fieldsMap
    m.modulesMap m.dataSourcesMap
    { full with arguments := full.arguments.filter pa, fields := full.fields.filter pf }
    (((argTriples_sublist m.typesMap m.fieldsMap schema).map joinKey).nodup hkj)
    (((flatFields_sublist m.typesMap m.fieldsMap schema).map _).nodup hkf)
    ((argTriples_sublist m.typesMap m.fieldsMap schema).nodup hka) hload
  refine ⟨h1, ?_, ?_⟩
  · intro r
    rw [h2]
    simp only [inClosure]
    constructor
    · intro hr
      rcases List.mem_append.1 hr with hr | hr
      · exact ⟨(List.mem_filter.1 hr).1, Or.inl hr⟩
      · obtain ⟨f, hf, rfl⟩ := List.mem_map.1 hr
        have hf' := (List.mem_filter.1 hf).1
        refine ⟨?_, Or.inr (scope_of_mem_flatFields _ _ _ f hf')⟩
        rw [hFf]
        exact List.mem_map.2 ⟨f, (flatFields_sublist _ _ schema).subset hf', rfl⟩
    · rintro ⟨hr, hc | hc⟩
      · exact List.mem_append.2 (Or.inl hc)
      · rw [hFf] at hr
        obtain ⟨f, hf, rfl⟩ := List.mem_map.1 hr
        have hfs := mem_flatFields_of_scope m.typesMap m.fieldsMap schema f hf hc.1 hc.2
        by_cases hex : checkFieldExists
            { full with arguments := full.arguments.filter pa,
                        fields := full.fields.filter pf } f.TypeName f.Name = true
        · refine List.mem_append.2 (Or.inl ?_)
          obtain ⟨r', hr', hkey⟩ := List.any_eq_true.1 hex
          have hr'' : r' ∈ full.fields := (List.mem_filter.1 hr').1
          rw [hFf] at hr''
          obtain ⟨f', hf', rfl⟩ := List.mem_map.1 hr''
          simp only [Bool.and_eq_true, decide_eq_true_eq] at hkey
          have hff' : f' = f := List.inj_on_of_nodup_map hkf hf' hf
            (Prod.ext hkey.1 hkey.2)
          rw [← hff']
          exact hr'
        · refine List.mem_append.2 (Or.inr (List.mem_map.2 ⟨f, List.mem_filter.2 ⟨hfs, ?_⟩, rfl⟩))
          simpa using hex
  · intro a
    rw [h3]
    simp only [inClosure]
    constructor
    · intro ha
      rcases List.mem_append.1 ha with ha | ha
      · exact ⟨(List.mem_filter.1 ha).1, Or.inl ha⟩
      · have ha' := (List.mem_filter.1 ha).1
        refine ⟨?_, Or.inr (scope_of_mem_flatArguments _ _ _ a ha')⟩
        rw [hFa]
        exact (flatArguments_sublist _ _ schema).subset ha'
    · rintro ⟨ha, hc | hc⟩
      · exact List.mem_append.2 (Or.inl hc)
      · rw [hFa] at ha
        have has := mem_flatArguments_of_scope m.typesMap m.fieldsMap schema a ha hc.1 hc.2
        by_cases hex : checkArgumentExists
            { full with arguments := full.arguments.filter pa,
                        fields := full.fields.filter pf } a.TypeName a.FieldName a.Name = true
        · refine List.mem_append.2 (Or.inl ?_)
          obtain ⟨a', ha', hkey⟩ := List.any_eq_true.1 hex
          have ha'' : a' ∈ full.arguments := (List.mem_filter.1 ha').1
          rw [hFa] at ha''
          simp only [Bool.and_eq_true, decide_eq_true_eq] at hkey
          have hka' : ((flatArguments [] [] schema).map
              (fun a => (a.TypeName, a.FieldName, a.Name))).Nodup := by
            rw [flatArguments_triples]; exact hka
          have haa' : a' = a := List.inj_on_of_nodup_map hka' ha'' ha
            (Prod.ext hkey.1.1 (Prod.ext hkey.1.2 hkey.2))
          rw [← haa']
          exact ha'
        · exact List.mem_append.2 (Or.inr (List.mem_filter.2 ⟨has, by simpa using hex⟩))

/-- Witness of C8 (amended) on `schemaC8` and `infoC8`, where the full rebuild
and the closure builder return no error. -/
theorem clear_rebuild_rows_witness :
    (fillBaseSchema {} schemaC8 infoC8 {}).2 = none ∧
    (fillDataObjectTypesForUpdate specConsts schemaC8 infoC8 "X" {}).2 = none ∧
    (LoadDataObject {} specConsts schemaC8 infoC8 "X" false
      (fillBaseSchema {} schemaC8 infoC8 {}).1).2 = none ∧
    (∀ r, r ∈ (LoadDataObject {} specConsts schemaC8 infoC8 "X" false
          (fillBaseSchema {} schemaC8 infoC8 {}).1).1.fields ↔
        r ∈ (fillBaseSchema {} schemaC8 infoC8 {}).1.fields ∧
        (r ∈ (clearDataObjectTypes specConsts schemaC8 infoC8 ["X"]
              (fillBaseSchema {} schemaC8 infoC8 {}).1).1.fields ∨
          inClosure (fillDataObjectTypesForUpdate specConsts schemaC8 infoC8 "X" {}).1
            r.TypeName r.Name)) ∧
    (∀ a, a ∈ (LoadDataObject {} specConsts schemaC8 infoC8 "X" false
          (fillBaseSchema {} schemaC8 infoC8 {}).1).1.arguments ↔
        a ∈ (fillBaseSchema {} schemaC8 infoC8 {}).1.arguments ∧
        (a ∈ (clearDataObjectTypes specConsts schemaC8 infoC8 ["X"]
              (fillBaseSchema {} schemaC8 infoC8 {}).1).1.arguments ∨
          inClosure (fillDataObjectTypesForUpdate specConsts schemaC8 infoC8 "X" {}).1
            a.TypeName a.FieldName)) :=
  ⟨by decide, by decide,
   clear_rebuild_rows {} specConsts schemaC8 infoC8 "X" {} (by decide) (by decide)⟩

/-! ### The depth bound of `addFieldTypeRecursively` -/

theorem unmarked_mono (schema : SchemaIntro) (m m' : Maps)
    (h : ∀ T ∈ m.typesMap, T ∈ m'.typesMap) : unmarked schema m' ≤ unmarked schema m := by
  unfold unmarked
  refine List.Sublist.length_le (List.monotone_filter_right _ (fun t ht => ?_))
  simp only [Bool.not_eq_true', decide_eq_false_iff_not] at ht ⊢
  exact fun hm => ht (h _ hm)

theorem unmarked_le_length (schema : SchemaIntro) (m : Maps) :
    unmarked schema m ≤ schema.Types.length :=
  List.length_filter_le _ _

theorem unmarked_expand_le (schema : SchemaIntro) (fuel : Nat) (n : String) (m : Maps) :
    unmarked schema (addFieldTypeRecursivelyFuel fuel schema n m).1 ≤ unmarked schema m :=
  unmarked_mono schema _ _ (fun T hT => expand_typesMap_mono schema fuel T n m hT)

theorem unmarked_mark_lt (schema : SchemaIntro) (n : String) (t : TypeIntro) (m : Maps)
    (ht : schema.TypeByName n = some t) (hn : n ∉ m.typesMap) :
    unmarked schema ((m.setType n).ensureFields n) < unmarked schema m := by
  unfold unmarked
  rw [ensureFields_typesMap]
  have hsub : schema.Types.filter (fun t => !decide (t.Name ∈ n :: m.typesMap)) =
      (schema.Types.filter (fun t => !decide (t.Name ∈ m.typesMap))).filter
        (fun t => !decide (t.Name ∈ n :: m.typesMap)) := by
    rw [List.filter_filter]
    refine List.filter_congr (fun x _ => ?_)
    by_cases hx : x.Name ∈ m.typesMap <;> simp [hx]
  show (List.filter (fun t => !decide (t.Name ∈ n :: m.typesMap)) schema.Types).length < _
  rw [hsub]
  refine List.length_filter_lt_length_iff_exists.2 ⟨t, List.mem_filter.2
    ⟨TypeByName_mem schema n t ht, ?_⟩, ?_⟩
  · rw [TypeByName_name schema n t ht]
    simpa using hn
  · rw [TypeByName_name schema n t ht]
    simp

theorem forEachE_inv_err {α σ : Type} (P : σ → Prop) (R : Err → Prop)
    (body : α → σ → σ × Option Err)
    (h : ∀ x s, P s → P (body x s).1 ∧ ∀ e, (body x s).2 = some e → R e)
    (xs : List α) (s : σ) (hs : P s) :
    P (forEachE body xs s).1 ∧ ∀ e, (forEachE body xs s).2 = some e → R e := by
  induction xs generalizing s with
  | nil => exact ⟨hs, fun e he => by simp [forEachE] at he⟩
  | cons x xs ih =>
    have hx := h x s hs
    rcases hb : body x s with ⟨s', _ | e'⟩
    · rw [hb] at hx
      simp only [forEachE, hb]
      exact ih s' hx.1
    · rw [hb] at hx
      simp only [forEachE, hb]
      exact ⟨hx.1, fun e he => hx.2 e he⟩

/-- Fuel adequacy: a bound that covers the unmarked types of the schema is
never reached. -/
theorem addFieldTypeRecursivelyFuel_adequate (schema : SchemaIntro) :
    ∀ fuel n m, unmarked schema m ≤ fuel →
      (addFieldTypeRecursivelyFuel fuel schema n m).2 ≠ some .fuel := by
  intro fuel
  induction fuel with
  | zero =>
    intro n m hu
    unfold addFieldTypeRecursivelyFuel
    rcases ht : schema.TypeByName n with _ | t
    · simp
    · by_cases hn : n ∈ m.typesMap
      · simp [hn]
      · exact absurd (unmarked_mark_lt schema n t m ht hn) (by omega)
  | succ fuel ih =>
    intro n m hu
    unfold addFieldTypeRecursivelyFuel
    rcases ht : schema.TypeByName n with _ | t
    · simp
    · by_cases hn : n ∈ m.typesMap
      · simp [hn]
      · simp only [hn, if_false]
        have h0 : unmarked schema ((m.setType n).ensureFields n) ≤ fuel := by
          have := unmarked_mark_lt schema n t m ht hn
          omega
        have hrec : ∀ x s, unmarked schema s ≤ fuel →
            unmarked schema (addFieldTypeRecursivelyFuel fuel schema x s).1 ≤ fuel ∧
            ∀ e, (addFieldTypeRecursivelyFuel fuel schema x s).2 = some e → e ≠ .fuel :=
          fun x s hs => ⟨le_trans (unmarked_expand_le schema fuel x s) hs,
            fun e he hf => ih x s hs (by rw [he, hf])⟩
        have hargs : ∀ (a : ArgIntro) s, unmarked schema s ≤ fuel →
            unmarked schema (expandArg (addFieldTypeRecursivelyFuel fuel schema) a s).1 ≤ fuel ∧
            ∀ e, (expandArg (addFieldTypeRecursivelyFuel fuel schema) a s).2 = some e →
              e ≠ .fuel := by
          intro a s hs
          unfold expandArg
          split
          · exact ⟨hs, fun e he => by simp at he⟩
          · exact hrec _ s hs
        have hfield : ∀ (f : FieldIntro) s, unmarked schema s ≤ fuel →
            unmarked schema (expandField (addFieldTypeRecursivelyFuel fuel schema) n f s).1
              ≤ fuel ∧
            ∀ e, (expandField (addFieldTypeRecursivelyFuel fuel schema) n f s).2 = some e →
              e ≠ .fuel := by
          intro f s hs
          unfold expandField
          have hl := forEachE_inv_err (fun s => unmarked schema s ≤ fuel) (fun e => e ≠ .fuel)
            (expandArg (addFieldTypeRecursivelyFuel fuel schema)) hargs f.Args
            (s.addField n f.Name) hs
          rcases hr : forEachE (expandArg (addFieldTypeRecursivelyFuel fuel schema)) f.Args
            (s.addField n f.Name) with ⟨s1, _ | e1⟩
          · rw [hr] at hl
            simp only [andThen]
            split
            · exact ⟨hl.1, fun e he => by simp at he⟩
            · exact hrec _ s1 hl.1
          · rw [hr] at hl
            simp only [andThen]
            exact ⟨hl.1, fun e he => hl.2 e he⟩
        have hinput : ∀ (f : FieldIntro) s, unmarked schema s ≤ fuel →
            unmarked schema (expandInput (addFieldTypeRecursivelyFuel fuel schema) n f s).1
              ≤ fuel ∧
            ∀ e, (expandInput (addFieldTypeRecursivelyFuel fuel schema) n f s).2 = some e →
              e ≠ .fuel := by
          intro f s hs
          simp only [expandInput]
          split
          · exact ⟨hs, fun e he => by simp at he⟩
          · exact hrec _ (s.addField n f.Name) hs
        have hF := forEachE_inv_err (fun s => unmarked schema s ≤ fuel) (fun e => e ≠ .fuel)
          (expandField (addFieldTypeRecursivelyFuel fuel schema) n) hfield t.Fields
          ((m.setType n).ensureFields n) h0
        rcases hr : forEachE (expandField (addFieldTypeRecursivelyFuel fuel schema) n) t.Fields
          ((m.setType n).ensureFields n) with ⟨s1, _ | e1⟩
        · rw [hr] at hF
          simp only [andThen]
          have hI := forEachE_inv_err (fun s => unmarked schema s ≤ fuel) (fun e => e ≠ .fuel)
            (expandInput (addFieldTypeRecursivelyFuel fuel schema) n) hinput t.InputFields
            s1 hF.1
          intro hbad
          exact hI.2 _ hbad rfl
        · rw [hr] at hF
          simp only [andThen]
          intro hbad
          exact hF.2 _ hbad rfl

/-- The depth bound `len(schema.Types)` of `addFieldTypeRecursively` is never
reached: the outcome `Err.fuel` does not occur. -/
theorem addFieldTypeRecursively_no_fuel (schema : SchemaIntro) (n : String) (m : Maps) :
    (addFieldTypeRecursively schema n m).2 ≠ some .fuel :=
  addFieldTypeRecursivelyFuel_adequate schema _ n m (unmarked_le_length schema m)

theorem andThen_stable {σ : Type} (r r' : σ × Option Err) (k k' : σ → σ × Option Err)
    (hr : r.2 ≠ some .fuel → r' = r) (hk : ∀ s, (k s).2 ≠ some .fuel → k' s = k s)
    (h : (andThen r k).2 ≠ some .fuel) : andThen r' k' = andThen r k := by
  rcases r with ⟨s, _ | e⟩
  · rw [hr (by simp)]
    simp only [andThen] at h ⊢
    exact hk s h
  · simp only [andThen] at h
    rw [hr h]
    simp only [andThen]

theorem forEachE_stable {α σ : Type} (b b' : α → σ → σ × Option Err)
    (hb : ∀ x s, (b x s).2 ≠ some .fuel → b' x s = b x s) (xs : List α) (s : σ)
    (h : (forEachE b xs s).2 ≠ some .fuel) : forEachE b' xs s = forEachE b xs s := by
  induction xs generalizing s with
  | nil => rfl
  | cons x xs ih =>
    rcases hx : b x s with ⟨s', _ | e⟩
    · have hx' : b' x s = (s', none) := by rw [hb x s (by rw [hx]; simp), hx]
      simp only [forEachE, hx] at h
      simp only [forEachE, hx, hx']
      exact ih s' h
    · simp only [forEachE, hx] at h
      have hx' : b' x s = (s', some e) := by rw [hb x s (by rw [hx]; exact h), hx]
      simp only [forEachE, hx, hx']

/-- A run that did not reach the depth bound is the same under a larger bound. -/
theorem addFieldTypeRecursivelyFuel_stable (schema : SchemaIntro) :
    ∀ fuel n m, (addFieldTypeRecursivelyFuel fuel schema n m).2 ≠ some .fuel →
      addFieldTypeRecursivelyFuel (fuel + 1) schema n m =
        addFieldTypeRecursivelyFuel fuel schema n m := by
  intro fuel
  induction fuel with
  | zero =>
    intro n m h
    unfold addFieldTypeRecursivelyFuel at h ⊢
    rcases ht : schema.TypeByName n with _ | t
    · rfl
    · rw [ht] at h
      by_cases hn : n ∈ m.typesMap
      · simp [hn]
      · simp [hn] at h
  | succ fuel ih =>
    intro n m h
    unfold addFieldTypeRecursivelyFuel at h ⊢
    rcases ht : schema.TypeByName n with _ | t
    · rfl
    · rw [ht] at h
      by_cases hn : n ∈ m.typesMap
      · simp [hn]
      · simp only [hn, if_false] at h ⊢
        have harg : ∀ (a : ArgIntro) s,
            (expandArg (addFieldTypeRecursivelyFuel fuel schema) a s).2 ≠ some .fuel →
            expandArg (addFieldTypeRecursivelyFuel (fuel + 1) schema) a s =
              expandArg (addFieldTypeRecursivelyFuel fuel schema) a s := by
          intro a s hs
          unfold expandArg at hs ⊢
          split
          · rfl
          · rename_i hmem
            simp only [hmem, if_false] at hs
            exact ih _ s hs
        have hfield : ∀ (f : FieldIntro) s,
            (expandField (addFieldTypeRecursivelyFuel fuel schema) n f s).2 ≠ some .fuel →
            expandField (addFieldTypeRecursivelyFuel (fuel + 1) schema) n f s =
              expandField (addFieldTypeRecursivelyFuel fuel schema) n f s := by
          intro f s hs
          unfold expandField at hs ⊢
          refine andThen_stable _ _ _ _ (forEachE_stable _ _ harg f.Args _) (fun s1 h1 => ?_) hs
          split
          · rfl
          · rename_i hmem
            simp only [hmem, if_false] at h1
            exact ih _ s1 h1
        have hinput : ∀ (f : FieldIntro) s,
            (expandInput (addFieldTypeRecursivelyFuel fuel schema) n f s).2 ≠ some .fuel →
            expandInput (addFieldTypeRecursivelyFuel (fuel + 1) schema) n f s =
              expandInput (addFieldTypeRecursivelyFuel fuel schema) n f s := by
          intro f s hs
          simp only [expandInput] at hs ⊢
          split
          · rfl
          · rename_i hmem
            simp only [hmem, if_false] at hs
            exact ih _ _ hs
        exact andThen_stable _ _ _ _ (forEachE_stable _ _ hfield t.Fields _)
          (fun s1 h1 => forEachE_stable _ _ hinput t.InputFields s1 h1) h

/-- The result of `addFieldTypeRecursively` does not depend on the depth bound
once the bound covers the unmarked types of the schema. -/
theorem addFieldTypeRecursivelyFuel_eq (schema : SchemaIntro) (n : String) (m : Maps)
    (fuel j : Nat) (hu : unmarked schema m ≤ fuel) :
    addFieldTypeRecursivelyFuel (fuel + j) schema n m =
      addFieldTypeRecursivelyFuel fuel schema n m := by
  induction j with
  | zero => rfl
  | succ j ih =>
    rw [← Nat.add_assoc, addFieldTypeRecursivelyFuel_stable schema (fuel + j) n m
      (addFieldTypeRecursivelyFuel_adequate schema (fuel + j) n m (by omega)), ih]

/-! ### Data objects are replaced -/

theorem addDataObject_rows_self (obj : DataObjectRow) (c : Catalog) :
    objectRows (addDataObject obj c).1 obj.Name = [{ obj with Queries := [] }] ∧
    objectQueries (addDataObject obj c).1 obj.Name =
      obj.Queries.map (fun q => { q with ObjectName := obj.Name }) := by
  constructor
  · simp only [objectRows, addDataObject, List.filter_append, List.filter_filter]
    have h : c.dataObjects.filter
        (fun r => decide (r.Name = obj.Name) && decide (r.Name ≠ obj.Name)) = [] := by
      rw [List.filter_eq_nil_iff]
      intro r _
      by_cases hr : r.Name = obj.Name <;> simp [hr]
    rw [h]
    simp
  · simp only [objectQueries, addDataObject, List.filter_append, List.filter_filter]
    have h : c.dataObjectQueries.filter
        (fun q => decide (q.ObjectName = obj.Name) && decide (q.ObjectName ≠ obj.Name)) = [] := by
      rw [List.filter_eq_nil_iff]
      intro r _
      by_cases hr : r.ObjectName = obj.Name <;> simp [hr]
    rw [h, List.nil_append, List.filter_eq_self]
    intro q hq
    obtain ⟨q', _, rfl⟩ := List.mem_map.1 hq
    simp

theorem addDataObject_rows_other (obj : DataObjectRow) (c : Catalog) (n : String)
    (hn : obj.Name ≠ n) :
    objectRows (addDataObject obj c).1 n = objectRows c n ∧
    objectQueries (addDataObject obj c).1 n = objectQueries c n := by
  constructor
  · simp only [objectRows, addDataObject, List.filter_append, List.filter_filter]
    have h : c.dataObjects.filter
        (fun r => decide (r.Name = n) && decide (r.Name ≠ obj.Name)) =
        c.dataObjects.filter (fun r => decide (r.Name = n)) := by
      refine List.filter_congr (fun r _ => ?_)
      by_cases hr : r.Name = n
      · have : r.Name ≠ obj.Name := fun h => hn (h ▸ hr)
        simp [hr, this, Ne.symm hn]
      · simp [hr]
    rw [h]
    simp [hn]
  · simp only [objectQueries, addDataObject, List.filter_append, List.filter_filter]
    have h : c.dataObjectQueries.filter
        (fun q => decide (q.ObjectName = n) && decide (q.ObjectName ≠ obj.Name)) =
        c.dataObjectQueries.filter (fun q => decide (q.ObjectName = n)) := by
      refine List.filter_congr (fun r _ => ?_)
      by_cases hr : r.ObjectName = n
      · simp [hr, Ne.symm hn]
      · simp [hr]
    have h2 : (obj.Queries.map (fun q => { q with ObjectName := obj.Name })).filter
        (fun q => decide (q.ObjectName = n)) = [] := by
      rw [List.filter_eq_nil_iff]
      intro q hq
      obtain ⟨q', _, rfl⟩ := List.mem_map.1 hq
      simp [hn]
    rw [h, h2, List.append_nil]

theorem mergeField_objects (cfg : Config) (f : FieldRow) (u : Bool) (c : Catalog) :
    (mergeField cfg f u c).1.dataObjects = c.dataObjects ∧
    (mergeField cfg f u c).1.dataObjectQueries = c.dataObjectQueries := by
  unfold mergeField
  by_cases h : checkFieldExists c f.TypeName f.Name = true
  · cases u <;> simp [h, updateTypeField]
  · simp [h, AddField]

theorem mergeArgument_objects (a : ArgumentRow) (u : Bool) (c : Catalog) :
    (mergeArgument a u c).1.dataObjects = c.dataObjects ∧
    (mergeArgument a u c).1.dataObjectQueries = c.dataObjectQueries := by
  unfold mergeArgument
  by_cases h : checkArgumentExists c a.TypeName a.FieldName a.Name = true
  · cases u <;> simp [h, updateArgument]
  · simp [h, AddArgument]

theorem mergeModule_objects (cfg : Config) (m : ModuleRow) (u : Bool) (c : Catalog) :
    (mergeModule cfg m u c).1.dataObjects = c.dataObjects ∧
    (mergeModule cfg m u c).1.dataObjectQueries = c.dataObjectQueries := by
  unfold mergeModule
  by_cases h : checkModuleExists c m.Name = true
  · cases u <;> simp [h, updateModule]
  · simp [h, AddModule]

theorem mergeDataSource_objects (cfg : Config) (d : DataSourceRow) (u : Bool) (c : Catalog) :
    (mergeDataSource cfg d u c).1.dataObjects = c.dataObjects ∧
    (mergeDataSource cfg d u c).1.dataObjectQueries = c.dataObjectQueries := by
  unfold mergeDataSource
  by_cases h : checkDataSourceExists c d.Name = true
  · cases u <;> simp [h, updateDataSource]
  · simp [h, AddDataSource]

theorem patrialTypes_objects (cfg : Config) (u : Bool) (tm : List String) (fm : FieldsMap)
    (types : List TypeIntro) (s : Flat) :
    (forEachE (patrialType cfg u tm fm) types s).1.c.dataObjects = s.c.dataObjects ∧
    (forEachE (patrialType cfg u tm fm) types s).1.c.dataObjectQueries =
      s.c.dataObjectQueries := by
  refine forEachE_inv (fun (s' : Flat) => s'.c.dataObjects = s.c.dataObjects ∧
    s'.c.dataObjectQueries = s.c.dataObjectQueries) _ (fun st s' h => ?_) types s ⟨rfl, rfl⟩
  show (patrialType cfg u tm fm st s').1.c.dataObjects = _ ∧
    (patrialType cfg u tm fm st s').1.c.dataObjectQueries = _
  rw [patrialType_c]
  split
  · exact h
  · have hf := mergeType_frame cfg (typeRowOf st) u s'.c
    exact ⟨hf.2.2.2.2.1.trans h.1, hf.2.2.2.2.2.trans h.2⟩

theorem baseTypes_objects (cfg : Config) (types : List TypeIntro) (s : Flat) :
    (forEachE (baseType cfg) types s).1.c.dataObjects = s.c.dataObjects ∧
    (forEachE (baseType cfg) types s).1.c.dataObjectQueries = s.c.dataObjectQueries := by
  refine forEachE_inv (fun (s' : Flat) => s'.c.dataObjects = s.c.dataObjects ∧
    s'.c.dataObjectQueries = s.c.dataObjectQueries) _ (fun st s' h => ?_) types s ⟨rfl, rfl⟩
  show (baseType cfg st s').1.c.dataObjects = _ ∧ (baseType cfg st s').1.c.dataObjectQueries = _
  rw [baseType_c]
  have hf := AddType_frame cfg (typeRowOf st) s'.c
  exact ⟨hf.2.2.2.2.1.trans h.1, hf.2.2.2.2.2.trans h.2⟩

theorem expectedObjectRow_eq (d : DataObjectInfo) (m : ModuleInfo) :
    { dataObjectRowOf d m with Queries := [] } = expectedObjectRow d := by
  unfold dataObjectRowOf expectedObjectRow
  cases d.Arguments <;> rfl

theorem expectedQueries_eq (d : DataObjectInfo) (m : ModuleInfo) :
    (dataObjectRowOf d m).Queries.map (fun q => { q with ObjectName := (dataObjectRowOf d m).Name })
      = expectedQueries d m := by
  simp only [dataObjectRowOf, expectedQueries, List.map_map]
  rfl

/-- One step of the data object loop that returns no error: a skipped object
leaves the store alone, an object in scope is replaced. -/
theorem patrialDataObject_step (info : SchemaInfo) (tm : List String) (d : DataObjectInfo)
    (c : Catalog) (hok : (patrialDataObject info tm d c).2 = none) :
    (nameSkipped tm d.Name = true ∧ (patrialDataObject info tm d c).1 = c) ∨
    (nameSkipped tm d.Name = false ∧ ∃ m, info.Module d.Module = some m ∧
      (patrialDataObject info tm d c).1 = (addDataObject (dataObjectRowOf d m) c).1) := by
  unfold patrialDataObject at hok ⊢
  by_cases hs : nameSkipped tm d.Name = true
  · left
    simp [hs]
  · right
    simp only [hs, if_false] at hok ⊢
    refine ⟨by simp [hs], ?_⟩
    unfold loadDataObject at hok ⊢
    rcases hm : info.Module d.Module with _ | m
    · rw [hm] at hok; simp at hok
    · rw [hm] at hok
      by_cases hq : m.QueryType = ""
      · simp [hq] at hok
      · exact ⟨m, rfl, by simp [hq]⟩

/-- A completed data object loop over descriptors with pairwise distinct
names: each object in scope has exactly the expected row and query list, and
what is stored under any other name is untouched. -/
theorem patrialDataObjects_spec (info : SchemaInfo) (tm : List String)
    (ds : List DataObjectInfo) (c : Catalog)
    (hnd : (ds.map (fun d => d.Name)).Nodup)
    (hok : (forEachE (patrialDataObject info tm) ds c).2 = none) :
    (∀ d ∈ ds, nameSkipped tm d.Name = false →
      ∃ m, info.Module d.Module = some m ∧
        objectRows (forEachE (patrialDataObject info tm) ds c).1 d.Name = [expectedObjectRow d] ∧
        objectQueries (forEachE (patrialDataObject info tm) ds c).1 d.Name =
          expectedQueries d m) ∧
    (∀ n, (∀ d ∈ ds, nameSkipped tm d.Name = false → d.Name ≠ n) →
      objectRows (forEachE (patrialDataObject info tm) ds c).1 n = objectRows c n ∧
      objectQueries (forEachE (patrialDataObject info tm) ds c).1 n = objectQueries c n) := by
  induction ds generalizing c with
  | nil => exact ⟨fun d hd => absurd hd (List.not_mem_nil _), fun n _ => ⟨rfl, rfl⟩⟩
  | cons d rest ih =>
    rcases hb : patrialDataObject info tm d c with ⟨c1, _ | e⟩
    swap
    · simp [forEachE, hb] at hok
    have hok' : (forEachE (patrialDataObject info tm) rest c1).2 = none := by
      simp only [forEachE, hb] at hok
      exact hok
    have hstep := patrialDataObject_step info tm d c (by rw [hb])
    rw [hb] at hstep
    simp only [List.map_cons, List.nodup_cons] at hnd
    obtain ⟨ih1, ih2⟩ := ih c1 hnd.2 hok'
    have hres : forEachE (patrialDataObject info tm) (d :: rest) c =
        forEachE (patrialDataObject info tm) rest c1 := by simp [forEachE, hb]
    rw [hres]
    have hfresh : ∀ d' ∈ rest, nameSkipped tm d'.Name = false → d'.Name ≠ d.Name :=
      fun d' hd' _ h => hnd.1 (List.mem_map.2 ⟨d', hd', h⟩)
    constructor
    · intro d' hd' hsc
      rcases List.mem_cons.1 hd' with rfl | hd'
      · rcases hstep with ⟨hs, _⟩ | ⟨_, m, hm, hc1⟩
        · rw [hs] at hsc; cases hsc
        · have h2 := ih2 d'.Name hfresh
          have h3 := addDataObject_rows_self (dataObjectRowOf d' m) c
          simp only [] at hc1
          rw [← hc1] at h3
          have h3a : objectRows c1 d'.Name = [{ dataObjectRowOf d' m with Queries := [] }] :=
            h3.1
          have h3b : objectQueries c1 d'.Name = (dataObjectRowOf d' m).Queries.map
              (fun q => { q with ObjectName := (dataObjectRowOf d' m).Name }) := h3.2
          refine ⟨m, hm, ?_, ?_⟩
          · rw [h2.1, h3a, expectedObjectRow_eq]
          · rw [h2.2, h3b, expectedQueries_eq]
      · exact ih1 d' hd' hsc
    · intro n hn
      have h2 := ih2 n (fun d' hd' hsc => hn d' (List.mem_cons_of_mem _ hd') hsc)
      rcases hstep with ⟨_, hc1⟩ | ⟨hs, m, _, hc1⟩
      · simp only [] at hc1
        subst hc1
        exact h2
      · have hne := hn d (List.mem_cons_self _ _) hs
        have h3 := addDataObject_rows_other (dataObjectRowOf d m) c n hne
        simp only [] at hc1
        rw [← hc1] at h3
        exact ⟨h2.1.trans h3.1, h2.2.trans h3.2⟩

/-- A run of `loadSchemaPatrial` that returns no error ends with the data
object loop, entered with the data object tables as they were. -/
theorem loadSchemaPatrial_objects (cfg : Config) (schema : SchemaIntro) (info : SchemaInfo)
    (u : Bool) (tm : List String) (fm : FieldsMap) (mm dm : List String) (c : Catalog)
    (hok : (loadSchemaPatrial cfg schema info u tm fm mm dm c).2 = none) :
    ∃ c5 : Catalog, c5.dataObjects = c.dataObjects ∧
      c5.dataObjectQueries = c.dataObjectQueries ∧
      loadSchemaPatrial cfg schema info u tm fm mm dm c =
        forEachE (patrialDataObject info tm) info.dataObjects c5 := by
  generalize hR : loadSchemaPatrial cfg schema info u tm fm mm dm c = R at hok
  unfold loadSchemaPatrial at hR
  rw [andThen_of_ok _ _ (mergeType_snd cfg unknownType false c)] at hR
  have h0 := mergeType_frame cfg unknownType false c
  generalize (mergeType cfg unknownType false c).1 = c0 at hR h0
  have h0' : c0.dataObjects = c.dataObjects ∧ c0.dataObjectQueries = c.dataObjectQueries :=
    ⟨h0.2.2.2.2.1, h0.2.2.2.2.2⟩
  clear h0
  have hR2 := hR ▸ hok
  obtain ⟨hL, h2⟩ := andThenFlat_ok _ _ _ hR2
  rw [andThenFlat_of_ok _ _ _ hL] at hR
  have h1 := patrialTypes_objects cfg u tm fm schema.Types { c := c0 }
  generalize (forEachE (patrialType cfg u tm fm) schema.Types { c := c0 }).1 = s at hR h1 h2
  obtain ⟨hF, h3⟩ := andThen_ok _ _ h2
  rw [andThen_of_ok _ _ hF] at hR
  have hFr := forEachE_inv (fun (c' : Catalog) => c'.dataObjects = c.dataObjects ∧
      c'.dataObjectQueries = c.dataObjectQueries) (fun f => mergeField cfg f u)
    (fun f s hs => by
      have := mergeField_objects cfg f u s
      exact ⟨this.1.trans hs.1, this.2.trans hs.2⟩) s.ff s.c
    ⟨h1.1.trans h0'.1, h1.2.trans h0'.2⟩
  generalize (forEachE (fun f => mergeField cfg f u) s.ff s.c).1 = c2 at hR hFr h3
  obtain ⟨hA, h4⟩ := andThen_ok _ _ h3
  rw [andThen_of_ok _ _ hA] at hR
  have hAr := forEachE_inv (fun (c' : Catalog) => c'.dataObjects = c.dataObjects ∧
      c'.dataObjectQueries = c.dataObjectQueries) (fun a => mergeArgument a u)
    (fun a s hs => by
      have := mergeArgument_objects a u s
      exact ⟨this.1.trans hs.1, this.2.trans hs.2⟩) s.aa c2 hFr
  generalize (forEachE (fun a => mergeArgument a u) s.aa c2).1 = c3 at hR hAr h4
  obtain ⟨hM, h5⟩ := andThen_ok _ _ h4
  rw [andThen_of_ok _ _ hM] at hR
  have hMr := forEachE_inv (fun (c' : Catalog) => c'.dataObjects = c.dataObjects ∧
      c'.dataObjectQueries = c.dataObjectQueries) (patrialModule cfg mm)
    (fun m s hs => by
      unfold patrialModule
      split
      · exact hs
      · have := mergeModule_objects cfg (moduleRowOf m) false s
        exact ⟨this.1.trans hs.1, this.2.trans hs.2⟩) info.modules c3 hAr
  generalize (forEachE (patrialModule cfg mm) info.modules c3).1 = c4 at hR hMr h5
  obtain ⟨hD, -⟩ := andThen_ok _ _ h5
  rw [andThen_of_ok _ _ hD] at hR
  have hDr := forEachE_inv (fun (c' : Catalog) => c'.dataObjects = c.dataObjects ∧
      c'.dataObjectQueries = c.dataObjectQueries) (patrialDataSource cfg u dm)
    (fun d s hs => by
      unfold patrialDataSource
      split
      · exact hs
      · have := mergeDataSource_objects cfg (dataSourceRowOf d) u s
        exact ⟨this.1.trans hs.1, this.2.trans hs.2⟩) info.DataSources c4 hMr
  exact ⟨_, hDr.1, hDr.2, hR.symm⟩

/-- A run of `fillBaseSchema` that returns no error ends with the data object
loop, entered with empty data object tables. -/
theorem fillBaseSchema_objects (cfg : Config) (schema : SchemaIntro) (info : SchemaInfo)
    (c : Catalog) (hok : (fillBaseSchema cfg schema info c).2 = none) :
    ∃ c5 : Catalog, c5.dataObjects = [] ∧ c5.dataObjectQueries = [] ∧
      fillBaseSchema cfg schema info c =
        forEachE (patrialDataObject info []) info.dataObjects c5 := by
  have hfun : loadDataObject info = patrialDataObject info [] := by
    funext d s
    simp [patrialDataObject, nameSkipped]
  generalize hR : fillBaseSchema cfg schema info c = R at hok
  unfold fillBaseSchema at hR
  rw [andThen_of_ok (Clear c) _ rfl] at hR
  have hR' : andThen (AddType cfg unknownType ({} : Catalog)) _ = R := hR
  clear hR
  have hR2 := hR' ▸ hok
  obtain ⟨hA0, h1⟩ := andThen_ok _ _ hR2
  rw [andThen_of_ok _ _ hA0] at hR'
  have h0 := AddType_frame cfg unknownType ({} : Catalog)
  generalize (AddType cfg unknownType ({} : Catalog)).1 = c0 at hR' h0 h1
  have h0' : c0.dataObjects = [] ∧ c0.dataObjectQueries = [] :=
    ⟨h0.2.2.2.2.1, h0.2.2.2.2.2⟩
  clear h0
  obtain ⟨hL, h2⟩ := andThenFlat_ok _ _ _ h1
  rw [andThenFlat_of_ok _ _ _ hL] at hR'
  have hb := baseTypes_objects cfg schema.Types { c := c0 }
  generalize (forEachE (baseType cfg) schema.Types { c := c0 }).1 = s at hR' hb h2
  obtain ⟨hF, h3⟩ := andThen_ok _ _ h2
  rw [andThen_of_ok _ _ hF] at hR'
  have hFr := forEachE_inv (fun (c' : Catalog) => c'.dataObjects = [] ∧
      c'.dataObjectQueries = []) (fun f => AddField cfg f)
    (fun f s hs => by
      have := AddField_frame cfg f s
      exact ⟨this.2.2.2.2.1.trans hs.1, this.2.2.2.2.2.trans hs.2⟩) s.ff s.c
    ⟨hb.1.trans h0'.1, hb.2.trans h0'.2⟩
  generalize (forEachE (fun f => AddField cfg f) s.ff s.c).1 = c2 at hR' hFr h3
  obtain ⟨hA, h4⟩ := andThen_ok _ _ h3
  rw [andThen_of_ok _ _ hA] at hR'
  have hAr := forEachE_inv (fun (c' : Catalog) => c'.dataObjects = [] ∧
      c'.dataObjectQueries = []) (fun a => AddArgument a)
    (fun a s hs => by
      have := AddArgument_frame a s
      exact ⟨this.2.2.2.2.1.trans hs.1, this.2.2.2.2.2.trans hs.2⟩) s.aa c2 hFr
  generalize (forEachE (fun a => AddArgument a) s.aa c2).1 = c3 at hR' hAr h4
  obtain ⟨hM, h5⟩ := andThen_ok _ _ h4
  rw [andThen_of_ok _ _ hM] at hR'
  have hMr := forEachE_inv (fun (c' : Catalog) => c'.dataObjects = [] ∧
      c'.dataObjectQueries = []) (fun m => AddModule cfg (moduleRowOf m))
    (fun m s hs => by
      have := AddModule_frame cfg (moduleRowOf m) s
      exact ⟨this.2.2.2.2.1.trans hs.1, this.2.2.2.2.2.trans hs.2⟩) info.modules c3 hAr
  generalize (forEachE (fun m => AddModule cfg (moduleRowOf m)) info.modules c3).1 = c4
    at hR' hMr h5
  obtain ⟨hD, -⟩ := andThen_ok _ _ h5
  rw [andThen_of_ok _ _ hD] at hR'
  have hDr := forEachE_inv (fun (c' : Catalog) => c'.dataObjects = [] ∧
      c'.dataObjectQueries = []) (fun ds => AddDataSource cfg (dataSourceRowOf ds))
    (fun d s hs => by
      have := AddDataSource_frame cfg (dataSourceRowOf d) s
      exact ⟨this.2.2.2.2.1.trans hs.1, this.2.2.2.2.2.trans hs.2⟩) info.DataSources c4 hMr
  rw [hfun] at hR'
  exact ⟨_, hDr.1, hDr.2, hR'.symm⟩

/-- C13: with pairwise distinct data object names in the summary, after a
`loadSchemaPatrial` that returned no error every data object in scope has
exactly one row and one query list under its name, the expected ones, whatever
was stored before, and what is stored under the name of no object in scope is
unchanged; after a `fillBaseSchema` that returned no error the same holds for
every data object of the summary. -/
theorem data_objects_replaced (cfg : Config) (schema : SchemaIntro) (info : SchemaInfo)
    (u : Bool) (tm : List String) (fm : FieldsMap) (mm dm : List String) (c : Catalog)
    (hnd : (info.dataObjects.map (fun d => d.Name)).Nodup) :
    ((loadSchemaPatrial cfg schema info u tm fm mm dm c).2 = none →
      (∀ d ∈ info.dataObjects, nameSkipped tm d.Name = false →
        ∃ m, info.Module d.Module = some m ∧
          objectRows (loadSchemaPatrial cfg schema info u tm fm mm dm c).1 d.Name =
            [expectedObjectRow d] ∧
          objectQueries (loadSchemaPatrial cfg schema info u tm fm mm dm c).1 d.Name =
            expectedQueries d m) ∧
      (∀ n, (∀ d ∈ info.dataObjects, nameSkipped tm d.Name = false → d.Name ≠ n) →
        objectRows (loadSchemaPatrial cfg schema info u tm fm mm dm c).1 n = objectRows c n ∧
        objectQueries (loadSchemaPatrial cfg schema info u tm fm mm dm c).1 n =
          objectQueries c n)) ∧
    ((fillBaseSchema cfg schema info c).2 = none →
      ∀ d ∈ info.dataObjects,
        ∃ m, info.Module d.Module = some m ∧
          objectRows (fillBaseSchema cfg schema info c).1 d.Name = [expectedObjectRow d] ∧
          objectQueries (fillBaseSchema cfg schema info c).1 d.Name = expectedQueries d m) := by
  constructor
  · intro hok
    obtain ⟨c5, h1, h2, heq⟩ := loadSchemaPatrial_objects cfg schema info u tm fm mm dm c hok
    rw [heq] at hok ⊢
    have hspec := patrialDataObjects_spec info tm info.dataObjects c5 hnd hok
    have hr : ∀ n, objectRows c5 n = objectRows c n := fun n => by
      simp only [objectRows, h1]
    have hq : ∀ n, objectQueries c5 n = objectQueries c n := fun n => by
      simp only [objectQueries, h2]
    refine ⟨hspec.1, fun n hn => ?_⟩
    have := hspec.2 n hn
    exact ⟨this.1.trans (hr n), this.2.trans (hq n)⟩
  · intro hok d hd
    obtain ⟨c5, -, -, heq⟩ := fillBaseSchema_objects cfg schema info c hok
    rw [heq] at hok ⊢
    exact (patrialDataObjects_spec info [] info.dataObjects c5 hnd hok).1 d hd rfl

/-- Witness of C13 on `schemaC3`, `infoC3` and a catalog with a stale row for `X`. -/
theorem data_objects_replaced_witness :
    (infoC3.dataObjects.map (fun d => d.Name)).Nodup ∧
    (loadSchemaPatrial {} schemaC3 infoC3 true ["X"] [] [] [] catalogC13).2 = none ∧
    (fillBaseSchema {} schemaC3 infoC3 catalogC13).2 = none ∧
    (((loadSchemaPatrial {} schemaC3 infoC3 true ["X"] [] [] [] catalogC13).2 = none →
      (∀ d ∈ infoC3.dataObjects, nameSkipped ["X"] d.Name = false →
        ∃ m, infoC3.Module d.Module = some m ∧
          objectRows (loadSchemaPatrial {} schemaC3 infoC3 true ["X"] [] [] [] catalogC13).1
            d.Name = [expectedObjectRow d] ∧
          objectQueries (loadSchemaPatrial {} schemaC3 infoC3 true ["X"] [] [] [] catalogC13).1
            d.Name = expectedQueries d m) ∧
      (∀ n, (∀ d ∈ infoC3.dataObjects, nameSkipped ["X"] d.Name = false → d.Name ≠ n) →
        objectRows (loadSchemaPatrial {} schemaC3 infoC3 true ["X"] [] [] [] catalogC13).1 n =
          objectRows catalogC13 n ∧
        objectQueries (loadSchemaPatrial {} schemaC3 infoC3 true ["X"] [] [] [] catalogC13).1 n =
          objectQueries catalogC13 n)) ∧
    ((fillBaseSchema {} schemaC3 infoC3 catalogC13).2 = none →
      ∀ d ∈ infoC3.dataObjects,
        ∃ m, infoC3.Module d.Module = some m ∧
          objectRows (fillBaseSchema {} schemaC3 infoC3 catalogC13).1 d.Name =
            [expectedObjectRow d] ∧
          objectQueries (fillBaseSchema {} schemaC3 infoC3 catalogC13).1 d.Name =
            expectedQueries d m)) :=
  ⟨by decide, by decide, by decide,
   data_objects_replaced {} schemaC3 infoC3 true ["X"] [] [] [] catalogC13 (by decide)⟩

/-- C14 (the code diverges): a patch reload (`update = true`) whose module set
holds `m` leaves the stored Module row of `m` as it was, although the upstream
description and query root differ; the DataSource row of `ds` is rewritten by
the same run. -/
theorem module_row_not_refreshed :
    (loadSchemaPatrial {} schemaC3 infoC14 true [] [] ["m"] ["ds"] catalogC14).2 = none ∧
    (loadSchemaPatrial {} schemaC3 infoC14 true [] [] ["m"] ["ds"] catalogC14).1.modules =
      [{ Name := "m", Description := "old", QueryRoot := "OldQuery" }] ∧
    (loadSchemaPatrial {} schemaC3 infoC14 true [] [] ["m"] ["ds"] catalogC14).1.dataSources =
      [{ Name := "ds", Description := "new" }] := by
  decide

/-! ### The journal of the reconciliation -/

theorem query_effect {α : Type} (read : Catalog → α) (w : World) :
    (query read w).1.cat = w.cat ∧ (query read w).1.log = w.log ∧
    ∀ b, (query read w).2 = .ok b → b = read w.cat := by
  unfold query World.pop
  rcases w with ⟨c, _ | ⟨_ | e, fs⟩, l⟩
  · exact ⟨rfl, rfl, fun b h => by cases h; rfl⟩
  · exact ⟨rfl, rfl, fun b h => by cases h; rfl⟩
  · exact ⟨rfl, rfl, fun b h => by cases h⟩

theorem mutate_effect (entry : Catalog → Write) (op : Catalog → Catalog × Option Err)
    (w : World) :
    (mutate entry op w).1.log = w.log ++ [entry w.cat] ∧
    (((mutate entry op w).1.cat = w.cat ∧ (mutate entry op w).2 ≠ none) ∨
     ((mutate entry op w).1.cat = (op w.cat).1 ∧ (mutate entry op w).2 = (op w.cat).2)) := by
  unfold mutate World.pop
  rcases w with ⟨c, _ | ⟨_ | e, fs⟩, l⟩
  · exact ⟨rfl, Or.inr ⟨rfl, rfl⟩⟩
  · exact ⟨rfl, Or.inr ⟨rfl, rfl⟩⟩
  · exact ⟨rfl, Or.inl ⟨rfl, by simp⟩⟩

theorem updateType_names (cfg : Config) (t : TypeRow) (c : Catalog) (n : String) :
    checkTypeExists (updateType cfg t c).1 n = checkTypeExists c n := by
  simp only [checkTypeExists, updateType, List.any_map]
  congr 1
  funext r
  by_cases h : r.Name = t.Name <;> simp [h]

theorem AddType_names (cfg : Config) (t : TypeRow) (c : Catalog) (n : String)
    (h : checkTypeExists c n = true) : checkTypeExists (AddType cfg t c).1 n = true := by
  unfold AddType
  by_cases hx : checkTypeExists c t.Name = true
  · simpa [hx] using h
  · have hx' : checkTypeExists c t.Name = false := by simpa using hx
    simp only [hx', Bool.false_eq_true, if_false]
    simp only [checkTypeExists, List.any_append, Bool.or_eq_true] at h ⊢
    exact Or.inl h

theorem updateType_frame (cfg : Config) (t : TypeRow) (c : Catalog) :
    (updateType cfg t c).1.fields = c.fields ∧ (updateType cfg t c).1.arguments = c.arguments :=
  ⟨rfl, rfl⟩

/-- The three outcomes of a merge (existence check, then skip, insert or
update): nothing is issued; the insert is issued, the key being absent; the
update is issued, the key being present and `update` set. -/
theorem merge_shape (read : Catalog → Bool) (entryA entryU : Catalog → Write)
    (opA opU : Catalog → Catalog × Option Err) (u : Bool) (w : World) (r : World × Option Err)
    (hr : r = (match query read w with
      | (w, .error e) => (w, some e)
      | (w, .ok found) =>
        if found && !u then (w, none)
        else if !found then mutate entryA opA w
        else mutate entryU opU w)) :
    (r.1.cat = w.cat ∧ r.1.log = w.log ∧ (r.2 = none → read w.cat = true)) ∨
    (read w.cat = false ∧ r.1.log = w.log ++ [entryA w.cat] ∧
      ((r.1.cat = w.cat ∧ r.2 ≠ none) ∨ (r.1.cat = (opA w.cat).1 ∧ r.2 = (opA w.cat).2))) ∨
    (read w.cat = true ∧ r.1.log = w.log ++ [entryU w.cat] ∧
      ((r.1.cat = w.cat ∧ r.2 ≠ none) ∨ (r.1.cat = (opU w.cat).1 ∧ r.2 = (opU w.cat).2))) := by
  obtain ⟨hqc, hql, hqr⟩ := query_effect read w
  rcases hq : query read w with ⟨w1, e | found⟩
  · rw [hq] at hqc hql
    rw [hq] at hr
    subst hr
    exact Or.inl ⟨hqc, hql, fun h => by cases h⟩
  · rw [hq] at hqc hql hqr
    rw [hq] at hr
    have h3 : found = read w.cat := hqr found rfl
    simp only [] at hqc hql hr
    cases found with
    | false =>
      simp only [Bool.false_and, Bool.false_eq_true, if_false, Bool.not_false, if_true] at hr
      subst hr
      obtain ⟨hl, hc⟩ := mutate_effect entryA opA w1
      rw [hqc, hql] at hl
      rw [hqc] at hc
      exact Or.inr (Or.inl ⟨h3.symm, hl, hc⟩)
    | true =>
      cases u with
      | false =>
        simp only [Bool.not_false, Bool.and_self, if_true] at hr
        subst hr
        exact Or.inl ⟨hqc, hql, fun _ => h3.symm⟩
      | true =>
        simp only [Bool.not_true, Bool.and_false, Bool.false_eq_true, if_false] at hr
        subst hr
        obtain ⟨hl, hc⟩ := mutate_effect entryU opU w1
        rw [hqc, hql] at hl
        rw [hqc] at hc
        exact Or.inr (Or.inr ⟨h3.symm, hl, hc⟩)

/-- What one `mergeType` does to the journal and the store. -/
theorem journal_mergeType_effect (cfg : Config) (t : TypeRow) (u : Bool) (w : World) :
    ((Journal.mergeType cfg t u w).1.log = w.log ∨
      ∃ e, (Journal.mergeType cfg t u w).1.log = w.log ++ [e] ∧
        (e.req = .insert .types ∨ e.req = .update .types)) ∧
    (Journal.mergeType cfg t u w).1.cat.fields = w.cat.fields ∧
    (Journal.mergeType cfg t u w).1.cat.arguments = w.cat.arguments ∧
    (∀ n, checkTypeExists w.cat n = true →
      checkTypeExists (Journal.mergeType cfg t u w).1.cat n = true) ∧
    ((Journal.mergeType cfg t u w).2 = none →
      checkTypeExists (Journal.mergeType cfg t u w).1.cat t.Name = true) := by
  have hs := merge_shape (fun c => checkTypeExists c t.Name)
    (fun c => { req := .insert .types, name := t.Name, before := c })
    (fun c => { req := .update .types, name := t.Name, before := c })
    (AddType cfg t) (updateType cfg t) u w (Journal.mergeType cfg t u w) rfl
  generalize Journal.mergeType cfg t u w = r at hs
  rcases hs with ⟨hc, hl, hok⟩ | ⟨hnf, hl, hc⟩ | ⟨hf, hl, hc⟩
  · exact ⟨Or.inl hl, by rw [hc], by rw [hc], fun n hn => by rw [hc]; exact hn,
      fun h => by rw [hc]; exact hok h⟩
  · refine ⟨Or.inr ⟨_, hl, Or.inl rfl⟩, ?_, ?_, ?_, ?_⟩
    · rcases hc with ⟨hc, _⟩ | ⟨hc, _⟩ <;> rw [hc]
      exact (AddType_frame cfg t w.cat).1
    · rcases hc with ⟨hc, _⟩ | ⟨hc, _⟩ <;> rw [hc]
      exact (AddType_frame cfg t w.cat).2.1
    · intro n hn
      rcases hc with ⟨hc, _⟩ | ⟨hc, _⟩ <;> rw [hc]
      · exact hn
      · exact AddType_names cfg t w.cat n hn
    · intro hok
      rcases hc with ⟨_, hne⟩ | ⟨hc, he⟩
      · exact absurd hok hne
      · rw [hc, checkTypeExists_AddType cfg t w.cat t.Name (by rw [← he]; exact hok)]
        simp
  · refine ⟨Or.inr ⟨_, hl, Or.inr rfl⟩, ?_, ?_, ?_, ?_⟩
    · rcases hc with ⟨hc, _⟩ | ⟨hc, _⟩ <;> rw [hc]
      rfl
    · rcases hc with ⟨hc, _⟩ | ⟨hc, _⟩ <;> rw [hc]
      rfl
    · intro n hn
      rcases hc with ⟨hc, _⟩ | ⟨hc, _⟩ <;> rw [hc]
      · exact hn
      · rw [updateType_names]; exact hn
    · intro _
      rcases hc with ⟨hc, _⟩ | ⟨hc, _⟩ <;> rw [hc]
      · exact hf
      · rw [updateType_names]; exact hf

theorem updateTypeField_names (cfg : Config) (f : FieldRow) (c : Catalog) (t n : String) :
    checkFieldExists (updateTypeField cfg f c).1 t n = checkFieldExists c t n := by
  simp only [checkFieldExists, updateTypeField, List.any_map]
  congr 1
  funext r
  by_cases h : r.Name = f.Name ∧ r.TypeName = f.TypeName <;> simp [h]

theorem AddField_names (cfg : Config) (f : FieldRow) (c : Catalog) (t n : String)
    (h : checkFieldExists c t n = true) : checkFieldExists (AddField cfg f c).1 t n = true := by
  unfold AddField
  by_cases hx : checkFieldExists c f.TypeName f.Name = true
  · simpa [hx] using h
  · have hx' : checkFieldExists c f.TypeName f.Name = false := by simpa using hx
    simp only [hx', Bool.false_eq_true, if_false]
    simp only [checkFieldExists, List.any_append, Bool.or_eq_true] at h ⊢
    exact Or.inl h

/-- What one `mergeField` does to the journal and the store. -/
theorem journal_mergeField_effect (cfg : Config) (f : FieldRow) (u : Bool) (w : World) :
    ((Journal.mergeField cfg f u w).1.log = w.log ∨
      ∃ e, (Journal.mergeField cfg f u w).1.log = w.log ++ [e] ∧
        (e.req = .insert .fields ∨ e.req = .update .fields) ∧
        e.typeName = f.TypeName ∧ e.before = w.cat) ∧
    (Journal.mergeField cfg f u w).1.cat.types = w.cat.types ∧
    (∀ t n, checkFieldExists w.cat t n = true →
      checkFieldExists (Journal.mergeField cfg f u w).1.cat t n = true) ∧
    ((Journal.mergeField cfg f u w).2 = none →
      checkFieldExists (Journal.mergeField cfg f u w).1.cat f.TypeName f.Name = true) := by
  have hs := merge_shape (fun c => checkFieldExists c f.TypeName f.Name)
    (fun c => { req := .insert .fields, typeName := f.TypeName, name := f.Name, before := c })
    (fun c => { req := .update .fields, typeName := f.TypeName, name := f.Name, before := c })
    (AddField cfg f) (updateTypeField cfg f) u w (Journal.mergeField cfg f u w) rfl
  generalize Journal.mergeField cfg f u w = r at hs
  rcases hs with ⟨hc, hl, hok⟩ | ⟨hnf, hl, hc⟩ | ⟨hf, hl, hc⟩
  · exact ⟨Or.inl hl, by rw [hc], fun t n hn => by rw [hc]; exact hn,
      fun h => by rw [hc]; exact hok h⟩
  · refine ⟨Or.inr ⟨_, hl, Or.inl rfl, rfl, rfl⟩, ?_, ?_, ?_⟩
    · rcases hc with ⟨hc, _⟩ | ⟨hc, _⟩ <;> rw [hc]
      exact (AddField_frame cfg f w.cat).1
    · intro t n hn
      rcases hc with ⟨hc, _⟩ | ⟨hc, _⟩ <;> rw [hc]
      · exact hn
      · exact AddField_names cfg f w.cat t n hn
    · intro hok
      rcases hc with ⟨_, hne⟩ | ⟨hc, he⟩
      · exact absurd hok hne
      · rw [hc, checkFieldExists_AddField cfg f w.cat _ _ (by rw [← he]; exact hok)]
        simp
  · refine ⟨Or.inr ⟨_, hl, Or.inr rfl, rfl, rfl⟩, ?_, ?_, ?_⟩
    · rcases hc with ⟨hc, _⟩ | ⟨hc, _⟩ <;> rw [hc]
      rfl
    · intro t n hn
      rcases hc with ⟨hc, _⟩ | ⟨hc, _⟩ <;> rw [hc]
      · exact hn
      · rw [updateTypeField_names]; exact hn
    · intro _
      rcases hc with ⟨hc, _⟩ | ⟨hc, _⟩ <;> rw [hc]
      · exact hf
      · rw [updateTypeField_names]; exact hf

/-- What one `mergeArgument` does to the journal and the store. -/
theorem journal_mergeArgument_effect (a : ArgumentRow) (u : Bool) (w : World) :
    ((Journal.mergeArgument a u w).1.log = w.log ∨
      ∃ e, (Journal.mergeArgument a u w).1.log = w.log ++ [e] ∧
        (e.req = .insert .arguments ∨ e.req = .update .arguments) ∧
        e.typeName = a.TypeName ∧ e.fieldName = a.FieldName ∧ e.before = w.cat) ∧
    (Journal.mergeArgument a u w).1.cat.fields = w.cat.fields := by
  have hs := merge_shape (fun c => checkArgumentExists c a.TypeName a.FieldName a.Name)
    (fun c => { req := .insert .arguments, typeName := a.TypeName,
                fieldName := a.FieldName, name := a.Name, before := c })
    (fun c => { req := .update .arguments, typeName := a.TypeName,
                fieldName := a.FieldName, name := a.Name, before := c })
    (AddArgument a) (updateArgument a) u w (Journal.mergeArgument a u w) rfl
  generalize Journal.mergeArgument a u w = r at hs
  rcases hs with ⟨hc, hl, -⟩ | ⟨-, hl, hc⟩ | ⟨-, hl, hc⟩
  · exact ⟨Or.inl hl, by rw [hc]⟩
  · refine ⟨Or.inr ⟨_, hl, Or.inl rfl, rfl, rfl, rfl⟩, ?_⟩
    rcases hc with ⟨hc, _⟩ | ⟨hc, _⟩ <;> rw [hc]
    exact (AddArgument_frame a w.cat).2.1
  · refine ⟨Or.inr ⟨_, hl, Or.inr rfl, rfl, rfl, rfl⟩, ?_⟩
    rcases hc with ⟨hc, _⟩ | ⟨hc, _⟩ <;> rw [hc]
    rfl

/-- The journal entry of a `mergeModule`, if any, is a write to the modules table. -/
theorem journal_mergeModule_effect (cfg : Config) (m : ModuleRow) (u : Bool) (w : World) :
    (Journal.mergeModule cfg m u w).1.log = w.log ∨
      ∃ e, (Journal.mergeModule cfg m u w).1.log = w.log ++ [e] ∧
        (e.req = .insert .modules ∨ e.req = .update .modules) := by
  have hs := merge_shape (fun c => checkModuleExists c m.Name)
    (fun c => { req := .insert .modules, name := m.Name, before := c })
    (fun c => { req := .update .modules, name := m.Name, before := c })
    (AddModule cfg m) (updateModule cfg m) u w (Journal.mergeModule cfg m u w) rfl
  generalize Journal.mergeModule cfg m u w = r at hs
  rcases hs with ⟨-, hl, -⟩ | ⟨-, hl, -⟩ | ⟨-, hl, -⟩
  · exact Or.inl hl
  · exact Or.inr ⟨_, hl, Or.inl rfl⟩
  · exact Or.inr ⟨_, hl, Or.inr rfl⟩

/-- The journal entry of a `mergeDataSource`, if any, is a write to the data
sources table. -/
theorem journal_mergeDataSource_effect (cfg : Config) (d : DataSourceRow) (u : Bool)
    (w : World) :
    (Journal.mergeDataSource cfg d u w).1.log = w.log ∨
      ∃ e, (Journal.mergeDataSource cfg d u w).1.log = w.log ++ [e] ∧
        (e.req = .insert .dataSources ∨ e.req = .update .dataSources) := by
  have hs := merge_shape (fun c => checkDataSourceExists c d.Name)
    (fun c => { req := .insert .dataSources, name := d.Name, before := c })
    (fun c => { req := .update .dataSources, name := d.Name, before := c })
    (AddDataSource cfg d) (updateDataSource cfg d) u w (Journal.mergeDataSource cfg d u w) rfl
  generalize Journal.mergeDataSource cfg d u w = r at hs
  rcases hs with ⟨-, hl, -⟩ | ⟨-, hl, -⟩ | ⟨-, hl, -⟩
  · exact Or.inl hl
  · exact Or.inr ⟨_, hl, Or.inl rfl⟩
  · exact Or.inr ⟨_, hl, Or.inr rfl⟩

/-- The journal entry of a step of the data object loop, if any, is the
replacement of a data object. -/
theorem journal_loadDataObject_effect (info : SchemaInfo) (d : DataObjectInfo) (w : World) :
    (Journal.loadDataObject info d w).1.log = w.log ∨
      ∃ e, (Journal.loadDataObject info d w).1.log = w.log ++ [e] ∧
        e.req = .replace .dataObjects := by
  unfold Journal.loadDataObject
  rcases info.Module d.Module with _ | m
  · exact Or.inl rfl
  · by_cases hq : m.QueryType = ""
    · simp only []
      rw [if_pos hq]
      exact Or.inl rfl
    · simp only []
      rw [if_neg hq]
      exact Or.inr ⟨_, (mutate_effect _ _ w).1, rfl⟩

theorem journalUpto_nil (k : Nat) : JournalUpto k [] :=
  ⟨List.Pairwise.nil, fun _ h => absurd h (List.not_mem_nil _),
    fun _ h => absurd h (List.not_mem_nil _)⟩

theorem journalUpto_mono (k k' : Nat) (log : List Write) (h : JournalUpto k log)
    (hk : k ≤ k') : JournalUpto k' log :=
  ⟨h.1, fun e he => le_trans (h.2.1 e he) hk, h.2.2⟩

theorem journalUpto_snoc (k : Nat) (log : List Write) (e : Write) (h : JournalUpto k log)
    (hk : k ≤ e.req.rank) (ho : OwnerPresent e) : JournalUpto e.req.rank (log ++ [e]) := by
  refine ⟨?_, ?_, ?_⟩
  · unfold PhaseOrdered
    rw [List.map_append, List.pairwise_append]
    refine ⟨h.1, List.pairwise_singleton _ _, ?_⟩
    intro a ha b hb
    obtain ⟨x, hx, rfl⟩ := List.mem_map.1 ha
    simp only [List.map_cons, List.map_nil, List.mem_singleton] at hb
    subst hb
    exact le_trans (h.2.1 x hx) hk
  · intro x hx
    rcases List.mem_append.1 hx with hx | hx
    · exact le_trans (h.2.1 x hx) hk
    · rw [List.mem_singleton.1 hx]
  · intro x hx
    rcases List.mem_append.1 hx with hx | hx
    · exact h.2.2 x hx
    · rw [List.mem_singleton.1 hx]; exact ho

theorem journal_AddType_effect (cfg : Config) (t : TypeRow) (w : World) :
    ((Journal.AddType cfg t w).1.log = w.log ∨
      ∃ e, (Journal.AddType cfg t w).1.log = w.log ++ [e] ∧
        (e.req = .insert .types ∨ e.req = .update .types)) ∧
    (Journal.AddType cfg t w).1.cat.fields = w.cat.fields ∧
    (Journal.AddType cfg t w).1.cat.arguments = w.cat.arguments ∧
    (∀ n, checkTypeExists w.cat n = true →
      checkTypeExists (Journal.AddType cfg t w).1.cat n = true) ∧
    ((Journal.AddType cfg t w).2 = none →
      checkTypeExists (Journal.AddType cfg t w).1.cat t.Name = true) := by
  unfold Journal.AddType
  obtain ⟨hl, hc⟩ := mutate_effect
    (fun c => { req := .insert .types, name := t.Name, before := c }) (AddType cfg t) w
  refine ⟨Or.inr ⟨_, hl, Or.inl rfl⟩, ?_, ?_, ?_, ?_⟩
  · rcases hc with ⟨hc, _⟩ | ⟨hc, _⟩ <;> rw [hc]
    exact (AddType_frame cfg t w.cat).1
  · rcases hc with ⟨hc, _⟩ | ⟨hc, _⟩ <;> rw [hc]
    exact (AddType_frame cfg t w.cat).2.1
  · intro n hn
    rcases hc with ⟨hc, _⟩ | ⟨hc, _⟩ <;> rw [hc]
    · exact hn
    · exact AddType_names cfg t w.cat n hn
  · intro hok
    rcases hc with ⟨_, hne⟩ | ⟨hc, he⟩
    · exact absurd hok hne
    · rw [hc, checkTypeExists_AddType cfg t w.cat t.Name (by rw [← he]; exact hok)]
      simp

theorem journal_AddField_effect (cfg : Config) (f : FieldRow) (w : World) :
    ((Journal.AddField cfg f w).1.log = w.log ∨
      ∃ e, (Journal.AddField cfg f w).1.log = w.log ++ [e] ∧
        (e.req = .insert .fields ∨ e.req = .update .fields) ∧
        e.typeName = f.TypeName ∧ e.before = w.cat) ∧
    (Journal.AddField cfg f w).1.cat.types = w.cat.types ∧
    (∀ t n, checkFieldExists w.cat t n = true →
      checkFieldExists (Journal.AddField cfg f w).1.cat t n = true) ∧
    ((Journal.AddField cfg f w).2 = none →
      checkFieldExists (Journal.AddField cfg f w).1.cat f.TypeName f.Name = true) := by
  unfold Journal.AddField
  obtain ⟨hl, hc⟩ := mutate_effect
    (fun c => { req := .insert .fields, typeName := f.TypeName, name := f.Name, before := c })
    (AddField cfg f) w
  refine ⟨Or.inr ⟨_, hl, Or.inl rfl, rfl, rfl⟩, ?_, ?_, ?_⟩
  · rcases hc with ⟨hc, _⟩ | ⟨hc, _⟩ <;> rw [hc]
    exact (AddField_frame cfg f w.cat).1
  · intro t n hn
    rcases hc with ⟨hc, _⟩ | ⟨hc, _⟩ <;> rw [hc]
    · exact hn
    · exact AddField_names cfg f w.cat t n hn
  · intro hok
    rcases hc with ⟨_, hne⟩ | ⟨hc, he⟩
    · exact absurd hok hne
    · rw [hc, checkFieldExists_AddField cfg f w.cat _ _ (by rw [← he]; exact hok)]
      simp

theorem journal_AddArgument_effect (a : ArgumentRow) (w : World) :
    ((Journal.AddArgument a w).1.log = w.log ∨
      ∃ e, (Journal.AddArgument a w).1.log = w.log ++ [e] ∧
        (e.req = .insert .arguments ∨ e.req = .update .arguments) ∧
        e.typeName = a.TypeName ∧ e.fieldName = a.FieldName ∧ e.before = w.cat) ∧
    (Journal.AddArgument a w).1.cat.fields = w.cat.fields := by
  unfold Journal.AddArgument
  obtain ⟨hl, hc⟩ := mutate_effect
    (fun c => { req := .insert .arguments, typeName := a.TypeName,
                fieldName := a.FieldName, name := a.Name, before := c })
    (AddArgument a) w
  refine ⟨Or.inr ⟨_, hl, Or.inl rfl, rfl, rfl, rfl⟩, ?_⟩
  rcases hc with ⟨hc, _⟩ | ⟨hc, _⟩ <;> rw [hc]
  exact (AddArgument_frame a w.cat).2.1

/-- The accumulators `ff` and `aa` of a flattening hold only rows owned by a
type in `S`, and every argument row has its field row in `ff`. -/
theorem patrialFields_owned (S : String → Prop) (fm : FieldsMap) (st : TypeIntro)
    (hS : S st.Name) (fields : List FieldIntro) (fl : Flat)
    (h : (∀ f ∈ fl.ff, S f.TypeName) ∧
      ∀ a ∈ fl.aa, ∃ f ∈ fl.ff, f.TypeName = a.TypeName ∧ f.Name = a.FieldName) :
    (∀ f ∈ (forEachE (patrialField fm st) fields fl).1.ff, S f.TypeName) ∧
    ∀ a ∈ (forEachE (patrialField fm st) fields fl).1.aa,
      ∃ f ∈ (forEachE (patrialField fm st) fields fl).1.ff,
        f.TypeName = a.TypeName ∧ f.Name = a.FieldName := by
  refine forEachE_inv (fun (fl : Flat) => (∀ f ∈ fl.ff, S f.TypeName) ∧
      ∀ a ∈ fl.aa, ∃ f ∈ fl.ff, f.TypeName = a.TypeName ∧ f.Name = a.FieldName)
    (patrialField fm st) (fun f s hs => ?_) fields fl h
  unfold patrialField
  split
  · exact hs
  · have key := forEachE_inv (fun (fl : Flat) => ((∀ g ∈ fl.ff, S g.TypeName) ∧
        ∀ a ∈ fl.aa, ∃ g ∈ fl.ff, g.TypeName = a.TypeName ∧ g.Name = a.FieldName) ∧
        fieldRowOf st f ∈ fl.ff)
      (flattenArg st f) (fun a s' hs' => ?_) f.Args { s with ff := s.ff ++ [fieldRowOf st f] }
      ⟨⟨?_, ?_⟩, ?_⟩
    · exact key.1
    · simp only [flattenArg]
      split
      · exact hs'
      · refine ⟨⟨hs'.1.1, ?_⟩, hs'.2⟩
        intro x hx
        rcases List.mem_append.1 hx with hx | hx
        · exact hs'.1.2 x hx
        · rw [List.mem_singleton.1 hx]
          exact ⟨_, hs'.2, rfl, rfl⟩
    · intro g hg
      rcases List.mem_append.1 hg with hg | hg
      · exact hs.1 g hg
      · rw [List.mem_singleton.1 hg]; exact hS
    · intro a ha
      obtain ⟨g, hg, h1⟩ := hs.2 a ha
      exact ⟨g, List.mem_append.2 (Or.inl hg), h1⟩
    · exact List.mem_append.2 (Or.inr (List.mem_singleton.2 rfl))

theorem ownerPresent_types (e : Write)
    (he : e.req = .insert .types ∨ e.req = .update .types) : OwnerPresent e := by
  unfold OwnerPresent
  rcases he with he | he <;> rw [he] <;> trivial

theorem ownerPresent_fields (e : Write)
    (he : e.req = .insert .fields ∨ e.req = .update .fields)
    (h : checkTypeExists e.before e.typeName = true) : OwnerPresent e := by
  unfold OwnerPresent
  rcases he with he | he <;> rw [he] <;> exact h

theorem ownerPresent_arguments (e : Write)
    (he : e.req = .insert .arguments ∨ e.req = .update .arguments)
    (h : checkFieldExists e.before e.typeName e.fieldName = true) : OwnerPresent e := by
  unfold OwnerPresent
  rcases he with he | he <;> rw [he] <;> exact h

/-- One step of a type loop keeps `TypesWritten`, whatever its outcome. -/
theorem journal_typeStep (merge : World → World × Option Err) (st : TypeIntro)
    (hm : ∀ w, ((merge w).1.log = w.log ∨
        ∃ e, (merge w).1.log = w.log ++ [e] ∧
          (e.req = .insert .types ∨ e.req = .update .types)) ∧
      (∀ n, checkTypeExists w.cat n = true → checkTypeExists (merge w).1.cat n = true) ∧
      ((merge w).2 = none → checkTypeExists (merge w).1.cat st.Name = true))
    (fm : FieldsMap) (s : World × Flat) (hs : TypesWritten s) :
    TypesWritten (match merge s.1 with
      | (w, some e) => ((w, s.2), some e)
      | (w, none) =>
        ((w, (forEachE (patrialField fm st) (activeFields st) s.2).1),
          (forEachE (patrialField fm st) (activeFields st) s.2).2)).1 := by
  obtain ⟨hlog, hmono, hok⟩ := hm s.1
  have hl : JournalUpto 1 (merge s.1).1.log := by
    rcases hlog with h | ⟨e, h, he⟩
    · rw [h]; exact hs.1
    · rw [h]
      have hr : e.req.rank = 1 := by rcases he with he | he <;> rw [he] <;> rfl
      have := journalUpto_snoc 1 s.1.log e hs.1 (by omega) (ownerPresent_types e he)
      rwa [hr] at this
  rcases hr : merge s.1 with ⟨w', _ | e⟩
  · rw [hr] at hl hmono hok
    simp only []
    have hown := patrialFields_owned (fun n => checkTypeExists w'.cat n = true) fm st
      (hok rfl) (activeFields st) s.2
      ⟨fun f hf => hmono _ (hs.2.1 f hf), hs.2.2⟩
    exact ⟨hl, hown.1, hown.2⟩
  · rw [hr] at hl hmono
    exact ⟨hl, fun f hf => hmono _ (hs.2.1 f hf), hs.2.2⟩

theorem journal_patrialTypes (cfg : Config) (u : Bool) (tm : List String) (fm : FieldsMap)
    (types : List TypeIntro) (s : World × Flat) (hs : TypesWritten s) :
    TypesWritten (forEachE (Journal.patrialType cfg u tm fm) types s).1 := by
  refine forEachE_inv TypesWritten _ (fun st s' hs' => ?_) types s hs
  unfold Journal.patrialType
  split
  · exact hs'
  · refine journal_typeStep (Journal.mergeType cfg (typeRowOf st) u) st (fun w => ?_) fm s' hs'
    have := journal_mergeType_effect cfg (typeRowOf st) u w
    exact ⟨this.1, this.2.2.2.1, this.2.2.2.2⟩

theorem journal_baseTypes (cfg : Config) (types : List TypeIntro) (s : World × Flat)
    (hs : TypesWritten s) : TypesWritten (forEachE (Journal.baseType cfg) types s).1 := by
  refine forEachE_inv TypesWritten _ (fun st s' hs' => ?_) types s hs
  unfold Journal.baseType
  have hf : baseField st = patrialField [] st := by
    funext f s; exact baseField_eq st f s
  rw [hf]
  refine journal_typeStep (Journal.AddType cfg (typeRowOf st)) st (fun w => ?_) [] s' hs'
  have := journal_AddType_effect cfg (typeRowOf st) w
  exact ⟨this.1, this.2.2.2.1, this.2.2.2.2⟩

/-- A loop of field writes over rows whose owner types are stored: the journal
stays in order with owners present, the types table is not touched, and when
the loop completes every row of the list is stored. -/
theorem journal_fieldPhase (body : FieldRow → World → World × Option Err)
    (hb : ∀ f w, ((body f w).1.log = w.log ∨
        ∃ e, (body f w).1.log = w.log ++ [e] ∧
          (e.req = .insert .fields ∨ e.req = .update .fields) ∧
          e.typeName = f.TypeName ∧ e.before = w.cat) ∧
      (body f w).1.cat.types = w.cat.types ∧
      (∀ t n, checkFieldExists w.cat t n = true →
        checkFieldExists (body f w).1.cat t n = true) ∧
      ((body f w).2 = none → checkFieldExists (body f w).1.cat f.TypeName f.Name = true))
    (ff : List FieldRow) (w : World) (hw : JournalUpto 2 w.log)
    (hown : ∀ f ∈ ff, checkTypeExists w.cat f.TypeName = true) :
    JournalUpto 2 (forEachE body ff w).1.log ∧
    ((forEachE body ff w).2 = none →
      ∀ f ∈ ff, checkFieldExists (forEachE body ff w).1.cat f.TypeName f.Name = true) := by
  constructor
  · have := forEachE_inv_mem (fun (w' : World) => JournalUpto 2 w'.log ∧
        w'.cat.types = w.cat.types) body ff (fun f hf s hs => ?_) w ⟨hw, rfl⟩
    · exact this.1
    · obtain ⟨hlog, hty, -, -⟩ := hb f s
      refine ⟨?_, hty.trans hs.2⟩
      rcases hlog with h | ⟨e, h, he, hn, hbef⟩
      · rw [h]; exact hs.1
      · rw [h]
        have hr : e.req.rank = 2 := by rcases he with he | he <;> rw [he] <;> rfl
        have hop : OwnerPresent e := by
          refine ownerPresent_fields e he ?_
          rw [hbef, hn]
          have := hown f hf
          simp only [checkTypeExists] at this ⊢
          rw [hs.2]; exact this
        have := journalUpto_snoc 2 s.log e hs.1 (by omega) hop
        rwa [hr] at this
  · intro hok
    exact forEachE_ok_mem (fun f (w' : World) =>
        checkFieldExists w'.cat f.TypeName f.Name = true) body
      (fun f s h => (hb f s).2.2.2 h)
      (fun f g s h => (hb g s).2.2.1 f.TypeName f.Name h) ff w hok

/-- A loop of argument writes over rows whose owner fields are stored. -/
theorem journal_argumentPhase (body : ArgumentRow → World → World × Option Err)
    (hb : ∀ a w, ((body a w).1.log = w.log ∨
        ∃ e, (body a w).1.log = w.log ++ [e] ∧
          (e.req = .insert .arguments ∨ e.req = .update .arguments) ∧
          e.typeName = a.TypeName ∧ e.fieldName = a.FieldName ∧ e.before = w.cat) ∧
      (body a w).1.cat.fields = w.cat.fields)
    (aa : List ArgumentRow) (w : World) (hw : JournalUpto 3 w.log)
    (hown : ∀ a ∈ aa, checkFieldExists w.cat a.TypeName a.FieldName = true) :
    JournalUpto 3 (forEachE body aa w).1.log := by
  have := forEachE_inv_mem (fun (w' : World) => JournalUpto 3 w'.log ∧
      w'.cat.fields = w.cat.fields) body aa (fun a ha s hs => ?_) w ⟨hw, rfl⟩
  · exact this.1
  · obtain ⟨hlog, hfl⟩ := hb a s
    refine ⟨?_, hfl.trans hs.2⟩
    rcases hlog with h | ⟨e, h, he, hn, hf, hbef⟩
    · rw [h]; exact hs.1
    · rw [h]
      have hr : e.req.rank = 3 := by rcases he with he | he <;> rw [he] <;> rfl
      have hop : OwnerPresent e := by
        refine ownerPresent_arguments e he ?_
        rw [hbef, hn, hf]
        have := hown a ha
        simp only [checkFieldExists] at this ⊢
        rw [hs.2]; exact this
      have := journalUpto_snoc 3 s.log e hs.1 (by omega) hop
      rwa [hr] at this

/-- A loop whose steps issue at most one write each, of the phase `k` and of a
table without owner. -/
theorem journal_plainPhase {α : Type} (k : Nat) (body : α → World → World × Option Err)
    (hb : ∀ x w, (body x w).1.log = w.log ∨
        ∃ e, (body x w).1.log = w.log ++ [e] ∧ e.req.rank = k ∧ OwnerPresent e)
    (xs : List α) (w : World) (hw : JournalUpto k w.log) :
    JournalUpto k (forEachE body xs w).1.log := by
  refine forEachE_inv (fun (w' : World) => JournalUpto k w'.log) body (fun x s hs => ?_) xs w hw
  rcases hb x s with h | ⟨e, h, hr, hop⟩
  · rw [h]; exact hs
  · rw [h]
    have := journalUpto_snoc k s.log e hs (by omega) hop
    rwa [hr] at this

theorem andThen_either {σ : Type} (P : σ → Prop) (r : σ × Option Err)
    (k : σ → σ × Option Err) (herr : r.2 ≠ none → P r.1) (hok : r.2 = none → P (k r.1).1) :
    P (andThen r k).1 := by
  rcases r with ⟨s, _ | e⟩
  · exact hok rfl
  · exact herr (by simp)

theorem andThenFlat_either {σ τ : Type} (P : τ → Prop) (keep : σ → τ) (r : σ × Option Err)
    (k : σ → τ × Option Err) (herr : r.2 ≠ none → P (keep r.1))
    (hok : r.2 = none → P (k r.1).1) : P (andThenFlat keep r k).1 := by
  rcases r with ⟨s, _ | e⟩
  · exact hok rfl
  · exact herr (by simp)

theorem journal_patrialModule_step (cfg : Config) (mm : List String) (m : ModuleInfo)
    (w : World) :
    (Journal.patrialModule cfg mm m w).1.log = w.log ∨
      ∃ e, (Journal.patrialModule cfg mm m w).1.log = w.log ++ [e] ∧ e.req.rank = 4 ∧
        OwnerPresent e := by
  unfold Journal.patrialModule
  split
  · exact Or.inl rfl
  · rcases journal_mergeModule_effect cfg (moduleRowOf m) false w with h | ⟨e, h, he⟩
    · exact Or.inl h
    · refine Or.inr ⟨e, h, ?_, ?_⟩
      · rcases he with he | he <;> rw [he] <;> rfl
      · unfold OwnerPresent
        rcases he with he | he <;> rw [he] <;> trivial

theorem journal_patrialDataSource_step (cfg : Config) (u : Bool) (dm : List String)
    (d : DataSourceInfo) (w : World) :
    (Journal.patrialDataSource cfg u dm d w).1.log = w.log ∨
      ∃ e, (Journal.patrialDataSource cfg u dm d w).1.log = w.log ++ [e] ∧ e.req.rank = 5 ∧
        OwnerPresent e := by
  unfold Journal.patrialDataSource
  split
  · exact Or.inl rfl
  · rcases journal_mergeDataSource_effect cfg (dataSourceRowOf d) u w with h | ⟨e, h, he⟩
    · exact Or.inl h
    · refine Or.inr ⟨e, h, ?_, ?_⟩
      · rcases he with he | he <;> rw [he] <;> rfl
      · unfold OwnerPresent
        rcases he with he | he <;> rw [he] <;> trivial

theorem journal_loadDataObject_step (info : SchemaInfo) (d : DataObjectInfo) (w : World) :
    (Journal.loadDataObject info d w).1.log = w.log ∨
      ∃ e, (Journal.loadDataObject info d w).1.log = w.log ++ [e] ∧ e.req.rank = 6 ∧
        OwnerPresent e := by
  rcases journal_loadDataObject_effect info d w with h | ⟨e, h, he⟩
  · exact Or.inl h
  · refine Or.inr ⟨e, h, by rw [he]; rfl, ?_⟩
    unfold OwnerPresent
    rw [he]
    trivial

theorem journal_patrialDataObject_step (info : SchemaInfo) (tm : List String)
    (d : DataObjectInfo) (w : World) :
    (Journal.patrialDataObject info tm d w).1.log = w.log ∨
      ∃ e, (Journal.patrialDataObject info tm d w).1.log = w.log ++ [e] ∧ e.req.rank = 6 ∧
        OwnerPresent e := by
  unfold Journal.patrialDataObject
  split
  · exact Or.inl rfl
  · exact journal_loadDataObject_step info d w

/-- Arguments accumulated by a type loop have their field stored once the
field loop has completed. -/
theorem owners_of_arguments (s : World × Flat) (w : World) (hs : TypesWritten s)
    (hf : ∀ f ∈ s.2.ff, checkFieldExists w.cat f.TypeName f.Name = true) :
    ∀ a ∈ s.2.aa, checkFieldExists w.cat a.TypeName a.FieldName = true := by
  intro a ha
  obtain ⟨f, hfm, h1, h2⟩ := hs.2.2 a ha
  rw [← h1, ← h2]
  exact hf f hfm

/-- The journal of `loadSchemaPatrial`, started after deletes only, is in phase
order with every owner present, however the run ends. -/
theorem journal_loadSchemaPatrial_upto (cfg : Config) (schema : SchemaIntro)
    (info : SchemaInfo) (u : Bool) (tm : List String) (fm : FieldsMap) (mm dm : List String)
    (w : World) (hw : JournalUpto 0 w.log) :
    JournalUpto 6 (Journal.loadSchemaPatrial cfg schema info u tm fm mm dm w).1.log := by
  unfold Journal.loadSchemaPatrial
  have h1 : JournalUpto 1 (Journal.mergeType cfg unknownType false w).1.log := by
    rcases (journal_mergeType_effect cfg unknownType false w).1 with h | ⟨e, h, he⟩
    · rw [h]; exact journalUpto_mono 0 1 _ hw (by omega)
    · rw [h]
      have hr : e.req.rank = 1 := by rcases he with he | he <;> rw [he] <;> rfl
      have := journalUpto_snoc 0 w.log e hw (by omega) (ownerPresent_types e he)
      rwa [hr] at this
  refine andThen_either (fun (w' : World) => JournalUpto 6 w'.log) _ _
    (fun _ => journalUpto_mono 1 6 _ h1 (by omega)) (fun _ => ?_)
  generalize (Journal.mergeType cfg unknownType false w).1 = w1 at h1
  have hT := journal_patrialTypes cfg u tm fm schema.Types (w1, { c := w1.cat })
    ⟨h1, fun f hf => absurd hf (List.not_mem_nil _), fun a ha => absurd ha (List.not_mem_nil _)⟩
  refine andThenFlat_either (fun (w' : World) => JournalUpto 6 w'.log) _ _ _
    (fun _ => journalUpto_mono 1 6 _ hT.1 (by omega)) (fun _ => ?_)
  generalize (forEachE (Journal.patrialType cfg u tm fm) schema.Types
    (w1, { c := w1.cat })).1 = s at hT
  have hF := journal_fieldPhase (fun f => Journal.mergeField cfg f u)
    (fun f w => journal_mergeField_effect cfg f u w) s.2.ff s.1
    (journalUpto_mono 1 2 _ hT.1 (by omega)) hT.2.1
  refine andThen_either (fun (w' : World) => JournalUpto 6 w'.log) _ _
    (fun _ => journalUpto_mono 2 6 _ hF.1 (by omega)) (fun hok => ?_)
  have hF2 := hF.2 hok
  have hF1 := hF.1
  clear hF
  generalize (forEachE (fun f => Journal.mergeField cfg f u) s.2.ff s.1).1 = w2 at hF1 hF2
  have hA := journal_argumentPhase (fun a => Journal.mergeArgument a u)
    (fun a w => journal_mergeArgument_effect a u w) s.2.aa w2
    (journalUpto_mono 2 3 _ hF1 (by omega)) (owners_of_arguments s w2 hT hF2)
  refine andThen_either (fun (w' : World) => JournalUpto 6 w'.log) _ _
    (fun _ => journalUpto_mono 3 6 _ hA (by omega)) (fun _ => ?_)
  generalize (forEachE (fun a => Journal.mergeArgument a u) s.2.aa w2).1 = w3 at hA
  have hM := journal_plainPhase 4 (Journal.patrialModule cfg mm)
    (journal_patrialModule_step cfg mm) info.modules w3 (journalUpto_mono 3 4 _ hA (by omega))
  refine andThen_either (fun (w' : World) => JournalUpto 6 w'.log) _ _
    (fun _ => journalUpto_mono 4 6 _ hM (by omega)) (fun _ => ?_)
  generalize (forEachE (Journal.patrialModule cfg mm) info.modules w3).1 = w4 at hM
  have hD := journal_plainPhase 5 (Journal.patrialDataSource cfg u dm)
    (journal_patrialDataSource_step cfg u dm) info.DataSources w4
    (journalUpto_mono 4 5 _ hM (by omega))
  refine andThen_either (fun (w' : World) => JournalUpto 6 w'.log) _ _
    (fun _ => journalUpto_mono 5 6 _ hD (by omega)) (fun _ => ?_)
  generalize (forEachE (Journal.patrialDataSource cfg u dm) info.DataSources w4).1 = w5 at hD
  exact journal_plainPhase 6 (Journal.patrialDataObject info tm)
    (journal_patrialDataObject_step info tm) info.dataObjects w5
    (journalUpto_mono 5 6 _ hD (by omega))

theorem journal_Clear_upto (w : World) (hw : JournalUpto 0 w.log) :
    JournalUpto 0 (Journal.Clear w).1.log := by
  unfold Journal.Clear
  rw [(mutate_effect _ _ w).1]
  exact journalUpto_snoc 0 w.log { req := .clearAll, before := w.cat } hw (Nat.le_refl 0) trivial

theorem journal_deleteFieldsAndArguments_upto (ff fa : List RowFilter) (w : World)
    (hw : JournalUpto 0 w.log) :
    JournalUpto 0 (Journal.deleteFieldsAndArguments ff fa w).1.log := by
  unfold Journal.deleteFieldsAndArguments
  rw [(mutate_effect _ _ w).1]
  exact journalUpto_snoc 0 w.log { req := .deleteFieldsAndArguments, before := w.cat } hw
    (Nat.le_refl 0) trivial

theorem journal_AddModule_step (cfg : Config) (m : ModuleRow) (w : World) :
    (Journal.AddModule cfg m w).1.log = w.log ∨
      ∃ e, (Journal.AddModule cfg m w).1.log = w.log ++ [e] ∧ e.req.rank = 4 ∧
        OwnerPresent e :=
  Or.inr ⟨_, (mutate_effect _ _ w).1, rfl, trivial⟩

theorem journal_AddDataSource_step (cfg : Config) (d : DataSourceRow) (w : World) :
    (Journal.AddDataSource cfg d w).1.log = w.log ∨
      ∃ e, (Journal.AddDataSource cfg d w).1.log = w.log ++ [e] ∧ e.req.rank = 5 ∧
        OwnerPresent e :=
  Or.inr ⟨_, (mutate_effect _ _ w).1, rfl, trivial⟩

/-- The journal of `fillBaseSchema` is in phase order with every owner
present, however the run ends. -/
theorem journal_fillBaseSchema_upto (cfg : Config) (schema : SchemaIntro) (info : SchemaInfo)
    (w : World) (hw : JournalUpto 0 w.log) :
    JournalUpto 6 (Journal.fillBaseSchema cfg schema info w).1.log := by
  unfold Journal.fillBaseSchema
  have h0 := journal_Clear_upto w hw
  refine andThen_either (fun (w' : World) => JournalUpto 6 w'.log) _ _
    (fun _ => journalUpto_mono 0 6 _ h0 (by omega)) (fun _ => ?_)
  generalize (Journal.Clear w).1 = w0 at h0
  have h1 : JournalUpto 1 (Journal.AddType cfg unknownType w0).1.log := by
    rcases (journal_AddType_effect cfg unknownType w0).1 with h | ⟨e, h, he⟩
    · rw [h]; exact journalUpto_mono 0 1 _ h0 (by omega)
    · rw [h]
      have hr : e.req.rank = 1 := by rcases he with he | he <;> rw [he] <;> rfl
      have := journalUpto_snoc 0 w0.log e h0 (by omega) (ownerPresent_types e he)
      rwa [hr] at this
  refine andThen_either (fun (w' : World) => JournalUpto 6 w'.log) _ _
    (fun _ => journalUpto_mono 1 6 _ h1 (by omega)) (fun _ => ?_)
  generalize (Journal.AddType cfg unknownType w0).1 = w1 at h1
  have hT := journal_baseTypes cfg schema.Types (w1, { c := w1.cat })
    ⟨h1, fun f hf => absurd hf (List.not_mem_nil _), fun a ha => absurd ha (List.not_mem_nil _)⟩
  refine andThenFlat_either (fun (w' : World) => JournalUpto 6 w'.log) _ _ _
    (fun _ => journalUpto_mono 1 6 _ hT.1 (by omega)) (fun _ => ?_)
  generalize (forEachE (Journal.baseType cfg) schema.Types (w1, { c := w1.cat })).1 = s at hT
  have hF := journal_fieldPhase (fun f => Journal.AddField cfg f)
    (fun f w => journal_AddField_effect cfg f w) s.2.ff s.1
    (journalUpto_mono 1 2 _ hT.1 (by omega)) hT.2.1
  refine andThen_either (fun (w' : World) => JournalUpto 6 w'.log) _ _
    (fun _ => journalUpto_mono 2 6 _ hF.1 (by omega)) (fun hok => ?_)
  have hF2 := hF.2 hok
  have hF1 := hF.1
  clear hF
  generalize (forEachE (fun f => Journal.AddField cfg f) s.2.ff s.1).1 = w2 at hF1 hF2
  have hA := journal_argumentPhase (fun a => Journal.AddArgument a)
    (fun a w => journal_AddArgument_effect a w) s.2.aa w2
    (journalUpto_mono 2 3 _ hF1 (by omega)) (owners_of_arguments s w2 hT hF2)
  refine andThen_either (fun (w' : World) => JournalUpto 6 w'.log) _ _
    (fun _ => journalUpto_mono 3 6 _ hA (by omega)) (fun _ => ?_)
  generalize (forEachE (fun a => Journal.AddArgument a) s.2.aa w2).1 = w3 at hA
  have hM := journal_plainPhase 4 (fun m => Journal.AddModule cfg (moduleRowOf m))
    (fun m w => journal_AddModule_step cfg (moduleRowOf m) w) info.modules w3
    (journalUpto_mono 3 4 _ hA (by omega))
  refine andThen_either (fun (w' : World) => JournalUpto 6 w'.log) _ _
    (fun _ => journalUpto_mono 4 6 _ hM (by omega)) (fun _ => ?_)
  generalize (forEachE (fun m => Journal.AddModule cfg (moduleRowOf m)) info.modules w3).1 = w4
    at hM
  have hD := journal_plainPhase 5 (fun ds => Journal.AddDataSource cfg (dataSourceRowOf ds))
    (fun d w => journal_AddDataSource_step cfg (dataSourceRowOf d) w) info.DataSources w4
    (journalUpto_mono 4 5 _ hM (by omega))
  refine andThen_either (fun (w' : World) => JournalUpto 6 w'.log) _ _
    (fun _ => journalUpto_mono 5 6 _ hD (by omega)) (fun _ => ?_)
  generalize (forEachE (fun ds => Journal.AddDataSource cfg (dataSourceRowOf ds))
    info.DataSources w4).1 = w5 at hD
  exact journal_plainPhase 6 (Journal.loadDataObject info)
    (journal_loadDataObject_step info) info.dataObjects w5
    (journalUpto_mono 5 6 _ hD (by omega))

/-- C11: in every run of `loadSchemaPatrial` and of `fillBaseSchema`, whatever
the stored catalog and the transport outcomes, and whether the run completes
or aborts, the mutations are issued in the order types, fields, arguments,
modules, data sources, data objects (after the clearing delete of the full
rebuild); every write to the fields table is issued when a Type row of the
owner type is stored, and every write to the arguments table when a Field row
of the owner (type, field) is stored. -/
theorem write_order (cfg : Config) (schema : SchemaIntro) (info : SchemaInfo) (u : Bool)
    (tm : List String) (fm : FieldsMap) (mm dm : List String) (c : Catalog)
    (faults : List (Option Err)) :
    (PhaseOrdered (Journal.loadSchemaPatrial cfg schema info u tm fm mm dm
        { cat := c, faults := faults }).1.log ∧
      ∀ e ∈ (Journal.loadSchemaPatrial cfg schema info u tm fm mm dm
        { cat := c, faults := faults }).1.log, OwnerPresent e) ∧
    (PhaseOrdered (Journal.fillBaseSchema cfg schema info
        { cat := c, faults := faults }).1.log ∧
      ∀ e ∈ (Journal.fillBaseSchema cfg schema info
        { cat := c, faults := faults }).1.log, OwnerPresent e) := by
  have h1 := journal_loadSchemaPatrial_upto cfg schema info u tm fm mm dm
    { cat := c, faults := faults } (journalUpto_nil 0)
  have h2 := journal_fillBaseSchema_upto cfg schema info
    { cat := c, faults := faults } (journalUpto_nil 0)
  exact ⟨⟨h1.1, h1.2.2⟩, ⟨h2.1, h2.2.2⟩⟩

/-! ### The journaled functions agree with the plain ones -/

theorem forEachE_sim {α σ τ : Type} (R : σ → τ → Prop) (b : α → σ → σ × Option Err)
    (b' : α → τ → τ × Option Err)
    (h : ∀ x s t, R s t → R (b x s).1 (b' x t).1 ∧ (b x s).2 = (b' x t).2)
    (xs : List α) (s : σ) (t : τ) (hR : R s t) :
    R (forEachE b xs s).1 (forEachE b' xs t).1 ∧ (forEachE b xs s).2 = (forEachE b' xs t).2 := by
  induction xs generalizing s t with
  | nil => exact ⟨hR, rfl⟩
  | cons x xs ih =>
    have hx := h x s t hR
    rcases hb : b x s with ⟨s1, _ | e⟩ <;> rcases hb' : b' x t with ⟨t1, _ | e'⟩ <;>
      rw [hb, hb'] at hx <;> simp only [forEachE, hb, hb']
    · exact ih s1 t1 hx.1
    · exact absurd hx.2 (by simp)
    · exact absurd hx.2 (by simp)
    · exact hx

theorem andThen_sim {σ τ : Type} (R : σ → τ → Prop) (r : σ × Option Err) (r' : τ × Option Err)
    (k : σ → σ × Option Err) (k' : τ → τ × Option Err)
    (hr : R r.1 r'.1 ∧ r.2 = r'.2)
    (hk : ∀ s t, R s t → R (k s).1 (k' t).1 ∧ (k s).2 = (k' t).2) :
    R (andThen r k).1 (andThen r' k').1 ∧ (andThen r k).2 = (andThen r' k').2 := by
  rcases r with ⟨s, _ | e⟩ <;> rcases r' with ⟨t, _ | e'⟩
  · exact hk s t hr.1
  · exact absurd hr.2 (by simp)
  · exact absurd hr.2 (by simp)
  · exact hr

theorem mutate_erases (entry : Catalog → Write) (op : Catalog → Catalog × Option Err)
    (w : World) (c : Catalog) (h : Erases w c) :
    Erases (mutate entry op w).1 (op c).1 ∧ (mutate entry op w).2 = (op c).2 := by
  obtain ⟨h1, h2⟩ := h
  subst h1
  unfold mutate World.pop
  rw [h2]
  exact ⟨⟨rfl, h2⟩, rfl⟩

theorem merge_erases (read : Catalog → Bool) (entryA entryU : Catalog → Write)
    (opA opU : Catalog → Catalog × Option Err) (u : Bool) (w : World) (c : Catalog)
    (h : Erases w c) :
    Erases (match query read w with
      | (w, .error e) => (w, some e)
      | (w, .ok found) =>
        if found && !u then (w, none)
        else if !found then mutate entryA opA w
        else mutate entryU opU w).1
      (if read c && !u then (c, none) else if !read c then opA c else opU c).1 ∧
    (match query read w with
      | (w, .error e) => (w, some e)
      | (w, .ok found) =>
        if found && !u then (w, none)
        else if !found then mutate entryA opA w
        else mutate entryU opU w).2 =
      (if read c && !u then (c, none) else if !read c then opA c else opU c).2 := by
  have hq : query read w = (w, .ok (read c)) := by
    obtain ⟨h1, h2⟩ := h
    subst h1
    unfold query World.pop
    rw [h2]
  rw [hq]
  simp only []
  by_cases h1 : (read c && !u) = true
  · rw [if_pos h1, if_pos h1]
    exact ⟨h, rfl⟩
  · rw [if_neg h1, if_neg h1]
    by_cases h2 : (!read c) = true
    · rw [if_pos h2, if_pos h2]
      exact mutate_erases entryA opA w c h
    · rw [if_neg h2, if_neg h2]
      exact mutate_erases entryU opU w c h

theorem journal_mergeType_erases (cfg : Config) (t : TypeRow) (u : Bool) (w : World)
    (c : Catalog) (h : Erases w c) :
    Erases (Journal.mergeType cfg t u w).1 (mergeType cfg t u c).1 ∧
    (Journal.mergeType cfg t u w).2 = (mergeType cfg t u c).2 :=
  merge_erases (fun c => checkTypeExists c t.Name) _ _ (AddType cfg t) (updateType cfg t) u w c h

theorem journal_mergeField_erases (cfg : Config) (f : FieldRow) (u : Bool) (w : World)
    (c : Catalog) (h : Erases w c) :
    Erases (Journal.mergeField cfg f u w).1 (mergeField cfg f u c).1 ∧
    (Journal.mergeField cfg f u w).2 = (mergeField cfg f u c).2 :=
  merge_erases (fun c => checkFieldExists c f.TypeName f.Name) _ _ (AddField cfg f)
    (updateTypeField cfg f) u w c h

theorem journal_mergeArgument_erases (a : ArgumentRow) (u : Bool) (w : World)
    (c : Catalog) (h : Erases w c) :
    Erases (Journal.mergeArgument a u w).1 (mergeArgument a u c).1 ∧
    (Journal.mergeArgument a u w).2 = (mergeArgument a u c).2 :=
  merge_erases (fun c => checkArgumentExists c a.TypeName a.FieldName a.Name) _ _
    (AddArgument a) (updateArgument a) u w c h

theorem journal_mergeModule_erases (cfg : Config) (m : ModuleRow) (u : Bool) (w : World)
    (c : Catalog) (h : Erases w c) :
    Erases (Journal.mergeModule cfg m u w).1 (mergeModule cfg m u c).1 ∧
    (Journal.mergeModule cfg m u w).2 = (mergeModule cfg m u c).2 :=
  merge_erases (fun c => checkModuleExists c m.Name) _ _ (AddModule cfg m)
    (updateModule cfg m) u w c h

theorem journal_mergeDataSource_erases (cfg : Config) (d : DataSourceRow) (u : Bool)
    (w : World) (c : Catalog) (h : Erases w c) :
    Erases (Journal.mergeDataSource cfg d u w).1 (mergeDataSource cfg d u c).1 ∧
    (Journal.mergeDataSource cfg d u w).2 = (mergeDataSource cfg d u c).2 :=
  merge_erases (fun c => checkDataSourceExists c d.Name) _ _ (AddDataSource cfg d)
    (updateDataSource cfg d) u w c h

theorem journal_loadDataObject_erases (info : SchemaInfo) (d : DataObjectInfo) (w : World)
    (c : Catalog) (h : Erases w c) :
    Erases (Journal.loadDataObject info d w).1 (loadDataObject info d c).1 ∧
    (Journal.loadDataObject info d w).2 = (loadDataObject info d c).2 := by
  unfold Journal.loadDataObject loadDataObject
  rcases info.Module d.Module with _ | m
  · exact ⟨h, rfl⟩
  · by_cases hq : m.QueryType = ""
    · simp only []
      rw [if_pos hq, if_pos hq]
      exact ⟨h, rfl⟩
    · simp only []
      rw [if_neg hq, if_neg hq]
      exact mutate_erases _ _ w c h

/-- The flattening of the fields of a type reads the accumulators only. -/
theorem patrialFields_acc (fm : FieldsMap) (st : TypeIntro) (fields : List FieldIntro)
    (fl fl' : Flat) (h : fl.ff = fl'.ff ∧ fl.aa = fl'.aa ∧ fl.am = fl'.am) :
    ((forEachE (patrialField fm st) fields fl).1.ff =
        (forEachE (patrialField fm st) fields fl').1.ff ∧
      (forEachE (patrialField fm st) fields fl).1.aa =
        (forEachE (patrialField fm st) fields fl').1.aa ∧
      (forEachE (patrialField fm st) fields fl).1.am =
        (forEachE (patrialField fm st) fields fl').1.am) ∧
    (forEachE (patrialField fm st) fields fl).2 =
      (forEachE (patrialField fm st) fields fl').2 := by
  refine forEachE_sim (fun (a b : Flat) => a.ff = b.ff ∧ a.aa = b.aa ∧ a.am = b.am)
    (patrialField fm st) (patrialField fm st) (fun f s t hst => ?_) fields fl fl' h
  unfold patrialField
  split
  · exact ⟨hst, rfl⟩
  · refine forEachE_sim (fun (a b : Flat) => a.ff = b.ff ∧ a.aa = b.aa ∧ a.am = b.am)
      (flattenArg st f) (flattenArg st f) (fun a s' t' hst' => ?_) f.Args _ _
      ⟨by simp [hst.1], hst.2.1, hst.2.2⟩
    simp only [flattenArg]
    rw [hst'.2.2]
    split
    · exact ⟨hst', rfl⟩
    · exact ⟨⟨hst'.1, by simp [hst'.2.1], by simp [hst'.2.2]⟩, rfl⟩

theorem andThenFlat_sim {σ τ σ' τ' : Type} (R : τ → τ' → Prop) (keep : σ → τ) (keep' : σ' → τ')
    (Rs : σ → σ' → Prop) (r : σ × Option Err) (r' : σ' × Option Err)
    (k : σ → τ × Option Err) (k' : σ' → τ' × Option Err)
    (hr : Rs r.1 r'.1 ∧ r.2 = r'.2) (hkeep : ∀ s t, Rs s t → R (keep s) (keep' t))
    (hk : ∀ s t, Rs s t → R (k s).1 (k' t).1 ∧ (k s).2 = (k' t).2) :
    R (andThenFlat keep r k).1 (andThenFlat keep' r' k').1 ∧
    (andThenFlat keep r k).2 = (andThenFlat keep' r' k').2 := by
  rcases r with ⟨s, _ | e⟩ <;> rcases r' with ⟨t, _ | e'⟩
  · exact hk s t hr.1
  · exact absurd hr.2 (by simp)
  · exact absurd hr.2 (by simp)
  · exact ⟨hkeep s t hr.1, hr.2⟩

theorem journal_typeStep_erases (merge : World → World × Option Err)
    (merge' : Catalog → Catalog × Option Err)
    (hm : ∀ w c, Erases w c → Erases (merge w).1 (merge' c).1 ∧ (merge w).2 = (merge' c).2)
    (fm : FieldsMap) (st : TypeIntro) (s : World × Flat) (fl : Flat) (h : ErasesFlat s fl) :
    ErasesFlat (match merge s.1 with
      | (w, some e) => ((w, s.2), some e)
      | (w, none) =>
        ((w, (forEachE (patrialField fm st) (activeFields st) s.2).1),
          (forEachE (patrialField fm st) (activeFields st) s.2).2)).1
      (match merge' fl.c with
      | (c', some e) => ({ fl with c := c' }, some e)
      | (c', none) => forEachE (patrialField fm st) (activeFields st) { fl with c := c' }).1 ∧
    (match merge s.1 with
      | (w, some e) => ((w, s.2), some e)
      | (w, none) =>
        ((w, (forEachE (patrialField fm st) (activeFields st) s.2).1),
          (forEachE (patrialField fm st) (activeFields st) s.2).2)).2 =
      (match merge' fl.c with
      | (c', some e) => ({ fl with c := c' }, some e)
      | (c', none) => forEachE (patrialField fm st) (activeFields st) { fl with c := c' }).2 := by
  have hx := hm s.1 fl.c h.1
  rcases hr : merge s.1 with ⟨w', _ | e⟩ <;> rcases hr' : merge' fl.c with ⟨c', _ | e'⟩ <;>
    rw [hr, hr'] at hx
  · simp only []
    have hacc := patrialFields_acc fm st (activeFields st) s.2 { fl with c := c' }
      ⟨h.2.1, h.2.2.1, h.2.2.2⟩
    refine ⟨⟨?_, hacc.1.1, hacc.1.2.1, hacc.1.2.2⟩, hacc.2⟩
    have hc : (forEachE (patrialField fm st) (activeFields st) { fl with c := c' }).1.c = c' :=
      patrialFields_c fm st _ _
    rw [hc]
    exact hx.1
  · exact absurd hx.2 (by simp)
  · exact absurd hx.2 (by simp)
  · exact ⟨⟨hx.1, h.2.1, h.2.2.1, h.2.2.2⟩, hx.2⟩

/-- Without transport failures the journaled `loadSchemaPatrial` leaves the
store and returns the error of the plain one. -/
theorem journal_loadSchemaPatrial_erases (cfg : Config) (schema : SchemaIntro)
    (info : SchemaInfo) (u : Bool) (tm : List String) (fm : FieldsMap) (mm dm : List String)
    (w : World) (c : Catalog) (h : Erases w c) :
    Erases (Journal.loadSchemaPatrial cfg schema info u tm fm mm dm w).1
      (loadSchemaPatrial cfg schema info u tm fm mm dm c).1 ∧
    (Journal.loadSchemaPatrial cfg schema info u tm fm mm dm w).2 =
      (loadSchemaPatrial cfg schema info u tm fm mm dm c).2 := by
  unfold Journal.loadSchemaPatrial loadSchemaPatrial
  refine andThen_sim Erases _ _ _ _ (journal_mergeType_erases cfg unknownType false w c h)
    (fun w1 c1 h1 => ?_)
  refine andThenFlat_sim Erases Prod.fst Flat.c ErasesFlat _ _ _ _ ?_ (fun s t hst => hst.1)
    (fun s fl hs => ?_)
  · refine forEachE_sim ErasesFlat _ _ (fun st s fl hs => ?_) schema.Types _ _
      ⟨by rw [h1.1]; exact h1, rfl, rfl, rfl⟩
    unfold Journal.patrialType patrialType
    split
    · exact ⟨hs, rfl⟩
    · exact journal_typeStep_erases _ _
        (fun w c hwc => journal_mergeType_erases cfg (typeRowOf st) u w c hwc) fm st s fl hs
  rw [hs.2.1, hs.2.2.1]
  refine andThen_sim Erases _ _ _ _
    (forEachE_sim Erases _ _ (fun f w c hwc => journal_mergeField_erases cfg f u w c hwc)
      fl.ff _ _ hs.1) (fun w2 c2 h2 => ?_)
  refine andThen_sim Erases _ _ _ _
    (forEachE_sim Erases _ _ (fun a w c hwc => journal_mergeArgument_erases a u w c hwc)
      fl.aa _ _ h2) (fun w3 c3 h3 => ?_)
  refine andThen_sim Erases _ _ _ _
    (forEachE_sim Erases _ _ (fun m w c hwc => ?_) info.modules _ _ h3) (fun w4 c4 h4 => ?_)
  · unfold Journal.patrialModule patrialModule
    split
    · exact ⟨hwc, rfl⟩
    · exact journal_mergeModule_erases cfg (moduleRowOf m) false w c hwc
  refine andThen_sim Erases _ _ _ _
    (forEachE_sim Erases _ _ (fun d w c hwc => ?_) info.DataSources _ _ h4)
    (fun w5 c5 h5 => ?_)
  · unfold Journal.patrialDataSource patrialDataSource
    split
    · exact ⟨hwc, rfl⟩
    · exact journal_mergeDataSource_erases cfg (dataSourceRowOf d) u w c hwc
  refine forEachE_sim Erases _ _ (fun d w c hwc => ?_) info.dataObjects _ _ h5
  unfold Journal.patrialDataObject patrialDataObject
  split
  · exact ⟨hwc, rfl⟩
  · exact journal_loadDataObject_erases info d w c hwc

theorem journal_AddType_erases (cfg : Config) (t : TypeRow) (w : World) (c : Catalog)
    (h : Erases w c) :
    Erases (Journal.AddType cfg t w).1 (AddType cfg t c).1 ∧
    (Journal.AddType cfg t w).2 = (AddType cfg t c).2 :=
  mutate_erases _ _ w c h

theorem journal_AddField_erases (cfg : Config) (f : FieldRow) (w : World) (c : Catalog)
    (h : Erases w c) :
    Erases (Journal.AddField cfg f w).1 (AddField cfg f c).1 ∧
    (Journal.AddField cfg f w).2 = (AddField cfg f c).2 :=
  mutate_erases _ _ w c h

theorem journal_AddArgument_erases (a : ArgumentRow) (w : World) (c : Catalog)
    (h : Erases w c) :
    Erases (Journal.AddArgument a w).1 (AddArgument a c).1 ∧
    (Journal.AddArgument a w).2 = (AddArgument a c).2 :=
  mutate_erases _ _ w c h

theorem journal_AddModule_erases (cfg : Config) (m : ModuleRow) (w : World) (c : Catalog)
    (h : Erases w c) :
    Erases (Journal.AddModule cfg m w).1 (AddModule cfg m c).1 ∧
    (Journal.AddModule cfg m w).2 = (AddModule cfg m c).2 :=
  mutate_erases _ _ w c h

theorem journal_AddDataSource_erases (cfg : Config) (d : DataSourceRow) (w : World)
    (c : Catalog) (h : Erases w c) :
    Erases (Journal.AddDataSource cfg d w).1 (AddDataSource cfg d c).1 ∧
    (Journal.AddDataSource cfg d w).2 = (AddDataSource cfg d c).2 :=
  mutate_erases _ _ w c h

theorem journal_Clear_erases (w : World) (c : Catalog) (h : Erases w c) :
    Erases (Journal.Clear w).1 (Clear c).1 ∧ (Journal.Clear w).2 = (Clear c).2 :=
  mutate_erases _ _ w c h

theorem journal_deleteFieldsAndArguments_erases (ff fa : List RowFilter) (w : World)
    (c : Catalog) (h : Erases w c) :
    Erases (Journal.deleteFieldsAndArguments ff fa w).1 (deleteFieldsAndArguments ff fa c).1 ∧
    (Journal.deleteFieldsAndArguments ff fa w).2 = (deleteFieldsAndArguments ff fa c).2 :=
  mutate_erases _ _ w c h

/-- Without transport failures the journaled `fillBaseSchema` leaves the store
and returns the error of the plain one. -/
theorem journal_fillBaseSchema_erases (cfg : Config) (schema : SchemaIntro)
    (info : SchemaInfo) (w : World) (c : Catalog) (h : Erases w c) :
    Erases (Journal.fillBaseSchema cfg schema info w).1 (fillBaseSchema cfg schema info c).1 ∧
    (Journal.fillBaseSchema cfg schema info w).2 = (fillBaseSchema cfg schema info c).2 := by
  unfold Journal.fillBaseSchema fillBaseSchema
  refine andThen_sim Erases _ _ _ _ (journal_Clear_erases w c h) (fun w0 c0 h0 => ?_)
  refine andThen_sim Erases _ _ _ _ (journal_AddType_erases cfg unknownType w0 c0 h0)
    (fun w1 c1 h1 => ?_)
  refine andThenFlat_sim Erases Prod.fst Flat.c ErasesFlat _ _ _ _ ?_ (fun s t hst => hst.1)
    (fun s fl hs => ?_)
  · refine forEachE_sim ErasesFlat _ _ (fun st s fl hs => ?_) schema.Types _ _
      ⟨by rw [h1.1]; exact h1, rfl, rfl, rfl⟩
    unfold Journal.baseType baseType
    have hf : baseField st = patrialField [] st := by
      funext f s; exact baseField_eq st f s
    rw [hf]
    exact journal_typeStep_erases (Journal.AddType cfg (typeRowOf st)) (AddType cfg (typeRowOf st))
      (fun w c hwc => journal_AddType_erases cfg (typeRowOf st) w c hwc) [] st s fl hs
  rw [hs.2.1, hs.2.2.1]
  refine andThen_sim Erases _ _ _ _
    (forEachE_sim Erases _ _ (fun f w c hwc => journal_AddField_erases cfg f w c hwc)
      fl.ff _ _ hs.1) (fun w2 c2 h2 => ?_)
  refine andThen_sim Erases _ _ _ _
    (forEachE_sim Erases _ _ (fun a w c hwc => journal_AddArgument_erases a w c hwc)
      fl.aa _ _ h2) (fun w3 c3 h3 => ?_)
  refine andThen_sim Erases _ _ _ _
    (forEachE_sim Erases _ _
      (fun m w c hwc => journal_AddModule_erases cfg (moduleRowOf m) w c hwc)
      info.modules _ _ h3) (fun w4 c4 h4 => ?_)
  refine andThen_sim Erases _ _ _ _
    (forEachE_sim Erases _ _
      (fun d w c hwc => journal_AddDataSource_erases cfg (dataSourceRowOf d) w c hwc)
      info.DataSources _ _ h4) (fun w5 c5 h5 => ?_)
  exact forEachE_sim Erases _ _ (fun d w c hwc => journal_loadDataObject_erases info d w c hwc)
    info.dataObjects _ _ h5

/-! ### Clearing and reconciliation -/

theorem keysKept_refl (c : Catalog) : KeysKept c c :=
  ⟨List.prefix_refl _, List.prefix_refl _, List.prefix_refl _⟩

theorem keysKept_trans (a b c : Catalog) (h1 : KeysKept a b) (h2 : KeysKept b c) :
    KeysKept a c :=
  ⟨h1.1.trans h2.1, h1.2.1.trans h2.2.1, h1.2.2.trans h2.2.2⟩

theorem keysKept_of_eq (c c' : Catalog) (h1 : c'.types = c.types) (h2 : c'.fields = c.fields)
    (h3 : c'.arguments = c.arguments) : KeysKept c c' := by
  unfold KeysKept
  rw [h1, h2, h3]
  exact ⟨List.prefix_refl _, List.prefix_refl _, List.prefix_refl _⟩

theorem AddType_keys (cfg : Config) (t : TypeRow) (c : Catalog) :
    KeysKept c (AddType cfg t c).1 := by
  unfold AddType
  by_cases h : checkTypeExists c t.Name = true
  · simp only [h, if_true]
    exact keysKept_refl c
  · simp only [h]
    exact ⟨by simp, List.prefix_refl _, List.prefix_refl _⟩

theorem updateType_keys (cfg : Config) (t : TypeRow) (c : Catalog) :
    KeysKept c (updateType cfg t c).1 := by
  refine ⟨?_, List.prefix_refl _, List.prefix_refl _⟩
  have : (updateType cfg t c).1.types.map (fun r => r.Name) = c.types.map (fun r => r.Name) := by
    simp only [updateType, List.map_map]
    refine List.map_congr_left (fun r _ => ?_)
    by_cases h : r.Name = t.Name <;> simp [h]
  rw [this]

theorem AddField_keys (cfg : Config) (f : FieldRow) (c : Catalog) :
    KeysKept c (AddField cfg f c).1 := by
  unfold AddField
  by_cases h : checkFieldExists c f.TypeName f.Name = true
  · simp only [h, if_true]
    exact keysKept_refl c
  · simp only [h]
    exact ⟨List.prefix_refl _, by simp, List.prefix_refl _⟩

theorem updateTypeField_keys (cfg : Config) (f : FieldRow) (c : Catalog) :
    KeysKept c (updateTypeField cfg f c).1 := by
  refine ⟨List.prefix_refl _, ?_, List.prefix_refl _⟩
  have : (updateTypeField cfg f c).1.fields.map (fun r => (r.TypeName, r.Name)) =
      c.fields.map (fun r => (r.TypeName, r.Name)) := by
    simp only [updateTypeField, List.map_map]
    refine List.map_congr_left (fun r _ => ?_)
    by_cases h : r.Name = f.Name ∧ r.TypeName = f.TypeName <;> simp [h]
  rw [this]

theorem AddArgument_keys (a : ArgumentRow) (c : Catalog) :
    KeysKept c (AddArgument a c).1 := by
  unfold AddArgument
  by_cases h : checkArgumentExists c a.TypeName a.FieldName a.Name = true
  · simp only [h, if_true]
    exact keysKept_refl c
  · simp only [h]
    exact ⟨List.prefix_refl _, List.prefix_refl _, by simp⟩

theorem updateArgument_keys (a : ArgumentRow) (c : Catalog) :
    KeysKept c (updateArgument a c).1 := by
  refine ⟨List.prefix_refl _, List.prefix_refl _, ?_⟩
  have : (updateArgument a c).1.arguments.map (fun r => (r.TypeName, r.FieldName, r.Name)) =
      c.arguments.map (fun r => (r.TypeName, r.FieldName, r.Name)) := by
    simp only [updateArgument, List.map_map]
    refine List.map_congr_left (fun r _ => ?_)
    by_cases h : r.TypeName = a.TypeName ∧ r.FieldName = a.FieldName ∧ r.Name = a.Name <;>
      simp [h]
  rw [this]

theorem AddModule_keys (cfg : Config) (m : ModuleRow) (c : Catalog) :
    KeysKept c (AddModule cfg m c).1 :=
  keysKept_of_eq _ _ (AddModule_frame cfg m c).1 (AddModule_frame cfg m c).2.1
    (AddModule_frame cfg m c).2.2.1

theorem updateModule_keys (cfg : Config) (m : ModuleRow) (c : Catalog) :
    KeysKept c (updateModule cfg m c).1 :=
  keysKept_of_eq _ _ rfl rfl rfl

theorem AddDataSource_keys (cfg : Config) (d : DataSourceRow) (c : Catalog) :
    KeysKept c (AddDataSource cfg d c).1 :=
  keysKept_of_eq _ _ (AddDataSource_frame cfg d c).1 (AddDataSource_frame cfg d c).2.1
    (AddDataSource_frame cfg d c).2.2.1

theorem updateDataSource_keys (cfg : Config) (d : DataSourceRow) (c : Catalog) :
    KeysKept c (updateDataSource cfg d c).1 :=
  keysKept_of_eq _ _ rfl rfl rfl

theorem addDataObject_keys (obj : DataObjectRow) (c : Catalog) :
    KeysKept c (addDataObject obj c).1 :=
  keysKept_of_eq _ _ rfl rfl rfl

theorem noDeleteSince_refl (l : List Write) : NoDeleteSince l l :=
  ⟨[], by simp, fun _ h => absurd h (List.not_mem_nil _)⟩

theorem noDeleteSince_snoc (l0 l : List Write) (e : Write) (h : NoDeleteSince l0 l)
    (he : e.isDelete = false) : NoDeleteSince l0 (l ++ [e]) := by
  obtain ⟨rest, h1, h2⟩ := h
  refine ⟨rest ++ [e], by rw [h1, List.append_assoc], fun x hx => ?_⟩
  rcases List.mem_append.1 hx with hx | hx
  · exact h2 x hx
  · rw [List.mem_singleton.1 hx]; exact he

/-- A mutation that is no delete and deletes no key keeps `NothingDeleted`. -/
theorem mutate_nothingDeleted (c0 : Catalog) (l0 : List Write) (entry : Catalog → Write)
    (op : Catalog → Catalog × Option Err) (hop : ∀ c, KeysKept c (op c).1)
    (he : ∀ c, (entry c).isDelete = false) (w : World) (h : NothingDeleted c0 l0 w) :
    NothingDeleted c0 l0 (mutate entry op w).1 := by
  obtain ⟨hl, hc⟩ := mutate_effect entry op w
  refine ⟨?_, ?_⟩
  · rcases hc with ⟨hc, _⟩ | ⟨hc, _⟩ <;> rw [hc]
    · exact h.1
    · exact keysKept_trans _ _ _ h.1 (hop w.cat)
  · rw [hl]
    exact noDeleteSince_snoc l0 w.log _ h.2 (he w.cat)

/-- A merge whose insert and update are no deletes and delete no key keeps
`NothingDeleted`. -/
theorem merge_nothingDeleted (c0 : Catalog) (l0 : List Write) (read : Catalog → Bool)
    (entryA entryU : Catalog → Write) (opA opU : Catalog → Catalog × Option Err) (u : Bool)
    (hA : ∀ c, KeysKept c (opA c).1) (hU : ∀ c, KeysKept c (opU c).1)
    (heA : ∀ c, (entryA c).isDelete = false) (heU : ∀ c, (entryU c).isDelete = false)
    (w : World) (h : NothingDeleted c0 l0 w) :
    NothingDeleted c0 l0 (match query read w with
      | (w, .error e) => (w, some e)
      | (w, .ok found) =>
        if found && !u then (w, none)
        else if !found then mutate entryA opA w
        else mutate entryU opU w).1 := by
  have hs := merge_shape read entryA entryU opA opU u w _ rfl
  generalize (match query read w with
      | (w, .error e) => (w, some e)
      | (w, .ok found) =>
        if found && !u then (w, none)
        else if !found then mutate entryA opA w
        else mutate entryU opU w) = r at hs
  rcases hs with ⟨hc, hl, -⟩ | ⟨-, hl, hc⟩ | ⟨-, hl, hc⟩
  · exact ⟨by rw [hc]; exact h.1, by rw [hl]; exact h.2⟩
  · refine ⟨?_, by rw [hl]; exact noDeleteSince_snoc l0 w.log _ h.2 (heA w.cat)⟩
    rcases hc with ⟨hc, _⟩ | ⟨hc, _⟩ <;> rw [hc]
    · exact h.1
    · exact keysKept_trans _ _ _ h.1 (hA w.cat)
  · refine ⟨?_, by rw [hl]; exact noDeleteSince_snoc l0 w.log _ h.2 (heU w.cat)⟩
    rcases hc with ⟨hc, _⟩ | ⟨hc, _⟩ <;> rw [hc]
    · exact h.1
    · exact keysKept_trans _ _ _ h.1 (hU w.cat)

theorem journal_mergeType_nothingDeleted (c0 : Catalog) (l0 : List Write) (cfg : Config)
    (t : TypeRow) (u : Bool) (w : World) (h : NothingDeleted c0 l0 w) :
    NothingDeleted c0 l0 (Journal.mergeType cfg t u w).1 :=
  merge_nothingDeleted c0 l0 (fun c => checkTypeExists c t.Name)
    (fun c => { req := .insert .types, name := t.Name, before := c })
    (fun c => { req := .update .types, name := t.Name, before := c })
    (AddType cfg t) (updateType cfg t) u (AddType_keys cfg t) (updateType_keys cfg t)
    (fun _ => rfl) (fun _ => rfl) w h

theorem journal_mergeField_nothingDeleted (c0 : Catalog) (l0 : List Write) (cfg : Config)
    (f : FieldRow) (u : Bool) (w : World) (h : NothingDeleted c0 l0 w) :
    NothingDeleted c0 l0 (Journal.mergeField cfg f u w).1 :=
  merge_nothingDeleted c0 l0 (fun c => checkFieldExists c f.TypeName f.Name)
    (fun c => { req := .insert .fields, typeName := f.TypeName, name := f.Name, before := c })
    (fun c => { req := .update .fields, typeName := f.TypeName, name := f.Name, before := c })
    (AddField cfg f) (updateTypeField cfg f) u (AddField_keys cfg f)
    (updateTypeField_keys cfg f) (fun _ => rfl) (fun _ => rfl) w h

theorem journal_mergeArgument_nothingDeleted (c0 : Catalog) (l0 : List Write)
    (a : ArgumentRow) (u : Bool) (w : World) (h : NothingDeleted c0 l0 w) :
    NothingDeleted c0 l0 (Journal.mergeArgument a u w).1 :=
  merge_nothingDeleted c0 l0 (fun c => checkArgumentExists c a.TypeName a.FieldName a.Name)
    (fun c => { req := .insert .arguments, typeName := a.TypeName,
                fieldName := a.FieldName, name := a.Name, before := c })
    (fun c => { req := .update .arguments, typeName := a.TypeName,
                fieldName := a.FieldName, name := a.Name, before := c })
    (AddArgument a) (updateArgument a) u (AddArgument_keys a) (updateArgument_keys a)
    (fun _ => rfl) (fun _ => rfl) w h

theorem journal_mergeModule_nothingDeleted (c0 : Catalog) (l0 : List Write) (cfg : Config)
    (m : ModuleRow) (u : Bool) (w : World) (h : NothingDeleted c0 l0 w) :
    NothingDeleted c0 l0 (Journal.mergeModule cfg m u w).1 :=
  merge_nothingDeleted c0 l0 (fun c => checkModuleExists c m.Name)
    (fun c => { req := .insert .modules, name := m.Name, before := c })
    (fun c => { req := .update .modules, name := m.Name, before := c })
    (AddModule cfg m) (updateModule cfg m) u (AddModule_keys cfg m) (updateModule_keys cfg m)
    (fun _ => rfl) (fun _ => rfl) w h

theorem journal_mergeDataSource_nothingDeleted (c0 : Catalog) (l0 : List Write)
    (cfg : Config) (d : DataSourceRow) (u : Bool) (w : World) (h : NothingDeleted c0 l0 w) :
    NothingDeleted c0 l0 (Journal.mergeDataSource cfg d u w).1 :=
  merge_nothingDeleted c0 l0 (fun c => checkDataSourceExists c d.Name)
    (fun c => { req := .insert .dataSources, name := d.Name, before := c })
    (fun c => { req := .update .dataSources, name := d.Name, before := c })
    (AddDataSource cfg d) (updateDataSource cfg d) u (AddDataSource_keys cfg d)
    (updateDataSource_keys cfg d) (fun _ => rfl) (fun _ => rfl) w h

theorem journal_loadDataObject_nothingDeleted (c0 : Catalog) (l0 : List Write)
    (info : SchemaInfo) (d : DataObjectInfo) (w : World) (h : NothingDeleted c0 l0 w) :
    NothingDeleted c0 l0 (Journal.loadDataObject info d w).1 := by
  unfold Journal.loadDataObject
  rcases info.Module d.Module with _ | m
  · exact h
  · by_cases hq : m.QueryType = ""
    · simp only []
      rw [if_pos hq]
      exact h
    · simp only []
      rw [if_neg hq]
      exact mutate_nothingDeleted c0 l0
        (fun c => { req := .replace .dataObjects, name := (dataObjectRowOf d m).Name,
                    before := c })
        (addDataObject (dataObjectRowOf d m)) (addDataObject_keys _) (fun _ => rfl) w h

theorem journal_patrialTypes_nothingDeleted (c0 : Catalog) (l0 : List Write) (cfg : Config)
    (u : Bool) (tm : List String) (fm : FieldsMap) (types : List TypeIntro)
    (s : World × Flat) (h : NothingDeleted c0 l0 s.1) :
    NothingDeleted c0 l0 (forEachE (Journal.patrialType cfg u tm fm) types s).1.1 := by
  refine forEachE_inv (fun (s : World × Flat) => NothingDeleted c0 l0 s.1) _
    (fun st s hs => ?_) types s h
  unfold Journal.patrialType
  split
  · exact hs
  · have := journal_mergeType_nothingDeleted c0 l0 cfg (typeRowOf st) u s.1 hs
    rcases hr : Journal.mergeType cfg (typeRowOf st) u s.1 with ⟨w', _ | e⟩ <;>
      rw [hr] at this <;> exact this

/-- `loadSchemaPatrial` deletes nothing from the types, fields and arguments
tables and issues no delete, in either mode and however the run ends. -/
theorem journal_loadSchemaPatrial_nothingDeleted (c0 : Catalog) (l0 : List Write)
    (cfg : Config) (schema : SchemaIntro) (info : SchemaInfo) (u : Bool) (tm : List String)
    (fm : FieldsMap) (mm dm : List String) (w : World) (h : NothingDeleted c0 l0 w) :
    NothingDeleted c0 l0 (Journal.loadSchemaPatrial cfg schema info u tm fm mm dm w).1 := by
  unfold Journal.loadSchemaPatrial
  refine andThen_inv (NothingDeleted c0 l0) _ _
    (journal_mergeType_nothingDeleted c0 l0 cfg unknownType false w h) (fun w1 h1 => ?_)
  have hs := journal_patrialTypes_nothingDeleted c0 l0 cfg u tm fm schema.Types
    (w1, { c := w1.cat }) h1
  refine andThenFlat_either (NothingDeleted c0 l0) _ _ _ (fun _ => hs) (fun _ => ?_)
  generalize (forEachE (Journal.patrialType cfg u tm fm) schema.Types
    (w1, { c := w1.cat })).1 = s at hs
  refine andThen_inv (NothingDeleted c0 l0) _ _ ?_ (fun w2 h2 => ?_)
  · exact forEachE_inv (NothingDeleted c0 l0) _ (fun f w' hw' =>
      journal_mergeField_nothingDeleted c0 l0 cfg f u w' hw') s.2.ff s.1 hs
  refine andThen_inv (NothingDeleted c0 l0) _ _ ?_ (fun w3 h3 => ?_)
  · exact forEachE_inv (NothingDeleted c0 l0) _ (fun a w' hw' =>
      journal_mergeArgument_nothingDeleted c0 l0 a u w' hw') s.2.aa w2 h2
  refine andThen_inv (NothingDeleted c0 l0) _ _ ?_ (fun w4 h4 => ?_)
  · refine forEachE_inv (NothingDeleted c0 l0) _ (fun m w' hw' => ?_) info.modules w3 h3
    unfold Journal.patrialModule
    split
    · exact hw'
    · exact journal_mergeModule_nothingDeleted c0 l0 cfg (moduleRowOf m) false w' hw'
  refine andThen_inv (NothingDeleted c0 l0) _ _ ?_ (fun w5 h5 => ?_)
  · refine forEachE_inv (NothingDeleted c0 l0) _ (fun d w' hw' => ?_) info.DataSources w4 h4
    unfold Journal.patrialDataSource
    split
    · exact hw'
    · exact journal_mergeDataSource_nothingDeleted c0 l0 cfg (dataSourceRowOf d) u w' hw'
  refine forEachE_inv (NothingDeleted c0 l0) _ (fun d w' hw' => ?_) info.dataObjects w5 h5
  unfold Journal.patrialDataObject
  split
  · exact hw'
  · exact journal_loadDataObject_nothingDeleted c0 l0 info d w' hw'

/-- The batched delete: one journal entry; it fails only in transport, and
then writes nothing. -/
theorem journal_delete_effect (ff fa : List RowFilter) (w : World) :
    (Journal.deleteFieldsAndArguments ff fa w).1.log = w.log ++ [deleteEntry w.cat] ∧
    ((Journal.deleteFieldsAndArguments ff fa w).2 ≠ none →
      (Journal.deleteFieldsAndArguments ff fa w).1.cat = w.cat) := by
  unfold Journal.deleteFieldsAndArguments
  obtain ⟨hl, hc⟩ := mutate_effect
    (fun c => { req := .deleteFieldsAndArguments, before := c })
    (deleteFieldsAndArguments ff fa) w
  refine ⟨hl, fun hne => ?_⟩
  rcases hc with ⟨hc, _⟩ | ⟨_, he⟩
  · exact hc
  · rw [he] at hne
    exact absurd rfl hne

/-- A clearing step either fails before issuing anything or is the batched delete. -/
theorem journal_clearDataObjectTypes_effect (k : Consts) (schema : SchemaIntro)
    (info : SchemaInfo) (names : List String) (w : World) :
    (Journal.clearDataObjectTypes k schema info names w = (w,
        (Journal.clearDataObjectTypes k schema info names w).2) ∧
      (Journal.clearDataObjectTypes k schema info names w).2 ≠ none) ∨
    ∃ ff fa, Journal.clearDataObjectTypes k schema info names w =
      Journal.deleteFieldsAndArguments ff fa w := by
  unfold Journal.clearDataObjectTypes
  rcases forEachE (clearDataObjectStep k schema info) names ([], []) with ⟨acc, _ | e⟩
  · exact Or.inr ⟨acc.1, acc.2, rfl⟩
  · exact Or.inl ⟨rfl, by simp [andThenFlat]⟩

theorem journal_clearFunctionTypes_effect (info : SchemaInfo) (module name : String)
    (w : World) :
    (Journal.clearFunctionTypes info module name w = (w,
        (Journal.clearFunctionTypes info module name w).2) ∧
      (Journal.clearFunctionTypes info module name w).2 ≠ none) ∨
    ∃ ff fa, Journal.clearFunctionTypes info module name w =
      Journal.deleteFieldsAndArguments ff fa w := by
  unfold Journal.clearFunctionTypes
  rcases h1 : info.Module module with _ | mi
  · exact Or.inl ⟨rfl, by simp⟩
  · simp only []
    rcases h2 : mi.Function name with _ | fi
    · simp only []
      rcases h3 : mi.MutationFunction name with _ | fi
      · exact Or.inl ⟨rfl, by simp⟩
      · exact Or.inr ⟨_, _, rfl⟩
    · exact Or.inr ⟨_, _, rfl⟩

/-- A reload built as "clearing step unless patch, then a continuation that
deletes nothing" has the shape `ClearsFirst`. -/
theorem clearsFirst_of_shape (clear : World → World × Option Err)
    (next : Bool → World → World × Option Err) (c : Catalog) (faults : List (Option Err))
    (hclear : ∀ w, (clear w = (w, (clear w).2) ∧ (clear w).2 ≠ none) ∨
      ∃ ff fa, clear w = Journal.deleteFieldsAndArguments ff fa w)
    (hnext : ∀ b c0 l0 w, NothingDeleted c0 l0 w → NothingDeleted c0 l0 (next b w).1) :
    ClearsFirst (fun patrial w => andThen (if !patrial then clear w else (w, none))
        (next patrial))
      clear c faults := by
  refine ⟨?_, ?_, ?_⟩
  · simp only [Bool.not_true, Bool.false_eq_true, if_false, andThen]
    exact hnext true c [] _ ⟨keysKept_refl c, noDeleteSince_refl []⟩
  · simp only [Bool.not_false, if_true]
    rcases hclear { cat := c, faults := faults } with ⟨h1, h2⟩ | ⟨ff, fa, h⟩
    · left
      rcases hr : (clear { cat := c, faults := faults }).2 with _ | e
      · exact absurd hr h2
      · rw [h1, hr]
        exact ⟨rfl, by simp [andThen]⟩
    · right
      rw [h]
      obtain ⟨hl, -⟩ := journal_delete_effect ff fa { cat := c, faults := faults }
      simp only [List.nil_append] at hl
      rcases hr : Journal.deleteFieldsAndArguments ff fa { cat := c, faults := faults }
        with ⟨w1, _ | e⟩
      · rw [hr] at hl
        simp only [andThen]
        simp only [] at hl
        obtain ⟨rest, h1, h2⟩ :=
          (hnext false w1.cat w1.log w1 ⟨keysKept_refl _, noDeleteSince_refl _⟩).2
        exact ⟨rest, by rw [h1, hl]; rfl, h2⟩
      · rw [hr] at hl
        simp only [andThen]
        exact ⟨[], hl, fun _ h => absurd h (List.not_mem_nil _)⟩
  · intro e he
    simp only [Bool.not_false, if_true]
    refine ⟨?_, ?_, ?_⟩
    · rcases hr : clear { cat := c, faults := faults } with ⟨w1, _ | e'⟩
      · rw [hr] at he; cases he
      · rw [hr] at he
        cases he
        rfl
    · rcases hclear { cat := c, faults := faults } with ⟨h1, _⟩ | ⟨ff, fa, h⟩
      · rw [h1]
      · rw [h]
        rw [h] at he
        exact (journal_delete_effect ff fa { cat := c, faults := faults }).2 (by rw [he]; simp)
    · rcases hclear { cat := c, faults := faults } with ⟨h1, _⟩ | ⟨ff, fa, h⟩
      · left; rw [h1]
      · right
        rw [h]
        exact (journal_delete_effect ff fa { cat := c, faults := faults }).1

/-- C12: `LoadDataObject` and `LoadFunction` called with patch semantics
delete no Type, Field or Argument row and issue no delete; called without,
they issue the batched delete of fields and arguments before every write of
the reconciliation and issue no other delete, unless the clearing step fails
before issuing anything, in which case the reload fails too; and when the
clearing step returns an error (a failed lookup, or the delete failing in
transport) the reload returns that error with the state the step left, in
which nothing was written and no reconciliation round trip was made. -/
theorem clearing_before_reconciliation (cfg : Config) (k : Consts) (schema : SchemaIntro)
    (info : SchemaInfo) (name module fname : String) (c : Catalog)
    (faults : List (Option Err)) :
    ClearsFirst (Journal.LoadDataObject cfg k schema info name)
      (Journal.clearDataObjectTypes k schema info [name]) c faults ∧
    ClearsFirst (Journal.LoadFunction cfg schema info module fname)
      (Journal.clearFunctionTypes info module fname) c faults := by
  constructor
  · have hrun : Journal.LoadDataObject cfg k schema info name =
        fun patrial w => andThen
          (if !patrial then Journal.clearDataObjectTypes k schema info [name] w else (w, none))
          ((fun patrial w => match fillDataObjectTypesForUpdate k schema info name {} with
            | (_, some e) => (w, some e)
            | (m, none) =>
              Journal.loadSchemaPatrial cfg schema info patrial m.typesMap m.fieldsMap
                m.modulesMap m.dataSourcesMap w) patrial) := by
      funext patrial w
      rfl
    rw [hrun]
    refine clearsFirst_of_shape _ _ c faults
      (journal_clearDataObjectTypes_effect k schema info [name]) ?_
    intro b c0 l0 w h
    rcases fillDataObjectTypesForUpdate k schema info name {} with ⟨m, _ | e⟩
    · exact journal_loadSchemaPatrial_nothingDeleted c0 l0 cfg schema info _ _ _ _ _ w h
    · exact h
  · have hrun : Journal.LoadFunction cfg schema info module fname =
        fun patrial w => andThen
          (if !patrial then Journal.clearFunctionTypes info module fname w else (w, none))
          ((fun patrial w => match fillFunctionTypesForUpdate schema info module fname {} with
            | (_, some e) => (w, some e)
            | (m, none) =>
              Journal.loadSchemaPatrial cfg schema info patrial m.typesMap m.fieldsMap
                m.modulesMap m.dataSourcesMap w) patrial) := by
      funext patrial w
      rfl
    rw [hrun]
    refine clearsFirst_of_shape _ _ c faults
      (journal_clearFunctionTypes_effect info module fname) ?_
    intro b c0 l0 w h
    rcases fillFunctionTypesForUpdate schema info module fname {} with ⟨m, _ | e⟩
    · exact journal_loadSchemaPatrial_nothingDeleted c0 l0 cfg schema info _ _ _ _ _ w h
    · exact h

theorem wrapInt32_id (n : Int) (h0 : 0 ≤ n) (h1 : n < 2147483648) : wrapInt32 n = n := by
  unfold wrapInt32
  omega

theorem calls_acquire (n : Int) (h0 : 1 ≤ n) (h1 : n < 2147483648) (k : Nat) (held : List Bool) :
    PoolState.calls { pool := Pool.New n, held := held }
        (List.replicate k (.acquire false none)) =
      { pool := Pool.New n, held := held ++ List.replicate k true } := by
  induction k generalizing held with
  | zero => simp [PoolState.calls]
  | succ k ih =>
    have hstep : PoolState.call { pool := Pool.New n, held := held } (.acquire false none) =
        { pool := Pool.New n, held := held ++ [true] } := by
      have hw := wrapInt32_id n (by omega) h1
      have : ¬ (0 : Int) ≥ wrapInt32 n := by rw [hw]; omega
      simp only [PoolState.call, Pool.Connection, Pool.New, this, if_false]
    simp only [PoolState.calls, List.replicate_succ, List.foldl_cons] at ih ⊢
    rw [hstep, ih]
    simp [List.replicate_succ]

/-- C15: the bound does not hold.  For every capacity `n` from 1 up (below
2^31) and every `k`, the `k` calls of `Pool.Connection` made in a row on a new
pool, with no `Close` in between and a live context, all return a connection:
`k` connections are outstanding, whatever `n` is, and the counter `used` is
still 0. -/
theorem pool_admits_beyond_capacity (n : Int) (h0 : 1 ≤ n) (h1 : n < 2147483648) (k : Nat) :
    (PoolState.calls { pool := Pool.New n } (List.replicate k (.acquire false none))).outstanding
        = k ∧
    (PoolState.calls { pool := Pool.New n } (List.replicate k (.acquire false none))).pool.used
        = 0 := by
  rw [calls_acquire n h0 h1 k []]
  simp [PoolState.outstanding, Pool.New]

theorem pool_admits_beyond_capacity_witness :
    (PoolState.calls { pool := Pool.New 1 }
        (List.replicate 2 (.acquire false none))).outstanding = 2 ∧
    (PoolState.calls { pool := Pool.New 1 }
        (List.replicate 2 (.acquire false none))).pool.used = 0 :=
  pool_admits_beyond_capacity 1 (by decide) (by decide) 2

theorem strLt_irrefl (a : List Char) : strLt a a = false := by
  induction a with
  | nil => rfl
  | cons x xs ih => simp [strLt, ih]

theorem strLt_asymm : ∀ a b : List Char, strLt a b = true → strLt b a = false
  | _, [], h => by simp [strLt] at h
  | [], _ :: _, _ => by simp [strLt]
  | x :: xs, y :: ys, h => by
    simp only [strLt] at h ⊢
    split_ifs at h ⊢ with h1 h2 h3
    all_goals first
      | rfl
      | omega
      | exact strLt_asymm xs ys h

theorem strLt_negtrans : ∀ a b c : List Char,
    strLt a b = false → strLt b c = false → strLt a c = false
  | _, _, [], _, _ => by simp [strLt]
  | _, [], _ :: _, _, h2 => by simp [strLt] at h2
  | [], _ :: _, _ :: _, h1, _ => by simp [strLt] at h1
  | x :: xs, y :: ys, z :: zs, h1, h2 => by
    simp only [strLt] at h1 h2 ⊢
    split_ifs at h1 h2 ⊢ with i1 i2 i3 i4 i5 i6
    all_goals first
      | rfl
      | omega
      | exact strLt_negtrans xs ys zs h1 h2

theorem strLt_prefix (l : List Char) (c : Char) (r : List Char) :
    strLt l (l ++ c :: r) = true := by
  induction l with
  | nil => rfl
  | cons a l ih => simp [strLt, ih]

theorem strLt_of_isAncestor (y x : String) (h : isAncestor y x) :
    strLt y.data x.data = true := by
  obtain ⟨hne, h | ⟨rest, h⟩⟩ := h
  · subst h
    have : x.data ≠ [] := by
      intro h0
      apply hne
      cases x
      simp only [] at h0
      subst h0
      rfl
    rcases hx : x.data with _ | ⟨c, cs⟩
    · exact absurd hx this
    · rfl
  · subst h
    simp only [String.data_append, List.append_assoc]
    exact strLt_prefix _ _ _

theorem modulesOrder_perm (names : List String) : (modulesOrder names).Perm names :=
  List.perm_insertionSort _ _

theorem modulesOrder_sorted (names : List String) :
    (modulesOrder names).Pairwise (fun a b => strLt a.data b.data = false) := by
  haveI : IsTotal String (fun a b => strLt a.data b.data = false) :=
    ⟨fun a b => by
      rcases h : strLt a.data b.data with _ | _
      · exact Or.inl rfl
      · exact Or.inr (strLt_asymm _ _ h)⟩
  haveI : IsTrans String (fun a b => strLt a.data b.data = false) :=
    ⟨fun a b c h1 h2 => strLt_negtrans _ _ _ h1 h2⟩
  exact List.sorted_insertionSort (fun a b => strLt a.data b.data = false) names

/-- In a list sorted downwards, a name that is smaller than `x` has `x`
before it. -/
theorem before_of_sorted (l p q : List String) (x y : String)
    (hs : l.Pairwise (fun a b => strLt a.data b.data = false)) (hl : l = p ++ y :: q)
    (hx : x ∈ l) (hlt : strLt y.data x.data = true) : x ∈ p := by
  subst hl
  rw [List.pairwise_append] at hs
  obtain ⟨-, hyq, -⟩ := hs
  rw [List.pairwise_cons] at hyq
  rcases List.mem_append.1 hx with h | h
  · exact h
  · rcases List.mem_cons.1 h with h | h
    · subst h
      rw [strLt_irrefl] at hlt
      cases hlt
    · have := hyq.1 x h
      rw [this] at hlt
      cases hlt
theorem exec_append (limit : Int) (p q : List TaskEvent) (s : GroupRun) :
    GroupRun.exec limit s (p ++ q) =
      (GroupRun.exec limit s p).bind (fun s' => GroupRun.exec limit s' q) := by
  induction p generalizing s with
  | nil => rfl
  | cons e p ih =>
    simp only [List.cons_append, GroupRun.exec]
    rcases s.step limit e with _ | s'
    · rfl
    · exact ih s'

theorem started_append (p q : List TaskEvent) : started (p ++ q) = started p ++ started q := by
  simp [started, List.filterMap_append]

theorem mem_started (p : List TaskEvent) (x : String) (h : x ∈ started p) :
    TaskEvent.start x ∈ p := by
  simp only [started, List.mem_filterMap] at h
  obtain ⟨e, he, hx⟩ := h
  cases e with
  | start m =>
    simp only [Option.some.injEq] at hx
    subst hx
    exact he
  | finish m => simp at hx

/-- Invariant of the dispatch loop: the names started so far followed by the
queue are the list handed to the loop, and every started task that is not
running has finished. -/
theorem exec_inv (limit : Int) (ms : List String) :
    ∀ (trace pre : List TaskEvent) (s0 s : GroupRun),
      started pre ++ s0.queue = ms →
      (∀ d ∈ started pre, d ∉ s0.running → TaskEvent.finish d ∈ pre) →
      GroupRun.exec limit s0 trace = some s →
      started (pre ++ trace) ++ s.queue = ms ∧
      ∀ d ∈ started (pre ++ trace), d ∉ s.running → TaskEvent.finish d ∈ pre ++ trace := by
  intro trace
  induction trace with
  | nil =>
    intro pre s0 s h1 h2 he
    simp only [GroupRun.exec, Option.some.injEq] at he
    subst he
    simpa using ⟨h1, h2⟩
  | cons e es ih =>
    intro pre s0 s h1 h2 he
    simp only [GroupRun.exec] at he
    rcases hst : s0.step limit e with _ | s1
    · rw [hst] at he; cases he
    · rw [hst] at he
      simp only [] at he
      have hpre : pre ++ e :: es = (pre ++ [e]) ++ es := by simp
      rw [hpre]
      refine ih (pre ++ [e]) s1 s ?_ ?_ he
      · cases e with
        | start m =>
          simp only [GroupRun.step] at hst
          rcases hq : s0.queue with _ | ⟨q, rest⟩
          · rw [hq] at hst; cases hst
          · rw [hq] at hst
            simp only [] at hst
            split_ifs at hst with hc
            simp only [Option.some.injEq] at hst
            subst hst
            rw [hq] at h1
            obtain ⟨hqm, -⟩ := hc
            subst hqm
            simp only [started_append]
            simpa [started] using h1
        | finish m =>
          simp only [GroupRun.step] at hst
          split_ifs at hst with hc
          simp only [Option.some.injEq] at hst
          subst hst
          simp only [started_append]
          simpa [started] using h1
      · intro d hd hnr
        cases e with
        | start m =>
          simp only [GroupRun.step] at hst
          rcases hq : s0.queue with _ | ⟨q, rest⟩
          · rw [hq] at hst; cases hst
          · rw [hq] at hst
            simp only [] at hst
            split_ifs at hst with hc
            simp only [Option.some.injEq] at hst
            subst hst
            simp only [List.mem_cons, not_or] at hnr
            have h1s : started [TaskEvent.start m] = [m] := rfl
            rw [started_append, h1s, List.mem_append, List.mem_singleton] at hd
            rcases hd with hd | hd
            · exact List.mem_append_left _ (h2 d hd hnr.2)
            · exact absurd hd hnr.1
        | finish m =>
          simp only [GroupRun.step] at hst
          split_ifs at hst with hc
          simp only [Option.some.injEq] at hst
          subst hst
          have h1s : started [TaskEvent.finish m] = [] := rfl
          rw [started_append, h1s, List.append_nil] at hd
          by_cases hdm : d = m
          · subst hdm
            simp
          · have : d ∉ s0.running := by
              intro hin
              exact hnr ((List.mem_erase_of_ne hdm).2 hin)
            exact List.mem_append_left _ (h2 d hd this)

/-- The state in which `start y` is dispatched in an execution. -/
theorem exec_at_start (limit : Int) (ms : List String) (p q : List TaskEvent) (y : String)
    (hs : Schedule limit ms (p ++ TaskEvent.start y :: q)) :
    ∃ s rest, GroupRun.exec limit { queue := ms } p = some s ∧ s.queue = y :: rest ∧
      (limit < 0 ∨ (s.running.length : Int) < limit) := by
  unfold Schedule at hs
  rw [exec_append] at hs
  rcases hp : GroupRun.exec limit { queue := ms } p with _ | s
  · rw [hp] at hs; simp at hs
  · rw [hp] at hs
    simp only [Option.some_bind, GroupRun.exec] at hs
    rcases hq : s.queue with _ | ⟨q0, rest⟩
    · simp [GroupRun.step, hq] at hs
    · simp only [GroupRun.step, hq] at hs
      split_ifs at hs with hc
      · obtain ⟨h1, h2⟩ := hc
        subst h1
        exact ⟨s, rest, rfl, hq, h2⟩
      · simp at hs

/-- C16, as amended: for a module `x` awaiting summarization and an ancestor
`y` of it, in every execution of the module phase under any limit the task of
`x` is started before the task of `y`; and when the limit is 1 the task of `x`
has finished before the task of `y` starts. -/
theorem module_order (names : List String) (x y : String) (limit : Int)
    (trace : List TaskEvent) (hx : x ∈ names) (hanc : isAncestor y x)
    (hs : Schedule limit (modulesOrder names) trace) :
    StartsBefore trace x y ∧ (limit = 1 → CompletesBefore trace x y) := by
  have key : ∀ p q, trace = p ++ TaskEvent.start y :: q →
      ∃ s, GroupRun.exec limit { queue := modulesOrder names } p = some s ∧
        x ∈ started p ∧ (limit < 0 ∨ (s.running.length : Int) < limit) ∧
        ∀ d ∈ started p, d ∉ s.running → TaskEvent.finish d ∈ p := by
    intro p q htr
    subst htr
    obtain ⟨s, rest, hp, hq, hlim⟩ := exec_at_start limit _ p q y hs
    have hinv := exec_inv limit (modulesOrder names) p [] { queue := modulesOrder names } s
      (by simp [started]) (by simp [started]) hp
    simp only [List.nil_append] at hinv
    rw [hq] at hinv
    refine ⟨s, hp, ?_, hlim, hinv.2⟩
    exact before_of_sorted (modulesOrder names) (started p) rest x y (modulesOrder_sorted names)
      hinv.1.symm ((modulesOrder_perm names).mem_iff.2 hx) (strLt_of_isAncestor y x hanc)
  constructor
  · intro p q htr
    obtain ⟨s, -, hxp, -, -⟩ := key p q htr
    exact mem_started p x hxp
  · intro h1 p q htr
    obtain ⟨s, -, hxp, hlim, hfin⟩ := key p q htr
    subst h1
    have hrun : s.running = [] := by
      rcases hlim with h | h
      · omega
      · have : s.running.length = 0 := by omega
        exact List.length_eq_zero.1 this
    exact hfin x hxp (by rw [hrun]; simp)

theorem module_order_witness :
    Schedule 1 (modulesOrder ["a", "a.b", "a.b.c"])
      [.start "a.b.c", .finish "a.b.c", .start "a.b", .finish "a.b", .start "a", .finish "a"] ∧
    StartsBefore
      [.start "a.b.c", .finish "a.b.c", .start "a.b", .finish "a.b", .start "a", .finish "a"]
      "a.b.c" "a.b" ∧
    CompletesBefore
      [.start "a.b.c", .finish "a.b.c", .start "a.b", .finish "a.b", .start "a", .finish "a"]
      "a.b.c" "a.b" :=
  ⟨by decide,
   (module_order ["a", "a.b", "a.b.c"] "a.b.c" "a.b" 1 _ (by decide)
      ⟨by decide, Or.inr ⟨"c", by decide⟩⟩ (by decide)).1,
   (module_order ["a", "a.b", "a.b.c"] "a.b.c" "a.b" 1 _ (by decide)
      ⟨by decide, Or.inr ⟨"c", by decide⟩⟩ (by decide)).2 rfl⟩

/-- C16, counterexample: with `MaxConnections = 2` and the modules `a`, `a.b`
and `a.b.c` awaiting summarization, the module phase has an execution in which
the task of `a.b` starts while the task of `a.b.c` is still running. -/
theorem module_order_overlap :
    Schedule 2 (modulesOrder ["a", "a.b", "a.b.c"])
      [.start "a.b.c", .start "a.b", .finish "a.b.c", .finish "a.b", .start "a", .finish "a"] ∧
    ¬ CompletesBefore
      [.start "a.b.c", .start "a.b", .finish "a.b.c", .finish "a.b", .start "a", .finish "a"]
      "a.b.c" "a.b" := by
  refine ⟨by decide, fun h => ?_⟩
  have := h [.start "a.b.c"] [.finish "a.b.c", .finish "a.b", .start "a", .finish "a"] rfl
  simp at this

theorem query_faults {α : Type} (read : Catalog → α) (w : World) :
    (query read w).1.faults = w.faults.tail := by
  unfold query World.pop
  rcases w with ⟨c, _ | ⟨_ | e, fs⟩, l⟩ <;> rfl

theorem query_ok {α : Type} (read : Catalog → α) (w : World) (h : w.pop.1 = none) :
    (query read w).2 = .ok (read w.cat) := by
  unfold query
  unfold World.pop at h ⊢
  rcases w with ⟨c, _ | ⟨_ | e, fs⟩, l⟩
  · rfl
  · rfl
  · simp at h

/-- C17: when the selection round trip succeeds and some module awaits
summarization, `modulesForSummary` returns a list that is a permutation of the
names awaiting summarization, sorted downwards (no name is smaller than a
later one), and in which every module stands before each of its ancestors: if
`y` is an ancestor of a listed module `x`, every occurrence of `y` in the list
has `x` before it. -/
theorem modulesForSummary_order (env : Summarizer) (w : World) (hq : w.pop.1 = none)
    (hne : modulesAwaiting w.cat ≠ []) :
    ∃ names, (modulesForSummary env w).2 = .ok names ∧
      names.Perm (modulesAwaiting w.cat) ∧
      names.Pairwise (fun a b => strLt a.data b.data = false) ∧
      ∀ x ∈ names, ∀ y, isAncestor y x → ∀ p q, names = p ++ y :: q → x ∈ p := by
  refine ⟨modulesOrder (modulesAwaiting w.cat), ?_, modulesOrder_perm _, modulesOrder_sorted _,
    ?_⟩
  · have h1 := query_ok modulesAwaiting w hq
    unfold modulesForSummary
    rcases hqr : query modulesAwaiting w with ⟨w', r⟩
    rw [hqr] at h1
    simp only [] at h1
    subst h1
    have hlen : (modulesAwaiting w.cat).length ≠ 0 := fun h => hne (List.length_eq_zero.1 h)
    have hemp : (modulesAwaiting w.cat).isEmpty = false := by
      rcases h : modulesAwaiting w.cat with _ | ⟨a, l⟩
      · exact absurd h hne
      · rfl
    simp only [scanRows, hemp, Bool.false_and, Bool.false_eq_true, if_false, hlen]
  · intro x hx y hanc p q hpq
    exact before_of_sorted _ p q x y (modulesOrder_sorted _) hpq hx (strLt_of_isAncestor y x hanc)

theorem modulesForSummary_order_witness :
    ∃ names, (modulesForSummary (summarizerC true) { cat := catalogC17 }).2 = .ok names ∧
      names.Perm (modulesAwaiting catalogC17) ∧
      names.Pairwise (fun a b => strLt a.data b.data = false) ∧
      ∀ x ∈ names, ∀ y, isAncestor y x → ∀ p q, names = p ++ y :: q → x ∈ p :=
  modulesForSummary_order (summarizerC true) { cat := catalogC17 } (by decide) (by decide)

/-- C20: an empty selection makes `Summarize` fail.  On a store in which every
module is summarized (and a data source still awaits summarization) it
returns the error "failed to summarize modules: no modules to summarize",
whether `ScanData` reports an empty result set as `ErrNoData` or decodes an
empty list; on a store in which the only data source is summarized it returns
"failed to summarize data sources: no data sources to summarize" when
`ScanData` decodes an empty list. -/
theorem empty_selection_is_error :
    (∀ b : Bool, (Summarize (summarizerC b) outcomesOk { cat := catalogModulesDone }).2 =
      some (.wrap "failed to summarize modules" (.text "no modules to summarize"))) ∧
    (Summarize (summarizerC false) outcomesOk { cat := catalogDataSourcesDone }).2 =
      some (.wrap "failed to summarize data sources" (.text "no data sources to summarize")) := by
  refine ⟨fun b => ?_, ?_⟩
  · cases b <;> decide
  · decide

/-- C19: a failed task can leave its target marked as summarized.
`SummarizeFunction` for the function field `f`, when the update of the
description of its parameter `x` fails in transport, returns an error, and
the row of `f` has `is_summarized = true`, set by the update of the field row
that the task makes first.  `SummarizeDataObject` for the type `T`, when the
update of the description of its aggregation type fails, returns an error, and
the row of `T` has `is_summarized = true`, set by the update made just before.
In both stores the selection of the next pass no longer returns the target. -/
theorem failed_task_marks_target :
    (SummarizeFunction (summarizerC true) outcomesOk metaC
        { Name := "f", TypeName := "Function", HugrType := "function" } true
        { cat := catalogC18, faults := [none, none, some (.text "timeout")] }).2 =
      some (.wrap "function f failed to update parameter description"
        (.wrap "failed to update argument description" (.text "timeout"))) ∧
    (SummarizeFunction (summarizerC true) outcomesOk metaC
        { Name := "f", TypeName := "Function", HugrType := "function" } true
        { cat := catalogC18, faults := [none, none, some (.text "timeout")] }).1.cat.fields =
      [{ Name := "f", TypeName := "Function", HugrType := "function", Description := "L",
         IsSummarized := true }] ∧
    orNil (FunctionFieldsForSummary (summarizerC true) true
      { cat := (SummarizeFunction (summarizerC true) outcomesOk metaC
          { Name := "f", TypeName := "Function", HugrType := "function" } true
          { cat := catalogC18, faults := [none, none, some (.text "timeout")] }).1.cat }).2 = [] ∧
    (SummarizeDataObject (summarizerC true) outcomesOk metaC
        { Name := "T", HugrType := "table", Catalog := "ds" } true
        { cat := catalogC18, faults := [none, none, some (.text "timeout")] }).2 =
      some (.wrap "failed to update agg type description"
        (.wrap "failed to update type description" (.text "timeout"))) ∧
    (SummarizeDataObject (summarizerC true) outcomesOk metaC
        { Name := "T", HugrType := "table", Catalog := "ds" } true
        { cat := catalogC18, faults := [none, none, some (.text "timeout")] }).1.cat.types =
      [{ Name := "T", HugrType := "table", Catalog := "ds", Description := "s", Long := "l",
         IsSummarized := true },
       { Name := "T_agg" }, { Name := "Function", HugrType := "module" }] ∧
    orNil (DataObjectTypesForSummary (summarizerC true)
      { cat := (SummarizeDataObject (summarizerC true) outcomesOk metaC
          { Name := "T", HugrType := "table", Catalog := "ds" } true
          { cat := catalogC18, faults := [none, none, some (.text "timeout")] }).1.cat }).2 = [] := by
  decide

theorem schemaOnly_nil : SchemaOnly [] := fun _ h => absurd h (List.not_mem_nil _)

theorem schemaOnly_append (a b : List (Update × String)) (ha : SchemaOnly a)
    (hb : SchemaOnly b) : SchemaOnly (a ++ b) := by
  intro u hu
  rcases List.mem_append.1 hu with h | h
  · exact ha u h
  · exact hb u h

theorem schemaOnly_flatMap {α : Type} (l : List α) (f : α → List (Update × String))
    (h : ∀ x, SchemaOnly (f x)) : SchemaOnly (l.flatMap f) := by
  intro u hu
  obtain ⟨x, -, hx⟩ := List.mem_flatMap.1 hu
  exact h x u hx

theorem schemaOnly_ite (c : Prop) [Decidable c] (a b : List (Update × String))
    (ha : SchemaOnly a) (hb : SchemaOnly b) : SchemaOnly (if c then a else b) := by
  split_ifs
  · exact ha
  · exact hb

theorem schemaOnly_field (tn fn d : String) (b : Bool) (msg : String) :
    SchemaOnly [(Update.field tn fn d b, msg)] := by
  intro u hu
  rw [List.mem_singleton] at hu
  subst hu
  exact ⟨rfl, rfl⟩

theorem schemaOnly_type (n d l : String) (b : Bool) (msg : String) :
    SchemaOnly [(Update.type n d l b, msg)] := by
  intro u hu
  rw [List.mem_singleton] at hu
  subst hu
  exact ⟨rfl, rfl⟩

theorem schemaOnly_argument (tn fn an d : String) (msg : String) :
    SchemaOnly [(Update.argument tn fn an d, msg)] := by
  intro u hu
  rw [List.mem_singleton] at hu
  subst hu
  exact ⟨rfl, rfl⟩

theorem schemaOnly_map {α : Type} (l : List α) (f : α → Update × String)
    (h : ∀ x, (f x).1.isModule = false ∧ (f x).1.isDataSource = false) :
    SchemaOnly (l.map f) := by
  intro u hu
  obtain ⟨x, -, hx⟩ := List.mem_map.1 hu
  subst hx
  exact h x

theorem columnUpdates_schemaOnly (t : TypeRow) (d : DataObjectInfo)
    (fields : List (String × String)) (m0 m1 m2 : String) :
    SchemaOnly (columnUpdates t d fields m0 m1 m2) := by
  unfold columnUpdates
  refine schemaOnly_flatMap _ _ (fun nd => ?_)
  refine schemaOnly_append _ _ (schemaOnly_append _ _ (schemaOnly_field _ _ _ _ _) ?_) ?_
  · exact schemaOnly_ite _ _ _ (schemaOnly_field _ _ _ _ _) schemaOnly_nil
  · exact schemaOnly_ite _ _ _ (schemaOnly_field _ _ _ _ _) schemaOnly_nil

theorem filterUpdates_schemaOnly (d : DataObjectInfo) (ds : DataObjectSummary) :
    SchemaOnly (filterUpdates d ds) := by
  unfold filterUpdates
  refine schemaOnly_ite _ _ _ ?_ schemaOnly_nil
  refine schemaOnly_append _ _ (schemaOnly_append _ _ ?_ ?_) (schemaOnly_type _ _ _ _ _)
  · exact schemaOnly_map _ _ (fun _ => ⟨rfl, rfl⟩)
  · exact schemaOnly_map _ _ (fun _ => ⟨rfl, rfl⟩)

theorem referenceUpdates_schemaOnly (t : TypeRow) (d : DataObjectInfo)
    (rs : List (String × DataObjectSubQuerySummary)) (ref : SubqueryInfo) :
    SchemaOnly (referenceUpdates t d rs ref) := by
  unfold referenceUpdates
  rcases rs.lookup ref.Name with _ | r
  · exact schemaOnly_nil
  · simp only []
    repeat' first
      | apply schemaOnly_append
      | apply schemaOnly_ite
      | exact schemaOnly_nil
      | exact schemaOnly_field _ _ _ _ _

theorem subqueryUpdates_schemaOnly (t : TypeRow) (d : DataObjectInfo)
    (rs : List (String × DataObjectSubQuerySummary)) (ref : SubqueryInfo) :
    SchemaOnly (subqueryUpdates t d rs ref) := by
  unfold subqueryUpdates
  rcases rs.lookup ref.Name with _ | r
  · exact schemaOnly_nil
  · simp only []
    repeat' first
      | apply schemaOnly_append
      | apply schemaOnly_ite
      | exact schemaOnly_nil
      | exact schemaOnly_field _ _ _ _ _

theorem functionCallUpdates_schemaOnly (t : TypeRow) (d : DataObjectInfo)
    (fcs : List (String × String)) (fc : FunctionCallInfo) :
    SchemaOnly (functionCallUpdates t d fcs fc) := by
  unfold functionCallUpdates
  repeat' first
    | apply schemaOnly_append
    | apply schemaOnly_ite
    | exact schemaOnly_nil
    | exact schemaOnly_field _ _ _ _ _

theorem objectUpdatesFirst_schemaOnly (t : TypeRow) (d : DataObjectInfo)
    (ds : DataObjectSummary) : SchemaOnly (objectUpdatesFirst t d ds) := by
  unfold objectUpdatesFirst
  refine schemaOnly_append _ _ (schemaOnly_append _ _ (schemaOnly_append _ _
    (schemaOnly_append _ _ (schemaOnly_append _ _ (columnUpdates_schemaOnly _ _ _ _ _ _)
      (columnUpdates_schemaOnly _ _ _ _ _ _)) (filterUpdates_schemaOnly _ _)) ?_) ?_) ?_
  · rcases ds.References with _ | rs
    · exact schemaOnly_nil
    · exact schemaOnly_flatMap _ _ (fun _ => referenceUpdates_schemaOnly _ _ _ _)
  · rcases ds.SubQueries with _ | rs
    · exact schemaOnly_nil
    · exact schemaOnly_flatMap _ _ (fun _ => subqueryUpdates_schemaOnly _ _ _ _)
  · rcases ds.FunctionCalls with _ | rs
    · exact schemaOnly_nil
    · exact schemaOnly_flatMap _ _ (fun _ => functionCallUpdates_schemaOnly _ _ _ _)

theorem queryUpdates_schemaOnly (env : Summarizer) (summary : MetaSummary) (t : TypeRow)
    (d : DataObjectInfo) (m : ModuleRow) (qs : List (String × String)) (sq : QueryInfo) :
    SchemaOnly (queryUpdates env summary t d m qs sq) := by
  unfold queryUpdates
  rcases qs.lookup sq.Name with _ | desc
  · exact schemaOnly_nil
  · simp only []
    refine schemaOnly_append _ _ (schemaOnly_field _ _ _ _ _) (schemaOnly_ite _ _ _ schemaOnly_nil ?_)
    intro u hu
    simp only [List.mem_cons, List.mem_singleton, List.not_mem_nil, or_false] at hu
    rcases hu with h | h | h <;> subst h <;> exact ⟨rfl, rfl⟩

theorem objectUpdatesSecond_schemaOnly (env : Summarizer) (summary : MetaSummary) (t : TypeRow)
    (d : DataObjectInfo) (ds : DataObjectSummary) (m : ModuleRow) :
    SchemaOnly (objectUpdatesSecond env summary t d ds m) := by
  unfold objectUpdatesSecond
  refine schemaOnly_append _ _ (schemaOnly_append _ _ ?_ ?_) ?_
  · rcases ds.Queries with _ | qs
    · exact schemaOnly_nil
    · exact schemaOnly_flatMap _ _ (fun _ => queryUpdates_schemaOnly _ _ _ _ _ _ _)
  · rcases d.Mutations with _ | dm <;> rcases ds.Mutations with _ | ms
    · exact schemaOnly_nil
    · exact schemaOnly_nil
    · exact schemaOnly_nil
    · exact schemaOnly_ite _ _ _ (schemaOnly_map _ _ (fun _ => ⟨rfl, rfl⟩)) schemaOnly_nil
  · rcases d.Arguments with _ | a
    · exact schemaOnly_nil
    · simp only []
      refine schemaOnly_ite _ _ _ (schemaOnly_append _ _ ?_ (schemaOnly_type _ _ _ _ _)) schemaOnly_nil
      refine schemaOnly_flatMap _ _ (fun arg => ?_)
      rcases ds.Arguments.Fields.lookup arg with _ | desc
      · exact schemaOnly_nil
      · exact schemaOnly_field _ _ _ _ _

theorem objectUpdatesLast_schemaOnly (d : DataObjectInfo) (ds : DataObjectSummary) :
    SchemaOnly (objectUpdatesLast d ds) := by
  unfold objectUpdatesLast
  repeat' first
    | apply schemaOnly_append
    | apply schemaOnly_ite
    | exact schemaOnly_nil
    | exact schemaOnly_type _ _ _ _ _

theorem functionUpdates_schemaOnly (f : FieldRow) (fi : FunctionInfo) (fs : FunctionSummary)
    (path : String) : SchemaOnly (functionUpdates f fi fs path) := by
  unfold functionUpdates
  refine schemaOnly_append _ _ (schemaOnly_append _ _ (schemaOnly_field _ _ _ _ _) ?_) ?_
  · rcases fs.Parameters with _ | ps
    · exact schemaOnly_nil
    · refine schemaOnly_flatMap _ _ (fun arg => ?_)
      rcases ps.lookup arg.Name with _ | desc
      · exact schemaOnly_nil
      · exact schemaOnly_argument _ _ _ _ _
  · refine schemaOnly_ite _ _ _ (schemaOnly_append _ _ (schemaOnly_type _ _ _ _ _) ?_) schemaOnly_nil
    refine schemaOnly_flatMap _ _ (fun rf => ?_)
    rcases fs.Returns.Fields.lookup rf with _ | desc
    · exact schemaOnly_nil
    · exact schemaOnly_field _ _ _ _ _

theorem wrapErr_fst {σ : Type} (msg : String) (r : σ × Option Err) : (wrapErr msg r).1 = r.1 := by
  rcases r with ⟨s, _ | e⟩ <;> rfl

theorem wrapErr_noPanic {σ : Type} (msg : String) (r : σ × Option Err) :
    NoPanic (wrapErr msg r) := by
  intro m
  rcases r with ⟨s, _ | e⟩ <;> simp [wrapErr]

theorem mutate_frame (P : Catalog → Prop) (entry : Catalog → Write)
    (op : Catalog → Catalog × Option Err) (w : World) (hop : ∀ c, P c → P (op c).1)
    (hw : P w.cat) : P (mutate entry op w).1.cat := by
  rcases mutate_effect entry op w with ⟨-, ⟨h, -⟩ | ⟨h, -⟩⟩ <;> rw [h]
  · exact hw
  · exact hop _ hw

theorem update_frame (cfg : Config) (u : Update) (w : World) :
    (u.isModule = false → (u.run cfg w).1.cat.modules = w.cat.modules) ∧
    (u.isDataSource = false → (u.run cfg w).1.cat.dataSources = w.cat.dataSources) := by
  cases u with
  | type n d l b =>
    simp only [Update.run, UpdateTypeDescription, wrapErr_fst]
    exact ⟨fun _ => mutate_frame (fun c => c.modules = w.cat.modules) _ _ w (fun c hc => hc) rfl,
      fun _ => mutate_frame (fun c => c.dataSources = w.cat.dataSources) _ _ w
        (fun c hc => hc) rfl⟩
  | field tn fn d b =>
    simp only [Update.run, UpdateFieldDescription, wrapErr_fst]
    exact ⟨fun _ => mutate_frame (fun c => c.modules = w.cat.modules) _ _ w (fun c hc => hc) rfl,
      fun _ => mutate_frame (fun c => c.dataSources = w.cat.dataSources) _ _ w
        (fun c hc => hc) rfl⟩
  | argument tn fn an d =>
    simp only [Update.run, UpdateArgumentDescription, wrapErr_fst]
    exact ⟨fun _ => mutate_frame (fun c => c.modules = w.cat.modules) _ _ w (fun c hc => hc) rfl,
      fun _ => mutate_frame (fun c => c.dataSources = w.cat.dataSources) _ _ w
        (fun c hc => hc) rfl⟩
  | module n d l b =>
    refine ⟨fun h => by simp [Update.isModule] at h, fun _ => ?_⟩
    simp only [Update.run, UpdateModuleDescription, wrapErr_fst]
    exact mutate_frame (fun c => c.dataSources = w.cat.dataSources) _ _ w (fun c hc => hc) rfl
  | dataSource n d l b =>
    refine ⟨fun _ => ?_, fun h => by simp [Update.isDataSource] at h⟩
    simp only [Update.run, UpdateDataSourceDescription, wrapErr_fst]
    exact mutate_frame (fun c => c.modules = w.cat.modules) _ _ w (fun c hc => hc) rfl

theorem runUpdates_modules (cfg : Config) (us : List (Update × String)) (w : World)
    (h : ∀ u ∈ us, u.1.isModule = false) :
    (runUpdates cfg us w).1.cat.modules = w.cat.modules := by
  unfold runUpdates
  refine forEachE_inv_mem (fun w' => w'.cat.modules = w.cat.modules) _ us ?_ w rfl
  intro u hu s hs
  simp only [wrapErr_fst]
  rw [(update_frame cfg u.1 s).1 (h u hu)]
  exact hs

theorem runUpdates_dataSources (cfg : Config) (us : List (Update × String)) (w : World)
    (h : ∀ u ∈ us, u.1.isDataSource = false) :
    (runUpdates cfg us w).1.cat.dataSources = w.cat.dataSources := by
  unfold runUpdates
  refine forEachE_inv_mem (fun w' => w'.cat.dataSources = w.cat.dataSources) _ us ?_ w rfl
  intro u hu s hs
  simp only [wrapErr_fst]
  rw [(update_frame cfg u.1 s).2 (h u hu)]
  exact hs

theorem runUpdates_noPanic (cfg : Config) (us : List (Update × String)) (w : World) :
    NoPanic (runUpdates cfg us w) := by
  intro m
  unfold runUpdates
  have := (forEachE_inv_err (fun _ : World => True) (fun e => ∀ m, e ≠ .panic m)
    (fun u w => wrapErr u.2 (u.1.run cfg w))
    (fun u s _ => ⟨trivial, fun e he m hm => wrapErr_noPanic u.2 (u.1.run cfg s) m
      (by rw [he, hm])⟩) us w trivial).2
  intro h
  exact this _ h m rfl

theorem andThen_noPanic {σ : Type} (r : σ × Option Err) (k : σ → σ × Option Err)
    (hr : NoPanic r) (hk : ∀ s, NoPanic (k s)) : NoPanic (andThen r k) := by
  rcases r with ⟨s, _ | e⟩
  · exact hk s
  · exact hr

theorem ModuleByName_world (name : String) (w : World) :
    (ModuleByName name w).1.cat = w.cat := by
  unfold ModuleByName
  split
  all_goals
    rename_i heq
    exact (congrArg (fun r => r.1.cat) heq).symm.trans (query_effect _ w).1

/-- `SummarizeDataObject` for a described object does not panic and leaves the
modules and data sources tables as they are. -/
theorem SummarizeDataObject_frame (env : Summarizer) (o : Outcomes) (summary : MetaSummary)
    (t : TypeRow) (ctx : Bool) (w : World) (hd : dataObjectOf env.sk summary t ≠ none) :
    NoPanic (SummarizeDataObject env o summary t ctx w) ∧
    (SummarizeDataObject env o summary t ctx w).1.cat.modules = w.cat.modules ∧
    (SummarizeDataObject env o summary t ctx w).1.cat.dataSources = w.cat.dataSources := by
  unfold SummarizeDataObject
  rcases hdo : dataObjectOf env.sk summary t with _ | d
  · exact absurd hdo hd
  · simp only []
    rcases (if ctx = true then o.dataObject t.Name else Except.error ctxCanceled) with e | ds
    · exact ⟨fun m => by simp, rfl, rfl⟩
    · simp only []
      have hsecond : ∀ w1 : World,
          NoPanic (match ModuleByName t.Module w1 with
            | (w, .error e) =>
              (w, some (Err.wrap ("data object " ++ t.Name ++
                ": Failed to get module by name") e))
            | (w, .ok m) =>
              runUpdates env.cfg (objectUpdatesSecond env summary t d ds m ++
                objectRowUpdate t ds ++ objectUpdatesLast d ds) w) ∧
          (match ModuleByName t.Module w1 with
            | (w, .error e) =>
              (w, some (Err.wrap ("data object " ++ t.Name ++
                ": Failed to get module by name") e))
            | (w, .ok m) =>
              runUpdates env.cfg (objectUpdatesSecond env summary t d ds m ++
                objectRowUpdate t ds ++ objectUpdatesLast d ds) w).1.cat.modules =
            w1.cat.modules ∧
          (match ModuleByName t.Module w1 with
            | (w, .error e) =>
              (w, some (Err.wrap ("data object " ++ t.Name ++
                ": Failed to get module by name") e))
            | (w, .ok m) =>
              runUpdates env.cfg (objectUpdatesSecond env summary t d ds m ++
                objectRowUpdate t ds ++ objectUpdatesLast d ds) w).1.cat.dataSources =
            w1.cat.dataSources := by
        intro w1
        have hw := ModuleByName_world t.Module w1
        rcases hM : ModuleByName t.Module w1 with ⟨w2, e | m⟩
        · rw [hM] at hw
          simp only [] at hw ⊢
          exact ⟨fun m => by simp, by rw [hw], by rw [hw]⟩
        · rw [hM] at hw
          simp only [] at hw ⊢
          have hso : SchemaOnly (objectUpdatesSecond env summary t d ds m ++
              objectRowUpdate t ds ++ objectUpdatesLast d ds) :=
            schemaOnly_append _ _ (schemaOnly_append _ _
              (objectUpdatesSecond_schemaOnly _ _ _ _ _ _) (schemaOnly_type _ _ _ _ _))
              (objectUpdatesLast_schemaOnly _ _)
          refine ⟨runUpdates_noPanic _ _ _, ?_, ?_⟩
          · rw [runUpdates_modules _ _ _ (fun u hu => (hso u hu).1), hw]
          · rw [runUpdates_dataSources _ _ _ (fun u hu => (hso u hu).2), hw]
      have hfirst := objectUpdatesFirst_schemaOnly t d ds
      refine ⟨andThen_noPanic _ _ (runUpdates_noPanic _ _ _) (fun s => (hsecond s).1), ?_, ?_⟩
      · refine andThen_either (fun s : World => s.cat.modules = w.cat.modules) _ _ (fun _ => ?_)
          (fun _ => ?_)
        · exact runUpdates_modules _ _ _ (fun u hu => (hfirst u hu).1)
        · exact ((hsecond _).2.1).trans
            (runUpdates_modules _ _ _ (fun u hu => (hfirst u hu).1))
      · refine andThen_either (fun s : World => s.cat.dataSources = w.cat.dataSources) _ _ (fun _ => ?_)
          (fun _ => ?_)
        · exact runUpdates_dataSources _ _ _ (fun u hu => (hfirst u hu).2)
        · exact ((hsecond _).2.2).trans
            (runUpdates_dataSources _ _ _ (fun u hu => (hfirst u hu).2))

theorem query_world {α : Type} (read : Catalog → α) (w : World) :
    (query read w).1 = { w with faults := w.faults.tail } := by
  unfold query World.pop
  rcases w with ⟨c, _ | ⟨_ | e, fs⟩, l⟩ <;> rfl

theorem ModuleByTypeName_world (env : Summarizer) (name : String) (w : World) :
    (ModuleByTypeName env name w).1.cat = w.cat := by
  unfold ModuleByTypeName
  split
  · rename_i heq
    exact (congrArg (fun r => r.1.cat) heq).symm.trans (query_effect _ w).1
  · rename_i heq
    have hw := (congrArg (fun r => r.1.cat) heq).symm.trans (query_effect _ w).1
    split <;> exact hw

theorem moduleForSummary_world (name : String) (w : World) :
    (moduleForSummary name w).1.cat = w.cat := by
  unfold moduleForSummary
  split
  all_goals
    rename_i heq
    exact (congrArg (fun r => r.1.cat) heq).symm.trans (query_effect _ w).1

theorem dataSourcesByNames_world (w : World) : (dataSourcesByNames w).1.cat = w.cat := by
  unfold dataSourcesByNames
  split
  all_goals
    rename_i heq
    exact (congrArg (fun r => r.1.cat) heq).symm.trans (query_effect _ w).1

theorem dataSourceForSummary_world (env : Summarizer) (name : String) (w : World) :
    (dataSourceForSummary env name w).1.cat = w.cat := by
  unfold dataSourceForSummary
  split
  · rename_i heq
    exact (congrArg (fun r => r.1.cat) heq).symm.trans (query_effect _ w).1
  · rename_i heq
    exact (congrArg (fun r => r.1.cat) heq).symm.trans (query_effect _ w).1
  · rename_i heq
    have hw := (congrArg (fun r => r.1.cat) heq).symm.trans (query_effect _ w).1
    split
    · exact hw
    · split
      · split <;> exact hw
      · exact hw

/-- `SummarizeFunction` does not panic and leaves the modules and data sources
tables as they are. -/
theorem SummarizeFunction_frame (env : Summarizer) (o : Outcomes) (summary : MetaSummary)
    (f : FieldRow) (ctx : Bool) (w : World) :
    NoPanic (SummarizeFunction env o summary f ctx w) ∧
    (SummarizeFunction env o summary f ctx w).1.cat.modules = w.cat.modules ∧
    (SummarizeFunction env o summary f ctx w).1.cat.dataSources = w.cat.dataSources := by
  unfold SummarizeFunction
  have hw : (if ctx = true then ModuleByTypeName env f.TypeName w
      else (w, Except.error (Err.wrap "failed to get module by type name" ctxCanceled))).1.cat =
      w.cat := by
    split
    · exact ModuleByTypeName_world env f.TypeName w
    · rfl
  rcases hM : (if ctx = true then ModuleByTypeName env f.TypeName w
      else (w, Except.error (Err.wrap "failed to get module by type name" ctxCanceled)))
    with ⟨w1, e | m⟩
  · rw [hM] at hw
    simp only [] at hw ⊢
    exact ⟨fun m => by simp, by rw [hw], by rw [hw]⟩
  · rw [hM] at hw
    simp only [] at hw ⊢
    split
    · exact ⟨fun m => by simp, by rw [hw], by rw [hw]⟩
    · split
      · exact ⟨fun m => by simp, by rw [hw], by rw [hw]⟩
      · have hso := functionUpdates_schemaOnly f ‹FunctionInfo› ‹FunctionSummary›
          (if m.Name ≠ "" then m.Name ++ "." ++ f.Name else f.Name)
        refine ⟨runUpdates_noPanic _ _ _, ?_, ?_⟩
        · rw [runUpdates_modules _ _ _ (fun u hu => (hso u hu).1), hw]
        · rw [runUpdates_dataSources _ _ _ (fun u hu => (hso u hu).2), hw]

/-- `SummarizeDataSource` does not panic and leaves the modules table as it
is. -/
theorem SummarizeDataSource_frame (env : Summarizer) (o : Outcomes) (name : String)
    (ctx : Bool) (w : World) :
    NoPanic (SummarizeDataSource env o name ctx w) ∧
    (SummarizeDataSource env o name ctx w).1.cat.modules = w.cat.modules := by
  unfold SummarizeDataSource
  have hw : (if ctx = true then dataSourceForSummary env name w
      else (w, Except.error (Err.wrap "failed to query data source" ctxCanceled))).1.cat =
      w.cat := by
    split
    · exact dataSourceForSummary_world env name w
    · rfl
  rcases hM : (if ctx = true then dataSourceForSummary env name w
      else (w, Except.error (Err.wrap "failed to query data source" ctxCanceled)))
    with ⟨w1, e | _ | _⟩
  · rw [hM] at hw
    simp only [] at hw ⊢
    exact ⟨fun m => by simp, by rw [hw]⟩
  · rw [hM] at hw
    simp only [] at hw ⊢
    exact ⟨fun m => by simp, by rw [hw]⟩
  · rw [hM] at hw
    simp only [] at hw ⊢
    split
    · exact ⟨fun m => by simp, by rw [hw]⟩
    · refine ⟨runUpdates_noPanic _ _ _, ?_⟩
      rw [runUpdates_modules _ _ _ (fun u hu => by
        rw [List.mem_singleton] at hu
        subst hu
        rfl), hw]

/-- `SummarizeModule` does not panic. -/
theorem SummarizeModule_noPanic (env : Summarizer) (o : Outcomes) (name : String)
    (ctx : Bool) (w : World) : NoPanic (SummarizeModule env o name ctx w) := by
  unfold SummarizeModule
  split
  · exact fun m => by simp
  · exact fun m => by simp
  · refine andThen_noPanic _ _ (wrapErr_noPanic _ _) (fun w1 => ?_)
    split
    · exact fun m => by simp
    · refine andThen_noPanic _ _ (runUpdates_noPanic _ _ _) (fun w2 => ?_)
      refine andThen_noPanic _ _ ?_ (fun w3 => runUpdates_noPanic _ _ _)
      split
      · split
        · exact fun m => by simp
        · exact runUpdates_noPanic _ _ _
      · exact fun m => by simp

/-- The closure of a task that does not panic returns nil, and the store it
leaves is the one the task leaves, with the transport outcomes of `Summarize`
untouched. -/
theorem logged_withFaults (fs : List (Option Err)) (task : World → World × Option Err)
    (w : World) (h : NoPanic (task { w with faults := fs })) :
    (logged (withFaults fs task) w).2 = none ∧
    (logged (withFaults fs task) w).1.cat = (task { w with faults := fs }).1.cat ∧
    (logged (withFaults fs task) w).1.faults = w.faults := by
  unfold logged withFaults
  rcases hr : task { w with faults := fs } with ⟨w1, _ | e⟩
  · exact ⟨rfl, rfl, rfl⟩
  · rw [hr] at h
    cases e with
    | panic m => exact absurd rfl (h m)
    | _ => exact ⟨rfl, rfl, rfl⟩

theorem Go_ok (t : Target) (f : Bool → World → World × Option Err) (s : SumState)
    (hg : s.group = {}) (hf : (f true s.world).2 = none) :
    s.Go t f = ({ s with world := (f true s.world).1, ran := s.ran ++ [(t, true)] }, none) := by
  unfold SumState.Go
  rw [hg]
  simp only [Bool.not_false]
  rcases hr : f true s.world with ⟨w1, _ | e⟩
  · rfl
  · rw [hr] at hf
    cases hf

/-- A dispatch loop whose closures all return nil: no task is skipped, every
task runs under the live context, the group keeps no error, and a property of
the store that every task keeps holds at the end. -/
theorem dispatch_all {α : Type} (target : α → Target)
    (f : α → Bool → World → World × Option Err) (P : World → Prop) (xs : List α)
    (hf : ∀ x ∈ xs, ∀ w, P w → (f x true w).2 = none ∧ P (f x true w).1)
    (s : SumState) (hg : s.group = {}) (hP : P s.world) :
    (forEachE (fun x s => s.Go (target x) (f x)) xs s).2 = none ∧
    (forEachE (fun x s => s.Go (target x) (f x)) xs s).1.group = {} ∧
    (forEachE (fun x s => s.Go (target x) (f x)) xs s).1.ran =
      s.ran ++ xs.map (fun x => (target x, true)) ∧
    (forEachE (fun x s => s.Go (target x) (f x)) xs s).1.selected = s.selected ∧
    P (forEachE (fun x s => s.Go (target x) (f x)) xs s).1.world := by
  induction xs generalizing s with
  | nil => exact ⟨rfl, hg, by simp [forEachE], rfl, hP⟩
  | cons x xs ih =>
    have hx := hf x (List.mem_cons_self _ _) s.world hP
    have hgo := Go_ok (target x) (f x) s hg hx.1
    simp only [forEachE, hgo]
    have := ih (fun y hy => hf y (List.mem_cons_of_mem _ hy))
      { s with world := (f x true s.world).1, ran := s.ran ++ [(target x, true)] } hg hx.2
    refine ⟨this.1, this.2.1, ?_, this.2.2.2.1, this.2.2.2.2⟩
    rw [this.2.2.1]
    simp

theorem fetchSummary_state (env : Summarizer) (w : World) :
    (fetchSummary env w).1 = { w with faults := w.faults.tail } := by
  unfold fetchSummary
  split
  all_goals
    rename_i heq
    exact (congrArg (fun r => r.1) heq).symm.trans (query_world _ w)

theorem DataObjectTypesForSummary_state (env : Summarizer) (w : World) :
    (DataObjectTypesForSummary env w).1 = { w with faults := w.faults.tail } := by
  unfold DataObjectTypesForSummary
  split
  · rename_i heq
    exact (congrArg (fun r => r.1) heq).symm.trans (query_world _ w)
  · rename_i heq
    have hw := (congrArg (fun r => r.1) heq).symm.trans (query_world _ w)
    split
    · split <;> exact hw
    · exact hw

theorem FunctionFieldsForSummary_state (env : Summarizer) (w : World) :
    (FunctionFieldsForSummary env true w).1 = { w with faults := w.faults.tail } := by
  unfold FunctionFieldsForSummary
  simp only [Bool.not_true, Bool.false_eq_true, if_false]
  split
  · rename_i heq
    exact (congrArg (fun r => r.1) heq).symm.trans (query_world _ w)
  · rename_i heq
    have hw := (congrArg (fun r => r.1) heq).symm.trans (query_world _ w)
    split
    · split <;> exact hw
    · exact hw

theorem dataSourcesForSummary_state (env : Summarizer) (w : World) :
    (dataSourcesForSummary env w).1 = { w with faults := w.faults.tail } := by
  unfold dataSourcesForSummary
  split
  · rename_i heq
    exact (congrArg (fun r => r.1) heq).symm.trans (query_world _ w)
  · rename_i heq
    have hw := (congrArg (fun r => r.1) heq).symm.trans (query_world _ w)
    split
    · exact hw
    · split <;> exact hw

theorem modulesForSummary_state (env : Summarizer) (w : World) :
    (modulesForSummary env w).1 = { w with faults := w.faults.tail } := by
  unfold modulesForSummary
  split
  · rename_i heq
    exact (congrArg (fun r => r.1) heq).symm.trans (query_world _ w)
  · rename_i heq
    have hw := (congrArg (fun r => r.1) heq).symm.trans (query_world _ w)
    split
    · split <;> exact hw
    · split <;> exact hw

theorem dataSourcesForSummary_congr (env : Summarizer) (w w' : World)
    (hf : w.faults = w'.faults) (hd : w.cat.dataSources = w'.cat.dataSources) :
    (dataSourcesForSummary env w).2 = (dataSourcesForSummary env w').2 := by
  rcases w with ⟨c, fs, l⟩
  rcases w' with ⟨c', fs', l'⟩
  simp only [] at hf hd
  subst hf
  rcases fs with _ | ⟨_ | e, fs⟩ <;> simp only [dataSourcesForSummary, query, World.pop, hd]
  all_goals
    split
    · rfl
    · split <;> rfl

theorem modulesForSummary_congr (env : Summarizer) (w w' : World)
    (hf : w.faults = w'.faults) (hd : w.cat.modules = w'.cat.modules) :
    (modulesForSummary env w).2 = (modulesForSummary env w').2 := by
  rcases w with ⟨c, fs, l⟩
  rcases w' with ⟨c', fs', l'⟩
  simp only [] at hf hd
  subst hf
  rcases fs with _ | ⟨_ | e, fs⟩ <;>
    simp only [modulesForSummary, query, World.pop, modulesAwaiting, hd]
  all_goals
    split
    · split <;> rfl
    · split <;> rfl

theorem DataObjectTypesForSummary_mem (env : Summarizer) (w : World) (objects : List TypeRow)
    (h : (DataObjectTypesForSummary env w).2 = .ok objects) :
    ∀ t ∈ objects, t ∈ w.cat.types ∧
      ((decide (t.HugrType = env.sk.HugrTypeTable) || decide (t.HugrType = env.sk.HugrTypeView))
        && !t.IsSummarized) = true := by
  rcases w with ⟨c, fs, l⟩
  rcases fs with _ | ⟨_ | e, fs⟩ <;>
    simp only [DataObjectTypesForSummary, query, World.pop, scanRows] at h
  · split_ifs at h with h1
    · simp only [Err.isNoData, if_true, Except.ok.injEq] at h
      subst h
      exact fun t ht => absurd ht (List.not_mem_nil _)
    · simp only [Except.ok.injEq] at h
      subst h
      intro t ht
      exact List.mem_filter.1 ht
  · split_ifs at h with h1
    · simp only [Err.isNoData, if_true, Except.ok.injEq] at h
      subst h
      exact fun t ht => absurd ht (List.not_mem_nil _)
    · simp only [Except.ok.injEq] at h
      subst h
      intro t ht
      exact List.mem_filter.1 ht
  · cases h

theorem Wait_ok (msg : String) (s : SumState) (hg : s.group = {}) : s.Wait msg = (s, none) := by
  unfold SumState.Wait
  rw [hg]

theorem filter_other_objects (objects : List TypeRow) :
    (objects.map (fun t => Target.dataObject t.Name)).filter (fun t => !t.isFunction) =
      objects.map (fun t => Target.dataObject t.Name) := by
  induction objects with
  | nil => rfl
  | cons t ts ih => simp [Target.isFunction, ih]

theorem filter_other_functions (fs : List FieldRow) :
    (fs.map (fun f => Target.function f.TypeName f.Name)).filter (fun t => !t.isFunction) =
      [] := by
  induction fs with
  | nil => rfl
  | cons t ts ih => simp [Target.isFunction, ih]

theorem filter_other_dataSources (ns : List String) :
    (ns.map Target.dataSource).filter (fun t => !t.isFunction) = ns.map Target.dataSource := by
  induction ns with
  | nil => rfl
  | cons t ts ih => simp [Target.isFunction, ih]

theorem filter_other_modules (ns : List String) :
    (ns.map Target.module).filter (fun t => !t.isFunction) = ns.map Target.module := by
  induction ns with
  | nil => rfl
  | cons t ts ih => simp [Target.isFunction, ih]

/-- The step of the functions of a phase whose group holds no error: every
selected function has its task run, the wait returns nil, and the modules and
data sources tables and the targets other than functions are as before. -/
theorem summarizeFunctions_spec (env : Summarizer) (o : Outcomes) (summary : MetaSummary)
    (s : SumState) (hg : s.group = {}) (hran : AllRan s) :
    (summarizeFunctions env o summary s).2 = none ∧
    (summarizeFunctions env o summary s).1.world.faults = s.world.faults.tail ∧
    (summarizeFunctions env o summary s).1.world.cat.modules = s.world.cat.modules ∧
    (summarizeFunctions env o summary s).1.world.cat.dataSources = s.world.cat.dataSources ∧
    AllRan (summarizeFunctions env o summary s).1 ∧
    (summarizeFunctions env o summary s).1.selectedOther = s.selectedOther := by
  have hc : (!s.group.canceled) = true := by rw [hg]; rfl
  have hw := FunctionFieldsForSummary_state env s.world
  unfold summarizeFunctions
  rw [hc]
  obtain ⟨h1e, h1g, h1r, h1s, h1P⟩ := dispatch_all
    (fun f : FieldRow => Target.function f.TypeName f.Name)
    (fun f ctx => logged (withFaults (o.faults (.function f.TypeName f.Name))
      (SummarizeFunction env o summary f ctx)))
    (fun w => w.faults = s.world.faults.tail ∧ w.cat.modules = s.world.cat.modules ∧
      w.cat.dataSources = s.world.cat.dataSources)
    (orNil (FunctionFieldsForSummary env true s.world).2)
    (fun f _ w hP => by
      have hfr := SummarizeFunction_frame env o summary f true
        { w with faults := o.faults (.function f.TypeName f.Name) }
      have hl := logged_withFaults (o.faults (.function f.TypeName f.Name))
        (SummarizeFunction env o summary f true) w hfr.1
      refine ⟨hl.1, ?_, ?_, ?_⟩
      · rw [hl.2.2]; exact hP.1
      · rw [hl.2.1, hfr.2.1]; exact hP.2.1
      · rw [hl.2.1, hfr.2.2]; exact hP.2.2)
    { s with
      world := (FunctionFieldsForSummary env true s.world).1,
      selected := s.selected ++
        (orNil (FunctionFieldsForSummary env true s.world).2).map
          (fun f => Target.function f.TypeName f.Name) }
    hg (by rw [hw]; exact ⟨rfl, rfl, rfl⟩)
  rw [andThen_of_ok _ _ h1e, Wait_ok _ _ h1g]
  refine ⟨rfl, h1P.1, h1P.2.1, h1P.2.2, ?_, ?_⟩
  · unfold AllRan at hran ⊢
    simp only [] at h1r h1s ⊢
    rw [h1r, h1s, hran]
    simp [List.map_append]
  · unfold SumState.selectedOther
    simp only [] at h1s ⊢
    rw [h1s, List.filter_append, filter_other_functions, List.append_nil]

/-- The phase of the data objects and functions, when every selected object is
described by the meta summary. -/
theorem summarizeObjectsAndFunctions_spec (env : Summarizer) (o : Outcomes)
    (summary : MetaSummary) (objects : List TypeRow) (s : SumState)
    (hdesc : ∀ t ∈ objects, dataObjectOf env.sk summary t ≠ none) (hran : AllRan s) :
    (summarizeObjectsAndFunctions env o summary objects s).2 = none ∧
    (summarizeObjectsAndFunctions env o summary objects s).1.world.faults =
      s.world.faults.tail ∧
    (summarizeObjectsAndFunctions env o summary objects s).1.world.cat.modules =
      s.world.cat.modules ∧
    (summarizeObjectsAndFunctions env o summary objects s).1.world.cat.dataSources =
      s.world.cat.dataSources ∧
    AllRan (summarizeObjectsAndFunctions env o summary objects s).1 ∧
    (summarizeObjectsAndFunctions env o summary objects s).1.selectedOther =
      s.selectedOther ++ objects.map (fun t => Target.dataObject t.Name) := by
  unfold summarizeObjectsAndFunctions
  obtain ⟨h1e, h1g, h1r, h1s, h1P⟩ := dispatch_all
    (fun t : TypeRow => Target.dataObject t.Name)
    (fun t ctx => logged (withFaults (o.faults (.dataObject t.Name))
      (SummarizeDataObject env o summary t ctx)))
    (fun w => w.faults = s.world.faults ∧ w.cat.modules = s.world.cat.modules ∧
      w.cat.dataSources = s.world.cat.dataSources)
    objects
    (fun t ht w hP => by
      have hfr := SummarizeDataObject_frame env o summary t true
        { w with faults := o.faults (.dataObject t.Name) } (hdesc t ht)
      have hl := logged_withFaults (o.faults (.dataObject t.Name))
        (SummarizeDataObject env o summary t true) w hfr.1
      refine ⟨hl.1, ?_, ?_, ?_⟩
      · rw [hl.2.2]; exact hP.1
      · rw [hl.2.1, hfr.2.1]; exact hP.2.1
      · rw [hl.2.1, hfr.2.2]; exact hP.2.2)
    { s with group := {},
             selected := s.selected ++ objects.map (fun t => Target.dataObject t.Name) }
    rfl ⟨rfl, rfl, rfl⟩
  rw [andThen_of_ok _ _ h1e]
  have hran1 : AllRan (forEachE (fun (t : TypeRow) (s : SumState) =>
      s.Go (.dataObject t.Name) (fun ctx =>
        logged (withFaults (o.faults (.dataObject t.Name))
          (SummarizeDataObject env o summary t ctx)))) objects
      { s with group := {},
               selected := s.selected ++ objects.map (fun t => Target.dataObject t.Name) }).1 := by
    unfold AllRan at hran ⊢
    simp only [] at h1r h1s
    rw [h1r, h1s, hran]
    simp [List.map_append]
  obtain ⟨h2e, h2f, h2m, h2d, h2r, h2s⟩ := summarizeFunctions_spec env o summary _ h1g hran1
  refine ⟨h2e, ?_, ?_, ?_, h2r, ?_⟩
  · rw [h2f, h1P.1]
  · rw [h2m, h1P.2.1]
  · rw [h2d, h1P.2.2]
  · rw [h2s]
    unfold SumState.selectedOther
    simp only [] at h1s
    rw [h1s, List.filter_append, filter_other_objects]

/-- The dispatch of the data source tasks by a group that holds no error. -/
theorem dispatchDataSources_spec (env : Summarizer) (o : Outcomes) (dataSources : List String)
    (s : SumState) (hg : s.group = {}) (hran : AllRan s) :
    (dispatchDataSources env o dataSources s).2 = none ∧
    (dispatchDataSources env o dataSources s).1.world.faults = s.world.faults ∧
    (dispatchDataSources env o dataSources s).1.world.cat.modules = s.world.cat.modules ∧
    AllRan (dispatchDataSources env o dataSources s).1 ∧
    (dispatchDataSources env o dataSources s).1.selectedOther =
      s.selectedOther ++ dataSources.map Target.dataSource := by
  unfold dispatchDataSources
  obtain ⟨h1e, h1g, h1r, h1s, h1P⟩ := dispatch_all Target.dataSource
    (fun n ctx => logged (withFaults (o.faults (.dataSource n))
      (SummarizeDataSource env o n ctx)))
    (fun w => w.faults = s.world.faults ∧ w.cat.modules = s.world.cat.modules)
    dataSources
    (fun n _ w hP => by
      have hfr := SummarizeDataSource_frame env o n true
        { w with faults := o.faults (.dataSource n) }
      have hl := logged_withFaults (o.faults (.dataSource n))
        (SummarizeDataSource env o n true) w hfr.1
      refine ⟨hl.1, ?_, ?_⟩
      · rw [hl.2.2]; exact hP.1
      · rw [hl.2.1, hfr.2]; exact hP.2)
    { s with selected := s.selected ++ dataSources.map Target.dataSource }
    hg ⟨rfl, rfl⟩
  rw [andThen_of_ok _ _ h1e, Wait_ok _ _ h1g]
  refine ⟨rfl, h1P.1, h1P.2, ?_, ?_⟩
  · unfold AllRan at hran ⊢
    simp only [] at h1r h1s ⊢
    rw [h1r, h1s, hran]
    simp [List.map_append]
  · unfold SumState.selectedOther
    simp only [] at h1s ⊢
    rw [h1s, List.filter_append, filter_other_dataSources]

/-- The dispatch of the module tasks by a group that holds no error. -/
theorem dispatchModules_spec (env : Summarizer) (o : Outcomes) (modules : List String)
    (s : SumState) (hg : s.group = {}) (hran : AllRan s) :
    (dispatchModules env o modules s).2 = none ∧
    AllRan (dispatchModules env o modules s).1 ∧
    (dispatchModules env o modules s).1.selectedOther =
      s.selectedOther ++ modules.map Target.module := by
  unfold dispatchModules
  obtain ⟨h1e, h1g, h1r, h1s, -⟩ := dispatch_all Target.module
    (fun n ctx => logged (withFaults (o.faults (.module n)) (SummarizeModule env o n ctx)))
    (fun _ => True)
    modules
    (fun n _ w _ => by
      have hl := logged_withFaults (o.faults (.module n)) (SummarizeModule env o n true) w
        (SummarizeModule_noPanic env o n true _)
      exact ⟨hl.1, trivial⟩)
    { s with selected := s.selected ++ modules.map Target.module }
    hg trivial
  rw [andThen_of_ok _ _ h1e]
  refine ⟨?_, ?_, ?_⟩
  · simp only []
    rw [h1g]
  · unfold AllRan at hran ⊢
    simp only [] at h1r h1s ⊢
    rw [h1r, h1s, hran]
    simp [List.map_append]
  · unfold SumState.selectedOther
    simp only [] at h1s ⊢
    rw [h1s, List.filter_append, filter_other_modules]

/-- The phase of the data sources: its error is the error of the selection
when that is not `ErrNoData`, and nil otherwise. -/
theorem summarizeDataSources_spec (env : Summarizer) (o : Outcomes) (s : SumState)
    (hran : AllRan s) :
    (summarizeDataSources env o s).2 =
      (match (dataSourcesForSummary env s.world).2 with
       | .error e =>
         if !e.isNoData then some (Err.wrap "failed to summarize data sources" e) else none
       | .ok _ => none) ∧
    (summarizeDataSources env o s).1.world.faults = s.world.faults.tail ∧
    (summarizeDataSources env o s).1.world.cat.modules = s.world.cat.modules ∧
    AllRan (summarizeDataSources env o s).1 ∧
    (summarizeDataSources env o s).1.selectedOther =
      s.selectedOther ++ (orNil (dataSourcesForSummary env s.world).2).map Target.dataSource := by
  have hst := dataSourcesForSummary_state env s.world
  unfold summarizeDataSources
  rcases hsel : dataSourcesForSummary env s.world with ⟨w1, e | dss⟩
  · rw [hsel] at hst
    simp only [] at hst ⊢
    subst hst
    by_cases hnd : e.isNoData = true
    · simp only [hnd, Bool.not_true, Bool.false_eq_true, if_false]
      obtain ⟨h1, h2, h3, h4, h5⟩ := dispatchDataSources_spec env o []
        { s with world := { s.world with faults := s.world.faults.tail }, group := {} } rfl hran
      exact ⟨h1, h2, h3, h4, h5⟩
    · have hnd' : e.isNoData = false := by
        rcases h : e.isNoData with _ | _
        · rfl
        · exact absurd h hnd
      simp only [hnd', Bool.not_false, if_true]
      refine ⟨?_, ?_, ?_, ?_, ?_⟩
      · trivial
      · trivial
      · trivial
      · exact hran
      · simp [SumState.selectedOther, orNil]
  · rw [hsel] at hst
    simp only [] at hst ⊢
    subst hst
    obtain ⟨h1, h2, h3, h4, h5⟩ := dispatchDataSources_spec env o dss
      { s with world := { s.world with faults := s.world.faults.tail }, group := {} } rfl hran
    exact ⟨h1, h2, h3, h4, h5⟩

/-- The phase of the modules: its error is the error of the selection when
that is not `ErrNoData`, and nil otherwise. -/
theorem summarizeModules_spec (env : Summarizer) (o : Outcomes) (s : SumState)
    (hran : AllRan s) :
    (summarizeModules env o s).2 =
      (match (modulesForSummary env s.world).2 with
       | .error e =>
         if e.isNoData then none else some (Err.wrap "failed to summarize modules" e)
       | .ok _ => none) ∧
    AllRan (summarizeModules env o s).1 ∧
    (summarizeModules env o s).1.selectedOther =
      s.selectedOther ++ (orNil (modulesForSummary env s.world).2).map Target.module := by
  unfold summarizeModules
  rcases hsel : modulesForSummary env s.world with ⟨w1, e | ms⟩
  · simp only []
    split_ifs with hnd
    · exact ⟨rfl, hran, by simp [SumState.selectedOther, orNil]⟩
    · exact ⟨rfl, hran, by simp [SumState.selectedOther, orNil]⟩
  · simp only []
    obtain ⟨h1, h2, h3⟩ := dispatchModules_spec env o ms
      { s with world := w1, group := {} } rfl hran
    exact ⟨h1, h2, h3⟩

/-- C18: for every two assignments of outcomes to the tasks (transport
outcomes of their round trips and results of the summary service), on a store
whose data objects awaiting summarization are all described by the meta
summary: `Summarize` returns the same error under both; every selected target
had its task run, under a context that was not canceled; and the targets
selected in the three phases (functions apart, whose selection reads rows that
the object tasks write) are the same under both, so that a failing task stops
no later phase. -/
theorem failure_isolation (env : Summarizer) (o1 o2 : Outcomes) (w : World)
    (hdesc : objectsDescribed env w.cat) :
    (Summarize env o1 w).2 = (Summarize env o2 w).2 ∧
    AllRan (Summarize env o1 w).1 ∧
    (Summarize env o1 w).1.selectedOther = (Summarize env o2 w).1.selectedOther := by
  have hF := fetchSummary_state env w
  have hFq : ∀ r, (fetchSummary env w).2 = .ok r → env.summary = .ok r := by
    intro r hr
    unfold fetchSummary at hr
    have hq := (query_effect (fun _ : Catalog => env.summary) w).2.2
    rcases hqq : query (fun _ : Catalog => env.summary) w with ⟨w', e | r'⟩
    · rw [hqq] at hr; cases hr
    · rw [hqq] at hr hq
      simp only [] at hr
      rw [← hr]
      exact (hq r' rfl).symm
  unfold Summarize
  rcases hfs : fetchSummary env w with ⟨w1, e | summary⟩
  · exact ⟨rfl, rfl, rfl⟩
  · rw [hfs] at hF hFq
    simp only [] at hF hFq ⊢
    have hO := DataObjectTypesForSummary_state env w1
    have hOm := DataObjectTypesForSummary_mem env w1
    rcases hos : DataObjectTypesForSummary env w1 with ⟨w2, e | objects⟩
    · exact ⟨rfl, rfl, rfl⟩
    · rw [hos] at hO hOm
      simp only [] at hO hOm ⊢
      have hd : ∀ t ∈ objects, dataObjectOf env.sk summary t ≠ none := by
        intro t ht
        have := hOm objects rfl t ht
        rw [hF] at this
        have hds := hdesc t this.1 this.2
        unfold described at hds
        rw [hFq summary rfl] at hds
        simp only [] at hds
        intro hnone
        rw [hnone] at hds
        simp at hds
      obtain ⟨a1, a2, a3, a4, a5, a6⟩ := summarizeObjectsAndFunctions_spec env o1 summary objects
        { world := w2 } hd rfl
      obtain ⟨b1, b2, b3, b4, b5, b6⟩ := summarizeObjectsAndFunctions_spec env o2 summary objects
        { world := w2 } hd rfl
      rw [andThen_of_ok _ _ a1, andThen_of_ok _ _ b1]
      obtain ⟨c1, c2, c3, c4, c5⟩ := summarizeDataSources_spec env o1 _ a5
      obtain ⟨d1, d2, d3, d4, d5⟩ := summarizeDataSources_spec env o2 _ b5
      have hsel := dataSourcesForSummary_congr env
        (summarizeObjectsAndFunctions env o1 summary objects { world := w2 }).1.world
        (summarizeObjectsAndFunctions env o2 summary objects { world := w2 }).1.world
        (by rw [a2, b2]) (by rw [a4, b4])
      rw [hsel] at c1 c5
      rcases hq : (summarizeDataSources env o2
          (summarizeObjectsAndFunctions env o2 summary objects { world := w2 }).1).2 with _ | e
      · have hq1 : (summarizeDataSources env o1
            (summarizeObjectsAndFunctions env o1 summary objects { world := w2 }).1).2 = none := by
          rw [c1, ← d1, hq]
        rw [andThen_of_ok _ _ hq1, andThen_of_ok _ _ hq]
        obtain ⟨e1, e2, e3⟩ := summarizeModules_spec env o1 _ c4
        obtain ⟨f1, f2, f3⟩ := summarizeModules_spec env o2 _ d4
        have hsel2 := modulesForSummary_congr env
          (summarizeDataSources env o1
            (summarizeObjectsAndFunctions env o1 summary objects { world := w2 }).1).1.world
          (summarizeDataSources env o2
            (summarizeObjectsAndFunctions env o2 summary objects { world := w2 }).1).1.world
          (by rw [c2, d2, a2, b2]) (by rw [c3, d3, a3, b3])
        rw [hsel2] at e1 e3
        refine ⟨by rw [e1, f1], e2, ?_⟩
        rw [e3, f3, c5, d5, a6, b6]
      · have hq1 : (summarizeDataSources env o1
            (summarizeObjectsAndFunctions env o1 summary objects { world := w2 }).1).2 =
            some e := by
          rw [c1, ← d1, hq]
        rw [andThen_of_err _ _ e hq1, andThen_of_err _ _ e hq]
        refine ⟨by rw [hq1, hq], c4, ?_⟩
        rw [c5, d5, a6, b6]

theorem failure_isolation_witness :
    objectsDescribed (summarizerC true) catalogC18 ∧
    (Summarize (summarizerC true) outcomesFail { cat := catalogC18 }).2 =
      (Summarize (summarizerC true) outcomesOk { cat := catalogC18 }).2 ∧
    AllRan (Summarize (summarizerC true) outcomesFail { cat := catalogC18 }).1 ∧
    (Summarize (summarizerC true) outcomesFail { cat := catalogC18 }).1.selectedOther =
      (Summarize (summarizerC true) outcomesOk { cat := catalogC18 }).1.selectedOther :=
  ⟨by decide,
   failure_isolation (summarizerC true) outcomesFail outcomesOk { cat := catalogC18 }
    (by decide)⟩

theorem typeName_eq_outermostNamed (t : TypeRefIntro) :
    t.TypeName = outermostNamed t.chainNames := by
  induction t with
  | leaf n k =>
    by_cases h : n = "" <;>
      simp [TypeRefIntro.TypeName, TypeRefIntro.chainNames, outermostNamed, List.find?, h]
  | wrap n k o ih =>
    by_cases h : n = ""
    · simp only [TypeRefIntro.TypeName, TypeRefIntro.chainNames, h, if_true, ih]
      simp [outermostNamed, List.find?]
    · simp [TypeRefIntro.TypeName, TypeRefIntro.chainNames, outermostNamed, List.find?, h]

theorem typeName_ne_empty (t : TypeRefIntro) : t.TypeName ≠ "" := by
  induction t with
  | leaf n k =>
    by_cases h : n = ""
    · simp only [TypeRefIntro.TypeName, h, if_true]; decide
    · simp [TypeRefIntro.TypeName, h]
  | wrap n k o ih =>
    by_cases h : n = ""
    · simpa [TypeRefIntro.TypeName, h] using ih
    · simp [TypeRefIntro.TypeName, h]

/-- C21: for every type reference, nil included, `TypeName` is the name of the
outermost node of the `ofType` chain that has a non-empty name, it is the
sentinel "Unknown" when the reference is nil or every node of the chain is
unnamed, and it is never the empty string. -/
theorem typeName_unwraps (r : Option TypeRefIntro) :
    TypeRefIntro.TypeNamePtr r = outermostNamed (chainOf r) ∧
      ((∀ n ∈ chainOf r, n = "") → TypeRefIntro.TypeNamePtr r = "Unknown") ∧
      TypeRefIntro.TypeNamePtr r ≠ "" := by
  have h1 : TypeRefIntro.TypeNamePtr r = outermostNamed (chainOf r) := by
    cases r with
    | none => rfl
    | some t => exact typeName_eq_outermostNamed t
  refine ⟨h1, ?_, ?_⟩
  · intro hall
    rw [h1]
    have : (chainOf r).find? (fun n => decide (n ≠ "")) = none := by
      rw [List.find?_eq_none]
      intro n hn
      simp [hall n hn]
    unfold outermostNamed
    rw [this]
    rfl
  · cases r with
    | none => simp only [TypeRefIntro.TypeNamePtr]; decide
    | some t => exact typeName_ne_empty t

theorem mutate_ok (entry : Catalog → Write) (op : Catalog → Catalog × Option Err) (w : World)
    (h : (mutate entry op w).2 = none) :
    (mutate entry op w).1.cat = (op w.cat).1 ∧
      (mutate entry op w).1.log = w.log ++ [entry w.cat] := by
  unfold mutate World.pop at h ⊢
  rcases w with ⟨c, _ | ⟨_ | e, fs⟩, l⟩
  · exact ⟨rfl, rfl⟩
  · exact ⟨rfl, rfl⟩
  · cases h

theorem wrapErr_ok {σ : Type} (msg : String) (r : σ × Option Err)
    (h : (wrapErr msg r).2 = none) : r.2 = none := by
  rcases r with ⟨s, _ | e⟩
  · rfl
  · cases h

theorem update_run_ok (cfg : Config) (u : Update) (w : World) (h : (u.run cfg w).2 = none) :
    (u.run cfg w).1.cat = u.effect cfg w.cat ∧
      (u.run cfg w).1.log.map Write.key = w.log.map Write.key ++ [u.key] := by
  cases u with
  | type n d l b =>
    simp only [Update.run, UpdateTypeDescription, wrapErr_fst] at h ⊢
    have := mutate_ok _ _ w (wrapErr_ok _ _ h)
    rw [this.1, this.2]
    exact ⟨rfl, by simp [Write.key, Update.key]⟩
  | field tn fn d b =>
    simp only [Update.run, UpdateFieldDescription, wrapErr_fst] at h ⊢
    have := mutate_ok _ _ w (wrapErr_ok _ _ h)
    rw [this.1, this.2]
    exact ⟨rfl, by simp [Write.key, Update.key]⟩
  | argument tn fn an d =>
    simp only [Update.run, UpdateArgumentDescription, wrapErr_fst] at h ⊢
    have := mutate_ok _ _ w (wrapErr_ok _ _ h)
    rw [this.1, this.2]
    exact ⟨rfl, by simp [Write.key, Update.key]⟩
  | module n d l b =>
    simp only [Update.run, UpdateModuleDescription, wrapErr_fst] at h ⊢
    have := mutate_ok _ _ w (wrapErr_ok _ _ h)
    rw [this.1, this.2]
    exact ⟨rfl, by simp [Write.key, Update.key]⟩
  | dataSource n d l b =>
    simp only [Update.run, UpdateDataSourceDescription, wrapErr_fst] at h ⊢
    have := mutate_ok _ _ w (wrapErr_ok _ _ h)
    rw [this.1, this.2]
    exact ⟨rfl, by simp [Write.key, Update.key]⟩

theorem runUpdates_ok (cfg : Config) (us : List (Update × String)) (w : World)
    (h : (runUpdates cfg us w).2 = none) :
    (runUpdates cfg us w).1.cat = us.foldl (fun c u => u.1.effect cfg c) w.cat ∧
      (runUpdates cfg us w).1.log.map Write.key =
        w.log.map Write.key ++ us.map (fun u => u.1.key) := by
  induction us generalizing w with
  | nil => simp [runUpdates, forEachE]
  | cons u us ih =>
    unfold runUpdates at h ⊢
    rcases hb : wrapErr u.2 (u.1.run cfg w) with ⟨w1, _ | e⟩
    · simp only [forEachE, hb] at h ⊢
      have h1 : (u.1.run cfg w).2 = none := wrapErr_ok u.2 _ (by rw [hb])
      have h2 := update_run_ok cfg u.1 w h1
      have hw1 : (u.1.run cfg w).1 = w1 := by
        have := congrArg Prod.fst hb
        rwa [wrapErr_fst] at this
      rw [hw1] at h2
      have := ih w1 h
      unfold runUpdates at this
      rw [this.1, this.2, h2.1, h2.2]
      simp
    · simp only [forEachE, hb] at h
      cases h
theorem effect_type (cfg : Config) (n d l : String) (b : Bool) (c : Catalog) :
    (Update.effect cfg (.type n d l b) c).fields = c.fields ∧
      (Update.effect cfg (.type n d l b) c).modules = c.modules := ⟨rfl, rfl⟩

theorem effect_field (cfg : Config) (tn fn d : String) (c : Catalog) :
    (Update.effect cfg (.field tn fn d true) c).fields = describeField cfg fn c.fields (tn, d) :=
  rfl

theorem effect_module (cfg : Config) (n d l : String) (b : Bool) (c : Catalog) :
    (Update.effect cfg (.module n d l b) c).fields = c.fields := rfl

theorem foldl_effect_frame {α : Type} (proj : Catalog → α) (cfg : Config)
    (us : List (Update × String)) (c : Catalog)
    (h : ∀ u ∈ us, ∀ c, proj (u.1.effect cfg c) = proj c) :
    proj (us.foldl (fun c u => u.1.effect cfg c) c) = proj c := by
  induction us generalizing c with
  | nil => rfl
  | cons u us ih =>
    simp only [List.foldl_cons]
    rw [ih _ (fun v hv => h v (List.mem_cons_of_mem _ hv)), h u (List.mem_cons_self _ _)]

theorem moduleRootUpdates_types (mm : ModuleRow) (ms : ModuleSummary) :
    ∀ u ∈ moduleRootUpdates mm ms, ∃ n d l b, u.1 = Update.type n d l b := by
  intro u hu
  unfold moduleRootUpdates at hu
  simp only [List.mem_append] at hu
  rcases hu with ((hu | hu) | hu) | hu <;>
    · split at hu
      · simp only [List.mem_singleton] at hu
        subst hu
        exact ⟨_, _, _, _, rfl⟩
      · cases hu

theorem parentFieldUpdates_eq (pn last : String) (parent : ModuleRow) (ms : ModuleSummary) :
    (parentFieldUpdates pn last parent ms).map (fun u => u.1) =
      (rootDescriptions parent ms).map (fun p => Update.field p.1 last p.2 true) := by
  unfold parentFieldUpdates rootDescriptions
  simp only [List.filter_cons, List.filter_nil, Bool.and_eq_true, decide_eq_true_eq]
  split_ifs <;> rfl
theorem moduleForSummary_state (name : String) (w : World) :
    (moduleForSummary name w).1.cat = w.cat ∧ (moduleForSummary name w).1.log = w.log := by
  unfold moduleForSummary
  split
  all_goals
    rename_i heq
    exact ⟨(congrArg (fun r => r.1.cat) heq).symm.trans (query_effect _ w).1,
      (congrArg (fun r => r.1.log) heq).symm.trans (query_effect _ w).2.1⟩

theorem dataSourcesByNames_state (w : World) :
    (dataSourcesByNames w).1.cat = w.cat ∧ (dataSourcesByNames w).1.log = w.log := by
  unfold dataSourcesByNames
  split
  all_goals
    rename_i heq
    exact ⟨(congrArg (fun r => r.1.cat) heq).symm.trans (query_effect _ w).1,
      (congrArg (fun r => r.1.log) heq).symm.trans (query_effect _ w).2.1⟩

theorem ModuleByName_state (name : String) (w : World) :
    (ModuleByName name w).1.cat = w.cat ∧ (ModuleByName name w).1.log = w.log ∧
      ∀ p, (ModuleByName name w).2 = .ok p →
        w.cat.modules.find? (fun m => decide (m.Name = name)) = some p := by
  unfold ModuleByName
  split
  · rename_i heq
    exact ⟨(congrArg (fun r => r.1.cat) heq).symm.trans (query_effect _ w).1,
      (congrArg (fun r => r.1.log) heq).symm.trans (query_effect _ w).2.1,
      fun p hp => by cases hp⟩
  · rename_i heq
    exact ⟨(congrArg (fun r => r.1.cat) heq).symm.trans (query_effect _ w).1,
      (congrArg (fun r => r.1.log) heq).symm.trans (query_effect _ w).2.1,
      fun p hp => by cases hp⟩
  · rename_i w1 m heq
    refine ⟨(congrArg (fun r => r.1.cat) heq).symm.trans (query_effect _ w).1,
      (congrArg (fun r => r.1.log) heq).symm.trans (query_effect _ w).2.1, fun p hp => ?_⟩
    have h1 := (query_effect (fun c => c.modules.find? (fun m => decide (m.Name = name))) w).2.2
      (some m) (by rw [heq])
    cases hp
    exact h1.symm

theorem keys_of_map {α : Type} (l : List α) (f : α → Update) (g : α → Update × String)
    (h : ∀ x, (g x).1 = f x) : (l.map g).map (fun u => u.1.key) = l.map (fun x => (f x).key) := by
  simp [List.map_map, Function.comp_def, h]
theorem foldl_describeField (cfg : Config) (last : String) (ps : List (String × String))
    (c : Catalog) :
    ((ps.map (fun p => Update.field p.1 last p.2 true)).foldl
      (fun c u => Update.effect cfg u c) c).fields =
      ps.foldl (describeField cfg last) c.fields := by
  induction ps generalizing c with
  | nil => rfl
  | cons p ps ih =>
    simp only [List.map_cons, List.foldl_cons]
    rw [ih, effect_field]

theorem foldl_map_fst (cfg : Config) (us : List (Update × String)) (c : Catalog) :
    us.foldl (fun c u => u.1.effect cfg c) c =
      (us.map (fun u => u.1)).foldl (fun c u => Update.effect cfg u c) c := by
  induction us generalizing c with
  | nil => rfl
  | cons u us ih => simp only [List.map_cons, List.foldl_cons]; exact ih _

/-- C28 (amended): for every module whose name has at least two path
segments, a run of `SummarizeModule` that succeeds with the summary `ms` finds
the row of the parent module (the name without its last segment), leaves the
fields table equal to the one obtained by writing, kind by kind, each non-empty
root description of `ms` on the field named by the last segment of the parent
root type of that kind, and issues field updates for exactly these fields: no
field of another type is written. -/
theorem parent_field_propagation (env : Summarizer) (o : Outcomes) (name : String)
    (ms : ModuleSummary) (w : World)
    (hname : 1 < (splitDot name).length) (hms : o.module name = .ok ms)
    (hok : (SummarizeModule env o name true w).2 = none) :
    ∃ parent,
      w.cat.modules.find?
          (fun m => decide (m.Name = ".".intercalate (splitDot name).dropLast)) = some parent ∧
      (SummarizeModule env o name true w).1.cat.fields =
        (rootDescriptions parent ms).foldl
          (describeField env.cfg ((splitDot name).getLastD "")) w.cat.fields ∧
      (addedWrites w (SummarizeModule env o name true w).1).filter
          (fun k => decide (k.1 = Request.update Table.fields)) =
        (rootDescriptions parent ms).map
          (fun p => (Request.update Table.fields, p.1, "", (splitDot name).getLastD "")) := by
  unfold SummarizeModule at hok ⊢
  simp only [if_true] at hok ⊢
  have hM := moduleForSummary_state name w
  rcases hMe : moduleForSummary name w with ⟨w1, e | _ | mm⟩
  · rw [hMe] at hok; cases hok
  · rw [hMe] at hok; cases hok
  rw [hMe] at hok hM
  simp only [hMe] at hok ⊢
  simp only [hms] at hok ⊢
  obtain ⟨hd, hok⟩ := andThen_ok _ _ hok
  rw [andThen_of_ok _ _ hd]
  have hD := dataSourcesByNames_state w1
  generalize hw2 : (wrapErr ("failed to get data sources for module " ++ name)
    (dataSourcesByNames w1)).1 = w2 at hok ⊢
  have h2 : w2.cat = w.cat ∧ w2.log = w.log := by
    rw [← hw2, wrapErr_fst]
    exact ⟨hD.1.trans hM.1, hD.2.trans hM.2⟩
  obtain ⟨hr, hok⟩ := andThen_ok _ _ hok
  rw [andThen_of_ok _ _ hr]
  have hR := runUpdates_ok env.cfg _ w2 hr
  generalize hw3 : (runUpdates env.cfg (moduleRootUpdates mm ms) w2).1 = w3 at hok hR ⊢
  obtain ⟨hp, hok⟩ := andThen_ok _ _ hok
  rw [andThen_of_ok _ _ hp]
  rw [if_pos (show (splitDot name).length > 1 from hname)] at hp hok ⊢
  have hP := ModuleByName_state (".".intercalate (splitDot name).dropLast) w3
  rcases hPe : ModuleByName (".".intercalate (splitDot name).dropLast) w3 with ⟨w4, e | parent⟩
  · rw [hPe] at hp; cases hp
  rw [hPe] at hp hok hP
  simp only [] at hp hok hP
  simp only []
  have hF := runUpdates_ok env.cfg _ w4 hp
  generalize hw5 : (runUpdates env.cfg (parentFieldUpdates
    (".".intercalate (splitDot name).dropLast) ((splitDot name).getLastD "") parent ms) w4).1 = w5
    at hok hF ⊢
  have hL := runUpdates_ok env.cfg _ w5 hok
  generalize hw6 : (runUpdates env.cfg (moduleRowUpdate name ms) w5).1 = w6 at hL ⊢
  have hroot : ∀ u ∈ moduleRootUpdates mm ms, ∀ c : Catalog,
      (u.1.effect env.cfg c).fields = c.fields ∧ (u.1.effect env.cfg c).modules = c.modules := by
    intro u hu c
    obtain ⟨n, d, l, b, hu⟩ := moduleRootUpdates_types mm ms u hu
    rw [hu]
    exact effect_type env.cfg n d l b c
  have hrow : ∀ u ∈ moduleRowUpdate name ms, ∀ c : Catalog,
      (u.1.effect env.cfg c).fields = c.fields := by
    intro u hu c
    unfold moduleRowUpdate at hu
    split at hu
    · simp only [List.mem_singleton] at hu
      subst hu
      rfl
    · cases hu
  refine ⟨parent, ?_, ?_, ?_⟩
  · have := hP.2.2 parent rfl
    rw [hR.1, foldl_effect_frame (fun c => c.modules) env.cfg _ _ (fun u hu c => (hroot u hu c).2),
      h2.1] at this
    exact this
  · rw [hL.1, foldl_effect_frame (fun c => c.fields) env.cfg _ _ hrow, hF.1, foldl_map_fst,
      parentFieldUpdates_eq, foldl_describeField, hP.1, hR.1,
      foldl_effect_frame (fun c => c.fields) env.cfg _ _ (fun u hu c => (hroot u hu c).1), h2.1]
  · have hlog : List.map Write.key w6.log = List.map Write.key w.log ++
        ((moduleRootUpdates mm ms).map (fun u => u.1.key) ++
          ((parentFieldUpdates (".".intercalate (splitDot name).dropLast)
            ((splitDot name).getLastD "") parent ms).map (fun u => u.1.key) ++
           (moduleRowUpdate name ms).map (fun u => u.1.key))) := by
      rw [hL.2, hF.2, hP.2.1, hR.2, h2.2]
      simp only [List.append_assoc]
    have hdrop : addedWrites w w6 =
        (moduleRootUpdates mm ms).map (fun u => u.1.key) ++
          ((parentFieldUpdates (".".intercalate (splitDot name).dropLast)
            ((splitDot name).getLastD "") parent ms).map (fun u => u.1.key) ++
           (moduleRowUpdate name ms).map (fun u => u.1.key)) := by
      unfold addedWrites
      rw [List.map_drop, hlog]
      have hlen : w.log.length = (List.map Write.key w.log).length := by simp
      rw [hlen, List.drop_left]
    have hk1 : ((moduleRootUpdates mm ms).map (fun u => u.1.key)).filter
        (fun k => decide (k.1 = Request.update Table.fields)) = [] := by
      rw [List.filter_eq_nil_iff]
      intro k hk
      simp only [List.mem_map] at hk
      obtain ⟨u, hu, rfl⟩ := hk
      obtain ⟨n, d, l, b, hu⟩ := moduleRootUpdates_types mm ms u hu
      rw [hu]
      simp [Update.key]
    have hk3 : ((moduleRowUpdate name ms).map (fun u => u.1.key)).filter
        (fun k => decide (k.1 = Request.update Table.fields)) = [] := by
      unfold moduleRowUpdate
      split <;> simp [Update.key]
    have hk2 : (parentFieldUpdates (".".intercalate (splitDot name).dropLast)
        ((splitDot name).getLastD "") parent ms).map (fun u => u.1.key) =
        (rootDescriptions parent ms).map
          (fun p => (Request.update Table.fields, p.1, "", (splitDot name).getLastD "")) := by
      have := congrArg (List.map Update.key) (parentFieldUpdates_eq
        (".".intercalate (splitDot name).dropLast) ((splitDot name).getLastD "") parent ms)
      simp only [List.map_map] at this
      exact this
    rw [hdrop, List.filter_append, List.filter_append, hk1, hk3, hk2, List.nil_append,
      List.append_nil, List.filter_eq_self]
    intro k hk
    simp only [List.mem_map] at hk
    obtain ⟨p, -, rfl⟩ := hk
    simp

theorem parent_field_propagation_witness :
    1 < (splitDot "a.b").length ∧
    outcomesC28.module "a.b" = .ok { Short := "s", QueryType := "d" } ∧
    (SummarizeModule (summarizerC true) outcomesC28 "a.b" true { cat := catalogC28 }).2 = none ∧
    ∃ parent,
      catalogC28.modules.find?
          (fun m => decide (m.Name = ".".intercalate (splitDot "a.b").dropLast)) = some parent ∧
      (SummarizeModule (summarizerC true) outcomesC28 "a.b" true
          { cat := catalogC28 }).1.cat.fields =
        (rootDescriptions parent { Short := "s", QueryType := "d" }).foldl
          (describeField (summarizerC true).cfg ((splitDot "a.b").getLastD ""))
          catalogC28.fields ∧
      (addedWrites { cat := catalogC28 }
          (SummarizeModule (summarizerC true) outcomesC28 "a.b" true
            { cat := catalogC28 }).1).filter
          (fun k => decide (k.1 = Request.update Table.fields)) =
        (rootDescriptions parent { Short := "s", QueryType := "d" }).map
          (fun p => (Request.update Table.fields, p.1, "", (splitDot "a.b").getLastD "")) :=
  ⟨by decide, rfl, by decide,
   parent_field_propagation (summarizerC true) outcomesC28 "a.b"
    { Short := "s", QueryType := "d" } { cat := catalogC28 } (by decide) rfl (by decide)⟩

/-- Counterexample to C28 as stated: the top-level module `a` is summarized
with the query root description `d` and the root module has the query root
type `Query` with the field `a`; the task succeeds and writes `d` on the root
type of `a`, but no field is written: the fields table is as before and the
journal holds the update of the type and of the module row only. -/
theorem top_level_module_not_propagated :
    (SummarizeModule (summarizerC true) outcomesC28 "a" true { cat := catalogC28 }).2 = none ∧
    (SummarizeModule (summarizerC true) outcomesC28 "a" true { cat := catalogC28 }).1.cat.types =
      [{ Name := "Query" }, { Name := "a_query", Description := "d", IsSummarized := true },
       { Name := "a_b_query" }] ∧
    (SummarizeModule (summarizerC true) outcomesC28 "a" true { cat := catalogC28 }).1.cat.fields =
      catalogC28.fields ∧
    addedWrites { cat := catalogC28 }
        (SummarizeModule (summarizerC true) outcomesC28 "a" true { cat := catalogC28 }).1 =
      [(.update .types, "", "", "a_query"), (.update .modules, "", "", "a")] := by
  decide

/-- C30: for a type row whose data object is not found in the meta summary (no
table or view under its path, or a role tag that is neither), the claim asks
`SummarizeDataObject` to return without a panic; the code only logs the miss
and hands the nil descriptor on to the summary service, whose input
preparation reads `object.Name`: the outcome is the nil dereference, reached
before any call of the pool and before any write (the world is unchanged). -/
theorem missing_data_object_dereferenced (env : Summarizer) (o : Outcomes)
    (summary : MetaSummary) (t : TypeRow) (ctx : Bool) (w : World)
    (h : dataObjectOf env.sk summary t = none) :
    SummarizeDataObject env o summary t ctx w = (w, some (.panic "nil data object")) := by
  unfold SummarizeDataObject
  rw [h]

theorem missing_data_object_dereferenced_witness :
    dataObjectOf (summarizerC true).sk metaC { Name := "Ghost", HugrType := "table" } = none ∧
    SummarizeDataObject (summarizerC true) outcomesOk metaC
        { Name := "Ghost", HugrType := "table" } true { cat := catalogC18 } =
      ({ cat := catalogC18 }, some (.panic "nil data object")) :=
  ⟨by decide,
   missing_data_object_dereferenced (summarizerC true) outcomesOk metaC
    { Name := "Ghost", HugrType := "table" } true { cat := catalogC18 } (by decide)⟩

theorem topKItems_mem (req : TypeFieldsRequest) (out : List TypeFieldInfo) (f : TypeFieldInfo)
    (hf : f ∈ topKItems req out) : f ∈ out := by
  unfold topKItems at hf
  split at hf
  · split at hf
    · exact List.mem_of_mem_take hf
    · exact hf
  · exact hf

theorem windowItems_mem (req : TypeFieldsRequest) (out : List TypeFieldInfo) (f : TypeFieldInfo)
    (hf : f ∈ windowItems req out) : f ∈ out := by
  unfold windowItems at hf
  split at hf
  · simp only [] at hf
    by_cases h : req.Offset < (out.length : Int)
    · simp only [h, if_true] at hf
      split at hf
      · exact List.mem_of_mem_drop (List.mem_of_mem_take hf)
      · exact List.mem_of_mem_drop hf
    · simp only [h, if_false] at hf
      split at hf
      · simp at hf
      · cases hf
  · exact hf

theorem normalized_score (req : TypeFieldsRequest) :
    req.normalized.RelevanceQuery = req.RelevanceQuery ∧
      req.normalized.MinScore = req.MinScore := by
  unfold TypeFieldsRequest.normalized
  simp only []
  split_ifs <;> exact ⟨rfl, rfl⟩

theorem fieldItems_mem (req : TypeFieldsRequest) (ti : TypeIntro)
    (items : List typeFieldInfoResult) (f : TypeFieldInfo) (hf : f ∈ fieldItems req ti items) :
    ∃ it ∈ items, fieldAccessible ti it = true ∧ scoreSkipped req it = false ∧
      f = fieldItem req it := by
  unfold fieldItems at hf
  simp only [List.mem_map, List.mem_filter, Bool.and_eq_true, Bool.not_eq_true'] at hf
  obtain ⟨it, ⟨hit, hacc, hskip⟩, rfl⟩ := hf
  exact ⟨it, hit, hacc, hskip, rfl⟩

/-- C22: for a request with a relevance query and `min_score > 0` the call
returns a result, every field of which has a score (1 minus the distance of
its row) of at most `min_score`, and no row whose score exceeds `min_score`
contributes its item: the test `it.Score < 1-req.MinScore` compares the
distance, not the score, with the complement of the threshold, so it skips the
rows above the threshold and keeps those at or below it, the reverse of the
minimum relevance threshold that the claim (and the request schema) describe. -/
theorem min_score_filter_inverted (req : TypeFieldsRequest) (ti : TypeIntro)
    (rows : List typeFieldInfoResult) (hq : req.RelevanceQuery ≠ "") (hm : 0 < req.MinScore) :
    ∃ res, TypeFieldsIntrospection req (.ok (some ti)) (.ok rows) = .ok res ∧
      (∀ f ∈ res.Items, f.Score ≤ req.MinScore) ∧
      (∀ it ∈ rows, req.MinScore < 1 - it.Score → fieldItem req.normalized it ∉ res.Items) := by
  refine ⟨_, rfl, ?_, ?_⟩
  · intro f hf
    have hf1 := topKItems_mem _ _ f (windowItems_mem _ _ f hf)
    obtain ⟨it, -, -, hskip, rfl⟩ := fieldItems_mem _ _ _ f hf1
    have hn := normalized_score req
    unfold scoreSkipped at hskip
    rw [hn.1, hn.2] at hskip
    simp only [ne_eq, hq, not_false_eq_true, decide_True, gt_iff_lt, hm, Bool.and_self,
      Bool.true_and, decide_eq_false_iff_not, not_lt] at hskip
    show 1 - it.Score ≤ req.MinScore
    linarith
  · intro it _ hgt hmem
    have hf1 := topKItems_mem _ _ _ (windowItems_mem _ _ _ hmem)
    obtain ⟨it2, -, -, hskip, heq⟩ := fieldItems_mem _ _ _ _ hf1
    have hn := normalized_score req
    unfold scoreSkipped at hskip
    rw [hn.1, hn.2] at hskip
    simp only [ne_eq, hq, not_false_eq_true, decide_True, gt_iff_lt, hm, Bool.and_self,
      Bool.true_and, decide_eq_false_iff_not, not_lt] at hskip
    have hs : (fieldItem req.normalized it).Score = (fieldItem req.normalized it2).Score := by
      rw [heq]
    change 1 - it.Score = 1 - it2.Score at hs
    linarith

theorem min_score_filter_inverted_witness :
    requestC22.RelevanceQuery ≠ "" ∧ 0 < requestC22.MinScore ∧
    ∃ res, TypeFieldsIntrospection requestC22 (.ok (some typeC22)) (.ok rowsC22) = .ok res ∧
      (∀ f ∈ res.Items, f.Score ≤ requestC22.MinScore) ∧
      (∀ it ∈ rowsC22, requestC22.MinScore < 1 - it.Score →
        fieldItem requestC22.normalized it ∉ res.Items) :=
  ⟨by decide, by norm_num [requestC22],
   min_score_filter_inverted requestC22 typeC22 rowsC22 (by decide) (by norm_num [requestC22])⟩

/-- The two rows of `rowsC22` are fields of the type; the row `near`, whose
score three quarters is above the threshold one half, is skipped, and the row
`far`, whose score one quarter is below it, is the result. -/
theorem min_score_example :
    (rowsC22.map (fieldAccessible typeC22)) = [true, true] ∧
    rowsC22.map (scoreSkipped requestC22.normalized) = [true, false] ∧
    TypeFieldsIntrospection requestC22 (.ok (some typeC22)) (.ok rowsC22) =
      .ok { Total := 1, Items := [{ Name := "far", Nullable := true, Score := 1 - 3 / 4 }] } := by
  have h1 : rowsC22.map (fieldAccessible typeC22) = [true, true] := by decide
  have hr : requestC22.normalized =
      { TypeName := "T", RelevanceQuery := "q", MinScore := 1 / 2, Limit := 20, TopK := 10 } := by
    rfl
  have hqq : ("q" : String) ≠ "" := by decide
  have h2 : rowsC22.map (scoreSkipped requestC22.normalized) = [true, false] := by
    rw [hr]
    simp only [rowsC22, scoreSkipped, List.map_cons, List.map_nil]
    norm_num [hqq]
  refine ⟨h1, h2, ?_⟩
  have h3 : fieldItems requestC22.normalized typeC22 rowsC22 =
      [{ Name := "far", Nullable := true, Score := 1 - 3 / 4 }] := by
    unfold fieldItems
    have hf : rowsC22.filter (fun it => fieldAccessible typeC22 it &&
        !scoreSkipped requestC22.normalized it) = [{ Name := "far", Score := 3 / 4 }] := by
      simp only [rowsC22, List.map_cons, List.map_nil, List.cons.injEq, and_true] at h1 h2
      simp only [rowsC22, List.filter, h1.1, h1.2, h2.1, h2.2]
      rfl
    rw [hf, hr]
    rfl
  unfold TypeFieldsIntrospection
  simp only []
  rw [h3, hr]
  rfl

theorem forEachE_prefix {α σ : Type} (Inv : List α → σ → Prop) (body : α → σ → σ × Option Err)
    (xs : List α)
    (hstep : ∀ pre x s, x ∈ xs → Inv pre s → (body x s).2 = none → Inv (pre ++ [x]) (body x s).1) :
    ∀ pre s, Inv pre s → (forEachE body xs s).2 = none →
      Inv (pre ++ xs) (forEachE body xs s).1 := by
  induction xs with
  | nil => intro pre s h _; simpa [forEachE] using h
  | cons x xs ih =>
    intro pre s h hok
    rcases hb : body x s with ⟨s', _ | e⟩
    · simp only [forEachE, hb] at hok ⊢
      have h1 := hstep pre x s (List.mem_cons_self _ _) h (by rw [hb])
      rw [hb] at h1
      have := ih (fun pre y s hy => hstep pre y s (List.mem_cons_of_mem _ hy)) (pre ++ [x]) s' h1
        hok
      simpa using this
    · simp [forEachE, hb] at hok

theorem Expanded.refl (schema : SchemaIntro) (m : Maps) : Expanded schema m m where
  mono := fun _ h => h
  frame := fun _ _ => rfl
  completed := fun _ h h' => absurd h h'

theorem Expanding.compose {schema : SchemaIntro} {m s1 s2 : Maps} {n : String}
    {F Tg : List String} (h : Expanding schema m n F Tg s1) (p : Expanded schema s1 s2) :
    Expanding schema m n F Tg s2 where
  self := p.mono _ h.self
  mono := fun x hx => p.mono _ (h.mono x hx)
  frame := by
    intro x hxn hx
    rcases hx with hx | hx
    · rw [p.frame x (Or.inl (h.mono x hx)), h.frame x hxn (Or.inl hx)]
    · have hx1 : x ∉ s1.typesMap := fun h1 => hx (p.mono _ h1)
      rw [p.frame x (Or.inr hx), h.frame x hxn (Or.inr hx1)]
  completed := by
    intro x hx hxm hxn
    by_cases hx1 : x ∈ s1.typesMap
    · obtain ⟨t, ht, htg, l, hl, hmem⟩ := h.completed x hx1 hxm hxn
      exact ⟨t, ht, fun c hc => p.mono _ (htg c hc), l,
        by rw [p.frame x (Or.inl hx1)]; exact hl, hmem⟩
    · obtain ⟨t, ht, htg, l, hl, hmem⟩ := p.completed x hx hx1
      refine ⟨t, ht, htg, l, hl, ?_⟩
      rw [h.frame x hxn (Or.inr hx1)] at hmem
      exact hmem
  entry := by
    obtain ⟨l, hl, hmem⟩ := h.entry
    exact ⟨l, by rw [p.frame n (Or.inl h.self)]; exact hl, hmem⟩
  targets := fun c hc => p.mono _ (h.targets c hc)

theorem Expanding.withField {schema : SchemaIntro} {m s : Maps} {n : String}
    {F Tg : List String} (h : Expanding schema m n F Tg s) (f : String) :
    Expanding schema m n (F ++ [f]) Tg (s.addField n f) where
  self := h.self
  mono := h.mono
  frame := by
    intro x hxn hx
    show fmGet ((n, _) :: s.fieldsMap) x = _
    rw [fmGet_cons_ne _ _ _ _ (Ne.symm hxn)]
    exact h.frame x hxn hx
  completed := by
    intro x hx hxm hxn
    obtain ⟨t, ht, htg, l, hl, hmem⟩ := h.completed x hx hxm hxn
    refine ⟨t, ht, htg, l, ?_, hmem⟩
    show fmGet ((n, _) :: s.fieldsMap) x = _
    rw [fmGet_cons_ne _ _ _ _ (Ne.symm hxn)]
    exact hl
  entry := by
    obtain ⟨l, hl, hmem⟩ := h.entry
    refine ⟨f :: l, ?_, ?_⟩
    · show fmGet ((n, f :: (fmGet s.fieldsMap n).getD []) :: s.fieldsMap) n = _
      rw [fmGet_cons_self, hl]
      rfl
    · intro g
      simp only [List.mem_cons, List.mem_append, List.mem_singleton, hmem g, List.not_mem_nil,
        or_false]
      tauto
  targets := h.targets

theorem Expanding.visit {schema : SchemaIntro} {m s : Maps} {n : String}
    {F Tg : List String} (h : Expanding schema m n F Tg s) (c : String)
    (hc : c ∈ s.typesMap) : Expanding schema m n F (Tg ++ [c]) s where
  self := h.self
  mono := h.mono
  frame := h.frame
  completed := h.completed
  entry := h.entry
  targets := by
    intro d hd
    rcases List.mem_append.1 hd with hd | hd
    · exact h.targets d hd
    · rw [List.mem_singleton.1 hd]
      exact hc

theorem Expanding.init (schema : SchemaIntro) (m : Maps) (n : String) :
    Expanding schema m n [] [] ((m.setType n).ensureFields n) where
  self := by rw [ensureFields_typesMap]; exact List.mem_cons_self _ _
  mono := fun x hx => by rw [ensureFields_typesMap]; exact List.mem_cons_of_mem _ hx
  frame := fun x hxn _ => ensureFields_fmGet_ne _ _ _ (Ne.symm hxn)
  completed := by
    intro x hx hxm hxn
    rw [ensureFields_typesMap] at hx
    rcases List.mem_cons.1 hx with h | h
    · exact absurd h hxn
    · exact absurd h hxm
  entry := by
    unfold Maps.ensureFields
    show ∃ l, fmGet (match fmGet m.fieldsMap n with
      | some _ => m.setType n
      | none => (m.setType n).newFields n).fieldsMap n = some l ∧ _
    rcases hg : fmGet m.fieldsMap n with _ | l
    · exact ⟨[], fmGet_cons_self _ _ _, fun f => by simp⟩
    · exact ⟨l, hg, fun f => by simp⟩
  targets := fun c hc => by cases hc

theorem Expanding.finish {schema : SchemaIntro} {m r : Maps} {n : String} {t : TypeIntro}
    {F Tg : List String} (h : Expanding schema m n F Tg r)
    (ht : schema.TypeByName n = some t) (hn : n ∉ m.typesMap)
    (hF : ∀ f, f ∈ F ↔ f ∈ t.memberNames) (hT : ∀ c ∈ t.targets, c ∈ Tg) :
    Expanded schema m r where
  mono := h.mono
  frame := by
    intro x hx
    have hxn : x ≠ n := by
      rintro rfl
      rcases hx with hx | hx
      · exact hn hx
      · exact hx h.self
    exact h.frame x hxn hx
  completed := by
    intro x hx hxm
    by_cases hxn : x = n
    · subst hxn
      obtain ⟨l, hl, hmem⟩ := h.entry
      exact ⟨t, ht, fun c hc => h.targets c (hT c hc), l, hl,
        fun f => by rw [hmem f, hF f]⟩
    · exact h.completed x hx hxm hxn

/-- A visit of the target `c` during the expansion of `n`: skipped when `c` is
marked, else the recursive call, of which `ih` is the property. -/
theorem Expanding.step {schema : SchemaIntro} {m s : Maps} {n : String}
    {F Tg : List String} (recur : String → Maps → Maps × Option Err)
    (ih : ∀ c s, (recur c s).2 = none →
      Expanded schema s (recur c s).1 ∧ c ∈ (recur c s).1.typesMap)
    (h : Expanding schema m n F Tg s) (c : String)
    (hok : (if c ∈ s.typesMap then (s, none) else recur c s).2 = none) :
    Expanding schema m n F (Tg ++ [c])
      (if c ∈ s.typesMap then (s, none) else recur c s).1 := by
  by_cases hc : c ∈ s.typesMap
  · simp only [hc, if_true]
    exact h.visit c hc
  · simp only [hc, if_false] at hok ⊢
    obtain ⟨hp, hcr⟩ := ih c s hok
    exact (h.compose hp).visit c hcr

theorem expandField_expanding {schema : SchemaIntro} {m s : Maps} {n : String}
    {F Tg : List String} (recur : String → Maps → Maps × Option Err)
    (ih : ∀ c s, (recur c s).2 = none →
      Expanded schema s (recur c s).1 ∧ c ∈ (recur c s).1.typesMap)
    (h : Expanding schema m n F Tg s) (f : FieldIntro)
    (hok : (expandField recur n f s).2 = none) :
    Expanding schema m n (F ++ [f.Name]) (Tg ++ f.visited) (expandField recur n f s).1 := by
  unfold expandField at hok ⊢
  obtain ⟨hargs, hlast⟩ := andThen_ok _ _ hok
  rw [andThen_of_ok _ _ hargs]
  have hloop := forEachE_prefix
    (fun pre s => Expanding schema m n (F ++ [f.Name])
      (Tg ++ pre.map (fun a => a.Typ.TypeName)) s)
    (expandArg recur) f.Args
    (fun pre a s _ hs hoka => by
      have := Expanding.step recur ih hs a.Typ.TypeName hoka
      simpa [expandArg, List.append_assoc] using this)
    [] (s.addField n f.Name) (by simpa using h.withField f.Name) hargs
  simp only [List.nil_append] at hloop
  have := Expanding.step recur ih hloop f.Typ.TypeName hlast
  simpa [FieldIntro.visited, List.append_assoc] using this

theorem expandInput_expanding {schema : SchemaIntro} {m s : Maps} {n : String}
    {F Tg : List String} (recur : String → Maps → Maps × Option Err)
    (ih : ∀ c s, (recur c s).2 = none →
      Expanded schema s (recur c s).1 ∧ c ∈ (recur c s).1.typesMap)
    (h : Expanding schema m n F Tg s) (f : FieldIntro)
    (hok : (expandInput recur n f s).2 = none) :
    Expanding schema m n (F ++ [f.Name]) (Tg ++ [f.Typ.TypeName])
      (expandInput recur n f s).1 := by
  unfold expandInput at hok ⊢
  exact Expanding.step recur ih (h.withField f.Name) f.Typ.TypeName hok

/-- A call of `addFieldTypeRecursively` that returns no error marks its root
and completes every type that it marks. -/
theorem addFieldTypeRecursivelyFuel_expanded (schema : SchemaIntro) :
    ∀ fuel n m, (addFieldTypeRecursivelyFuel fuel schema n m).2 = none →
      Expanded schema m (addFieldTypeRecursivelyFuel fuel schema n m).1 ∧
        n ∈ (addFieldTypeRecursivelyFuel fuel schema n m).1.typesMap := by
  intro fuel
  induction fuel with
  | zero =>
    intro n m hok
    unfold addFieldTypeRecursivelyFuel at hok ⊢
    rcases ht : schema.TypeByName n with _ | t
    · simp [ht] at hok
    · by_cases hn : n ∈ m.typesMap
      · simp only [ht, hn, if_true]
        exact ⟨Expanded.refl schema m, trivial⟩
      · simp [ht, hn] at hok
  | succ fuel ih =>
    intro n m hok
    unfold addFieldTypeRecursivelyFuel at hok ⊢
    rcases ht : schema.TypeByName n with _ | t
    · simp [ht] at hok
    · by_cases hn : n ∈ m.typesMap
      · simp only [ht, hn, if_true]
        exact ⟨Expanded.refl schema m, trivial⟩
      · simp only [ht, hn, if_false] at hok ⊢
        obtain ⟨hfields, hinputs⟩ := andThen_ok _ _ hok
        rw [andThen_of_ok _ _ hfields]
        have h1 := forEachE_prefix
          (fun pre s => Expanding schema m n (pre.map (fun f => f.Name))
            (pre.flatMap FieldIntro.visited) s)
          (expandField (addFieldTypeRecursivelyFuel fuel schema) n) t.Fields
          (fun pre f s _ hs hokf => by
            have := expandField_expanding _ ih hs f hokf
            simpa [List.flatMap_append] using this)
          [] _ (Expanding.init schema m n) hfields
        simp only [List.nil_append] at h1
        have h2 := forEachE_prefix
          (fun pre s => Expanding schema m n
            (t.Fields.map (fun f => f.Name) ++ pre.map (fun f => f.Name))
            (t.Fields.flatMap FieldIntro.visited ++ pre.map (fun f => f.Typ.TypeName)) s)
          (expandInput (addFieldTypeRecursivelyFuel fuel schema) n) t.InputFields
          (fun pre f s _ hs hokf => by
            have := expandInput_expanding _ ih hs f hokf
            simpa [List.append_assoc] using this)
          [] _ (by simpa using h1) hinputs
        simp only [List.nil_append] at h2
        refine ⟨h2.finish ht hn (fun f => Iff.rfl) ?_, h2.self⟩
        intro c hc
        simp only [TypeIntro.targets, List.mem_append, List.mem_flatMap, List.mem_cons,
          List.mem_map] at hc
        simp only [List.mem_append, List.mem_flatMap, FieldIntro.visited, List.mem_map,
          List.mem_singleton]
        rcases hc with ⟨f, hf, hc | hc⟩ | hc
        · exact Or.inl ⟨f, hf, Or.inr hc⟩
        · exact Or.inl ⟨f, hf, Or.inl hc⟩
        · exact Or.inr hc
theorem forEachE_err_mem {α σ : Type} (R : Err → Prop) (body : α → σ → σ × Option Err)
    (xs : List α) (h : ∀ x ∈ xs, ∀ s e, (body x s).2 = some e → R e) (s : σ) :
    ∀ e, (forEachE body xs s).2 = some e → R e := by
  induction xs generalizing s with
  | nil => intro e he; simp [forEachE] at he
  | cons x xs ih =>
    intro e he
    rcases hb : body x s with ⟨s', _ | e'⟩
    · simp only [forEachE, hb] at he
      exact ih (fun y hy => h y (List.mem_cons_of_mem _ hy)) s' e he
    · simp only [forEachE, hb] at he
      exact h x (List.mem_cons_self _ _) s e (by rw [hb]; exact he)

theorem andThen_err {σ : Type} (R : Err → Prop) (r : σ × Option Err) (k : σ → σ × Option Err)
    (hr : ∀ e, r.2 = some e → R e) (hk : ∀ s e, (k s).2 = some e → R e) :
    ∀ e, (andThen r k).2 = some e → R e := by
  rcases r with ⟨s, _ | e'⟩
  · exact fun e he => hk s e he
  · exact fun e he => hr e he

/-- The only errors of `addFieldTypeRecursively` are the depth bound and a
name, reachable from the root, that the schema does not resolve. -/
theorem addFieldTypeRecursivelyFuel_errors (schema : SchemaIntro) (T : String) :
    ∀ fuel n m, Reach schema T n → ∀ e, (addFieldTypeRecursivelyFuel fuel schema n m).2 = some e →
      e = .fuel ∨ ∃ x, Reach schema T x ∧ schema.TypeByName x = none := by
  intro fuel
  induction fuel with
  | zero =>
    intro n m hr e he
    unfold addFieldTypeRecursivelyFuel at he
    rcases ht : schema.TypeByName n with _ | t
    · exact Or.inr ⟨n, hr, ht⟩
    · by_cases hn : n ∈ m.typesMap
      · simp [ht, hn] at he
      · simp only [ht, hn, if_false] at he
        cases he
        exact Or.inl rfl
  | succ fuel ih =>
    intro n m hr e he
    unfold addFieldTypeRecursivelyFuel at he
    rcases ht : schema.TypeByName n with _ | t
    · exact Or.inr ⟨n, hr, ht⟩
    · by_cases hn : n ∈ m.typesMap
      · simp [ht, hn] at he
      · simp only [ht, hn, if_false] at he
        have hedge : ∀ c ∈ t.targets, Reach schema T c := fun c hc =>
          Relation.ReflTransGen.tail hr ⟨t, ht, hc⟩
        have hvisit : ∀ c ∈ t.targets, ∀ s e,
            (if c ∈ s.typesMap then (s, none)
              else addFieldTypeRecursivelyFuel fuel schema c s).2 = some e →
            e = .fuel ∨ ∃ x, Reach schema T x ∧ schema.TypeByName x = none := by
          intro c hc s e he
          by_cases hcs : c ∈ s.typesMap
          · simp [hcs] at he
          · simp only [hcs, if_false] at he
            exact ih c s (hedge c hc) e he
        refine andThen_err
          (fun e => e = .fuel ∨ ∃ x, Reach schema T x ∧ schema.TypeByName x = none)
          _ _ ?_ ?_ e he
        · refine forEachE_err_mem _ _ _ (fun f hf s e he => ?_) _
          unfold expandField at he
          refine andThen_err
            (fun e => e = .fuel ∨ ∃ x, Reach schema T x ∧ schema.TypeByName x = none)
            _ _ ?_ ?_ e he
          · refine forEachE_err_mem _ _ _ (fun a ha s e he => ?_) _
            unfold expandArg at he
            refine hvisit _ ?_ s e he
            simp only [TypeIntro.targets, List.mem_append, List.mem_flatMap, List.mem_cons,
              List.mem_map]
            exact Or.inl ⟨f, hf, Or.inr ⟨a, ha, rfl⟩⟩
          · intro s e he
            refine hvisit _ ?_ s e he
            simp only [TypeIntro.targets, List.mem_append, List.mem_flatMap, List.mem_cons,
              List.mem_map]
            exact Or.inl ⟨f, hf, Or.inl rfl⟩
        · intro s e he
          refine forEachE_err_mem
            (fun e => e = .fuel ∨ ∃ x, Reach schema T x ∧ schema.TypeByName x = none)
            _ _ (fun f hf s e he => ?_) _ e he
          unfold expandInput at he
          refine hvisit _ ?_ _ e he
          simp only [TypeIntro.targets, List.mem_append, List.mem_flatMap, List.mem_cons,
            List.mem_map]
          exact Or.inr ⟨f, hf, rfl⟩

/-- Every type marked by an expansion is reachable from its root, when the
types marked before are. -/
theorem marked_reachable (schema : SchemaIntro) (T : String) (fuel : Nat) (n : String) (m : Maps)
    (hn : Reach schema T n) (hm : ∀ x ∈ m.typesMap, Reach schema T x) :
    ∀ x ∈ (addFieldTypeRecursivelyFuel fuel schema n m).1.typesMap, Reach schema T x := by
  refine addFieldTypeRecursivelyFuel_preserves schema (fun m => ∀ x ∈ m.typesMap, Reach schema T x)
    (Reach schema T) (Reach schema T) ?_ (fun _ _ h _ _ => h) ?_ (fun _ _ _ _ h => h) fuel n m
    hn hm
  · intro n t hn ht c hc
    exact Relation.ReflTransGen.tail hn ⟨t, ht, hc⟩
  · intro m n hn hI x hx
    rw [ensureFields_typesMap] at hx
    rcases List.mem_cons.1 hx with rfl | hx
    · exact hn
    · exact hI x hx

/-- No expansion removes a name from an entry of `fieldsMap`. -/
theorem entry_mono (schema : SchemaIntro) (x : String) (l : List String) (fuel : Nat)
    (n : String) (m : Maps) (h : fmGet m.fieldsMap x = some l) :
    ∃ l', fmGet (addFieldTypeRecursivelyFuel fuel schema n m).1.fieldsMap x = some l' ∧
      ∀ f ∈ l, f ∈ l' := by
  refine addFieldTypeRecursivelyFuel_preserves schema
    (fun m => ∃ l', fmGet m.fieldsMap x = some l' ∧ ∀ f ∈ l, f ∈ l')
    (fun _ => True) (fun _ => True) (fun _ _ _ _ _ _ => trivial) (fun _ _ _ _ _ => trivial)
    ?_ ?_ fuel n m trivial ⟨l, h, fun _ hf => hf⟩
  · intro m n _ hI
    obtain ⟨l', hl', hsub⟩ := hI
    by_cases hnx : n = x
    · subst hnx
      refine ⟨l', ?_, hsub⟩
      unfold Maps.ensureFields
      have : fmGet (m.setType n).fieldsMap n = some l' := hl'
      rw [this]
      exact hl'
    · exact ⟨l', by rw [ensureFields_fmGet_ne _ _ _ hnx]; exact hl', hsub⟩
  · intro m n f _ hI
    obtain ⟨l', hl', hsub⟩ := hI
    by_cases hnx : n = x
    · subst hnx
      refine ⟨f :: l', ?_, fun g hg => List.mem_cons_of_mem _ (hsub g hg)⟩
      show fmGet ((n, f :: (fmGet m.fieldsMap n).getD []) :: m.fieldsMap) n = _
      rw [fmGet_cons_self, hl']
      rfl
    · refine ⟨l', ?_, hsub⟩
      show fmGet ((n, _) :: m.fieldsMap) x = _
      rw [fmGet_cons_ne _ _ _ _ hnx]
      exact hl'

/-- The entry of a marked type is not touched by an expansion. -/
theorem entry_of_marked (schema : SchemaIntro) (x : String) (fuel : Nat) (n : String) (m : Maps)
    (hx : x ∈ m.typesMap) :
    fmGet (addFieldTypeRecursivelyFuel fuel schema n m).1.fieldsMap x = fmGet m.fieldsMap x := by
  have := addFieldTypeRecursivelyFuel_preserves schema
    (fun s => x ∈ s.typesMap ∧ fmGet s.fieldsMap x = fmGet m.fieldsMap x)
    (fun _ => True) (fun n => n ≠ x) (fun _ _ _ _ _ _ => trivial) ?_ ?_ ?_ fuel n m trivial
    ⟨hx, rfl⟩
  · exact this.2
  · intro s n _ hI hn hnx
    exact hn (hnx ▸ hI.1)
  · intro s n hn hI
    refine ⟨?_, ?_⟩
    · rw [ensureFields_typesMap]
      exact List.mem_cons_of_mem _ hI.1
    · rw [ensureFields_fmGet_ne _ _ _ hn]
      exact hI.2
  · intro s n f hn hI
    refine ⟨hI.1, ?_⟩
    show fmGet ((n, _) :: s.fieldsMap) x = _
    rw [fmGet_cons_ne _ _ _ _ hn]
    exact hI.2

theorem reach_of_closed (schema : SchemaIntro) (S : List String)
    (hclosed : ∀ t ∈ schema.Types, t.Name ∈ S → ∀ c ∈ t.targets, c ∈ S)
    (a b : String) (ha : a ∈ S) (h : Reach schema a b) : b ∈ S := by
  by_contra hb
  exact not_reach_of_closed schema S hclosed a b ha hb h
theorem addFieldTypeRecursively_marked (schema : SchemaIntro) (T : String) (m : Maps)
    (h : T ∈ m.typesMap) : (addFieldTypeRecursively schema T m).1 = m := by
  unfold addFieldTypeRecursively
  cases schema.Types.length with
  | zero =>
    unfold addFieldTypeRecursivelyFuel
    rcases schema.TypeByName T with _ | t
    · rfl
    · simp only [h, if_true]
  | succ l =>
    unfold addFieldTypeRecursivelyFuel
    rcases schema.TypeByName T with _ | t
    · rfl
    · simp only [h, if_true]

/-- C23: when every type name reachable from `T` resolves,
`addFieldTypeRecursively(T)` on empty maps returns no error, its type set is
the set of the names reachable from `T` through field, field-argument and
input-field target types (`T` included), and its `fieldsMap` has an entry
exactly for these types, which holds, as a set, the names of the fields and of
the input fields of the type.  On any maps `m`: a root already in the type set
leaves the maps as they are, every type of the type set of `m` stays in it with
its entry untouched, and every entry of `fieldsMap` keeps its names. -/
theorem reachable_fixed_point (schema : SchemaIntro) (T : String) (m : Maps)
    (hres : ∀ n, Reach schema T n → schema.TypeByName n ≠ none) :
    ((addFieldTypeRecursively schema T {}).2 = none ∧
      (∀ n, n ∈ (addFieldTypeRecursively schema T {}).1.typesMap ↔ Reach schema T n) ∧
      (∀ n, Reach schema T n → ∃ t l, schema.TypeByName n = some t ∧
        fmGet (addFieldTypeRecursively schema T {}).1.fieldsMap n = some l ∧
        ∀ f, f ∈ l ↔ f ∈ t.memberNames) ∧
      (∀ n, ¬ Reach schema T n →
        fmGet (addFieldTypeRecursively schema T {}).1.fieldsMap n = none)) ∧
    ((T ∈ m.typesMap → (addFieldTypeRecursively schema T m).1 = m) ∧
      (∀ x ∈ m.typesMap, x ∈ (addFieldTypeRecursively schema T m).1.typesMap ∧
        fmGet (addFieldTypeRecursively schema T m).1.fieldsMap x = fmGet m.fieldsMap x) ∧
      (∀ x l, fmGet m.fieldsMap x = some l →
        ∃ l', fmGet (addFieldTypeRecursively schema T m).1.fieldsMap x = some l' ∧
          ∀ f ∈ l, f ∈ l')) := by
  have hok : (addFieldTypeRecursively schema T {}).2 = none := by
    rcases he : (addFieldTypeRecursively schema T {}).2 with _ | e
    · rfl
    · rcases addFieldTypeRecursivelyFuel_errors schema T _ T {} Relation.ReflTransGen.refl e he
        with rfl | ⟨x, hx, hnone⟩
      · exact absurd he (addFieldTypeRecursively_no_fuel schema T {})
      · exact absurd hnone (hres x hx)
  obtain ⟨hexp, hroot⟩ := addFieldTypeRecursivelyFuel_expanded schema _ T {} hok
  have hsub := marked_reachable schema T schema.Types.length T {} Relation.ReflTransGen.refl
    (fun x hx => by cases hx)
  have hsup : ∀ n, Reach schema T n → n ∈ (addFieldTypeRecursively schema T {}).1.typesMap := by
    intro n hn
    induction hn with
    | refl => exact hroot
    | tail _ hedge ih =>
      obtain ⟨t, ht, hc⟩ := hedge
      obtain ⟨t', ht', htg, -⟩ := hexp.completed _ ih (by intro h; cases h)
      rw [ht] at ht'
      cases ht'
      exact htg _ hc
  refine ⟨⟨hok, fun n => ⟨hsub n, hsup n⟩, ?_, ?_⟩, addFieldTypeRecursively_marked schema T m,
    fun x hx => ⟨expand_typesMap_mono schema _ x T m hx, entry_of_marked schema x _ T m hx⟩,
    fun x l hl => entry_mono schema x l _ T m hl⟩
  · intro n hn
    obtain ⟨t, ht, -, l, hl, hmem⟩ := hexp.completed _ (hsup n hn) (by intro h; cases h)
    refine ⟨t, l, ht, hl, fun f => ?_⟩
    rw [hmem f]
    simp [fmGet]
  · intro n hn
    have := hexp.frame n (Or.inr (fun h => hn (hsub n h)))
    exact this

theorem reachable_fixed_point_witness :
    (∀ n, Reach schemaC23 "A" n → schemaC23.TypeByName n ≠ none) ∧
    ((addFieldTypeRecursively schemaC23 "A" {}).2 = none ∧
      (∀ n, n ∈ (addFieldTypeRecursively schemaC23 "A" {}).1.typesMap ↔ Reach schemaC23 "A" n) ∧
      (∀ n, Reach schemaC23 "A" n → ∃ t l, schemaC23.TypeByName n = some t ∧
        fmGet (addFieldTypeRecursively schemaC23 "A" {}).1.fieldsMap n = some l ∧
        ∀ f, f ∈ l ↔ f ∈ t.memberNames) ∧
      (∀ n, ¬ Reach schemaC23 "A" n →
        fmGet (addFieldTypeRecursively schemaC23 "A" {}).1.fieldsMap n = none)) ∧
    (("A" ∈ ({ typesMap := ["B"] } : Maps).typesMap →
        (addFieldTypeRecursively schemaC23 "A" { typesMap := ["B"] }).1 =
          { typesMap := ["B"] }) ∧
      (∀ x ∈ ({ typesMap := ["B"] } : Maps).typesMap,
        x ∈ (addFieldTypeRecursively schemaC23 "A" { typesMap := ["B"] }).1.typesMap ∧
        fmGet (addFieldTypeRecursively schemaC23 "A" { typesMap := ["B"] }).1.fieldsMap x =
          fmGet ({ typesMap := ["B"] } : Maps).fieldsMap x) ∧
      (∀ x l, fmGet ({ typesMap := ["B"] } : Maps).fieldsMap x = some l →
        ∃ l', fmGet (addFieldTypeRecursively schemaC23 "A"
            { typesMap := ["B"] }).1.fieldsMap x = some l' ∧
          ∀ f ∈ l, f ∈ l')) :=
  ⟨fun n hn => by
      have hmem := reach_of_closed schemaC23 ["A", "B", "In", "String"] (by decide) "A" n
        (by decide) hn
      have hall : ∀ x ∈ ["A", "B", "In", "String"], schemaC23.TypeByName x ≠ none := by decide
      exact hall n hmem,
   reachable_fixed_point schemaC23 "A" { typesMap := ["B"] } (fun n hn => by
      have hmem := reach_of_closed schemaC23 ["A", "B", "In", "String"] (by decide) "A" n
        (by decide) hn
      have hall : ∀ x ∈ ["A", "B", "In", "String"], schemaC23.TypeByName x ≠ none := by decide
      exact hall n hmem)⟩

/-- The run on the cyclic schema `schemaC23`: the four types reachable from `A`
are marked, once each, and `Other` is not. -/
theorem schemaC23_run :
    addFieldTypeRecursively schemaC23 "A" {} =
      ({ typesMap := ["String", "B", "In", "A"]
         fieldsMap := [("String", []), ("A", ["s", "b"]), ("B", ["a"]), ("B", []), ("In", ["y"]), ("In", []),
                       ("A", ["b"]), ("A", [])] }, none) := by
  decide

/-- Preservation principle for `addFieldTypeRecursively` in which the marking
step knows that the marked name resolves and was not marked. -/
theorem addFieldTypeRecursivelyFuel_marking (schema : SchemaIntro) (I : Maps → Prop)
    (hmark : ∀ m n t, schema.TypeByName n = some t → n ∉ m.typesMap → I m →
      I ((m.setType n).ensureFields n))
    (hadd : ∀ m n f, I m → I (m.addField n f)) :
    ∀ fuel n m, I m → I (addFieldTypeRecursivelyFuel fuel schema n m).1 := by
  intro fuel
  induction fuel with
  | zero =>
    intro n m hI
    unfold addFieldTypeRecursivelyFuel
    split
    · exact hI
    · split <;> exact hI
  | succ fuel ih =>
    intro n m hI
    unfold addFieldTypeRecursivelyFuel
    rcases ht : schema.TypeByName n with _ | t
    · exact hI
    · by_cases hn : n ∈ m.typesMap
      · simp only [hn, if_true]
        exact hI
      · simp only [hn, if_false]
        refine andThen_inv I _ _ ?_ (fun m1 h1 => ?_)
        · refine forEachE_inv I _ (fun f m1 h1 => ?_) t.Fields _ (hmark m n t ht hn hI)
          unfold expandField
          refine andThen_inv I _ _ ?_ (fun m2 h2 => ?_)
          · refine forEachE_inv I _ (fun a m2 h2 => ?_) f.Args _ (hadd m1 n f.Name h1)
            unfold expandArg
            split
            · exact h2
            · exact ih _ _ h2
          · split
            · exact h2
            · exact ih _ _ h2
        · refine forEachE_inv I _ (fun f m2 h2 => ?_) t.InputFields _ h1
          unfold expandInput
          simp only []
          split
          · exact hadd m2 n f.Name h2
          · exact ih _ _ (hadd m2 n f.Name h2)

theorem nodup_names_length (schema : SchemaIntro) (l : List String) (hl : l.Nodup)
    (hres : ∀ x ∈ l, schema.TypeByName x ≠ none) : l.length ≤ schema.Types.length := by
  have hsub : l ⊆ schema.Types.map (fun t => t.Name) := by
    intro x hx
    rcases ht : schema.TypeByName x with _ | t
    · exact absurd ht (hres x hx)
    · exact List.mem_map.2 ⟨t, TypeByName_mem schema x t ht, TypeByName_name schema x t ht⟩
  have := (List.subperm_of_subset hl hsub).length_le
  simpa using this

/-- C24: `addFieldTypeRecursively` returns on every schema, cyclic ones
included: the recursion never reaches the depth `len(schema.Types)` (the
outcome `Err.fuel` does not occur) and any larger bound gives the same result.
Every expansion begins with the write `typesMap[typeName] = struct{}{}`, which
the model records in front of the list `typesMap`; the names so recorded by a
call are pairwise distinct, were not in the type set before and resolve in the
schema, and there are at most as many of them as the schema has types: each
schema type is expanded at most once. -/
theorem expansion_terminates (schema : SchemaIntro) (n : String) (m : Maps) (j : Nat) :
    addFieldTypeRecursivelyFuel (schema.Types.length + j) schema n m =
      addFieldTypeRecursively schema n m ∧
    (addFieldTypeRecursively schema n m).2 ≠ some .fuel ∧
    ∃ expanded, (addFieldTypeRecursively schema n m).1.typesMap = expanded ++ m.typesMap ∧
      expanded.Nodup ∧ (∀ x ∈ expanded, x ∉ m.typesMap ∧ schema.TypeByName x ≠ none) ∧
      expanded.length ≤ schema.Types.length := by
  refine ⟨addFieldTypeRecursivelyFuel_eq schema n m _ j (unmarked_le_length schema m),
    addFieldTypeRecursively_no_fuel schema n m, ?_⟩
  have key := addFieldTypeRecursivelyFuel_marking schema
    (fun s => ∃ expanded, s.typesMap = expanded ++ m.typesMap ∧ expanded.Nodup ∧
      ∀ x ∈ expanded, x ∉ m.typesMap ∧ schema.TypeByName x ≠ none)
    ?_ ?_ schema.Types.length n m ⟨[], rfl, List.nodup_nil, fun x hx => by cases hx⟩
  · obtain ⟨expanded, h1, h2, h3⟩ := key
    exact ⟨expanded, h1, h2, h3,
      nodup_names_length schema expanded h2 (fun x hx => (h3 x hx).2)⟩
  · intro s x t ht hx hI
    obtain ⟨expanded, h1, h2, h3⟩ := hI
    refine ⟨x :: expanded, ?_, ?_, ?_⟩
    · rw [ensureFields_typesMap]
      show x :: s.typesMap = _
      rw [h1]
      rfl
    · refine List.nodup_cons.2 ⟨fun hmem => hx ?_, h2⟩
      rw [h1]
      exact List.mem_append_left _ hmem
    · intro y hy
      rcases List.mem_cons.1 hy with rfl | hy
      · refine ⟨fun hmem => hx ?_, by rw [ht]; simp⟩
        rw [h1]
        exact List.mem_append_right _ hmem
      · exact h3 y hy
  · intro s x f hI
    exact hI

theorem andThen_assoc {σ : Type} (r : σ × Option Err) (k1 k2 : σ → σ × Option Err) :
    andThen (andThen r k1) k2 = andThen r (fun s => andThen (k1 s) k2) := by
  rcases r with ⟨s, _ | e⟩ <;> rfl

theorem tailFamily_eq (k : Consts) (info : SchemaInfo) (doi : DataObjectInfo) :
    tailFamily k info doi = headFamily info doi ++ syntheticTypes k := rfl

theorem fillDataObjectTail_eq (k : Consts) (schema : SchemaIntro) (info : SchemaInfo)
    (ti : TypeIntro) (mi : ModuleInfo) (doi : DataObjectInfo) (d : List String) (m : Maps) :
    fillDataObjectTail k schema info ti mi doi d m =
      andThen (fillDataObjectHead k schema info mi doi d m) fun m =>
        (syntheticPart k (hasSpatialField k ti) (dataSourcePart info doi.DataSource m).2 doi
          (dataSourcePart info doi.DataSource m).1, none) := by
  unfold fillDataObjectTail fillDataObjectHead
  simp only [andThen_assoc]

section FrameHead

variable {schema : SchemaIntro} {I : Maps → Prop} {okKey okRoot okRe : String → Prop}

theorem mem_headFamily (info : SchemaInfo) (doi : DataObjectInfo) (n : String)
    (hn : n ≠ "")
    (h : n ∈ [doi.FilterType, doi.AggregationType, doi.SubAggregationType,
          doi.BucketAggregationType] ∨
      ∃ mo ∈ info.RootModule :: info.modules, n ∈ mo.roots) :
    n ∈ headFamily info doi := by
  unfold headFamily
  refine List.mem_append_left _ (List.mem_filter.2 ⟨?_, by simpa using hn⟩)
  rcases h with h | ⟨mo, hmo, hr⟩
  · exact List.mem_append_left _ h
  · exact List.mem_append_right _ (List.mem_flatMap.2 ⟨mo, hmo, hr⟩)

theorem mem_headFamily_insert (info : SchemaInfo) (doi : DataObjectInfo)
    (mu : MutationInfo) (hmu : doi.Mutations = some mu) :
    mu.InsertDataType ∈ headFamily info doi := by
  unfold headFamily
  refine List.mem_append_right _ ?_
  rw [hmu]
  exact List.mem_singleton.2 rfl

theorem Frame.on_fillDataObjectHead (F : Frame schema I okKey okRoot okRe) (k : Consts)
    (info : SchemaInfo) (mi : ModuleInfo) (doi : DataObjectInfo) (m : Maps)
    (hmi : mi ∈ info.RootModule :: info.modules)
    (hk : ∀ n ∈ headFamily info doi, okKey n)
    (hr : ∀ n ∈ tailRoots k schema mi doi, okRoot n)
    (hre : ∀ n ∈ reRoots k doi, okRe n) (h : I m) :
    I (fillDataObjectHead k schema info mi doi (declaredNames doi) m).1 := by
  have hkroot : ∀ mo ∈ info.RootModule :: info.modules, ∀ r ∈ mo.roots, r ≠ "" → okKey r :=
    fun mo hmo r hr hne => hk r (mem_headFamily info doi r hne (Or.inr ⟨mo, hmo, hr⟩))
  unfold fillDataObjectHead
  refine andThen_inv _ _ _ ?_ (fun m1 h1 => ?_)
  · refine F.on_filterPart k doi _ m (fun hne => ⟨?_, ?_, ?_⟩) h
    · exact hk _ (mem_headFamily info doi _ hne (Or.inl (by simp)))
    · exact hre _ (by simp [reRoots, hne])
    · intro fi hfi f hf hd
      refine hr _ ?_
      simp only [tailRoots, List.mem_append]
      refine Or.inl (Or.inl (Or.inl (Or.inl (Or.inr ?_))))
      rw [if_pos hne, inputFieldsOf_eq schema _ fi hfi]
      exact List.mem_map.2 ⟨f, List.mem_filter.2 ⟨hf, by simpa using hd⟩, rfl⟩
  refine andThen_inv _ _ _ ?_ (fun m2 h2 => ?_)
  · refine F.on_aggregationPart _ _ _ _ (fun hne => ⟨?_, ?_⟩) ?_
    · exact hk _ (mem_headFamily info doi _ hne (Or.inl (by simp)))
    · intro ai hai f hf hd
      have hmem : ∀ t ∈ f.targets, t ∈ tailRoots k schema mi doi := by
        intro t ht
        simp only [tailRoots, List.mem_append]
        refine Or.inl (Or.inl (Or.inl (Or.inr ?_)))
        rw [if_pos hne, fieldsOf_eq schema _ ai hai]
        exact List.mem_flatMap.2 ⟨f, List.mem_filter.2 ⟨hf, decide_eq_true hd⟩, ht⟩
      exact ⟨hr _ (hmem _ (List.mem_cons_self _ _)),
        fun a ha => hr _ (hmem _ (List.mem_cons_of_mem _ (List.mem_map.2 ⟨a, ha, rfl⟩)))⟩
    · refine F.on_argumentsPart doi _ (fun a ha hne => ?_) h1
      exact hre _ (by simp [reRoots, ha, hne])
  refine andThen_inv _ _ _ ?_ (fun m3 h3 => ?_)
  · refine F.on_aggregationPart _ _ _ _ (fun hne => ⟨?_, ?_⟩) h2
    · exact hk _ (mem_headFamily info doi _ hne (Or.inl (by simp)))
    · intro ai hai f hf hd
      have hmem : ∀ t ∈ f.targets, t ∈ tailRoots k schema mi doi := by
        intro t ht
        simp only [tailRoots, List.mem_append]
        refine Or.inl (Or.inl (Or.inr ?_))
        rw [if_pos hne, fieldsOf_eq schema _ ai hai]
        exact List.mem_flatMap.2 ⟨f, List.mem_filter.2 ⟨hf, decide_eq_true hd⟩, ht⟩
      exact ⟨hr _ (hmem _ (List.mem_cons_self _ _)),
        fun a ha => hr _ (hmem _ (List.mem_cons_of_mem _ (List.mem_map.2 ⟨a, ha, rfl⟩)))⟩
  refine andThen_inv _ _ _ ?_ (fun m4 h4 => ?_)
  · exact F.on_bucketPart _ _
      (fun hne => hk _ (mem_headFamily info doi _ hne (Or.inl (by simp)))) h3
  · refine F.on_fillModulesTypesRecursively info mi _ hkroot ?_
    refine F.on_functionRootsPart mi _ ?_
    refine F.on_mutationRootPart mi doi _ _ ?_ ?_
    · intro mu hmu hne
      refine ⟨hkroot mi hmi _ (by simp [ModuleInfo.roots]) hne, fun hi => ⟨?_, ?_⟩, fun hu => ?_⟩
      · exact hk _ (mem_headFamily_insert info doi mu hmu)
      · intro mdi hmdi f hf hd
        refine hr _ ?_
        simp only [tailRoots, List.mem_append]
        refine Or.inr ?_
        rw [hmu]
        simp only [if_pos hne, if_pos hi, List.mem_append]
        refine Or.inl ?_
        rw [inputFieldsOf_eq schema _ mdi hmdi]
        exact List.mem_map.2 ⟨f, List.mem_filter.2 ⟨hf, by simpa using hd⟩, rfl⟩
      · refine hr _ ?_
        simp only [tailRoots, List.mem_append]
        refine Or.inr ?_
        rw [hmu]
        simp [if_pos hne, hu]
    · refine F.on_queryRootPart mi doi _ (fun hne => ⟨?_, ?_⟩) h4
      · exact hkroot mi hmi _ (by simp [ModuleInfo.roots]) hne
      · intro q hq a ha
        refine hr _ ?_
        simp only [tailRoots, List.mem_append]
        refine Or.inl (Or.inr ?_)
        rw [if_pos hne]
        exact List.mem_flatMap.2 ⟨q, hq, List.mem_map.2 ⟨a, ha, rfl⟩⟩

end FrameHead
theorem ensureFields_fmGet (m : Maps) (a T : String) :
    fmGet ((m.setType a).ensureFields a).fieldsMap T =
      if a = T then some ((fmGet m.fieldsMap T).getD []) else fmGet m.fieldsMap T := by
  by_cases haT : a = T
  · subst haT
    simp only [if_true]
    unfold Maps.ensureFields
    rcases hg : fmGet m.fieldsMap a with _ | e
    · have : fmGet (m.setType a).fieldsMap a = none := hg
      rw [this]
      exact fmGet_cons_self _ _ _
    · have : fmGet (m.setType a).fieldsMap a = some e := hg
      rw [this]
      exact hg
  · simp only [haT, if_false]
    exact ensureFields_fmGet_ne _ _ _ haT

/-- Marking each type of a list and ensuring its entry: the types are marked
and nothing is unmarked. -/
theorem ensureAll_types (L : List String) (m : Maps) :
    (∀ x ∈ m.typesMap, x ∈ (L.foldl (fun m T => (m.setType T).ensureFields T) m).typesMap) ∧
    (∀ x ∈ L, x ∈ (L.foldl (fun m T => (m.setType T).ensureFields T) m).typesMap) := by
  induction L generalizing m with
  | nil => exact ⟨fun x hx => hx, fun x hx => by cases hx⟩
  | cons a L ih =>
    simp only [List.foldl_cons]
    obtain ⟨h1, h2⟩ := ih ((m.setType a).ensureFields a)
    have ha : ∀ x ∈ a :: m.typesMap, x ∈ ((m.setType a).ensureFields a).typesMap := by
      intro x hx
      rw [ensureFields_typesMap]
      exact hx
    refine ⟨fun x hx => h1 x (ha x (List.mem_cons_of_mem _ hx)), fun x hx => ?_⟩
    rcases List.mem_cons.1 hx with rfl | hx
    · exact h1 _ (ha _ (List.mem_cons_self _ _))
    · exact h2 x hx

/-- Marking each type of a list and ensuring its entry: the entry of a listed
type exists afterwards, with what it held; the other entries are as before. -/
theorem ensureAll_entry (L : List String) (T : String) (m : Maps) :
    fmGet (L.foldl (fun m T => (m.setType T).ensureFields T) m).fieldsMap T =
      if T ∈ L then some ((fmGet m.fieldsMap T).getD []) else fmGet m.fieldsMap T := by
  induction L generalizing m with
  | nil => simp
  | cons a L ih =>
    simp only [List.foldl_cons]
    rw [ih, ensureFields_fmGet]
    by_cases haT : a = T
    · subst haT
      simp
    · have hTa : ¬ T = a := fun h => haT h.symm
      simp [haT, hTa]

theorem addField_fmGet (m : Maps) (a x T : String) :
    fmGet (m.addField a x).fieldsMap T =
      if a = T then some (x :: (fmGet m.fieldsMap T).getD []) else fmGet m.fieldsMap T := by
  show fmGet ((a, x :: (fmGet m.fieldsMap a).getD []) :: m.fieldsMap) T = _
  by_cases haT : a = T
  · subst haT
    simp [fmGet]
  · simp [fmGet, haT]

/-- Recording one name under each type of a list. -/
theorem addAll_entry (L : List String) (x T : String) (m : Maps) (e : List String)
    (he : fmGet m.fieldsMap T = some e) :
    ∃ e', fmGet (L.foldl (fun m a => m.addField a x) m).fieldsMap T = some e' ∧
      ∀ y, y ∈ e' ↔ (y ∈ e ∨ (T ∈ L ∧ y = x)) := by
  induction L generalizing m e with
  | nil => exact ⟨e, he, fun y => by simp⟩
  | cons a L ih =>
    simp only [List.foldl_cons]
    by_cases haT : a = T
    · subst haT
      have h1 : fmGet (m.addField a x).fieldsMap a = some (x :: e) := by
        rw [addField_fmGet, if_pos rfl, he]
        rfl
      obtain ⟨e', he', hmem⟩ := ih _ _ h1
      refine ⟨e', he', fun y => ?_⟩
      rw [hmem y]
      simp only [List.mem_cons]
      tauto
    · have h1 : fmGet (m.addField a x).fieldsMap T = some e := by
        rw [addField_fmGet, if_neg haT, he]
      obtain ⟨e', he', hmem⟩ := ih _ _ h1
      refine ⟨e', he', fun y => ?_⟩
      rw [hmem y]
      have hTa : ¬ T = a := fun h => haT h.symm
      simp only [List.mem_cons, hTa, false_or]

theorem addAll_none (L : List String) (x T : String) (m : Maps) (hT : T ∉ L)
    (he : fmGet m.fieldsMap T = none) :
    fmGet (L.foldl (fun m a => m.addField a x) m).fieldsMap T = none := by
  induction L generalizing m with
  | nil => exact he
  | cons a L ih =>
    simp only [List.foldl_cons]
    have haT : a ≠ T := fun h => hT (h ▸ List.mem_cons_self _ _)
    refine ih _ (fun h => hT (List.mem_cons_of_mem _ h)) ?_
    rw [addField_fmGet, if_neg haT, he]

theorem addAll_typesMap (L : List String) (x : String) (m : Maps) :
    (L.foldl (fun m a => m.addField a x) m).typesMap = m.typesMap := by
  induction L generalizing m with
  | nil => rfl
  | cons a L ih => simp only [List.foldl_cons]; rw [ih]; rfl

theorem syntheticQuery_eq (k : Consts) (b : Bool) (pfx : String) (q : QueryInfo) (m : Maps) :
    syntheticQuery k b pfx q m =
      if q.Typ = k.QueryTypeSelectOne then m
      else (syntheticFor k b).foldl (fun m a => m.addField a (pfx ++ q.Name)) m := by
  unfold syntheticQuery syntheticFor
  cases b <;> rfl

theorem syntheticPart_eq (k : Consts) (b : Bool) (pfx : String) (doi : DataObjectInfo)
    (m : Maps) :
    syntheticPart k b pfx doi m =
      doi.Queries.foldl (fun m q => syntheticQuery k b pfx q m)
        ((syntheticFor k b).foldl (fun m T => (m.setType T).ensureFields T) m) := by
  unfold syntheticPart syntheticFor
  cases b <;> rfl

/-- The synthetic block, on maps without an entry for `T`: a type of
`syntheticFor` is marked and gets the entry `joinNames`; another type gets no
entry. -/
theorem syntheticPart_entry (k : Consts) (b : Bool) (pfx : String) (doi : DataObjectInfo)
    (m : Maps) (T : String) (hT : fmGet m.fieldsMap T = none) :
    (T ∈ syntheticFor k b → EntryIs T (joinNames k pfx doi) (syntheticPart k b pfx doi m)) ∧
    (T ∉ syntheticFor k b → fmGet (syntheticPart k b pfx doi m).fieldsMap T = none) := by
  rw [syntheticPart_eq]
  have h0t := ensureAll_types (syntheticFor k b) m
  have h0e := ensureAll_entry (syntheticFor k b) T m
  rw [hT] at h0e
  generalize (syntheticFor k b).foldl (fun m T => (m.setType T).ensureFields T) m = m0
    at h0t h0e
  have key := foldl_prefix
    (fun (pre : List QueryInfo) (s : Maps) =>
      (∀ x ∈ m0.typesMap, x ∈ s.typesMap) ∧
      (T ∈ syntheticFor k b → ∃ e, fmGet s.fieldsMap T = some e ∧
        ∀ y, y ∈ e ↔ y ∈ (pre.filter (fun q => decide (q.Typ ≠ k.QueryTypeSelectOne))).map
          (fun q => pfx ++ q.Name)) ∧
      (T ∉ syntheticFor k b → fmGet s.fieldsMap T = none))
    (fun m q => syntheticQuery k b pfx q m)
    (fun pre q s hs => by
      obtain ⟨h1, h2, h3⟩ := hs
      show (∀ x ∈ m0.typesMap, x ∈ (syntheticQuery k b pfx q s).typesMap) ∧
        (T ∈ syntheticFor k b → ∃ e, fmGet (syntheticQuery k b pfx q s).fieldsMap T = some e ∧
          ∀ y, y ∈ e ↔ y ∈ ((pre ++ [q]).filter
            (fun q => decide (q.Typ ≠ k.QueryTypeSelectOne))).map (fun q => pfx ++ q.Name)) ∧
        (T ∉ syntheticFor k b → fmGet (syntheticQuery k b pfx q s).fieldsMap T = none)
      rw [syntheticQuery_eq]
      by_cases hq : q.Typ = k.QueryTypeSelectOne
      · simp only [hq, if_true]
        refine ⟨h1, fun hmem => ?_, h3⟩
        obtain ⟨e, he, hy⟩ := h2 hmem
        refine ⟨e, he, fun y => ?_⟩
        rw [hy y]
        simp [List.filter_append, List.filter, hq]
      · simp only [hq, if_false]
        refine ⟨fun x hx => by rw [addAll_typesMap]; exact h1 x hx, fun hmem => ?_,
          fun hmem => addAll_none _ _ _ _ hmem (h3 hmem)⟩
        obtain ⟨e, he, hy⟩ := h2 hmem
        obtain ⟨e', he', hy'⟩ := addAll_entry (syntheticFor k b) (pfx ++ q.Name) T s e he
        refine ⟨e', he', fun y => ?_⟩
        rw [hy' y, hy y]
        have hd : decide (q.Typ ≠ k.QueryTypeSelectOne) = true := by simpa using hq
        simp only [List.filter_append, List.map_append, List.mem_append, List.filter, hd,
          List.map_cons, List.map_nil, List.mem_singleton, hmem, true_and])
    doi.Queries [] m0
    ⟨fun x hx => hx, fun hmem => ⟨[], by rw [h0e, if_pos hmem]; rfl, fun y => by simp⟩,
      fun hmem => by rw [h0e, if_neg hmem]⟩
  simp only [List.nil_append] at key
  obtain ⟨k1, k2, k3⟩ := key
  refine ⟨fun hmem => ⟨k1 T (h0t.2 T hmem), ?_⟩, k3⟩
  obtain ⟨e, he, hy⟩ := k2 hmem
  exact ⟨e, he, fun y => by rw [hy y]; rfl⟩

theorem syntheticPart_types (k : Consts) (b : Bool) (pfx : String) (doi : DataObjectInfo)
    (m : Maps) : ∀ T ∈ syntheticFor k b, T ∈ (syntheticPart k b pfx doi m).typesMap := by
  intro T hT
  rw [syntheticPart_eq]
  refine foldl_inv (fun s : Maps => T ∈ s.typesMap) _ doi.Queries (fun q _ s hs => ?_) _
    ((ensureAll_types (syntheticFor k b) m).2 T hT)
  show T ∈ (syntheticQuery k b pfx q s).typesMap
  rw [syntheticQuery_eq]
  split
  · exact hs
  · rw [addAll_typesMap]; exact hs
theorem dataSourcePart_spec (info : SchemaInfo) (doi : DataObjectInfo) (m : Maps) :
    (dataSourcePart info doi.DataSource m).2 = objectPrefix info doi ∧
    (dataSourcePart info doi.DataSource m).1.fieldsMap = m.fieldsMap ∧
    (dataSourcePart info doi.DataSource m).1.typesMap = m.typesMap ∧
    (dataSourcePart info doi.DataSource m).1.modulesMap = m.modulesMap := by
  unfold dataSourcePart objectPrefix
  rcases info.DataSource doi.DataSource with _ | ds <;> exact ⟨rfl, rfl, rfl, rfl⟩

theorem clearPrefix_eq (info : SchemaInfo) (doi : DataObjectInfo) :
    clearPrefix info doi.DataSource = objectPrefix info doi := rfl

/-- A run of `fillDataObjectTypesForUpdate` that returns no error is the
synthetic block applied to the maps left by the earlier blocks, which returned
no error either. -/
theorem fill_split (k : Consts) (schema : SchemaIntro) (info : SchemaInfo)
    (doName : String) (ti : TypeIntro) (mi : ModuleInfo) (doi : DataObjectInfo) (m r : Maps)
    (hti : schema.TypeByName doName = some ti) (hmi : info.Module ti.Module = some mi)
    (hdoi : mi.DataObject ti.Name = some doi)
    (hok : fillDataObjectTypesForUpdate k schema info doName m = (r, none)) :
    (fillDataObjectHead k schema info mi doi (declaredNames doi)
      (ti.Fields.foldl (fun m f => objectField schema (declaredNames doi) doName f m)
        ((m.setType doName).newFields doName))).2 = none ∧
    r = syntheticPart k (hasSpatialField k ti) (objectPrefix info doi) doi
      (dataSourcePart info doi.DataSource
        (fillDataObjectHead k schema info mi doi (declaredNames doi)
          (ti.Fields.foldl (fun m f => objectField schema (declaredNames doi) doName f m)
            ((m.setType doName).newFields doName))).1).1 := by
  simp only [fillDataObjectTypesForUpdate, hti, hmi, hdoi, fillDataObjectBody,
    fillDataObjectTail_eq] at hok
  have h2 : (andThen (fillDataObjectHead k schema info mi doi (declaredNames doi)
      (ti.Fields.foldl (fun m f => objectField schema (declaredNames doi) doName f m)
        ((m.setType doName).newFields doName))) fun m =>
        (syntheticPart k (hasSpatialField k ti) (dataSourcePart info doi.DataSource m).2 doi
          (dataSourcePart info doi.DataSource m).1, none)).2 = none := by rw [hok]
  obtain ⟨hhead, -⟩ := andThen_ok _ _ h2
  rw [andThen_of_ok _ _ hhead] at hok
  refine ⟨hhead, ?_⟩
  have := (congrArg Prod.fst hok).symm
  rw [(dataSourcePart_spec info doi _).1] at this
  exact this

/-- A synthetic type apart from the types of the object has no entry in
`fieldsMap` when the synthetic block starts. -/
theorem head_noEntry (k : Consts) (schema : SchemaIntro) (info : SchemaInfo)
    (doName : String) (ti : TypeIntro) (mi : ModuleInfo) (doi : DataObjectInfo) (T : String)
    (hmi : info.Module ti.Module = some mi)
    (hT : Apart k schema info doName ti mi doi T) :
    fmGet (dataSourcePart info doi.DataSource
      (fillDataObjectHead k schema info mi doi (declaredNames doi)
        (ti.Fields.foldl (fun m f => objectField schema (declaredNames doi) doName f m)
          (((({} : Maps)).setType doName).newFields doName))).1).1.fieldsMap T = none := by
  obtain ⟨hfam, hreach⟩ := hT
  have hmi_mem : mi ∈ info.RootModule :: info.modules :=
    List.mem_cons_of_mem _ (Module_mem info _ _ hmi)
  rw [(dataSourcePart_spec info doi _).2.1]
  have F := noEntry_frame schema T
  have hT1 : doName ≠ T := fun he => hfam (he ▸ List.mem_cons_self _ _)
  refine F.on_fillDataObjectHead k info mi doi _ hmi_mem
    (fun n hn he => hfam (he ▸ List.mem_cons_of_mem _ hn))
    (fun n hn => hreach n (List.mem_append_right _ hn))
    (fun n hn => hreach n (List.mem_append_right _ (by
      simp only [tailRoots, List.append_assoc]
      exact List.mem_append_left _ hn))) ?_
  refine foldl_inv (fun (s : Maps) => fmGet s.fieldsMap T = none) _ ti.Fields
    (fun y hy s hs => ?_) _ ?_
  · refine F.on_objectField _ _ y s hT1 (fun hd => ?_) hs
    have hmem : ∀ t ∈ y.targets, t ∈ deepRoots k schema ti mi doi := fun t ht =>
      List.mem_append_left _
        (List.mem_flatMap.2 ⟨y, List.mem_filter.2 ⟨hy, by simpa using hd⟩, ht⟩)
    exact ⟨hreach _ (hmem _ (List.mem_cons_self _ _)),
      fun a ha => hreach _ (hmem _ (List.mem_cons_of_mem _ (List.mem_map.2 ⟨a, ha, rfl⟩)))⟩
  · show fmGet ((doName, []) :: ([] : FieldsMap)) T = none
    rw [fmGet_cons_ne _ _ _ _ hT1]
    rfl

theorem mem_joinNames (k : Consts) (pfx : String) (doi : DataObjectInfo) (x : String) :
    x ∈ joinNames k pfx doi ↔
      ∃ q ∈ doi.Queries, q.Typ ≠ k.QueryTypeSelectOne ∧ x = pfx ++ q.Name := by
  unfold joinNames
  simp only [List.mem_map, List.mem_filter, decide_eq_true_eq]
  constructor
  · rintro ⟨q, ⟨hq, hne⟩, rfl⟩
    exact ⟨q, hq, hne, rfl⟩
  · rintro ⟨q, hq, hne, rfl⟩
    exact ⟨q, ⟨hq, hne⟩, rfl⟩

/-- C26: when `fillDataObjectTypesForUpdate`, called with empty maps for the
data object `X`, returns no error, the synthetic join type and its aggregation
type are in the returned type set, and the entry of each of them in the
returned `fieldsMap` holds exactly the names `p ++ q.Name` of the queries `q`
of `X` whose kind is not select-one, `p` being the prefix of the prefix rule.
The two types are taken apart from the types of `X`: neither is the object type
or a type that the earlier blocks write by name, and no expansion reaches them. -/
theorem synthetic_join_registration (k : Consts) (schema : SchemaIntro) (info : SchemaInfo)
    (doName : String) (ti : TypeIntro) (mi : ModuleInfo) (doi : DataObjectInfo) (r : Maps)
    (hti : schema.TypeByName doName = some ti) (hmi : info.Module ti.Module = some mi)
    (hdoi : mi.DataObject ti.Name = some doi)
    (hjoin : Apart k schema info doName ti mi doi k.QueryTimeJoinsTypeName)
    (hagg : Apart k schema info doName ti mi doi
      (k.QueryTimeJoinsTypeName ++ k.AggregationSuffix))
    (hok : fillDataObjectTypesForUpdate k schema info doName {} = (r, none)) :
    k.QueryTimeJoinsTypeName ∈ r.typesMap ∧
    (k.QueryTimeJoinsTypeName ++ k.AggregationSuffix) ∈ r.typesMap ∧
    (∃ e, fmGet r.fieldsMap k.QueryTimeJoinsTypeName = some e ∧
      ∀ x, x ∈ e ↔
        ∃ q ∈ doi.Queries, q.Typ ≠ k.QueryTypeSelectOne ∧ x = objectPrefix info doi ++ q.Name) ∧
    (∃ e, fmGet r.fieldsMap (k.QueryTimeJoinsTypeName ++ k.AggregationSuffix) = some e ∧
      ∀ x, x ∈ e ↔
        ∃ q ∈ doi.Queries, q.Typ ≠ k.QueryTypeSelectOne ∧ x = objectPrefix info doi ++ q.Name) := by
  obtain ⟨-, hr⟩ := fill_split k schema info doName ti mi doi {} r hti hmi hdoi hok
  have h1 : k.QueryTimeJoinsTypeName ∈ syntheticFor k (hasSpatialField k ti) := by
    simp [syntheticFor]
  have h2 : (k.QueryTimeJoinsTypeName ++ k.AggregationSuffix) ∈
      syntheticFor k (hasSpatialField k ti) := by
    simp [syntheticFor]
  have e1 := (syntheticPart_entry k (hasSpatialField k ti) (objectPrefix info doi) doi _ _
    (head_noEntry k schema info doName ti mi doi _ hmi hjoin)).1 h1
  have e2 := (syntheticPart_entry k (hasSpatialField k ti) (objectPrefix info doi) doi _ _
    (head_noEntry k schema info doName ti mi doi _ hmi hagg)).1 h2
  rw [← hr] at e1 e2
  obtain ⟨t1, e1, he1, hx1⟩ := e1
  obtain ⟨t2, e2, he2, hx2⟩ := e2
  exact ⟨t1, t2, ⟨e1, he1, fun x => (hx1 x).trans (mem_joinNames k _ doi x)⟩,
    ⟨e2, he2, fun x => (hx2 x).trans (mem_joinNames k _ doi x)⟩⟩
theorem apart_C26 (T : String) (hT : T ∈ ["_join", "_join_aggregation"]) :
    Apart specConsts schemaC8 infoC26 "X"
      { Name := "X", Module := "m", Fields := [{ Name := "a", Typ := intRef }] }
      { Name := "m", QueryType := "Query", dataObjects := [objectC26] } objectC26 T := by
  have hroots : ∀ root ∈ deepRoots specConsts schemaC8
      { Name := "X", Module := "m", Fields := [{ Name := "a", Typ := intRef }] }
      { Name := "m", QueryType := "Query", dataObjects := [objectC26] } objectC26,
      root ∈ ["Int"] := by decide
  have hfam : ∀ T ∈ ["_join", "_join_aggregation"],
      T ∉ "X" :: headFamily infoC26 objectC26 ∧ T ∉ ["Int"] := by decide
  exact ⟨(hfam T hT).1, fun root hroot =>
    not_reach_of_closed schemaC8 ["Int"] (by decide) root T (hroots root hroot) (hfam T hT).2⟩

theorem synthetic_join_registration_witness :
    fillDataObjectTypesForUpdate specConsts schemaC8 infoC26 "X" {} =
      ((fillDataObjectTypesForUpdate specConsts schemaC8 infoC26 "X" {}).1, none) ∧
    "_join" ∈ (fillDataObjectTypesForUpdate specConsts schemaC8 infoC26 "X" {}).1.typesMap ∧
    "_join_aggregation" ∈
      (fillDataObjectTypesForUpdate specConsts schemaC8 infoC26 "X" {}).1.typesMap ∧
    (∃ e, fmGet (fillDataObjectTypesForUpdate specConsts schemaC8 infoC26 "X" {}).1.fieldsMap
        "_join" = some e ∧
      ∀ x, x ∈ e ↔
        ∃ q ∈ objectC26.Queries, q.Typ ≠ "select_one" ∧ x = objectPrefix infoC26 objectC26 ++ q.Name) ∧
    (∃ e, fmGet (fillDataObjectTypesForUpdate specConsts schemaC8 infoC26 "X" {}).1.fieldsMap
        "_join_aggregation" = some e ∧
      ∀ x, x ∈ e ↔
        ∃ q ∈ objectC26.Queries, q.Typ ≠ "select_one" ∧ x = objectPrefix infoC26 objectC26 ++ q.Name) :=
  ⟨by decide,
   synthetic_join_registration specConsts schemaC8 infoC26 "X"
    { Name := "X", Module := "m", Fields := [{ Name := "a", Typ := intRef }] }
    { Name := "m", QueryType := "Query", dataObjects := [objectC26] } objectC26
    (fillDataObjectTypesForUpdate specConsts schemaC8 infoC26 "X" {}).1
    (by decide) (by decide) (by decide)
    (apart_C26 "_join" (by decide)) (apart_C26 "_join_aggregation" (by decide)) (by decide)⟩

/-- The run behind the witness of C26: the entry of `_join` is the prefixed
name of the list query, and the select-one query is left out. -/
theorem synthetic_join_example :
    fmGet (fillDataObjectTypesForUpdate specConsts schemaC8 infoC26 "X" {}).1.fieldsMap "_join" =
      some ["p_X"] ∧
    fmGet (fillDataObjectTypesForUpdate specConsts schemaC8 infoC26 "X" {}).1.fieldsMap
      "_join_aggregation" = some ["p_X"] := by
  decide
theorem dataObjectFilterSteps_eq (k : Consts) (info : SchemaInfo) (doName : String)
    (mi : ModuleInfo) (doi : DataObjectInfo) :
    dataObjectFilterSteps k info doName mi doi =
      familyFilterSteps k doName mi doi ++
        doi.Queries.flatMap (syntheticFilters k doi.HasGeometry (objectPrefix info doi)) := rfl

theorem syntheticFilters_eq (k : Consts) (g : Bool) (pfx : String) (q : QueryInfo) :
    syntheticFilters k g pfx q = (syntheticFor k g).map (fun T => fieldAndArg T (pfx ++ q.Name)) := by
  unfold syntheticFilters syntheticFor
  cases g <;> rfl

theorem syntheticFor_sub (k : Consts) (b : Bool) : ∀ T ∈ syntheticFor k b, T ∈ syntheticTypes k := by
  intro T hT
  cases b <;> simp [syntheticFor, syntheticTypes] at hT ⊢ <;> tauto

theorem mem_syntheticFilters (k : Consts) (g : Bool) (pfx : String) (doi : DataObjectInfo)
    (flt : RowFilter) :
    (flt ∈ (doi.Queries.flatMap (syntheticFilters k g pfx)).flatMap (fun s => s.1) ↔
      ∃ q ∈ doi.Queries, ∃ T ∈ syntheticFor k g,
        flt = { type_name := T, name := some (pfx ++ q.Name) }) ∧
    (flt ∈ (doi.Queries.flatMap (syntheticFilters k g pfx)).flatMap (fun s => s.2) ↔
      ∃ q ∈ doi.Queries, ∃ T ∈ syntheticFor k g,
        flt = { type_name := T, name := some (pfx ++ q.Name) }) := by
  simp only [List.mem_flatMap, syntheticFilters_eq, List.mem_map, fieldAndArg]
  constructor
  · constructor
    · rintro ⟨s, ⟨q, hq, T, hT, rfl⟩, hflt⟩
      exact ⟨q, hq, T, hT, List.mem_singleton.1 hflt⟩
    · rintro ⟨q, hq, T, hT, rfl⟩
      exact ⟨_, ⟨q, hq, T, hT, rfl⟩, List.mem_singleton.2 rfl⟩
  · constructor
    · rintro ⟨s, ⟨q, hq, T, hT, rfl⟩, hflt⟩
      exact ⟨q, hq, T, hT, List.mem_singleton.1 hflt⟩
    · rintro ⟨q, hq, T, hT, rfl⟩
      exact ⟨_, ⟨q, hq, T, hT, rfl⟩, List.mem_singleton.2 rfl⟩

/-- The rows that the clear selects on a synthetic type. -/
theorem cleared_iff (k : Consts) (info : SchemaInfo) (doName : String) (mi : ModuleInfo)
    (doi : DataObjectInfo) (hfam : familyStepsApart k doName mi doi) (T x : String)
    (hT : T ∈ syntheticTypes k) :
    (fieldCleared k info doName mi doi T x ↔
      T ∈ syntheticFor k doi.HasGeometry ∧
        ∃ q ∈ doi.Queries, x = objectPrefix info doi ++ q.Name) ∧
    (argumentCleared k info doName mi doi T x ↔
      T ∈ syntheticFor k doi.HasGeometry ∧
        ∃ q ∈ doi.Queries, x = objectPrefix info doi ++ q.Name) := by
  unfold fieldCleared argumentCleared
  rw [dataObjectFilterSteps_eq]
  simp only [List.flatMap_append, List.mem_append]
  have hm := mem_syntheticFilters k doi.HasGeometry (objectPrefix info doi) doi
  constructor
  · constructor
    · rintro ⟨flt, hflt | hflt, htn, hname⟩
      · obtain ⟨s, hs, hfs⟩ := List.mem_flatMap.1 hflt
        exact absurd htn ((hfam T hT s hs).1 flt hfs)
      · obtain ⟨q, hq, T', hT', rfl⟩ := (hm flt).1.1 hflt
        simp only at htn hname
        subst htn
        rcases hname with h | h
        · cases h
        · exact ⟨hT', q, hq, (Option.some.inj h).symm⟩
    · rintro ⟨hTg, q, hq, rfl⟩
      exact ⟨_, Or.inr ((hm _).1.2 ⟨q, hq, T, hTg, rfl⟩), rfl, Or.inr rfl⟩
  · constructor
    · rintro ⟨flt, hflt | hflt, htn, hname⟩
      · obtain ⟨s, hs, hfs⟩ := List.mem_flatMap.1 hflt
        exact absurd htn ((hfam T hT s hs).2 flt hfs)
      · obtain ⟨q, hq, T', hT', rfl⟩ := (hm flt).2.1 hflt
        simp only at htn hname
        subst htn
        rcases hname with h | h
        · cases h
        · exact ⟨hT', q, hq, (Option.some.inj h).symm⟩
    · rintro ⟨hTg, q, hq, rfl⟩
      exact ⟨_, Or.inr ((hm _).2.2 ⟨q, hq, T, hTg, rfl⟩), rfl, Or.inr rfl⟩

/-- The names that the closure builder registers on a synthetic type. -/
theorem registered_iff (k : Consts) (schema : SchemaIntro) (info : SchemaInfo)
    (doName : String) (ti : TypeIntro) (mi : ModuleInfo) (doi : DataObjectInfo) (r : Maps)
    (hti : schema.TypeByName doName = some ti) (hmi : info.Module ti.Module = some mi)
    (hdoi : mi.DataObject ti.Name = some doi)
    (hok : fillDataObjectTypesForUpdate k schema info doName {} = (r, none))
    (T x : String) (hT : Apart k schema info doName ti mi doi T) :
    registered r T x ↔
      T ∈ syntheticFor k (hasSpatialField k ti) ∧
        ∃ q ∈ doi.Queries, q.Typ ≠ k.QueryTypeSelectOne ∧ x = objectPrefix info doi ++ q.Name := by
  obtain ⟨-, hr⟩ := fill_split k schema info doName ti mi doi {} r hti hmi hdoi hok
  have hsyn := syntheticPart_entry k (hasSpatialField k ti) (objectPrefix info doi) doi _ T
    (head_noEntry k schema info doName ti mi doi T hmi hT)
  rw [← hr] at hsyn
  unfold registered
  by_cases hmem : T ∈ syntheticFor k (hasSpatialField k ti)
  · obtain ⟨-, e, he, hx⟩ := hsyn.1 hmem
    rw [he]
    simp only [Option.getD_some, hmem, true_and]
    exact (hx x).trans (mem_joinNames k _ doi x)
  · rw [hsyn.2 hmem]
    simp [hmem]

/-- Counterexample to C27 as stated: for the data object `X` of `schemaC8`,
with the list query `X` and the select-one query `X_by_pk` in a data source
with the prefix `p`, the clear builds a field predicate and an argument
predicate for `_join` and `p_X_by_pk`, and the closure builder, which returns
no error, registers under `_join` the name `p_X` only. -/
theorem cleared_pair_not_registered :
    ({ type_name := "_join", name := some "p_X_by_pk" } : RowFilter) ∈
      (clearDataObjectStep specConsts schemaC8 infoC26 "X" ([], [])).1.1 ∧
    ({ type_name := "_join", name := some "p_X_by_pk" } : RowFilter) ∈
      (clearDataObjectStep specConsts schemaC8 infoC26 "X" ([], [])).1.2 ∧
    (fillDataObjectTypesForUpdate specConsts schemaC8 infoC26 "X" {}).2 = none ∧
    fmGet (fillDataObjectTypesForUpdate specConsts schemaC8 infoC26 "X" {}).1.fieldsMap "_join" =
      some ["p_X"] := by
  decide

/-- C27 (amended): let the closure builder return no error for the data object
`X` from empty maps, and let the synthetic types be apart from the types of `X`
on both sides.  On a synthetic type `T` the builder registers exactly the names
`p ++ q.Name` of the queries of `X` that are not select-one, for `T` among the
join types and, when the type of `X` has the spatial field, the spatial types;
the clear selects the field rows and the argument rows named `p ++ q.Name` for
every query of `X`, for `T` among the join types and, when `doi.HasGeometry`,
the spatial types; `p` is the same prefix.  So, when the two spatial decisions
agree, every registered pair is cleared, and a cleared pair that is not
registered is named after select-one queries only. -/
theorem synthetic_clear_and_fill (k : Consts) (schema : SchemaIntro) (info : SchemaInfo)
    (doName : String) (ti : TypeIntro) (mi : ModuleInfo) (doi : DataObjectInfo) (r : Maps)
    (hti : schema.TypeByName doName = some ti) (hmi : info.Module ti.Module = some mi)
    (hdoi : mi.DataObject ti.Name = some doi)
    (hap : ∀ T ∈ syntheticTypes k, Apart k schema info doName ti mi doi T)
    (hfam : familyStepsApart k doName mi doi)
    (hok : fillDataObjectTypesForUpdate k schema info doName {} = (r, none)) :
    ∀ T ∈ syntheticTypes k, ∀ x,
      (registered r T x ↔
        T ∈ syntheticFor k (hasSpatialField k ti) ∧
          ∃ q ∈ doi.Queries, q.Typ ≠ k.QueryTypeSelectOne ∧
            x = objectPrefix info doi ++ q.Name) ∧
      (fieldCleared k info doName mi doi T x ↔
        T ∈ syntheticFor k doi.HasGeometry ∧
          ∃ q ∈ doi.Queries, x = objectPrefix info doi ++ q.Name) ∧
      (argumentCleared k info doName mi doi T x ↔
        T ∈ syntheticFor k doi.HasGeometry ∧
          ∃ q ∈ doi.Queries, x = objectPrefix info doi ++ q.Name) ∧
      (hasSpatialField k ti = doi.HasGeometry →
        (registered r T x →
          fieldCleared k info doName mi doi T x ∧ argumentCleared k info doName mi doi T x) ∧
        (fieldCleared k info doName mi doi T x → ¬ registered r T x →
          ∀ q ∈ doi.Queries, x = objectPrefix info doi ++ q.Name →
            q.Typ = k.QueryTypeSelectOne)) := by
  intro T hT x
  have hreg := registered_iff k schema info doName ti mi doi r hti hmi hdoi hok T x (hap T hT)
  have hclr := cleared_iff k info doName mi doi hfam T x hT
  refine ⟨hreg, hclr.1, hclr.2, fun hsame => ⟨fun h => ?_, fun hc hn q hq hx => ?_⟩⟩
  · obtain ⟨hmem, q, hq, -, hx⟩ := hreg.1 h
    rw [hsame] at hmem
    exact ⟨hclr.1.2 ⟨hmem, q, hq, hx⟩, hclr.2.2 ⟨hmem, q, hq, hx⟩⟩
  · by_contra hne
    have hmem := (hclr.1.1 hc).1
    rw [← hsame] at hmem
    exact hn (hreg.2 ⟨hmem, q, hq, hne, hx⟩)

theorem apart_all_C26 (T : String) (hT : T ∈ syntheticTypes specConsts) :
    Apart specConsts schemaC8 infoC26 "X"
      { Name := "X", Module := "m", Fields := [{ Name := "a", Typ := intRef }] }
      { Name := "m", QueryType := "Query", dataObjects := [objectC26] } objectC26 T := by
  have hroots : ∀ root ∈ deepRoots specConsts schemaC8
      { Name := "X", Module := "m", Fields := [{ Name := "a", Typ := intRef }] }
      { Name := "m", QueryType := "Query", dataObjects := [objectC26] } objectC26,
      root ∈ ["Int"] := by decide
  have hfam : ∀ T ∈ syntheticTypes specConsts,
      T ∉ "X" :: headFamily infoC26 objectC26 ∧ T ∉ ["Int"] := by decide
  exact ⟨(hfam T hT).1, fun root hroot =>
    not_reach_of_closed schemaC8 ["Int"] (by decide) root T (hroots root hroot) (hfam T hT).2⟩

theorem synthetic_clear_and_fill_witness :
    familyStepsApart specConsts "X"
      { Name := "m", QueryType := "Query", dataObjects := [objectC26] } objectC26 ∧
    fillDataObjectTypesForUpdate specConsts schemaC8 infoC26 "X" {} =
      ((fillDataObjectTypesForUpdate specConsts schemaC8 infoC26 "X" {}).1, none) ∧
    ∀ T ∈ syntheticTypes specConsts, ∀ x,
      (registered (fillDataObjectTypesForUpdate specConsts schemaC8 infoC26 "X" {}).1 T x ↔
        T ∈ syntheticFor specConsts (hasSpatialField specConsts
            { Name := "X", Module := "m", Fields := [{ Name := "a", Typ := intRef }] }) ∧
          ∃ q ∈ objectC26.Queries, q.Typ ≠ specConsts.QueryTypeSelectOne ∧
            x = objectPrefix infoC26 objectC26 ++ q.Name) ∧
      (fieldCleared specConsts infoC26 "X"
          { Name := "m", QueryType := "Query", dataObjects := [objectC26] } objectC26 T x ↔
        T ∈ syntheticFor specConsts objectC26.HasGeometry ∧
          ∃ q ∈ objectC26.Queries, x = objectPrefix infoC26 objectC26 ++ q.Name) ∧
      (argumentCleared specConsts infoC26 "X"
          { Name := "m", QueryType := "Query", dataObjects := [objectC26] } objectC26 T x ↔
        T ∈ syntheticFor specConsts objectC26.HasGeometry ∧
          ∃ q ∈ objectC26.Queries, x = objectPrefix infoC26 objectC26 ++ q.Name) ∧
      (hasSpatialField specConsts
          { Name := "X", Module := "m", Fields := [{ Name := "a", Typ := intRef }] } =
          objectC26.HasGeometry →
        (registered (fillDataObjectTypesForUpdate specConsts schemaC8 infoC26 "X" {}).1 T x →
          fieldCleared specConsts infoC26 "X"
            { Name := "m", QueryType := "Query", dataObjects := [objectC26] } objectC26 T x ∧
          argumentCleared specConsts infoC26 "X"
            { Name := "m", QueryType := "Query", dataObjects := [objectC26] } objectC26 T x) ∧
        (fieldCleared specConsts infoC26 "X"
            { Name := "m", QueryType := "Query", dataObjects := [objectC26] } objectC26 T x →
          ¬ registered (fillDataObjectTypesForUpdate specConsts schemaC8 infoC26 "X" {}).1 T x →
          ∀ q ∈ objectC26.Queries, x = objectPrefix infoC26 objectC26 ++ q.Name →
            q.Typ = specConsts.QueryTypeSelectOne)) :=
  ⟨by decide, by decide,
   synthetic_clear_and_fill specConsts schemaC8 infoC26 "X"
    { Name := "X", Module := "m", Fields := [{ Name := "a", Typ := intRef }] }
    { Name := "m", QueryType := "Query", dataObjects := [objectC26] } objectC26
    (fillDataObjectTypesForUpdate specConsts schemaC8 infoC26 "X" {}).1
    (by decide) (by decide) (by decide) apart_all_C26 (by decide) (by decide)⟩

/-! ### The module chain -/

theorem ensureFields_modulesMap (m : Maps) (n : String) :
    (m.ensureFields n).modulesMap = m.modulesMap := by
  unfold Maps.ensureFields
  split <;> rfl

theorem expand_modulesMap (schema : SchemaIntro) (n : String) (m : Maps) :
    (expandIgnoringError schema n m).modulesMap = m.modulesMap := by
  unfold expandIgnoringError addFieldTypeRecursively
  refine addFieldTypeRecursivelyFuel_marking schema (fun s => s.modulesMap = m.modulesMap)
    (fun s x t _ _ hs => ?_) (fun s x f hs => hs) _ n m rfl
  show ((s.setType x).ensureFields x).modulesMap = m.modulesMap
  rw [ensureFields_modulesMap]
  exact hs

theorem shallowArgs_modulesMap (f : FieldIntro) (m : Maps) :
    (shallowArgs f m).modulesMap = m.modulesMap := by
  unfold shallowArgs
  refine foldl_inv (fun s : Maps => s.modulesMap = m.modulesMap) _ f.Args
    (fun _ _ s hs => ?_) m rfl
  exact hs

theorem deepArgs_modulesMap (schema : SchemaIntro) (f : FieldIntro) (m : Maps) :
    (deepArgs schema f m).modulesMap = m.modulesMap := by
  unfold deepArgs
  exact foldl_inv (fun s : Maps => s.modulesMap = m.modulesMap) _ f.Args
    (fun _ _ s hs => (expand_modulesMap schema _ s).trans hs) m rfl

theorem objectField_modulesMap (schema : SchemaIntro) (d : List String) (doName : String)
    (f : FieldIntro) (m : Maps) :
    (objectField schema d doName f m).modulesMap = m.modulesMap := by
  unfold objectField
  simp only []
  split
  · rw [shallowArgs_modulesMap]; rfl
  · rw [deepArgs_modulesMap, expand_modulesMap]; rfl

theorem inputField_modulesMap (schema : SchemaIntro) (d : List String) (owner : String)
    (f : FieldIntro) (m : Maps) :
    (inputField schema d owner f m).modulesMap = m.modulesMap := by
  unfold inputField
  simp only []
  split
  · rfl
  · rw [expand_modulesMap]; rfl

theorem aggregationField_modulesMap (schema : SchemaIntro) (d : List String) (owner : String)
    (f : FieldIntro) (m : Maps) :
    (aggregationField schema d owner f m).modulesMap = m.modulesMap := by
  unfold aggregationField
  simp only []
  split
  · rw [shallowArgs_modulesMap]; rfl
  · rw [deepArgs_modulesMap, expand_modulesMap]; rfl

theorem filterPart_modulesMap (k : Consts) (schema : SchemaIntro) (doi : DataObjectInfo)
    (d : List String) (m : Maps) :
    (filterPart k schema doi d m).1.modulesMap = m.modulesMap := by
  unfold filterPart
  split
  · split
    · rfl
    · rename_i fi _
      simp only []
      rw [expand_modulesMap]
      exact foldl_inv (fun s : Maps => s.modulesMap = m.modulesMap) _ fi.InputFields
        (fun f _ s hs => (inputField_modulesMap schema d _ f s).trans hs) _ rfl
  · rfl

theorem argumentsPart_modulesMap (schema : SchemaIntro) (doi : DataObjectInfo) (m : Maps) :
    (argumentsPart schema doi m).modulesMap = m.modulesMap := by
  unfold argumentsPart
  split
  · split
    · rw [expand_modulesMap]; rfl
    · rfl
  · rfl

theorem aggregationPart_modulesMap (schema : SchemaIntro) (d : List String) (what agg : String)
    (m : Maps) : (aggregationPart schema d what agg m).1.modulesMap = m.modulesMap := by
  unfold aggregationPart
  split
  · split
    · rfl
    · rename_i ai _
      exact foldl_inv (fun s : Maps => s.modulesMap = m.modulesMap) _ ai.Fields
        (fun f _ s hs => (aggregationField_modulesMap schema d _ f s).trans hs) _ rfl
  · rfl

theorem bucketPart_modulesMap (schema : SchemaIntro) (bucket : String) (m : Maps) :
    (bucketPart schema bucket m).1.modulesMap = m.modulesMap := by
  unfold bucketPart
  split
  · split
    · rfl
    · rename_i bai _
      refine foldl_inv (fun s : Maps => s.modulesMap = m.modulesMap) _ bai.Fields
        (fun f _ s hs => ?_) _ rfl
      exact hs
  · rfl

theorem queryRootPart_modulesMap (schema : SchemaIntro) (mi : ModuleInfo) (doi : DataObjectInfo)
    (m : Maps) : (queryRootPart schema mi doi m).modulesMap = m.modulesMap := by
  unfold queryRootPart
  split
  · refine foldl_inv (fun s : Maps => s.modulesMap = m.modulesMap) _ doi.Queries
      (fun q _ s hs => ?_) _ (ensureFields_modulesMap _ _)
    unfold queryRootField
    exact foldl_inv (fun r : Maps => r.modulesMap = m.modulesMap) _ q.Arguments
      (fun a _ r hr => (expand_modulesMap schema _ r).trans hr) _ hs
  · rfl

theorem mutationRootPart_modulesMap (schema : SchemaIntro) (mi : ModuleInfo)
    (doi : DataObjectInfo) (d : List String) (m : Maps) :
    (mutationRootPart schema mi doi d m).modulesMap = m.modulesMap := by
  unfold mutationRootPart
  split
  · split
    · have h1 : ∀ mu s, (deleteMutationPart mi mu s).modulesMap = s.modulesMap := by
        intro mu s
        unfold deleteMutationPart
        split <;> rfl
      have h2 : ∀ mu s, (updateMutationPart schema mi mu s).modulesMap = s.modulesMap := by
        intro mu s
        unfold updateMutationPart
        split
        · rw [expand_modulesMap]; rfl
        · rfl
      have h3 : ∀ mu s, (insertMutationPart schema mi mu d s).modulesMap = s.modulesMap := by
        intro mu s
        unfold insertMutationPart
        split
        · simp only []
          split
          · rfl
          · rename_i mdi _
            exact foldl_inv (fun r : Maps => r.modulesMap = s.modulesMap) _ mdi.InputFields
              (fun f _ r hr => (inputField_modulesMap schema d _ f r).trans hr) _ rfl
        · rfl
      rw [h1, h2, h3, ensureFields_modulesMap]
      rfl
    · rfl
  · rfl

theorem functionRootsPart_modulesMap (mi : ModuleInfo) (m : Maps) :
    (functionRootsPart mi m).modulesMap = m.modulesMap := by
  unfold functionRootsPart
  simp only []
  split <;> split <;> rfl

theorem syntheticPart_modulesMap (k : Consts) (b : Bool) (pfx : String) (doi : DataObjectInfo)
    (m : Maps) : (syntheticPart k b pfx doi m).modulesMap = m.modulesMap := by
  rw [syntheticPart_eq]
  refine foldl_inv (fun s : Maps => s.modulesMap = m.modulesMap) _ doi.Queries
    (fun q _ s hs => ?_) _ ?_
  · show (syntheticQuery k b pfx q s).modulesMap = m.modulesMap
    rw [syntheticQuery_eq]
    split
    · exact hs
    · refine foldl_inv (fun r : Maps => r.modulesMap = m.modulesMap) _ (syntheticFor k b)
        (fun _ _ r hr => ?_) _ hs
      exact hr
  · refine foldl_inv (fun r : Maps => r.modulesMap = m.modulesMap) _ (syntheticFor k b)
      (fun T _ r hr => ?_) _ rfl
    exact (ensureFields_modulesMap _ T).trans hr
theorem moduleLevelRoots_eq (pmi spi : ModuleInfo) (n : String) (m : Maps) :
    moduleLevelRoots pmi spi n m =
      levelMutFunction pmi spi n (levelFunction pmi spi n
        (levelMutation pmi spi n (levelQuery pmi spi n m))) := rfl

theorem Extends.same (m : Maps) : Extends m m :=
  ⟨fun _ h => h, fun _ _ h => h, rfl⟩

theorem Extends.chain {a b c : Maps} (h1 : Extends a b) (h2 : Extends b c) : Extends a c :=
  ⟨fun x hx => h2.types x (h1.types x hx), fun T x h => h2.members T x (h1.members T x h),
    h2.modules.trans h1.modules⟩

theorem Extends.setType (m : Maps) (n : String) : Extends m (m.setType n) :=
  ⟨fun _ h => List.mem_cons_of_mem _ h, fun _ _ h => h, rfl⟩

theorem registered_addField (m : Maps) (a x T y : String) :
    registered (m.addField a x) T y ↔ (registered m T y ∨ (a = T ∧ y = x)) := by
  unfold registered
  rw [addField_fmGet]
  by_cases haT : a = T
  · subst haT
    simp only [if_true, Option.getD_some, List.mem_cons, true_and]
    tauto
  · simp [haT]

theorem Extends.onAddField (m : Maps) (a x : String) : Extends m (m.addField a x) :=
  ⟨fun _ h => h, fun T y h => (registered_addField m a x T y).2 (Or.inl h), rfl⟩

theorem Extends.onEnsureFields (m : Maps) (n : String) : Extends m (m.ensureFields n) := by
  refine ⟨fun x hx => by rw [ensureFields_typesMap]; exact hx, fun T x h => ?_,
    ensureFields_modulesMap m n⟩
  unfold registered at h ⊢
  unfold Maps.ensureFields
  rcases hg : fmGet m.fieldsMap n with _ | e
  · simp only []
    show x ∈ (fmGet ((n, []) :: m.fieldsMap) T).getD []
    by_cases hnT : n = T
    · subst hnT
      rw [hg] at h
      simp at h
    · rw [fmGet_cons_ne _ _ _ _ hnT]
      exact h
  · exact h

theorem Extends.newEntry (m : Maps) (n : String) (v : List String)
    (h : fmGet m.fieldsMap n = none) :
    Extends m { m with fieldsMap := (n, v) :: m.fieldsMap } := by
  refine ⟨fun _ hx => hx, fun T x hr => ?_, rfl⟩
  unfold registered at hr ⊢
  show x ∈ (fmGet ((n, v) :: m.fieldsMap) T).getD []
  by_cases hnT : n = T
  · subst hnT
    rw [h] at hr
    simp at hr
  · rw [fmGet_cons_ne _ _ _ _ hnT]
    exact hr

theorem levelQuery_spec (pmi spi : ModuleInfo) (n : String) (m : Maps) :
    Extends m (levelQuery pmi spi n m) ∧
    (pmi.QueryType ≠ "" → pmi.QueryType ∈ (levelQuery pmi spi n m).typesMap) ∧
    (pmi.QueryType ≠ "" → spi.QueryType ≠ "" →
      registered (levelQuery pmi spi n m) pmi.QueryType n) := by
  unfold levelQuery
  split
  · simp only []
    have e0 : Extends m ((m.setType pmi.QueryType).ensureFields pmi.QueryType) :=
      (Extends.setType m _).chain (Extends.onEnsureFields _ _)
    have t0 : pmi.QueryType ∈ ((m.setType pmi.QueryType).ensureFields pmi.QueryType).typesMap := by
      rw [ensureFields_typesMap]
      exact List.mem_cons_self _ _
    generalize (m.setType pmi.QueryType).ensureFields pmi.QueryType = m0 at e0 t0
    have h1 : Extends m0 (if spi.QueryType ≠ "" then m0.addField pmi.QueryType n else m0) ∧
        (spi.QueryType ≠ "" →
          registered (if spi.QueryType ≠ "" then m0.addField pmi.QueryType n else m0) pmi.QueryType n) := by
      split
      · exact ⟨Extends.onAddField _ _ _,
          fun _ => (registered_addField _ _ _ _ _).2 (Or.inr ⟨rfl, rfl⟩)⟩
      · rename_i hs
        exact ⟨Extends.same _, fun h => absurd h hs⟩
    generalize (if spi.QueryType ≠ "" then m0.addField pmi.QueryType n else m0) = m1 at h1
    have h2 : Extends m1 (if pmi.FunctionType ≠ "" ∧ pmi.Name = "" then
        m1.addField pmi.QueryType "function" else m1) := by
      split
      · exact Extends.onAddField _ _ _
      · exact Extends.same _
    generalize (if pmi.FunctionType ≠ "" ∧ pmi.Name = "" then
        m1.addField pmi.QueryType "function" else m1) = m2 at h2
    exact ⟨(e0.chain h1.1).chain h2, fun _ => h2.types _ (h1.1.types _ t0),
      fun _ hs => h2.members _ _ (h1.2 hs)⟩
  · rename_i h
    exact ⟨Extends.same m, fun h' => absurd h' h, fun h' => absurd h' h⟩

theorem levelMutation_spec (pmi spi : ModuleInfo) (n : String) (m : Maps) :
    Extends m (levelMutation pmi spi n m) ∧
    (pmi.MutationType ≠ "" → pmi.MutationType ∈ (levelMutation pmi spi n m).typesMap) ∧
    (pmi.MutationType ≠ "" → spi.MutationType ≠ "" →
      registered (levelMutation pmi spi n m) pmi.MutationType n) := by
  unfold levelMutation
  split
  · simp only []
    have e0 : Extends m ((m.setType pmi.MutationType).ensureFields pmi.MutationType) :=
      (Extends.setType m _).chain (Extends.onEnsureFields _ _)
    have t0 : pmi.MutationType ∈ ((m.setType pmi.MutationType).ensureFields pmi.MutationType).typesMap := by
      rw [ensureFields_typesMap]
      exact List.mem_cons_self _ _
    generalize (m.setType pmi.MutationType).ensureFields pmi.MutationType = m0 at e0 t0
    have h1 : Extends m0 (if spi.MutationType ≠ "" then m0.addField pmi.MutationType n else m0) ∧
        (spi.MutationType ≠ "" →
          registered (if spi.MutationType ≠ "" then m0.addField pmi.MutationType n else m0) pmi.MutationType n) := by
      split
      · exact ⟨Extends.onAddField _ _ _,
          fun _ => (registered_addField _ _ _ _ _).2 (Or.inr ⟨rfl, rfl⟩)⟩
      · rename_i hs
        exact ⟨Extends.same _, fun h => absurd h hs⟩
    generalize (if spi.MutationType ≠ "" then m0.addField pmi.MutationType n else m0) = m1 at h1
    have h2 : Extends m1 (if pmi.MutationFunctionType ≠ "" ∧ pmi.Name = "" then
        m1.addField pmi.MutationType "function" else m1) := by
      split
      · exact Extends.onAddField _ _ _
      · exact Extends.same _
    generalize (if pmi.MutationFunctionType ≠ "" ∧ pmi.Name = "" then
        m1.addField pmi.MutationType "function" else m1) = m2 at h2
    exact ⟨(e0.chain h1.1).chain h2, fun _ => h2.types _ (h1.1.types _ t0),
      fun _ hs => h2.members _ _ (h1.2 hs)⟩
  · rename_i h
    exact ⟨Extends.same m, fun h' => absurd h' h, fun h' => absurd h' h⟩

theorem levelFunction_spec (pmi spi : ModuleInfo) (n : String) (m : Maps) :
    Extends m (levelFunction pmi spi n m) ∧
    (pmi.FunctionType ≠ "" → pmi.FunctionType ∈ (levelFunction pmi spi n m).typesMap) ∧
    (pmi.FunctionType ≠ "" → spi.FunctionType ≠ "" →
      registered (levelFunction pmi spi n m) pmi.FunctionType n) := by
  unfold levelFunction
  split
  · simp only []
    have t0 : pmi.FunctionType ∈ (m.setType pmi.FunctionType).typesMap :=
      List.mem_cons_self _ _
    have e0 := Extends.setType m pmi.FunctionType
    generalize m.setType pmi.FunctionType = m0 at e0 t0
    split
    · have e1 : Extends m0 (match fmGet m0.fieldsMap pmi.FunctionType with
          | some _ => m0
          | none => { m0 with fieldsMap := (pmi.FunctionType, [n]) :: m0.fieldsMap }) := by
        rcases hg : fmGet m0.fieldsMap pmi.FunctionType with _ | e
        · exact Extends.newEntry m0 _ _ hg
        · exact Extends.same m0
      generalize (match fmGet m0.fieldsMap pmi.FunctionType with
          | some _ => m0
          | none => { m0 with fieldsMap := (pmi.FunctionType, [n]) :: m0.fieldsMap }) = m1 at e1
      exact ⟨(e0.chain e1).chain (Extends.onAddField _ _ _), fun _ => e1.types _ t0,
        fun _ _ => (registered_addField _ _ _ _ _).2 (Or.inr ⟨rfl, rfl⟩)⟩
    · rename_i hs
      exact ⟨e0, fun _ => t0, fun _ h => absurd h hs⟩
  · rename_i h
    exact ⟨Extends.same m, fun h' => absurd h' h, fun h' => absurd h' h⟩

theorem levelMutFunction_spec (pmi spi : ModuleInfo) (n : String) (m : Maps) :
    Extends m (levelMutFunction pmi spi n m) ∧
    (pmi.MutationFunctionType ≠ "" →
      pmi.MutationFunctionType ∈ (levelMutFunction pmi spi n m).typesMap) ∧
    (pmi.MutationFunctionType ≠ "" → spi.MutationFunctionType ≠ "" →
      registered (levelMutFunction pmi spi n m) pmi.MutationFunctionType n) := by
  unfold levelMutFunction
  split
  · simp only []
    have t0 : pmi.MutationFunctionType ∈ (m.setType pmi.MutationFunctionType).typesMap :=
      List.mem_cons_self _ _
    have e0 := Extends.setType m pmi.MutationFunctionType
    generalize m.setType pmi.MutationFunctionType = m0 at e0 t0
    split
    · have e1 := Extends.onEnsureFields m0 pmi.MutationFunctionType
      exact ⟨(e0.chain e1).chain (Extends.onAddField _ _ _), fun _ => e1.types _ t0,
        fun _ _ => (registered_addField _ _ _ _ _).2 (Or.inr ⟨rfl, rfl⟩)⟩
    · rename_i hs
      exact ⟨e0, fun _ => t0, fun _ h => absurd h hs⟩
  · rename_i h
    exact ⟨Extends.same m, fun h' => absurd h' h, fun h' => absurd h' h⟩

/-- One level of `fillModulesTypesRecursively`: the maps are extended, the root
types of the parent level are marked, and the segment is registered under the
root types of the parent level. -/
theorem moduleLevelRoots_spec (pmi spi : ModuleInfo) (n : String) (m : Maps) :
    Extends m (moduleLevelRoots pmi spi n m) ∧
    (∀ root ∈ pmi.roots, root ≠ "" → root ∈ (moduleLevelRoots pmi spi n m).typesMap) ∧
    segmentMarked (moduleLevelRoots pmi spi n m) pmi spi n := by
  rw [moduleLevelRoots_eq]
  obtain ⟨q1, q2, q3⟩ := levelQuery_spec pmi spi n m
  generalize levelQuery pmi spi n m = m1 at q1 q2 q3
  obtain ⟨u1, u2, u3⟩ := levelMutation_spec pmi spi n m1
  generalize levelMutation pmi spi n m1 = m2 at u1 u2 u3
  obtain ⟨f1, f2, f3⟩ := levelFunction_spec pmi spi n m2
  generalize levelFunction pmi spi n m2 = m3 at f1 f2 f3
  obtain ⟨g1, g2, g3⟩ := levelMutFunction_spec pmi spi n m3
  generalize levelMutFunction pmi spi n m3 = m4 at g1 g2 g3
  refine ⟨((q1.chain u1).chain f1).chain g1, ?_, ?_⟩
  · intro root hroot hne
    simp only [ModuleInfo.roots, List.mem_cons, List.mem_singleton, List.not_mem_nil,
      or_false] at hroot
    rcases hroot with rfl | rfl | rfl | rfl
    · exact g1.types _ (f1.types _ (u1.types _ (q2 hne)))
    · exact g1.types _ (f1.types _ (u2 hne))
    · exact g1.types _ (f2 hne)
    · exact g2 hne
  · exact ⟨fun h1 h2 => g1.members _ _ (f1.members _ _ (u1.members _ _ (q3 h1 h2))),
      fun h1 h2 => g1.members _ _ (f1.members _ _ (u3 h1 h2)),
      fun h1 h2 => g1.members _ _ (f3 h1 h2), g3⟩
theorem forEachE_range' {σ : Type} (Inv : Nat → σ → Prop) (body : Nat → σ → σ × Option Err)
    (hstep : ∀ i s, Inv i s → (body i s).2 = none → Inv (i + 1) (body i s).1) :
    ∀ n j s, Inv j s → (forEachE body (List.range' j n) s).2 = none →
      Inv (j + n) (forEachE body (List.range' j n) s).1 := by
  intro n
  induction n with
  | zero => intro j s h _; simpa [forEachE] using h
  | succ n ih =>
    intro j s h hok
    rw [List.range'_succ] at hok ⊢
    rcases hb : body j s with ⟨s', _ | e⟩
    · simp only [forEachE, hb] at hok ⊢
      have h1 := hstep j s h (by rw [hb])
      rw [hb] at h1
      have := ih (j + 1) s' h1 hok
      rw [show j + (n + 1) = j + 1 + n by omega]
      exact this
    · simp [forEachE, hb] at hok

theorem segmentMarked_mono {a b : Maps} (h : ∀ T x, registered a T x → registered b T x)
    (P S : ModuleInfo) (n : String) (hs : segmentMarked a P S n) : segmentMarked b P S n :=
  ⟨fun h1 h2 => h _ _ (hs.1 h1 h2), fun h1 h2 => h _ _ (hs.2.1 h1 h2),
    fun h1 h2 => h _ _ (hs.2.2.1 h1 h2), fun h1 h2 => h _ _ (hs.2.2.2 h1 h2)⟩

/-- The walk of `fillModulesTypesRecursively`, when it returns no error. -/
theorem fillModules_spec (info : SchemaInfo) (mi : ModuleInfo) (m : Maps)
    (hok : (fillModulesTypesRecursively info mi m).2 = none) :
    (∀ x ∈ m.typesMap, x ∈ (fillModulesTypesRecursively info mi m).1.typesMap) ∧
    (∀ T x, registered m T x → registered (fillModulesTypesRecursively info mi m).1 T x) ∧
    (∀ x, x ∈ (fillModulesTypesRecursively info mi m).1.modulesMap ↔
      (x ∈ m.modulesMap ∨ x = "" ∨ ∃ i < (splitDot mi.Name).length,
        x = ".".intercalate ((splitDot mi.Name).take (i + 1)))) ∧
    (∀ i < (splitDot mi.Name).length, ∀ L, levelAt info (splitDot mi.Name) i = some L →
      ∀ root ∈ L.roots, root ≠ "" →
        root ∈ (fillModulesTypesRecursively info mi m).1.typesMap) ∧
    (∀ i < (splitDot mi.Name).length, ∀ P S, levelAt info (splitDot mi.Name) i = some P →
      levelAt info (splitDot mi.Name) (i + 1) = some S →
        segmentMarked (fillModulesTypesRecursively info mi m).1 P S
          ((splitDot mi.Name).getD i "")) ∧
    (∀ i < (splitDot mi.Name).length, ∃ S, levelAt info (splitDot mi.Name) (i + 1) = some S) := by
  unfold fillModulesTypesRecursively at hok ⊢
  simp only [] at hok ⊢
  generalize splitDot mi.Name = pp at hok ⊢
  have key := forEachE_range'
    (fun j (st : Maps × ModuleInfo) =>
      levelAt info pp j = some st.2 ∧
      (∀ x ∈ m.typesMap, x ∈ st.1.typesMap) ∧
      (∀ T x, registered m T x → registered st.1 T x) ∧
      (∀ x, x ∈ st.1.modulesMap ↔
        (x ∈ m.modulesMap ∨ x = "" ∨ ∃ i < j, x = ".".intercalate (pp.take (i + 1)))) ∧
      (∀ i < j, ∀ L, levelAt info pp i = some L →
        ∀ root ∈ L.roots, root ≠ "" → root ∈ st.1.typesMap) ∧
      (∀ i < j, ∀ P S, levelAt info pp i = some P → levelAt info pp (i + 1) = some S →
        segmentMarked st.1 P S (pp.getD i "")) ∧
      (∀ i < j, ∃ S, levelAt info pp (i + 1) = some S))
    (moduleLevel info pp)
    (fun j st hst hokj => by
      obtain ⟨hlv, hty, hrg, hmod, hroots, hmarks, hres⟩ := hst
      unfold moduleLevel at hokj ⊢
      simp only [] at hokj ⊢
      rcases hM : info.Module (".".intercalate (pp.take (j + 1))) with _ | spi
      · simp [hM] at hokj
      · simp only [hM]
        obtain ⟨hext, hr, hm⟩ := moduleLevelRoots_spec st.2 spi (pp.getD j "")
          (st.1.setModule (".".intercalate (pp.take (j + 1))))
        have hext0 : ∀ x ∈ st.1.typesMap,
            x ∈ (moduleLevelRoots st.2 spi (pp.getD j "")
              (st.1.setModule (".".intercalate (pp.take (j + 1))))).typesMap :=
          fun x hx => hext.types x hx
        have hreg0 : ∀ T x, registered st.1 T x →
            registered (moduleLevelRoots st.2 spi (pp.getD j "")
              (st.1.setModule (".".intercalate (pp.take (j + 1))))) T x :=
          fun T x hx => hext.members T x hx
        refine ⟨hM, fun x hx => hext0 x (hty x hx), fun T x hx => hreg0 T x (hrg T x hx),
          fun x => ?_, fun i hi L hL root hroot hne => ?_, fun i hi P S hP hS => ?_,
          fun i hi => ?_⟩
        · rw [hext.modules]
          show x ∈ (".".intercalate (pp.take (j + 1))) :: st.1.modulesMap ↔ _
          rw [List.mem_cons, hmod x]
          constructor
          · rintro (h | h | h | ⟨i, hi, h⟩)
            · exact Or.inr (Or.inr ⟨j, Nat.lt_succ_self j, h⟩)
            · exact Or.inl h
            · exact Or.inr (Or.inl h)
            · exact Or.inr (Or.inr ⟨i, Nat.lt_succ_of_lt hi, h⟩)
          · rintro (h | h | ⟨i, hi, h⟩)
            · exact Or.inr (Or.inl h)
            · exact Or.inr (Or.inr (Or.inl h))
            · rcases Nat.lt_succ_iff_lt_or_eq.1 hi with hi | rfl
              · exact Or.inr (Or.inr (Or.inr ⟨i, hi, h⟩))
              · exact Or.inl h
        · rcases Nat.lt_succ_iff_lt_or_eq.1 hi with hi | rfl
          · exact hext0 _ (hroots i hi L hL root hroot hne)
          · rw [hlv] at hL
            cases hL
            exact hr root hroot hne
        · rcases Nat.lt_succ_iff_lt_or_eq.1 hi with hi | rfl
          · exact segmentMarked_mono hreg0 P S _ (hmarks i hi P S hP hS)
          · rw [hlv] at hP
            cases hP
            have hS' : levelAt info pp (i + 1) = some spi := hM
            rw [hS'] at hS
            cases hS
            exact hm
        · rcases Nat.lt_succ_iff_lt_or_eq.1 hi with hi | rfl
          · exact hres i hi
          · exact ⟨spi, hM⟩)
    pp.length 0 (m.setModule "", info.RootModule)
    ⟨rfl, fun x hx => hx, fun T x hx => hx,
      fun x => by
        show x ∈ "" :: m.modulesMap ↔ _
        simp only [List.mem_cons, Nat.not_lt_zero, false_and, exists_false, or_false]
        tauto,
      fun i hi => absurd hi (Nat.not_lt_zero i), fun i hi => absurd hi (Nat.not_lt_zero i),
      fun i hi => absurd hi (Nat.not_lt_zero i)⟩
    (by rw [← List.range_eq_range']; exact hok)
  rw [← List.range_eq_range', Nat.zero_add] at key
  exact key.2
theorem head_split (k : Consts) (schema : SchemaIntro) (info : SchemaInfo) (mi : ModuleInfo)
    (doi : DataObjectInfo) (d : List String) (m : Maps)
    (hok : (fillDataObjectHead k schema info mi doi d m).2 = none) :
    ∃ m4, m4.modulesMap = m.modulesMap ∧
      (fillModulesTypesRecursively info mi (functionRootsPart mi
        (mutationRootPart schema mi doi d (queryRootPart schema mi doi m4)))).2 = none ∧
      (fillDataObjectHead k schema info mi doi d m).1 =
        (fillModulesTypesRecursively info mi (functionRootsPart mi
          (mutationRootPart schema mi doi d (queryRootPart schema mi doi m4)))).1 := by
  unfold fillDataObjectHead at hok ⊢
  obtain ⟨h1, hok⟩ := andThen_ok _ _ hok
  rw [andThen_of_ok _ _ h1]
  have e1 := filterPart_modulesMap k schema doi d m
  generalize (filterPart k schema doi d m).1 = m1 at hok e1 ⊢
  obtain ⟨h2, hok⟩ := andThen_ok _ _ hok
  rw [andThen_of_ok _ _ h2]
  have e2 := (aggregationPart_modulesMap schema d "aggregation type" doi.AggregationType
    (argumentsPart schema doi m1)).trans (argumentsPart_modulesMap schema doi m1)
  generalize (aggregationPart schema d "aggregation type" doi.AggregationType
    (argumentsPart schema doi m1)).1 = m2 at hok e2 ⊢
  obtain ⟨h3, hok⟩ := andThen_ok _ _ hok
  rw [andThen_of_ok _ _ h3]
  have e3 := aggregationPart_modulesMap schema d "sub-aggregation type" doi.SubAggregationType m2
  generalize (aggregationPart schema d "sub-aggregation type" doi.SubAggregationType m2).1 = m3
    at hok e3 ⊢
  obtain ⟨h4, hok⟩ := andThen_ok _ _ hok
  rw [andThen_of_ok _ _ h4]
  have e4 := bucketPart_modulesMap schema doi.BucketAggregationType m3
  generalize (bucketPart schema doi.BucketAggregationType m3).1 = m4 at hok e4 ⊢
  exact ⟨m4, by rw [e4, e3, e2, e1], hok, rfl⟩

theorem queryRootPart_marks (schema : SchemaIntro) (mi : ModuleInfo) (doi : DataObjectInfo)
    (m : Maps) (h : mi.QueryType ≠ "") : mi.QueryType ∈ (queryRootPart schema mi doi m).typesMap := by
  unfold queryRootPart
  rw [if_pos h]
  refine foldl_inv (fun s : Maps => mi.QueryType ∈ s.typesMap) _ doi.Queries
    (fun q _ s hs => ?_) _ ?_
  · unfold queryRootField
    refine foldl_inv (fun r : Maps => mi.QueryType ∈ r.typesMap) _ q.Arguments
      (fun a _ r hr => ?_) _ (List.mem_cons_of_mem _ hs)
    exact expand_typesMap_mono schema _ _ _ r hr
  · show mi.QueryType ∈ ((m.setType mi.QueryType).ensureFields mi.QueryType).typesMap
    rw [ensureFields_typesMap]
    exact List.mem_cons_self _ _

theorem inputField_typesMap (schema : SchemaIntro) (d : List String) (owner : String)
    (f : FieldIntro) (m : Maps) (T : String) (h : T ∈ m.typesMap) :
    T ∈ (inputField schema d owner f m).typesMap := by
  unfold inputField
  simp only []
  split
  · exact List.mem_cons_of_mem _ h
  · exact expand_typesMap_mono schema _ _ _ _ h

theorem mutationRootPart_marks (schema : SchemaIntro) (mi : ModuleInfo) (doi : DataObjectInfo)
    (d : List String) (m : Maps) (h : mi.MutationType ≠ "") (hmu : doi.Mutations ≠ none) :
    mi.MutationType ∈ (mutationRootPart schema mi doi d m).typesMap := by
  unfold mutationRootPart
  rcases hm : doi.Mutations with _ | mu
  · exact absurd hm hmu
  · simp only [if_pos h]
    have h0 : mi.MutationType ∈
        ((m.setType mi.MutationType).ensureFields mi.MutationType).typesMap := by
      rw [ensureFields_typesMap]
      exact List.mem_cons_self _ _
    generalize (m.setType mi.MutationType).ensureFields mi.MutationType = m0 at h0
    have h1 : mi.MutationType ∈ (insertMutationPart schema mi mu d m0).typesMap := by
      unfold insertMutationPart
      split
      · simp only []
        split
        · exact h0
        · rename_i mdi _
          refine foldl_inv (fun r : Maps => mi.MutationType ∈ r.typesMap) _ mdi.InputFields
            (fun f _ r hr => inputField_typesMap schema d _ f r _ hr) _ ?_
          exact List.mem_cons_of_mem _ h0
      · exact h0
    generalize insertMutationPart schema mi mu d m0 = m1 at h1
    have h2 : mi.MutationType ∈ (updateMutationPart schema mi mu m1).typesMap := by
      unfold updateMutationPart
      split
      · exact expand_typesMap_mono schema _ _ _ _ h1
      · exact h1
    generalize updateMutationPart schema mi mu m1 = m2 at h2
    unfold deleteMutationPart
    split
    · exact h2
    · exact h2

theorem mutationRootPart_typesMap (schema : SchemaIntro) (mi : ModuleInfo)
    (doi : DataObjectInfo) (d : List String) (m : Maps) (T : String) (h : T ∈ m.typesMap) :
    T ∈ (mutationRootPart schema mi doi d m).typesMap :=
  (marked_frame schema T).on_mutationRootPart mi doi d m
    (fun _ _ _ => ⟨trivial, fun _ => ⟨trivial, fun _ _ _ _ _ => trivial⟩, fun _ => trivial⟩) h

theorem functionRootsPart_marks (mi : ModuleInfo) (m : Maps) :
    (∀ T ∈ m.typesMap, T ∈ (functionRootsPart mi m).typesMap) ∧
    (mi.FunctionType ≠ "" → mi.FunctionType ∈ (functionRootsPart mi m).typesMap) ∧
    (mi.MutationFunctionType ≠ "" →
      mi.MutationFunctionType ∈ (functionRootsPart mi m).typesMap) := by
  unfold functionRootsPart
  simp only []
  by_cases h1 : mi.FunctionType ≠ "" <;> by_cases h2 : mi.MutationFunctionType ≠ ""
  · rw [if_pos h1, if_pos h2]
    exact ⟨fun T hT => List.mem_cons_of_mem _ (List.mem_cons_of_mem _ hT),
      fun _ => List.mem_cons_of_mem _ (List.mem_cons_self _ _), fun _ => List.mem_cons_self _ _⟩
  · rw [if_pos h1, if_neg h2]
    exact ⟨fun T hT => List.mem_cons_of_mem _ hT, fun _ => List.mem_cons_self _ _,
      fun h => absurd h h2⟩
  · rw [if_neg h1, if_pos h2]
    exact ⟨fun T hT => List.mem_cons_of_mem _ hT, fun h => absurd h h1,
      fun _ => List.mem_cons_self _ _⟩
  · rw [if_neg h1, if_neg h2]
    exact ⟨fun T hT => hT, fun h => absurd h h1, fun h => absurd h h2⟩

theorem syntheticPart_extends (k : Consts) (b : Bool) (pfx : String) (doi : DataObjectInfo)
    (m : Maps) : Extends m (syntheticPart k b pfx doi m) := by
  rw [syntheticPart_eq]
  refine foldl_inv (fun s : Maps => Extends m s) _ doi.Queries (fun q _ s hs => ?_) _ ?_
  · show Extends m (syntheticQuery k b pfx q s)
    rw [syntheticQuery_eq]
    split
    · exact hs
    · refine foldl_inv (fun r : Maps => Extends m r) _ (syntheticFor k b)
        (fun T _ r hr => ?_) _ hs
      exact hr.chain (Extends.onAddField _ _ _)
  · refine foldl_inv (fun r : Maps => Extends m r) _ (syntheticFor k b)
      (fun T _ r hr => ?_) _ (Extends.same m)
    exact hr.chain ((Extends.setType _ _).chain (Extends.onEnsureFields _ _))

theorem dataSourcePart_extends (info : SchemaInfo) (ds : String) (m : Maps) :
    Extends m (dataSourcePart info ds m).1 := by
  unfold dataSourcePart
  split
  · exact ⟨fun _ h => h, fun _ _ h => h, rfl⟩
  · exact Extends.same m

/-- Counterexample to C25 as stated: the view `V` of the module `a` has no
mutations; the closure builder returns no error, the mutation root type of the
root module is in the returned type set (with the field `a` registered under
it), and the mutation root type `a_mutation` of the owning module is not. -/
theorem owning_mutation_root_not_registered :
    (fillDataObjectTypesForUpdate specConsts schemaC25 infoC25 "V" {}).2 = none ∧
    "Mutation" ∈ (fillDataObjectTypesForUpdate specConsts schemaC25 infoC25 "V" {}).1.typesMap ∧
    fmGet (fillDataObjectTypesForUpdate specConsts schemaC25 infoC25 "V" {}).1.fieldsMap
      "Mutation" = some ["a"] ∧
    "a_query" ∈ (fillDataObjectTypesForUpdate specConsts schemaC25 infoC25 "V" {}).1.typesMap ∧
    "a_mutation" ∉
      (fillDataObjectTypesForUpdate specConsts schemaC25 infoC25 "V" {}).1.typesMap := by
  decide

/-- C25 (amended): for a data object whose type, module `mi` and descriptor
resolve, the closure builder called with empty maps fails when some dot-prefix
of the name of `mi` is not a module of the summary; and when it returns no
error, the returned module set is the root module (empty name) and the
dot-prefixes of the name of `mi`; every non-empty root type of every level above
`mi` (the root module, then the modules named by the proper prefixes) is in the
returned type set, and so are the query, function and mutation-function root
types of `mi` itself and, when the object has mutations, its mutation root type;
and for every level below the root, its last path segment is registered under
the root type of its parent level of each kind for which both levels have a
root type. -/
theorem module_chain_walk (k : Consts) (schema : SchemaIntro) (info : SchemaInfo)
    (doName : String) (ti : TypeIntro) (mi : ModuleInfo) (doi : DataObjectInfo)
    (hti : schema.TypeByName doName = some ti) (hmi : info.Module ti.Module = some mi)
    (hdoi : mi.DataObject ti.Name = some doi) :
    ((∃ i < (splitDot mi.Name).length,
        info.Module (".".intercalate ((splitDot mi.Name).take (i + 1))) = none) →
      (fillDataObjectTypesForUpdate k schema info doName {}).2 ≠ none) ∧
    ∀ r, fillDataObjectTypesForUpdate k schema info doName {} = (r, none) →
      (∀ x, x ∈ r.modulesMap ↔
        (x = "" ∨ ∃ i < (splitDot mi.Name).length,
          x = ".".intercalate ((splitDot mi.Name).take (i + 1)))) ∧
      (∀ i < (splitDot mi.Name).length, ∀ L, levelAt info (splitDot mi.Name) i = some L →
        ∀ root ∈ L.roots, root ≠ "" → root ∈ r.typesMap) ∧
      ((mi.QueryType ≠ "" → mi.QueryType ∈ r.typesMap) ∧
        (mi.FunctionType ≠ "" → mi.FunctionType ∈ r.typesMap) ∧
        (mi.MutationFunctionType ≠ "" → mi.MutationFunctionType ∈ r.typesMap) ∧
        (mi.MutationType ≠ "" → doi.Mutations ≠ none → mi.MutationType ∈ r.typesMap)) ∧
      (∀ i < (splitDot mi.Name).length, ∀ P S,
        levelAt info (splitDot mi.Name) i = some P →
        levelAt info (splitDot mi.Name) (i + 1) = some S →
          segmentMarked r P S ((splitDot mi.Name).getD i "")) := by
  have main : ∀ r, fillDataObjectTypesForUpdate k schema info doName {} = (r, none) →
      ((∀ x, x ∈ r.modulesMap ↔
        (x = "" ∨ ∃ i < (splitDot mi.Name).length,
          x = ".".intercalate ((splitDot mi.Name).take (i + 1)))) ∧
      (∀ i < (splitDot mi.Name).length, ∀ L, levelAt info (splitDot mi.Name) i = some L →
        ∀ root ∈ L.roots, root ≠ "" → root ∈ r.typesMap) ∧
      ((mi.QueryType ≠ "" → mi.QueryType ∈ r.typesMap) ∧
        (mi.FunctionType ≠ "" → mi.FunctionType ∈ r.typesMap) ∧
        (mi.MutationFunctionType ≠ "" → mi.MutationFunctionType ∈ r.typesMap) ∧
        (mi.MutationType ≠ "" → doi.Mutations ≠ none → mi.MutationType ∈ r.typesMap)) ∧
      (∀ i < (splitDot mi.Name).length, ∀ P S,
        levelAt info (splitDot mi.Name) i = some P →
        levelAt info (splitDot mi.Name) (i + 1) = some S →
          segmentMarked r P S ((splitDot mi.Name).getD i ""))) ∧
      (∀ i < (splitDot mi.Name).length,
        ∃ S, levelAt info (splitDot mi.Name) (i + 1) = some S) := by
    intro r hok
    obtain ⟨hhead, hr⟩ := fill_split k schema info doName ti mi doi {} r hti hmi hdoi hok
    obtain ⟨m4, hm4, hfm, hheq⟩ := head_split k schema info mi doi _ _ hhead
    have hbody : (ti.Fields.foldl (fun m f => objectField schema (declaredNames doi) doName f m)
        (((({} : Maps)).setType doName).newFields doName)).modulesMap = [] := by
      refine foldl_inv (fun s : Maps => s.modulesMap = []) _ ti.Fields (fun f _ s hs => ?_) _ rfl
      exact (objectField_modulesMap schema _ doName f s).trans hs
    rw [hbody] at hm4
    rw [hheq] at hr
    have hq := queryRootPart_modulesMap schema mi doi m4
    have hqm : mi.QueryType ≠ "" → mi.QueryType ∈ (queryRootPart schema mi doi m4).typesMap :=
      queryRootPart_marks schema mi doi m4
    generalize queryRootPart schema mi doi m4 = m5 at hq hqm hfm hr
    have hu := mutationRootPart_modulesMap schema mi doi (declaredNames doi) m5
    have hum := mutationRootPart_marks schema mi doi (declaredNames doi) m5
    have hut := mutationRootPart_typesMap schema mi doi (declaredNames doi) m5
    generalize mutationRootPart schema mi doi (declaredNames doi) m5 = m6 at hu hum hut hfm hr
    have hf := functionRootsPart_modulesMap mi m6
    obtain ⟨hft, hff, hfg⟩ := functionRootsPart_marks mi m6
    generalize functionRootsPart mi m6 = m7 at hf hft hff hfg hfm hr
    obtain ⟨s1, s2, s3, s4, s5, s6⟩ := fillModules_spec info mi m7 hfm
    have hext := (dataSourcePart_extends info doi.DataSource
      (fillModulesTypesRecursively info mi m7).1).chain
      (syntheticPart_extends k (hasSpatialField k ti) (objectPrefix info doi) doi
        (dataSourcePart info doi.DataSource (fillModulesTypesRecursively info mi m7).1).1)
    rw [← hr] at hext
    have hm7 : m7.modulesMap = [] := by rw [hf, hu, hq, hm4]
    refine ⟨⟨fun x => ?_, fun i hi L hL root hroot hne => hext.types _ (s4 i hi L hL root hroot hne),
      ⟨fun h => hext.types _ (s1 _ (hft _ (hut _ (hqm h)))),
       fun h => hext.types _ (s1 _ (hff h)), fun h => hext.types _ (s1 _ (hfg h)),
       fun h hmu => hext.types _ (s1 _ (hft _ (hum h hmu)))⟩,
      fun i hi P S hP hS => segmentMarked_mono hext.members P S _ (s5 i hi P S hP hS)⟩, s6⟩
    rw [hext.modules, s3 x, hm7]
    simp
  refine ⟨?_, fun r hok => (main r hok).1⟩
  rintro ⟨i, hi, hnone⟩ hok
  have hpair : fillDataObjectTypesForUpdate k schema info doName {} =
      ((fillDataObjectTypesForUpdate k schema info doName {}).1, none) := by
    rw [← hok]
  obtain ⟨S, hS⟩ := (main _ hpair).2 i hi
  have : levelAt info (splitDot mi.Name) (i + 1) = none := hnone
  rw [this] at hS
  cases hS

theorem module_chain_walk_witness :
    schemaC25.TypeByName "V" = some typeC25 ∧ infoC25.Module typeC25.Module = some moduleC25 ∧
    moduleC25.DataObject typeC25.Name = some objectC25 ∧
    ((∃ i < (splitDot moduleC25.Name).length,
        infoC25.Module (".".intercalate ((splitDot moduleC25.Name).take (i + 1))) = none) →
      (fillDataObjectTypesForUpdate specConsts schemaC25 infoC25 "V" {}).2 ≠ none) ∧
    ∀ r, fillDataObjectTypesForUpdate specConsts schemaC25 infoC25 "V" {} = (r, none) →
      (∀ x, x ∈ r.modulesMap ↔
        (x = "" ∨ ∃ i < (splitDot moduleC25.Name).length,
          x = ".".intercalate ((splitDot moduleC25.Name).take (i + 1)))) ∧
      (∀ i < (splitDot moduleC25.Name).length, ∀ L,
        levelAt infoC25 (splitDot moduleC25.Name) i = some L →
        ∀ root ∈ L.roots, root ≠ "" → root ∈ r.typesMap) ∧
      ((moduleC25.QueryType ≠ "" → moduleC25.QueryType ∈ r.typesMap) ∧
        (moduleC25.FunctionType ≠ "" → moduleC25.FunctionType ∈ r.typesMap) ∧
        (moduleC25.MutationFunctionType ≠ "" → moduleC25.MutationFunctionType ∈ r.typesMap) ∧
        (moduleC25.MutationType ≠ "" → objectC25.Mutations ≠ none →
          moduleC25.MutationType ∈ r.typesMap)) ∧
      (∀ i < (splitDot moduleC25.Name).length, ∀ P S,
        levelAt infoC25 (splitDot moduleC25.Name) i = some P →
        levelAt infoC25 (splitDot moduleC25.Name) (i + 1) = some S →
          segmentMarked r P S ((splitDot moduleC25.Name).getD i "")) :=
  ⟨by decide, by decide, by decide,
   module_chain_walk specConsts schemaC25 infoC25 "V" typeC25 moduleC25 objectC25
    (by decide) (by decide) (by decide)⟩

/-- The two runs behind C25: for `V` of the module `a` the module set is the
root module and `a`; for `W` of the module `x.y`, whose parent `x` is not in
the summary, the builder fails. -/
theorem module_chain_example :
    (fillDataObjectTypesForUpdate specConsts schemaC25 infoC25 "V" {}).1.modulesMap =
      ["a", ""] ∧
    (fillDataObjectTypesForUpdate specConsts schemaC25b infoC25b "W" {}).2 =
      some (.notFound "parent module" "x") := by
  decide

/-! ## The related graph -/

theorem forEachE_total {α σ : Type} (P : σ → Prop) (body : α → σ → σ × Option Err)
    (xs : List α) (h : ∀ x ∈ xs, ∀ s, P s → ∃ s', body x s = (s', none) ∧ P s')
    (s : σ) (hs : P s) : ∃ s', forEachE body xs s = (s', none) ∧ P s' := by
  induction xs generalizing s with
  | nil => exact ⟨s, rfl, hs⟩
  | cons x xs ih =>
    obtain ⟨s1, hb, h1⟩ := h x (List.mem_cons_self _ _) s hs
    obtain ⟨s2, hr, h2⟩ := ih (fun y hy => h y (List.mem_cons_of_mem _ hy)) s1 h1
    exact ⟨s2, by simp only [forEachE, hb, hr], h2⟩

theorem andThen_total {σ : Type} (P Q : σ → Prop) (r : σ × Option Err)
    (k : σ → σ × Option Err) (hr : ∃ s, r = (s, none) ∧ P s)
    (hk : ∀ s, P s → ∃ s', k s = (s', none) ∧ Q s') :
    ∃ s', andThen r k = (s', none) ∧ Q s' := by
  obtain ⟨s, rfl, hs⟩ := hr
  exact hk s hs

theorem andThen_ok_inv {σ : Type} (r : σ × Option Err) (k : σ → σ × Option Err) (s' : σ)
    (h : andThen r k = (s', none)) : ∃ s, r = (s, none) ∧ k s = (s', none) := by
  rcases r with ⟨s, _ | e⟩
  · exact ⟨s, rfl, h⟩
  · cases h

theorem andThen_eq_of {σ : Type} {r : σ × Option Err} {k : σ → σ × Option Err} {s s' : σ}
    (hr : r = (s, none)) (hk : k s = (s', none)) : andThen r k = (s', none) := by
  subst hr; exact hk

theorem forEachE_transfer {α σ : Type} (body body' : α → σ → σ × Option Err) (xs : List α)
    (h : ∀ x ∈ xs, ∀ s s', body x s = (s', none) → body' x s = (s', none)) :
    ∀ s s', forEachE body xs s = (s', none) → forEachE body' xs s = (s', none) := by
  induction xs with
  | nil => intro s s' hs; exact hs
  | cons x xs ih =>
    intro s s' hs
    rcases hb : body x s with ⟨s1, _ | e⟩
    · simp only [forEachE, hb] at hs
      simp only [forEachE, h x (List.mem_cons_self _ _) s s1 hb]
      exact ih (fun y hy => h y (List.mem_cons_of_mem _ hy)) s1 s' hs
    · simp only [forEachE, hb] at hs
      cases hs

theorem nodeExists_iff (g : RelatedGraph) (name : String) :
    g.nodeExists name = true ↔ name ∈ g.Nodes.map (fun n => n.Name) := by
  unfold RelatedGraph.nodeExists
  rw [List.any_eq_true, List.mem_map]
  constructor
  · rintro ⟨n, hn, h⟩
    exact ⟨n, hn, of_decide_eq_true h⟩
  · rintro ⟨n, hn, h⟩
    exact ⟨n, hn, decide_eq_true h⟩

theorem edgeExists_iff (g : RelatedGraph) (name : String) :
    g.edgeExists name = true ↔ name ∈ g.Edges.map (fun e => e.Name) := by
  unfold RelatedGraph.edgeExists
  rw [List.any_eq_true, List.mem_map]
  constructor
  · rintro ⟨n, hn, h⟩
    exact ⟨n, hn, of_decide_eq_true h⟩
  · rintro ⟨n, hn, h⟩
    exact ⟨n, hn, decide_eq_true h⟩

theorem graphInv_addNode {schema : MetaSummary} {X : DataObjectInfo} {M : Nat}
    {g : RelatedGraph} (h : GraphInv schema X M g) (n : RelatedNode)
    (hn : (∃ fnCall, n = functionNode fnCall) ∨ ∃ o, Within schema X M o ∧ n = objectNode o) :
    GraphInv schema X M (g.addNode n) := by
  unfold RelatedGraph.addNode
  split
  · exact h
  · rename_i hne
    refine ⟨h.depth, ?_, h.edges, ?_, h.leaves⟩
    · simp only [List.map_append, List.map_cons, List.map_nil]
      refine List.Nodup.append h.nodes (List.nodup_singleton _) ?_
      intro x hx hx'
      rw [List.mem_singleton] at hx'
      subst hx'
      exact hne ((nodeExists_iff g _).2 hx)
    · intro m hm
      rcases List.mem_append.1 hm with hm | hm
      · exact h.reached m hm
      · rw [List.mem_singleton] at hm
        subst hm
        exact hn

theorem graphInv_addEdge {schema : MetaSummary} {X : DataObjectInfo} {M : Nat}
    {g : RelatedGraph} (h : GraphInv schema X M g) (e : RelatedEdge)
    (he : ∃ i o, i < M ∧ Hops schema X i o ∧ e.From = o.Name) :
    GraphInv schema X M (g.addEdge e) := by
  unfold RelatedGraph.addEdge
  split
  · exact h
  · rename_i hne
    refine ⟨h.depth, h.nodes, ?_, h.reached, ?_⟩
    · simp only [List.map_append, List.map_cons, List.map_nil]
      refine List.Nodup.append h.edges (List.nodup_singleton _) ?_
      intro x hx hx'
      rw [List.mem_singleton] at hx'
      subst hx'
      exact hne ((edgeExists_iff g _).2 hx)
    · intro m hm
      rcases List.mem_append.1 hm with hm | hm
      · exact h.leaves m hm
      · rw [List.mem_singleton] at hm
        subst hm
        exact he

/-- A call of `addDataObject` at depth `depth ≤ M` on a data object that is
`depth` hops from `X` returns without an error, within `M + 1 - depth` levels of
recursion, and keeps the graph invariant. -/
theorem addDataObjectFuel_inv (rt : ReferenceTypes) (schema : MetaSummary)
    (X : DataObjectInfo) (M : Nat) :
    ∀ fuel object depth g, GraphInv schema X M g → Hops schema X depth object → depth ≤ M →
      M + 1 - depth ≤ fuel →
      ∃ g', RelatedGraph.addDataObjectFuel rt schema fuel object depth g = (g', none) ∧
        GraphInv schema X M g' := by
  intro fuel
  induction fuel with
  | zero => intro object depth g _ _ hd hf; omega
  | succ fuel ih =>
    intro object depth g hg hh hd hf
    have h1 : GraphInv schema X M (g.addNode (objectNode object)) :=
      graphInv_addNode hg _ (Or.inr ⟨object, ⟨depth, hd, hh⟩, rfl⟩)
    unfold RelatedGraph.addDataObjectFuel
    simp only []
    by_cases hge : depth ≥ (g.addNode (objectNode object)).MaxDepth
    · rw [if_pos hge]; exact ⟨_, rfl, h1⟩
    · rw [if_neg hge]
      have hlt : depth < M := by rw [h1.depth] at hge; omega
      refine andThen_total (GraphInv schema X M) _ _ _ ?_ (fun g2 h2 => ?_)
      · refine forEachE_total _ _ _ (fun ref hr s hs => ?_) _ h1
        split
        · exact ⟨s, rfl, hs⟩
        · rename_i p hp
          refine andThen_total (GraphInv schema X M) _ _ _
            (ih p (depth + 1) s hs
              (Hops.step hh ⟨ref, List.mem_append_left _ hr, hp⟩) (by omega) (by omega))
            (fun s2 hs2 => ⟨_, rfl, graphInv_addEdge hs2 _ ⟨depth, object, hlt, hh, rfl⟩⟩)
      · refine andThen_total (GraphInv schema X M) _ _ _ ?_ (fun g3 h3 => ?_)
        · refine forEachE_total _ _ _ (fun ref hr s hs => ?_) _ h2
          split
          · exact ⟨s, rfl, hs⟩
          · rename_i p hp
            refine andThen_total (GraphInv schema X M) _ _ _
              (ih p (depth + 1) s hs
                (Hops.step hh ⟨ref, List.mem_append_right _ hr, hp⟩) (by omega) (by omega))
              (fun s2 hs2 => ⟨_, rfl, graphInv_addEdge hs2 _ ⟨depth, object, hlt, hh, rfl⟩⟩)
        · refine forEachE_total _ _ _ (fun f hf s hs => ?_) _ h3
          exact ⟨_, rfl, graphInv_addEdge
            (graphInv_addNode hs _ (Or.inl ⟨f, rfl⟩)) _ ⟨depth, object, hlt, hh, rfl⟩⟩

/-- A call of `addDataObject` that returned within some bound returns the same
graph within any larger bound. -/
theorem addDataObjectFuel_stable (rt : ReferenceTypes) (schema : MetaSummary) :
    ∀ fuel object depth g g',
      RelatedGraph.addDataObjectFuel rt schema fuel object depth g = (g', none) →
      RelatedGraph.addDataObjectFuel rt schema (fuel + 1) object depth g = (g', none) := by
  intro fuel
  induction fuel with
  | zero =>
    intro object depth g g' h
    simp [RelatedGraph.addDataObjectFuel] at h
  | succ fuel ih =>
    intro object depth g g' h
    rw [RelatedGraph.addDataObjectFuel] at h ⊢
    by_cases hge : depth ≥ (g.addNode (objectNode object)).MaxDepth
    · rw [if_pos hge] at h ⊢; exact h
    · rw [if_neg hge] at h ⊢
      obtain ⟨s1, e1, h⟩ := andThen_ok_inv _ _ _ h
      obtain ⟨s2, e2, e3⟩ := andThen_ok_inv _ _ _ h
      refine andThen_eq_of (forEachE_transfer _ _ _ (fun ref _ s s' hb => ?_) _ _ e1)
        (andThen_eq_of (forEachE_transfer _ _ _ (fun ref _ s s' hb => ?_) _ _ e2) e3)
      · simp only [] at hb ⊢
        cases hp : relatedObject schema (ref.Module ++ "." ++ ref.DataObject) with
        | none => simp only [hp] at hb ⊢; exact hb
        | some p =>
          simp only [hp] at hb ⊢
          obtain ⟨t, et, ek⟩ := andThen_ok_inv _ _ _ hb
          exact andThen_eq_of (ih _ _ _ _ et) ek
      · simp only [] at hb ⊢
        cases hp : relatedObject schema (ref.Module ++ "." ++ ref.DataObject) with
        | none => simp only [hp] at hb ⊢; exact hb
        | some p =>
          simp only [hp] at hb ⊢
          obtain ⟨t, et, ek⟩ := andThen_ok_inv _ _ _ hb
          exact andThen_eq_of (ih _ _ _ _ et) ek

theorem addDataObjectFuel_stable_add (rt : ReferenceTypes) (schema : MetaSummary)
    (fuel : Nat) (object : DataObjectInfo) (depth : Nat) (g g' : RelatedGraph)
    (h : RelatedGraph.addDataObjectFuel rt schema fuel object depth g = (g', none)) :
    ∀ j, RelatedGraph.addDataObjectFuel rt schema (fuel + j) object depth g = (g', none) := by
  intro j
  induction j with
  | zero => exact h
  | succ j ih => exact addDataObjectFuel_stable rt schema _ _ _ _ _ ih

theorem graphInv_empty (schema : MetaSummary) (X : DataObjectInfo) :
    GraphInv schema X 2 emptyRelatedGraph :=
  ⟨rfl, List.nodup_nil, List.nodup_nil, fun _ h => (by cases h), fun _ h => (by cases h)⟩

/-- C29: for every meta summary and every data object `X`,
`addDataObject(X, 0)` on the empty graph with `MaxDepth = 2` returns without an
error within three levels of recursion, and with the same graph `g` for every
larger bound; in `g` node names are pairwise distinct, edge names are pairwise
distinct, every node is the node of a function call or the node of a data
object that is `X` or is reached from `X` through at most 2 reference or
subquery hops, every edge leaves a data object that is `X` or one hop from `X`,
and no edge leaves a node that sits at depth 2. -/
theorem related_graph_bounded (rt : ReferenceTypes) (schema : MetaSummary)
    (X : DataObjectInfo) :
    ∃ g, (∀ j, RelatedGraph.addDataObjectFuel rt schema (3 + j) X 0 emptyRelatedGraph
          = (g, none)) ∧
      RelatedGraph.addDataObject rt schema X 0 emptyRelatedGraph = (g, none) ∧
      (g.Nodes.map (fun n => n.Name)).Nodup ∧
      (g.Edges.map (fun e => e.Name)).Nodup ∧
      (∀ n ∈ g.Nodes, (∃ fnCall, n = functionNode fnCall) ∨
        ∃ o, Within schema X 2 o ∧ n = objectNode o) ∧
      (∀ e ∈ g.Edges, ∃ o, Within schema X 1 o ∧ e.From = o.Name) ∧
      ∀ n ∈ g.Nodes, SitsAt schema X n.Name 2 → ∀ e ∈ g.Edges, e.From ≠ n.Name := by
  obtain ⟨g, hg, hinv⟩ := addDataObjectFuel_inv rt schema X 2 3 X 0 emptyRelatedGraph
    (graphInv_empty schema X) Hops.zero (by omega) (by omega)
  refine ⟨g, addDataObjectFuel_stable_add rt schema 3 X 0 _ g hg, hg, hinv.nodes, hinv.edges,
    hinv.reached, ?_, ?_⟩
  · intro e he
    obtain ⟨i, o, hi, ho, hf⟩ := hinv.leaves e he
    exact ⟨o, ⟨i, by omega, ho⟩, hf⟩
  · intro n _ hs e he hf
    obtain ⟨i, o, hi, ho, hfo⟩ := hinv.leaves e he
    exact hs.2 i hi o ho (hfo.symm.trans hf)

/-- The run behind C29 on the cyclic meta summary `metaC29`: the node of `B` is
appended while `A` is visited, at call depth 2, and `B` is one hop from `X`, so
the edge `B:c` leaves it; `C` is two hops from `X` and no edge leaves it; `D`,
three hops away, is not in the graph. -/
theorem related_graph_example :
    RelatedGraph.addDataObject referenceTypesC29 metaC29 objectC29 0 emptyRelatedGraph =
      ({ MaxDepth := 2
         Nodes := [{ Typ := "table", Name := "X", Module := "m", Brief := "Fields: id" },
                   { Typ := "table", Name := "A", Module := "m", Brief := "Fields: " },
                   { Typ := "table", Name := "B", Module := "m", Brief := "Fields: " },
                   { Typ := "table", Name := "C", Module := "m", Brief := "Fields: " },
                   { Typ := "function", Name := "fc:f" }]
         Edges := [{ Name := "A:b", From := "A", To := "B" },
                   { Name := "A:x", From := "A", To := "X", Kind := "subquery" },
                   { Name := "X:a", From := "X", To := "A", Kind := "fk:one-to-many" },
                   { Name := "B:c", From := "B", To := "C" },
                   { Name := "X:b", From := "X", To := "B" },
                   { Name := "X->fc:ff", From := "X", To := "fc:f", Kind := "function_call" }] },
       none) := by
  decide

end Indexer
